import Mathlib

/-!
MPEG-2 transport stream muxer (ISDB-Tb variant): `libavformat/mpegtsenc.c`

A shallow embedding of the section packetizer, the table builders and the
service registry of `mpegtsenc.c`, with the properties of the written
specification proved (or refuted) against it.

Conventions of the embedding.

* A byte is a `Nat` below 256; every store into a `uint8_t` slot is written
  `v % 256`.
* A buffer that the C code fills through a moving cursor (`*q++ = v`) is the
  list of the bytes written so far, so that `q - data` is the length of the list;
  a slot that is skipped and patched afterwards (`q += 2`) is appended as a
  placeholder and later overwritten with `List.set`.
* `int` fields that are only ever assigned non-negative values (PIDs, service
  ids, continuity counters) are `Nat`; counters and options that can be negative
  are `Int`.
* The output sink is the list of the 188-byte packets handed to
  `s->write_packet`, in order.
-/

namespace MpegTS

/-! ## Constants -/

/-- Modelled from the spec: `TS_PACKET_SIZE` is declared in `mpegts.h`, not in
`mpegtsenc.c`; the specification fixes every transport packet at 188 bytes. -/
def TS_PACKET_SIZE : Nat := 188

/-- Modelled from the spec: table id of the PAT (`mpegts.h`), "PAT (PID 0, TID 0x00)". -/
def PAT_TID : Nat := 0x00

/-- Modelled from the spec: table id of the PMT (`mpegts.h`), "PMT (PID per service, TID 0x02)". -/
def PMT_TID : Nat := 0x02

/-- Modelled from the spec: table id of the SDT (`mpegts.h`), "SDT (PID 0x0011, TID 0x42)". -/
def SDT_TID : Nat := 0x42

/-- Modelled from the spec: PID of the PAT (`mpegts.h`), "PAT=0x0000". -/
def PAT_PID : Nat := 0x0000

/-- Modelled from the spec: PID of the NIT (`mpegts.h`), "NIT=0x0010". -/
def NIT_PID : Nat := 0x0010

/-- Modelled from the spec: PID of the SDT (`mpegts.h`), "SDT=0x0011". -/
def SDT_PID : Nat := 0x0011

/-- Modelled from the spec: PID of the TOT (`mpegts.h`), "TOT=0x0014". -/
def TOT_PID : Nat := 0x0014

/-! ## CRC-32/MPEG -/

/-- Modelled from the spec: one bit step of the MSB-first CRC with polynomial
`0x04C11DB7` on a 32-bit register (`av_crc` lives in `libavutil/crc.c`, not in
`mpegtsenc.c`). -/
def crc32_mpeg_bit (crc : Nat) : Nat :=
  if crc &&& 0x80000000 ≠ 0 then ((crc <<< 1) ^^^ 0x04C11DB7) % 2 ^ 32
  else (crc <<< 1) % 2 ^ 32

/-- Modelled from the spec: feeding one byte, most significant bit first, into
the CRC register. -/
def crc32_mpeg_byte (crc : Nat) (b : Nat) : Nat :=
  crc32_mpeg_bit (crc32_mpeg_bit (crc32_mpeg_bit (crc32_mpeg_bit
    (crc32_mpeg_bit (crc32_mpeg_bit (crc32_mpeg_bit (crc32_mpeg_bit
      (crc ^^^ ((b % 256) <<< 24)))))))))

/-- Modelled from the spec: CRC-32/MPEG of a byte string: polynomial
`0x04C11DB7`, initial value `0xFFFFFFFF`, no reflection, no final XOR. It stands
for `av_bswap32(av_crc(av_crc_get_table(AV_CRC_32_IEEE), -1, buf, n))`, whose
three functions belong to `libavutil`. -/
def crc32_mpeg (data : List Nat) : Nat :=
  data.foldl crc32_mpeg_byte 0xFFFFFFFF

/-! ## Section packetizer -/

/-- The fields of `struct MpegTSSection` that carry data: the PID and the
continuity counter. The `write_packet` callback and its `opaque` argument are
represented by the list of packets the functions below return. -/
structure MpegTSSection where
  pid : Nat
  cc : Nat
deriving Repr, DecidableEq

/-- Offline form of `put16`: the two bytes stored for `val`. -/
def put16 (val : Nat) : List Nat :=
  [(val >>> 8) % 256, val % 256]

/-- The body of one iteration of the `while (len > 0)` loop of
`mpegts_write_section` after the counter update: builds the 188-byte packet for
the section bytes at offset `buf_ptr` and returns it with `len1`, the number of
section bytes it carries. -/
def section_packet (pid cc : Nat) (first : Bool) (buf : List Nat) (buf_ptr len : Nat) :
    List Nat × Nat :=
  let q : List Nat := [0x47]
  let b := pid >>> 8
  let b := if first then b ||| 0x40 else b
  let q := q ++ [b % 256]
  let q := q ++ [pid % 256]
  let q := q ++ [(0x10 ||| cc) % 256]
  let q := if first then q ++ [0] else q
  let len1 := TS_PACKET_SIZE - q.length
  let len1 := if len1 > len then len else len1
  let q := q ++ (buf.drop buf_ptr).take len1
  let left := TS_PACKET_SIZE - q.length
  let q := if left > 0 then q ++ List.replicate left 0xff else q
  (q, len1)

/-- The `while (len > 0)` loop of `mpegts_write_section`. `buf_ptr` is the
offset of the read pointer from `buf`. The first argument bounds the number of
iterations; every iteration consumes at least one byte, so `len` iterations
always suffice (`section_loop_fuel`). -/
def section_loop : Nat → MpegTSSection → List Nat → Nat → Nat →
    MpegTSSection × List (List Nat)
  | 0, s, _, _, _ => (s, [])
  | fuel + 1, s, buf, buf_ptr, len =>
    if len > 0 then
      let first := (buf_ptr == 0)
      let s1 : MpegTSSection := { s with cc := (s.cc + 1) &&& 0xf }
      let pk := section_packet s1.pid s1.cc first buf buf_ptr len
      let r := section_loop fuel s1 buf (buf_ptr + pk.2) (len - pk.2)
      (r.1, pk.1 :: r.2)
    else (s, [])

/-- The CRC stores of `mpegts_write_section`: the last four of the first `len`
bytes of `buf` are overwritten with the CRC of the bytes before them. -/
def section_fill_crc (buf : List Nat) (len : Nat) : List Nat :=
  let crc := crc32_mpeg (buf.take (len - 4))
  let buf := buf.set (len - 4) ((crc >>> 24) &&& 0xff)
  let buf := buf.set (len - 3) ((crc >>> 16) &&& 0xff)
  let buf := buf.set (len - 2) ((crc >>> 8) &&& 0xff)
  buf.set (len - 1) (crc &&& 0xff)

/-- `mpegts_write_section(s, buf, len)`, to be called with
`4 ≤ len ≤ buf.length`. Returns the section state afterwards, the buffer with
its CRC filled in, and the packets handed to `s->write_packet`. -/
def mpegts_write_section (s : MpegTSSection) (buf : List Nat) (len : Nat) :
    MpegTSSection × List Nat × List (List Nat) :=
  let buf := section_fill_crc buf len
  let r := section_loop len s buf 0 len
  (r.1, buf, r.2)

/-- Number of section bytes that fit in a packet: 183 after the pointer field
of the first packet, 184 otherwise. -/
def section_room (first : Bool) : Nat := if first then 183 else 184

/-- The header fields shared by all packets of a section on PID `pid`, and the
continuity counter `cc` in the low nibble of byte 3. -/
def section_header_ok (pid cc : Nat) (p : List Nat) : Prop :=
  p.length = 188 ∧ p.getD 0 0 = 0x47 ∧
  p.getD 1 0 &&& 0x1f = pid >>> 8 ∧ p.getD 2 0 = pid &&& 0xff ∧
  p.getD 1 0 &&& 0x80 = 0 ∧ p.getD 1 0 &&& 0x20 = 0 ∧
  p.getD 3 0 >>> 4 = 0x1 ∧ p.getD 3 0 &&& 0xf = cc

/-- What a demultiplexer does with the packets of one section: the 4-byte
header is removed from every packet, the pointer field from the first, and the
remainders are concatenated. -/
def section_reassemble : List (List Nat) → List Nat
  | [] => []
  | p :: ps => p.drop 5 ++ (ps.map (List.drop 4)).flatten

/-- Big-endian encoding of a 32-bit value in four bytes, as the specification
asks for the CRC slot. -/
def be32 (v : Nat) : List Nat :=
  [(v >>> 24) % 256, (v >>> 16) % 256, (v >>> 8) % 256, v % 256]

/-! ## Data model -/

/-- Error codes returned by the muxer entry points (`AVERROR_INVALIDDATA`,
`AVERROR(EINVAL)`, `AVERROR(ENOMEM)`); their numeric values come from
`libavutil/error.h` and play no role here. -/
inductive AVError where
  | INVALIDDATA
  | EINVAL
  | ENOMEM
deriving Repr, DecidableEq

/-- Modelled from the spec: `enum AVMediaType` of `libavutil/avutil.h`; the
specification distinguishes video, audio, subtitle and data streams. -/
inductive AVMediaType where
  | UNKNOWN
  | VIDEO
  | AUDIO
  | DATA
  | SUBTITLE
  | ATTACHMENT
deriving Repr, DecidableEq

/-- Modelled from the spec: the codec identifiers of `libavcodec/avcodec.h` that
`mpegtsenc.c` or the specification name; every other identifier is `OTHER n`. -/
inductive AVCodecID where
  | MPEG1VIDEO
  | MPEG2VIDEO
  | MPEG4
  | H264
  | HEVC
  | CAVS
  | DIRAC
  | MP1
  | MP2
  | MP3
  | AAC
  | AAC_LATM
  | AC3
  | EAC3
  | S302M
  | DVB_SUBTITLE
  | DVB_TELETEXT
  | SMPTE_KLV
  | OTHER (n : Nat)
deriving Repr, DecidableEq

/-- Modelled from the spec: the fields of `AVCodecContext` that the muxer reads.
`extradata_size` is the length of `extradata`; `time_base` is the pair
`time_base_num / time_base_den`. -/
structure AVCodecContext where
  codec_type : AVMediaType
  codec_id : AVCodecID
  extradata : List Nat
  frame_size : Int
  sample_rate : Int
  time_base_num : Int
  time_base_den : Int
deriving Repr, DecidableEq

/-- Modelled from the spec: the three tests `st->disposition & AV_DISPOSITION_X`
made by the PMT builder; the masks are declared in `avformat.h`. -/
structure Disposition where
  clean_effects : Bool
  hearing_impaired : Bool
  visual_impaired : Bool
deriving Repr, DecidableEq

/-- The muxer's private data of one elementary stream, `struct
MpegTSWriteStream`. `service` is the index in `ts->services` of the service the
C field points to; `payload` holds the first `payload_size` bytes of the
buffer; `amux` tells whether an AAC sub-muxer context is attached. -/
structure MpegTSWriteStream where
  service : Nat
  pid : Nat
  cc : Nat
  payload_size : Int
  first_pts_check : Bool
  prev_payload_key : Bool
  payload_pts : Option Int
  payload_dts : Option Int
  payload_flags : Nat
  payload : List Nat
  amux : Bool
deriving Repr, DecidableEq

/-- Modelled from the spec: the fields of `AVStream` that the muxer reads: the
stream id, the codec parameters, the value of the `language` metadata entry (a
C string without its terminator, `none` when the entry is absent), the
disposition flags, the frame counter, and the muxer's private data. -/
structure AVStream where
  id : Int
  codec : AVCodecContext
  language : Option (List Nat)
  disposition : Disposition
  nb_frames : Nat
  priv_data : MpegTSWriteStream
deriving Repr, DecidableEq

/-- One service, `struct MpegTSService`. A string is the list of its bytes
without the terminator; `none` is the NULL pointer. -/
structure MpegTSService where
  pmt : MpegTSSection
  sid : Nat
  name : Option (List Nat)
  provider_name : Option (List Nat)
  pcr_pid : Nat
  pcr_packet_count : Int
  pcr_packet_period : Int
deriving Repr, DecidableEq

/-- The muxer state, `struct MpegTSWrite`. `nb_services` is the length of
`services`. -/
structure MpegTSWrite where
  pat : MpegTSSection
  nit : MpegTSSection
  sdt : MpegTSSection
  tot : MpegTSSection
  services : List MpegTSService
  sdt_packet_count : Int
  sdt_packet_period : Int
  nit_packet_count : Int
  nit_packet_period : Int
  tot_packet_count : Int
  tot_packet_period : Int
  pat_packet_count : Int
  pat_packet_period : Int
  final_nb_services : Int
  area_code : Nat
  guard_interval : Nat
  transmission_mode : Nat
  physical_channel : Nat
  virtual_channel : Nat
  transmission_profile : Int
  onid : Nat
  tsid : Nat
  first_pcr : Int
  mux_rate : Int
  pes_payload_size : Int
  transport_stream_id : Nat
  original_network_id : Nat
  service_id : Nat
  pmt_start_pid : Nat
  start_pid : Nat
  m2ts_mode : Int
  reemit_pat_pmt : Int
  flags : Nat
  copyts : Int
  tables_version : Nat

/-- The muxer state before `mpegts_write_header`: zero-initialised private
data with the default values of the `options` table. -/
def MpegTSWrite.defaults : MpegTSWrite :=
  { pat := ⟨0, 0⟩, nit := ⟨0, 0⟩, sdt := ⟨0, 0⟩, tot := ⟨0, 0⟩
    services := []
    sdt_packet_count := 0, sdt_packet_period := 0
    nit_packet_count := 0, nit_packet_period := 0
    tot_packet_count := 0, tot_packet_period := 0
    pat_packet_count := 0, pat_packet_period := 0
    final_nb_services := 0x0001
    area_code := 0x0001
    guard_interval := 0x0001
    transmission_mode := 0x0001
    physical_channel := 0x0014
    virtual_channel := 0x0014
    transmission_profile := 0x0001
    onid := 0, tsid := 0
    first_pcr := 0
    mux_rate := 1
    pes_payload_size := (16 - 1) * 184 + 170
    transport_stream_id := 0x0001
    original_network_id := 0x0001
    service_id := 0x0001
    pmt_start_pid := 0x1000
    start_pid := 0x0100
    m2ts_mode := -1
    reemit_pat_pmt := 0
    flags := 0
    copyts := -1
    tables_version := 0 }

/-- `MPEGTS_FLAG_REEMIT_PAT_PMT`. -/
def MPEGTS_FLAG_REEMIT_PAT_PMT : Nat := 0x01

/-- `MPEGTS_FLAG_AAC_LATM`. -/
def MPEGTS_FLAG_AAC_LATM : Nat := 0x02

/-- Modelled from the spec: the fields of `AVFormatContext` that the muxer
reads or writes: the streams, the muxer state, `max_delay`, the metadata entries
`service_name`, `title` and `service_provider`, and whether the file name has the
extension `m2ts` (the result of `av_match_ext`). -/
structure AVFormatContext where
  streams : List AVStream
  priv_data : MpegTSWrite
  max_delay : Int
  service_name : Option (List Nat)
  title : Option (List Nat)
  service_provider : Option (List Nat)
  filename_is_m2ts : Bool

/-- The service a stream points to; the zeroed service stands for a dangling
pointer, which the header never leaves behind. -/
def MpegTSService.zero : MpegTSService :=
  { pmt := ⟨0, 0⟩, sid := 0, name := none, provider_name := none, pcr_pid := 0,
    pcr_packet_count := 0, pcr_packet_period := 0 }

/-! ## Sections with the generic table header, and the PAT -/

/-- The section array that `mpegts_write_section1` fills before it calls
`mpegts_write_section`: table id, flags and length, id, version, section
numbers, then `len` bytes of `buf`. The four bytes after the payload are the
CRC slot of `section[1024]`, which `mpegts_write_section` overwrites before any
read; the rest of the array is never read. -/
def section1_build (tid id version sec_num last_sec_num : Nat) (buf : List Nat) (len : Nat) :
    List Nat :=
  let flags := if tid == SDT_TID then 0xf000 else 0xb000
  let q : List Nat := [tid % 256]
  let q := q ++ put16 (flags ||| (len + 5 + 4))
  let q := q ++ put16 id
  let q := q ++ [(0xc1 ||| (version <<< 1)) % 256]
  let q := q ++ [sec_num % 256]
  let q := q ++ [last_sec_num % 256]
  let q := q ++ buf.take len
  q ++ [0, 0, 0, 0]

/-- `mpegts_write_section1`. `len` is a C `int`, `tot_len` an `unsigned int`.
Returns the return value, the section state afterwards and the packets handed
to the sink. -/
def mpegts_write_section1 (s : MpegTSSection) (tid id version sec_num last_sec_num : Nat)
    (buf : List Nat) (len : Nat) : Except AVError Unit × MpegTSSection × List (List Nat) :=
  let tot_len := (3 + 5 + len + 4) % 2 ^ 32
  if tot_len > 1024 then
    (.error .INVALIDDATA, s, [])
  else
    let r := mpegts_write_section s
      (section1_build tid id version sec_num last_sec_num buf len) tot_len
    (.ok (), r.1, r.2.2)

/-- The `data` buffer that `mpegts_write_pat` fills: for each service the
service id and `0xe000 | pmt.pid`. -/
def pat_data (services : List MpegTSService) : List Nat :=
  services.foldl (fun q service => q ++ put16 service.sid ++ put16 (0xe000 ||| service.pmt.pid)) []

/-- `mpegts_write_pat`: returns the muxer state afterwards and the packets
handed to the sink. The return value of `mpegts_write_section1` is dropped, as
in the source. -/
def mpegts_write_pat (ts : MpegTSWrite) : MpegTSWrite × List (List Nat) :=
  let data := pat_data ts.services
  let r := mpegts_write_section1 ts.pat PAT_TID ts.tsid ts.tables_version 0 0 data data.length
  ({ ts with pat := r.2.1 }, r.2.2)

/-! ## The PMT -/

/-- Modelled from the spec: the `STREAM_TYPE_*` constants of `mpegts.h`, with
the values of the stream type table of the specification. -/
def STREAM_TYPE_VIDEO_MPEG2 : Nat := 0x02

/-- Modelled from the spec: stream type of MPEG audio (`mpegts.h`), the value
the table gives for MP2. -/
def STREAM_TYPE_AUDIO_MPEG1 : Nat := 0x03

/-- Modelled from the spec: stream type of private data (`mpegts.h`). -/
def STREAM_TYPE_PRIVATE_DATA : Nat := 0x06

/-- Modelled from the spec: stream type of ADTS AAC (`mpegts.h`). -/
def STREAM_TYPE_AUDIO_AAC : Nat := 0x0f

/-- Modelled from the spec: stream type of LATM AAC (`mpegts.h`). -/
def STREAM_TYPE_AUDIO_AAC_LATM : Nat := 0x11

/-- Modelled from the spec: stream type of MPEG-4 part 2 video (`mpegts.h`). -/
def STREAM_TYPE_VIDEO_MPEG4 : Nat := 0x10

/-- Modelled from the spec: stream type of H.264 video (`mpegts.h`). -/
def STREAM_TYPE_VIDEO_H264 : Nat := 0x1b

/-- Modelled from the spec: stream type of HEVC video (`mpegts.h`). -/
def STREAM_TYPE_VIDEO_HEVC : Nat := 0x24

/-- Modelled from the spec: stream type of CAVS video (`mpegts.h`). -/
def STREAM_TYPE_VIDEO_CAVS : Nat := 0x42

/-- Modelled from the spec: stream type of Dirac video (`mpegts.h`). -/
def STREAM_TYPE_VIDEO_DIRAC : Nat := 0xd1

/-- Modelled from the spec: stream type of AC-3 audio (`mpegts.h`). -/
def STREAM_TYPE_AUDIO_AC3 : Nat := 0x81

/-- The `switch (st->codec->codec_id)` of `mpegts_write_pmt` that selects the
stream type; `flags` is `ts->flags`. -/
def pmt_stream_type (codec_id : AVCodecID) (flags : Nat) : Nat :=
  match codec_id with
  | .MPEG1VIDEO => STREAM_TYPE_VIDEO_MPEG2
  | .MPEG2VIDEO => STREAM_TYPE_VIDEO_MPEG2
  | .MPEG4 => STREAM_TYPE_VIDEO_MPEG4
  | .H264 => STREAM_TYPE_VIDEO_H264
  | .HEVC => STREAM_TYPE_VIDEO_HEVC
  | .CAVS => STREAM_TYPE_VIDEO_CAVS
  | .DIRAC => STREAM_TYPE_VIDEO_DIRAC
  | .MP2 => STREAM_TYPE_AUDIO_MPEG1
  | .MP3 => STREAM_TYPE_AUDIO_MPEG1
  | .AAC =>
    if flags &&& MPEGTS_FLAG_AAC_LATM ≠ 0 then STREAM_TYPE_AUDIO_AAC_LATM
    else STREAM_TYPE_AUDIO_AAC
  | .AAC_LATM => STREAM_TYPE_AUDIO_AAC_LATM
  | .AC3 => STREAM_TYPE_AUDIO_AC3
  | _ => STREAM_TYPE_PRIVATE_DATA

/-- `strchr(p, c)` on a C string given without its terminator: the offset of
the first occurrence of `c` in `p`, or `none` for the NULL pointer. -/
def strchr : List Nat → Nat → Option Nat
  | [], _ => none
  | x :: xs, c => if x = c then some 0 else (strchr xs c).map (· + 1)

/-- The audio_type byte of an ISO 639 language entry. -/
def pmt_audio_type (d : Disposition) : Nat :=
  if d.clean_effects then 0x01
  else if d.hearing_impaired then 0x02
  else if d.visual_impaired then 0x03
  else 0

/-- The `for` loop over the language tag in the audio branch of
`mpegts_write_pmt`, entered with a non-NULL `next`. `p` is the rest of the tag
from the read pointer, `q` the bytes of `data` written so far, `len_ptr` the
offset of the descriptor length byte. Each iteration moves `p` past one comma,
so the bound `p.length + 1` on the number of iterations is never reached. -/
def pmt_language_loop : Nat → List Nat → Disposition → Nat → List Nat → List Nat
  | 0, _, _, _, q => q
  | fuel + 1, p, d, len_ptr, q =>
    if q.getD len_ptr 0 < 255 / 4 * 4 ∧ q.length < 1012 - 4 then
      let next := strchr p 0x2c
      if p.length ≠ 3 ∧ (next = none ∨ next ≠ some 3) then
        match next with
        | none => q
        | some i => pmt_language_loop fuel (p.drop (i + 1)) d len_ptr q
      else
        let q := q ++ p.take 3
        let q := q ++ [pmt_audio_type d]
        let q := q.set len_ptr ((q.getD len_ptr 0 + 4) % 256)
        match next with
        | none => q
        | some i => pmt_language_loop fuel (p.drop (i + 1)) d len_ptr q
    else q

/-- The `while` loop of the DVB subtitle descriptor. `language` is the rest of
the language string, `copied` is `extradata_copied`. The space test is made on
`sizeof(data) - (q - data)`, where `q - data` never exceeds 1012. -/
def pmt_dvb_subtitle_loop : Nat → List Nat → List Nat → Nat → Bool → List Nat → List Nat
  | 0, _, _, _, _, q => q
  | fuel + 1, language, extradata, copied, hearing, q =>
    if language.length ≥ 3 ∧ 1012 - q.length ≥ 8 then
      let q := q ++ language.take 3
      let language := language.drop 3
      let language := if language ≠ [] then language.drop 1 else language
      if copied + 5 ≤ extradata.length then
        let q := q ++ [extradata.getD (copied + 4) 0]
        let q := q ++ (extradata.drop copied).take 4
        pmt_dvb_subtitle_loop fuel language extradata (copied + 5) hearing q
      else
        let q := q ++ [if hearing then 0x20 else 0x10]
        if extradata.length = 4 ∧ copied = 0 then
          let q := q ++ extradata.take 4
          pmt_dvb_subtitle_loop fuel language extradata (copied + 4) hearing q
        else
          let q := q ++ put16 1
          let q := q ++ put16 1
          pmt_dvb_subtitle_loop fuel language extradata copied hearing q
    else q

/-- The `while` loop of the DVB teletext descriptor. -/
def pmt_dvb_teletext_loop : Nat → List Nat → List Nat → Nat → List Nat → List Nat
  | 0, _, _, _, q => q
  | fuel + 1, language, extradata, copied, q =>
    if language.length ≥ 3 ∧ q.length < 1012 - 6 then
      let q := q ++ language.take 3
      let language := language.drop 3
      let language := if language ≠ [] then language.drop 1 else language
      if extradata.length > copied + 1 then
        let q := q ++ (extradata.drop copied).take 2
        pmt_dvb_teletext_loop fuel language extradata (copied + 2) q
      else
        let q := q ++ [0x08]
        let q := q ++ [0x00]
        pmt_dvb_teletext_loop fuel language extradata copied q
    else q

/-- The string `"und"`, the default language of the subtitle descriptors. -/
def default_language : List Nat := [0x75, 0x6e, 0x64]

/-- The descriptors of the audio branch that depend on the codec only: the
EAC-3 descriptor, the AAC descriptor of AAC-LATM and the registration descriptor
of SMPTE 302M. -/
def pmt_audio_codec_descriptors (codec_id : AVCodecID) (q : List Nat) : List Nat :=
  let q := if codec_id = .EAC3 then q ++ [0x7a, 1, 0] else q
  let q := if codec_id = .AAC_LATM then q ++ [0x7C, 0x2, 0x2E, 0x00] else q
  if codec_id = .S302M then q ++ [0x05, 4, 0x42, 0x53, 0x53, 0x44] else q

/-- The `if (lang)` block of the audio branch: the ISO 639 language descriptor
for the language tag `value`, taken back when no entry was written. -/
def pmt_language_descriptor (value : List Nat) (d : Disposition) (q : List Nat) : List Nat :=
  let q := q ++ [0x0a]
  let len_ptr := q.length
  let q := q ++ [0]
  let q := pmt_language_loop (value.length + 1) value d len_ptr q
  if q.getD len_ptr 0 = 0 then q.take (q.length - 2) else q

/-- The language string of the subtitle branch: the tag when it has at least 3
characters, `"und"` otherwise. -/
def pmt_subtitle_language (lang : Option (List Nat)) : List Nat :=
  match lang with
  | some value => if value.length ≥ 3 then value else default_language
  | none => default_language

/-- The DVB subtitling descriptor of the subtitle branch. -/
def pmt_dvb_subtitle_descriptor (language extradata : List Nat) (hearing : Bool)
    (q : List Nat) : List Nat :=
  let q := q ++ [0x59]
  let len_ptr := q.length
  let q := q ++ [0]
  let q := pmt_dvb_subtitle_loop (language.length + 1) language extradata 0 hearing q
  q.set len_ptr ((q.length - len_ptr - 1) % 256)

/-- The DVB teletext descriptor of the subtitle branch. -/
def pmt_dvb_teletext_descriptor (language extradata : List Nat) (q : List Nat) : List Nat :=
  let q := q ++ [0x56]
  let len_ptr := q.length
  let q := q ++ [0]
  let q := pmt_dvb_teletext_loop (language.length + 1) language extradata 0 q
  q.set len_ptr ((q.length - len_ptr - 1) % 256)

/-- The `switch (st->codec->codec_type)` of `mpegts_write_pmt`: the optional
descriptors of one stream, appended to `q`. -/
def pmt_descriptors (st : AVStream) (stream_type : Nat) (q : List Nat) : List Nat :=
  match st.codec.codec_type with
  | AVMediaType.AUDIO =>
    let q := pmt_audio_codec_descriptors st.codec.codec_id q
    match st.language with
    | some value => pmt_language_descriptor value st.disposition q
    | none => q
  | .SUBTITLE =>
    let language := pmt_subtitle_language st.language
    if st.codec.codec_id = .DVB_SUBTITLE then
      pmt_dvb_subtitle_descriptor language st.codec.extradata st.disposition.hearing_impaired q
    else if st.codec.codec_id = .DVB_TELETEXT then
      pmt_dvb_teletext_descriptor language st.codec.extradata q
    else q
  | .VIDEO =>
    if stream_type = STREAM_TYPE_VIDEO_DIRAC then q ++ [0x05, 4, 0x64, 0x72, 0x61, 0x63] else q
  | .DATA =>
    if st.codec.codec_id = .SMPTE_KLV then q ++ [0x05, 4, 0x4b, 0x4c, 0x56, 0x41] else q
  | _ => q

/-- The part of the stream loop of `mpegts_write_pmt` executed for a stream of
the service: stream type, PID, descriptors and the patched descriptor length.
Fails with `AVERROR(EINVAL)` when fewer than 32 bytes of `data` are left. -/
def pmt_stream (flags : Nat) (st : AVStream) (q : List Nat) : Except AVError (List Nat) :=
  let stream_type := pmt_stream_type st.codec.codec_id flags
  if q.length > 1012 - 32 then
    .error .EINVAL
  else
    let q := q ++ [stream_type % 256]
    let q := q ++ put16 (0xe000 ||| st.priv_data.pid)
    let desc_length_ptr := q.length
    let q := q ++ [0, 0]
    let q := pmt_descriptors st stream_type q
    let val := 0xf000 ||| (q.length - desc_length_ptr - 2)
    let q := q.set desc_length_ptr ((val >>> 8) % 256)
    let q := q.set (desc_length_ptr + 1) (val % 256)
    .ok q

/-- The loop over all streams of `mpegts_write_pmt`; a stream takes part when
the service it points to has the service id `sid` of the table's service. -/
def pmt_streams (ts : MpegTSWrite) (sid : Nat) : List AVStream → List Nat →
    Except AVError (List Nat)
  | [], q => .ok q
  | st :: rest, q =>
    if (ts.services.getD st.priv_data.service MpegTSService.zero).sid = sid then
      match pmt_stream ts.flags st q with
      | .error e => .error e
      | .ok q => pmt_streams ts sid rest q
    else pmt_streams ts sid rest q

/-- The start of the `data` buffer of `mpegts_write_pmt`, before the stream
loop: PCR PID, program_info_length and the parental rating descriptor. The
statement `*q++;` at the descriptor's length slot reads the byte and advances
the cursor, so the slot is there for the later patch. -/
def pmt_program_info (service : MpegTSService) : List Nat :=
  let q : List Nat := []
  let q := q ++ put16 (0xe000 ||| service.pcr_pid)
  let program_info_length_ptr := q.length
  let q := q ++ [0, 0]
  let q := q ++ [0x55]
  let parental_rating_length_ptr := q.length
  let q := q ++ [0]
  let q := q ++ [0x42]
  let q := q ++ [0x52]
  let q := q ++ [0x41]
  let q := q ++ [0x01]
  let q := q.set parental_rating_length_ptr ((q.length - parental_rating_length_ptr - 1) % 256)
  let val := 0xf000 ||| (q.length - program_info_length_ptr - 2)
  let q := q.set program_info_length_ptr ((val >>> 8) % 256)
  q.set (program_info_length_ptr + 1) (val % 256)

/-- The `data` buffer of `mpegts_write_pmt` at the call of
`mpegts_write_section1`, or the error of the stream loop. -/
def pmt_data (s : AVFormatContext) (service : MpegTSService) : Except AVError (List Nat) :=
  pmt_streams s.priv_data service.sid s.streams (pmt_program_info service)

/-- `mpegts_write_pmt(s, ts->services[i])`: returns the return value, the
context afterwards and the packets handed to the sink. The return value of
`mpegts_write_section1` is dropped, as in the source. -/
def mpegts_write_pmt (s : AVFormatContext) (i : Nat) :
    Except AVError Unit × AVFormatContext × List (List Nat) :=
  let ts := s.priv_data
  let service := ts.services.getD i MpegTSService.zero
  match pmt_data s service with
  | .error e => (.error e, s, [])
  | .ok data =>
    let r := mpegts_write_section1 service.pmt PMT_TID service.sid ts.tables_version 0 0
      data data.length
    let service := { service with pmt := r.2.1 }
    (.ok (), { s with priv_data := { ts with services := ts.services.set i service } }, r.2.2)

/-- One entry of the PMT stream loop as the specification words it: the stream
type, the big-endian value `0xE000 | PID`, the big-endian value
`0xF000 | ES_info_length`, and the `ES_info_length` descriptor bytes `d`. -/
def pmt_stream_entry (stream_type pid : Nat) (d : List Nat) : List Nat :=
  [stream_type, (0xE000 ||| pid) / 256 % 256, (0xE000 ||| pid) % 256,
    (0xF000 ||| d.length) / 256, (0xF000 ||| d.length) % 256] ++ d

/-- The bytes of a PMT after the program information, as the specification
words them: one entry for each stream of the service with id `sid`, in stream
order, each with fewer than 4096 descriptor bytes. -/
def pmt_stream_loop_spec (ts : MpegTSWrite) (sid : Nat) : List AVStream → List Nat → Prop
  | [], bytes => bytes = []
  | st :: rest, bytes =>
    if (ts.services.getD st.priv_data.service MpegTSService.zero).sid = sid then
      ∃ d tail, d.length < 4096 ∧
        bytes = pmt_stream_entry (pmt_stream_type st.codec.codec_id ts.flags)
          st.priv_data.pid d ++ tail ∧
        pmt_stream_loop_spec ts sid rest tail
    else pmt_stream_loop_spec ts sid rest bytes

/-! ## Service registry and `mpegts_write_header` -/

/-- Result of an entry point that can also run into undefined behaviour (a read
through a NULL or uninitialised pointer, a division by zero). -/
inductive Outcome (α : Type) where
  | ok (a : α)
  | error (e : AVError)
  | undefined

/-- Value of a signed 32-bit `int` after an arithmetic operation, with the
two's complement wrap-around of the usual targets. -/
def wrap_int32 (x : Int) : Int := (x + 2 ^ 31) % 2 ^ 32 - 2 ^ 31

/-- Modelled from the spec: `av_rescale(a, b, c)` of `libavutil/mathematics.c`,
which the specification writes as the quotient `a * b / c`. -/
def av_rescale (a b c : Int) : Int := a * b / c

/-- `PCR_TIME_BASE`. -/
def PCR_TIME_BASE : Int := 27000000

/-- Modelled from the spec: `AV_TIME_BASE` of `libavutil/avutil.h`, the
microseconds of `max_delay * 90_000 / 1_000_000`. -/
def AV_TIME_BASE : Int := 1000000

/-- `DEFAULT_PROVIDER_NAME`, the string `"FFmpeg"`. -/
def DEFAULT_PROVIDER_NAME : List Nat := [0x46, 0x46, 0x6d, 0x70, 0x65, 0x67]

/-- `DEFAULT_SERVICE_NAME`, the string `"Service01"`. -/
def DEFAULT_SERVICE_NAME : List Nat := [0x53, 0x65, 0x72, 0x76, 0x69, 0x63, 0x65, 0x30, 0x31]

/-- `SDT_RETRANS_TIME`. -/
def SDT_RETRANS_TIME : Int := 500

/-- `NIT_RETRANS_TIME`. -/
def NIT_RETRANS_TIME : Int := 50

/-- `TOT_RETRANS_TIME`. -/
def TOT_RETRANS_TIME : Int := 100

/-- `PAT_RETRANS_TIME`. -/
def PAT_RETRANS_TIME : Int := 100

/-- `PCR_RETRANS_TIME`. -/
def PCR_RETRANS_TIME : Int := 20

/-- `mpegts_add_service`: appends a zero-initialised service with its PMT PID,
service id, names and the unassigned PCR PID `0x1fff`. The new service is the
last element of `services`. Allocation is taken to succeed. -/
def mpegts_add_service (ts : MpegTSWrite) (sid : Nat) (provider_name name : List Nat) :
    MpegTSWrite :=
  let service : MpegTSService :=
    { pmt := { pid := 0x1FC8 + (sid &&& 0x03), cc := 0 }
      sid := sid
      name := some name
      provider_name := some provider_name
      pcr_pid := 0x1fff
      pcr_packet_count := 0
      pcr_packet_period := 0 }
  { ts with services := ts.services ++ [service] }

/-- A store through the service pointer `ts->services[i]`: the service number
`i` is replaced by its image under `f`. -/
def MpegTSWrite.update_service (ts : MpegTSWrite) (i : Nat)
    (f : MpegTSService → MpegTSService) : MpegTSWrite :=
  { ts with services := ts.services.modify f i }

/-- The assignments `service->pmt.cc = 15` that follow each call of
`mpegts_add_service` in `mpegts_write_header`, made on the service just added. -/
def header_init_last_pmt (ts : MpegTSWrite) : MpegTSWrite :=
  ts.update_service (ts.services.length - 1)
    (fun service => { service with pmt := { service.pmt with cc := 15 } })

/-- The `switch (ts->transmission_profile)` of `mpegts_write_header`: profile 2
registers nothing; every other value registers the HD and the LD service and
sets `final_nb_services` to 2. -/
def header_services (ts : MpegTSWrite) (provider_name service_name : List Nat) : MpegTSWrite :=
  if ts.transmission_profile = 2 then ts
  else
    let calculated_HD_service_ID := ((ts.onid &&& 0x7FF) <<< 5) ||| (0x0 <<< 3) ||| 0x0
    let ts := mpegts_add_service ts calculated_HD_service_ID provider_name service_name
    let ts := header_init_last_pmt ts
    let calculated_LD_service_ID := ((ts.onid &&& 0x7FF) <<< 5) ||| (0x3 <<< 3) ||| 0x1
    let ts := mpegts_add_service ts calculated_LD_service_ID provider_name service_name
    let ts := header_init_last_pmt ts
    { ts with final_nb_services := 2 }

/-- The initialisation of the four fixed table sections in
`mpegts_write_header`. -/
def header_tables (ts : MpegTSWrite) : MpegTSWrite :=
  { ts with
    pat := { pid := PAT_PID, cc := 15 }
    sdt := { pid := SDT_PID, cc := 15 }
    nit := { pid := NIT_PID, cc := 15 }
    tot := { pid := TOT_PID, cc := 15 } }

/-- The PID that the stream loop of `mpegts_write_header` gives to stream
number `i`, for a stream id below `0x1FFF`. -/
def header_stream_pid (ts : MpegTSWrite) (i : Nat) (st : AVStream) : Nat :=
  if st.id < 16 then ts.start_pid + i else st.id.toNat

/-- The private data that the stream loop of `mpegts_write_header` sets up for
a stream of the service number `idx` with PID `pid`. The AAC sub-muxer is taken
to open without error. -/
def header_stream_priv (idx pid : Nat) (st : AVStream) : MpegTSWriteStream :=
  { service := idx
    pid := pid
    cc := 15
    payload_size := 0
    first_pts_check := true
    prev_payload_key := false
    payload_pts := none
    payload_dts := none
    payload_flags := 0
    payload := []
    amux := decide (st.codec.codec_id = .AAC) && decide (st.codec.extradata.length > 0) }

/-- The test `st->codec->codec_type == AVMEDIA_TYPE_VIDEO &&
ts_st->service->pcr_pid == 0x1fff` of the stream loop. -/
def header_stream_is_pcr (service : MpegTSService) (st : AVStream) : Bool :=
  decide (st.codec.codec_type = .VIDEO) && decide (service.pcr_pid = 0x1fff)

/-- One iteration of the stream loop of `mpegts_write_header` for stream
number `i`; `pids` holds the PIDs of the streams before it. Returns the muxer
state, the stream with its private data, and whether the stream became the PCR
stream of its service. -/
def header_stream (ts : MpegTSWrite) (pids : List Nat) (i : Nat) (st : AVStream) :
    Outcome (MpegTSWrite × AVStream × Bool) :=
  if ts.final_nb_services = 0 then .undefined
  else
    match ts.services.get? (Int.tmod (i : Int) ts.final_nb_services).toNat with
    | none => .undefined
    | some service =>
      if 0x1FFF ≤ st.id then .error .EINVAL
      else if header_stream_pid ts i st = service.pmt.pid then .error .EINVAL
      else if header_stream_pid ts i st ∈ pids then .error .EINVAL
      else
        .ok (if header_stream_is_pcr service st then
              ts.update_service (Int.tmod (i : Int) ts.final_nb_services).toNat
                (fun service => { service with pcr_pid := header_stream_pid ts i st })
            else ts,
          { st with
            priv_data := header_stream_priv (Int.tmod (i : Int) ts.final_nb_services).toNat
                           (header_stream_pid ts i st) st },
          header_stream_is_pcr service st)

/-- The stream loop of `mpegts_write_header` from stream number `i` on. `done`
are the streams already set up, `pids` their PIDs, `pcr_st` the number of the
stream `pcr_st` points to. -/
def header_streams (ts : MpegTSWrite) (pids : List Nat) (pcr_st : Option Nat) (i : Nat) :
    List AVStream → List AVStream → Outcome (MpegTSWrite × List AVStream × Option Nat)
  | [], done => .ok (ts, done, pcr_st)
  | st :: rest, done =>
    match header_stream ts pids i st with
    | .undefined => .undefined
    | .error e => .error e
    | .ok (ts1, st1, is_pcr) =>
      header_streams ts1 (pids ++ [st1.priv_data.pid]) (if is_pcr then some i else pcr_st)
        (i + 1) rest (done ++ [st1])

/-- C division of two `int` values: truncation towards zero, undefined for a
zero divisor. -/
def c_div (a b : Int) : Option Int :=
  if b = 0 then none else some (Int.tdiv a b)

/-- The retransmission periods of the constant bit rate branch
(`ts->mux_rate > 1`) of `mpegts_write_header`; `svc` is the index of the service
`ts_st->service`. Each period is the quotient of the mathematical product
`mux_rate * X_RETRANS_TIME` by `TS_PACKET_SIZE * 8 * 1000`: the overflow of the
`int` product is undefined in C, and the compiled expression `x * c / (188 *
8 * 1000)` is the division of `x` by the constant `188 * 8 * 1000 / c`, with
no wrap-around. -/
def header_periods_cbr (ts : MpegTSWrite) (svc : Nat) (max_delay : Int) : MpegTSWrite :=
  let den : Int := (TS_PACKET_SIZE : Int) * 8 * 1000
  let ts : MpegTSWrite :=
    ts.update_service svc (fun service => { service with
      pcr_packet_period := Int.tdiv (ts.mux_rate * PCR_RETRANS_TIME) den })
  let ts : MpegTSWrite :=
    { ts with
      sdt_packet_period := Int.tdiv (ts.mux_rate * SDT_RETRANS_TIME) den
      nit_packet_period := Int.tdiv (ts.mux_rate * NIT_RETRANS_TIME) den
      pat_packet_period := Int.tdiv (ts.mux_rate * PAT_RETRANS_TIME) den
      tot_packet_period := Int.tdiv (ts.mux_rate * TOT_RETRANS_TIME) den }
  if ts.copyts < 1 then
    { ts with first_pcr := av_rescale max_delay PCR_TIME_BASE AV_TIME_BASE }
  else ts

/-- The PCR period of the variable bit rate branch of `mpegts_write_header`,
from the codec parameters of the PCR stream, before the floor at 1. -/
def header_pcr_period_vbr (codec : AVCodecContext) : Option Int :=
  if codec.codec_type = AVMediaType.AUDIO then
    if codec.frame_size = 0 then c_div codec.sample_rate (10 * 512)
    else c_div codec.sample_rate (wrap_int32 (10 * codec.frame_size))
  else c_div codec.time_base_den (wrap_int32 (10 * codec.time_base_num))

/-- The variable bit rate branch of `mpegts_write_header`. -/
def header_periods_vbr (ts : MpegTSWrite) (svc : Nat) (pcr_codec : AVCodecContext) :
    Option MpegTSWrite :=
  let ts : MpegTSWrite :=
    { ts with
      sdt_packet_period := 200
      nit_packet_period := 200
      tot_packet_period := 200
      pat_packet_period := 40 }
  match header_pcr_period_vbr pcr_codec with
  | none => none
  | some period =>
    let period := if period = 0 then 1 else period
    some (ts.update_service svc (fun service => { service with pcr_packet_period := period }))

/-- The end of `mpegts_write_header`: the counters are set so that a PCR and
the tables go out as soon as possible, and the `m2ts_mode` option is resolved. -/
def header_counters (ts : MpegTSWrite) (svc : Nat) (filename_is_m2ts : Bool) : MpegTSWrite :=
  let ts : MpegTSWrite :=
    ts.update_service svc
      (fun service => { service with pcr_packet_count := service.pcr_packet_period })
  let ts : MpegTSWrite :=
    { ts with
      pat_packet_count := wrap_int32 (ts.pat_packet_period - 1)
      sdt_packet_count := wrap_int32 (ts.sdt_packet_period - 1)
      nit_packet_count := wrap_int32 (ts.nit_packet_period - 1)
      tot_packet_count := wrap_int32 (ts.tot_packet_period - 1) }
  if ts.m2ts_mode = -1 then
    { ts with m2ts_mode := if filename_is_m2ts then 1 else 0 }
  else ts

/-- The start of `mpegts_write_header`, up to the stream loop: the PES payload
size is rounded, `tsid` and `onid` are set from `original_network_id`, the
services are registered and the table sections initialised. -/
def header_prepare (s : AVFormatContext) : MpegTSWrite :=
  let ts := s.priv_data
  let ts : MpegTSWrite :=
    { ts with pes_payload_size :=
        wrap_int32 (wrap_int32 (Int.tdiv (wrap_int32 (ts.pes_payload_size + 14 + 183)) 184 * 184)
          - 14) }
  let ts : MpegTSWrite := { ts with tsid := ts.original_network_id }
  let ts : MpegTSWrite := { ts with onid := ts.original_network_id }
  let title := match s.service_name with
    | some v => some v
    | none => s.title
  let service_name := match title with
    | some v => v
    | none => DEFAULT_SERVICE_NAME
  let provider_name := match s.service_provider with
    | some v => v
    | none => DEFAULT_PROVIDER_NAME
  let ts := header_services ts provider_name service_name
  header_tables ts

/-- The test `ts_st->service->pcr_pid == 0x1fff` after the stream loop, made
on the service of the last stream. -/
def header_no_pcr (ts : MpegTSWrite) (last : AVStream) : Bool :=
  decide ((ts.services.getD last.priv_data.service MpegTSService.zero).pcr_pid = 0x1fff)

/-- The private data `ts_st` points to after the block "if no video stream,
use the first stream as PCR": that of the first stream when the block ran, that
of the last stream otherwise. -/
def header_ts_st (ts : MpegTSWrite) (streams : List AVStream) (last : AVStream) :
    MpegTSWriteStream :=
  if header_no_pcr ts last then (streams.headD last).priv_data else last.priv_data

/-- The stream `pcr_st` points to after that block. -/
def header_pcr_st (ts : MpegTSWrite) (last : AVStream) (pcr_st : Option Nat) : Option Nat :=
  if header_no_pcr ts last then some 0 else pcr_st

/-- The muxer state after that block: when it ran, the service of the first
stream has the PID of the first stream as PCR PID. -/
def header_first_as_pcr (ts : MpegTSWrite) (streams : List AVStream) (last : AVStream) :
    MpegTSWrite :=
  if header_no_pcr ts last then
    ts.update_service (streams.headD last).priv_data.service
      (fun service => { service with pcr_pid := (streams.headD last).priv_data.pid })
  else ts

/-- The `if (ts->mux_rate > 1) ... else ...` of `mpegts_write_header`; `none`
stands for a read through a NULL `pcr_st` or a division by zero. -/
def header_periods (ts : MpegTSWrite) (svc : Nat) (max_delay : Int) (streams : List AVStream)
    (pcr_st : Option Nat) : Option MpegTSWrite :=
  if ts.mux_rate > 1 then some (header_periods_cbr ts svc max_delay)
  else
    match pcr_st with
    | none => none
    | some j =>
      match streams.get? j with
      | none => none
      | some pcr_stream => header_periods_vbr ts svc pcr_stream.codec

/-- The end of `mpegts_write_header`, after the stream loop has left the muxer
state `ts`, the streams with their private data and the PCR stream `pcr_st`.
`ts_st` is the private data of the last stream at first; with no stream at all
the function reads it uninitialised. -/
def header_finish (s : AVFormatContext) (max_delay : Int) (ts : MpegTSWrite)
    (streams : List AVStream) (pcr_st : Option Nat) : Outcome AVFormatContext :=
  match streams.getLast? with
  | none => .undefined
  | some last =>
    match header_periods (header_first_as_pcr ts streams last)
        (header_ts_st ts streams last).service max_delay streams
        (header_pcr_st ts last pcr_st) with
    | none => .undefined
    | some ts2 =>
      .ok { s with
        streams := streams
        priv_data := header_counters ts2 (header_ts_st ts streams last).service
          s.filename_is_m2ts
        max_delay := max_delay }

/-- `mpegts_write_header`. On success the context carries the new muxer state
and the private data of every stream. With no stream at all the function reads
`ts_st` uninitialised, and with transmission profile 2 it indexes an empty
service array; both are reported as `undefined`. -/
def mpegts_write_header (s : AVFormatContext) : Outcome AVFormatContext :=
  let max_delay := if s.max_delay < 0 then 0 else s.max_delay
  match header_streams (header_prepare s) [] none 0 s.streams [] with
  | .undefined => .undefined
  | .error e => .error e
  | .ok (ts, streams, pcr_st) => header_finish s max_delay ts streams pcr_st

/-- The sections of all tables of the transport: PAT, SDT, NIT, TOT and the PMT
of every service. -/
def table_sections (ts : MpegTSWrite) : List MpegTSSection :=
  [ts.pat, ts.sdt, ts.nit, ts.tot] ++ ts.services.map (fun service => service.pmt)

/-! ## Concrete inputs -/

/-- An MPEG-2 video stream at 25 frames per second, before the header is
written (its private data is the zeroed structure). -/
def example_video : AVStream :=
  { id := 0
    codec := { codec_type := .VIDEO, codec_id := .MPEG2VIDEO, extradata := [],
               frame_size := 0, sample_rate := 0, time_base_num := 1, time_base_den := 25 }
    language := none
    disposition := ⟨false, false, false⟩
    nb_frames := 0
    priv_data := ⟨0, 0, 0, 0, false, false, none, none, 0, [], false⟩ }

/-- An MP2 audio stream at 48 kHz with the language tag `"por"`, before the
header is written. -/
def example_audio : AVStream :=
  { id := 0
    codec := { codec_type := AVMediaType.AUDIO, codec_id := .MP2, extradata := [],
               frame_size := 1152, sample_rate := 48000, time_base_num := 1,
               time_base_den := 48000 }
    language := some [0x70, 0x6f, 0x72]
    disposition := ⟨false, false, false⟩
    nb_frames := 0
    priv_data := ⟨0, 0, 0, 0, false, false, none, none, 0, [], false⟩ }

/-- The context of a transport with one video and one audio stream and the
default options, before the header is written. -/
def example_input : AVFormatContext :=
  { streams := [example_video, example_audio]
    priv_data := MpegTSWrite.defaults
    max_delay := -1
    service_name := none
    title := none
    service_provider := none
    filename_is_m2ts := false }

/-- The context that `mpegts_write_header` leaves for `example_input`: the video
stream on PID `0x100` in the HD service, the audio stream on PID `0x101` in the
LD service. -/
def example_context : AVFormatContext :=
  match mpegts_write_header example_input with
  | .ok s => s
  | _ => example_input

/-! ## SDT, NIT and TOT -/

/-- Modelled from the spec: table id of the NIT (`mpegts.h`). -/
def NIT_TID : Nat := 0x40

/-- Modelled from the spec: table id of the TOT (`mpegts.h`). -/
def TOT_TID : Nat := 0x73

/-- `DEFAULT_NETWORK_NAME`, the string "LaPSI TV - UFRGS". -/
def DEFAULT_NETWORK_NAME : List Nat :=
  [0x4C, 0x61, 0x50, 0x53, 0x49, 0x20, 0x54, 0x56, 0x20, 0x2D, 0x20, 0x55, 0x46, 0x52, 0x47, 0x53]

/-- `putstr8`: the bytes written at the cursor. `str` is `none` for a NULL
pointer; the length byte is the `int` length stored into a `uint8_t`, and
`memcpy` copies the whole string whatever its length. -/
def putstr8 (str : Option (List Nat)) : List Nat :=
  let len := match str with
    | none => 0
    | some s => s.length
  [len % 256] ++ (match str with
    | none => []
    | some s => s)

/-- One turn of the service loop of `mpegts_write_sdt`, on the bytes written so
far. -/
def sdt_service (q : List Nat) (service : MpegTSService) : List Nat :=
  let q := q ++ put16 service.sid
  let q := q ++ [0xfc ||| 0x00]
  let desc_list_len_ptr := q.length
  let q := q ++ [0, 0]
  let running_status := 4
  let free_ca_mode := 0
  let q := q ++ [0x48]
  let desc_len_ptr := q.length
  let q := q ++ [0]
  let q := q ++ [0x01]
  let q := q ++ putstr8 service.provider_name
  let q := q ++ putstr8 service.name
  let q := q.set desc_len_ptr ((q.length - desc_len_ptr - 1) % 256)
  let val := (running_status <<< 13) ||| (free_ca_mode <<< 12) ||| (q.length - desc_list_len_ptr - 2)
  let q := q.set desc_list_len_ptr ((val >>> 8) % 256)
  q.set (desc_list_len_ptr + 1) (val % 256)

/-- The `data` buffer that `mpegts_write_sdt` fills. The C array holds 1012
bytes; a longer list stands for a run that wrote past its end. -/
def sdt_data (ts : MpegTSWrite) : List Nat :=
  ts.services.foldl sdt_service (put16 ts.onid ++ [0xff])

/-- `mpegts_write_sdt`: returns the muxer state afterwards and the packets
handed to the sink. -/
def mpegts_write_sdt (ts : MpegTSWrite) : MpegTSWrite × List (List Nat) :=
  let data := sdt_data ts
  let r := mpegts_write_section1 ts.sdt SDT_TID ts.tsid ts.tables_version 0 0 data data.length
  ({ ts with sdt := r.2.1 }, r.2.2)

/-- Low 16 bits of a C `int`, the part that `put16` stores. -/
def int_low16 (v : Int) : Nat := (v % 65536).toNat

/-- The network descriptor block at the start of the NIT `data` buffer: the
two-byte length slot, the Network Name descriptor and the System Management
descriptor. -/
def nit_network_descriptors : List Nat :=
  let q : List Nat := []
  let desc_len_ptr := q.length
  let q := q ++ [0, 0]
  let q := q ++ [0x40]
  let q := q ++ putstr8 (some DEFAULT_NETWORK_NAME)
  let q := q ++ [0xFE]
  let sys_mgmt_desc_length_ptr := q.length
  let q := q ++ [0]
  let q := q ++ [0x03]
  let q := q ++ [0x01]
  let q := q.set sys_mgmt_desc_length_ptr ((q.length - sys_mgmt_desc_length_ptr - 1) % 256)
  let temp_val := (0xF0 <<< 8) ||| (q.length - desc_len_ptr - 2)
  let q := q.set desc_len_ptr ((temp_val >>> 8) % 256)
  q.set (desc_len_ptr + 1) (temp_val % 256)

/-- One turn of the transmission-type loop of the TS Information descriptor.
The test is the source's `sid & 0x18 >> 3`, in which `>>` binds tighter than
`&`. -/
def nit_transmission_type (q : List Nat) (service : MpegTSService) : List Nat :=
  if service.sid &&& (0x18 >>> 3) ≠ 0 then
    q ++ [0xAF] ++ [0x01] ++ put16 service.sid
  else
    q ++ [0x0F] ++ [0x01] ++ put16 service.sid

/-- The TS Information descriptor (tag `0xCD`) appended to the bytes written so
far. The `switch` on the transmission profile runs the service loop in every
case but 2. -/
def nit_ts_information (ts : MpegTSWrite) (q : List Nat) : List Nat :=
  let q := q ++ [0xCD]
  let ts_info_desc_length_ptr := q.length
  let q := q ++ [0]
  let q := q ++ [ts.virtual_channel % 256]
  let q := q ++ [((DEFAULT_NETWORK_NAME.length <<< 2) ||| 0x2) % 256]
  let q := q ++ DEFAULT_NETWORK_NAME
  let q := if ts.transmission_profile = 2 then q else ts.services.foldl nit_transmission_type q
  q.set ts_info_desc_length_ptr ((q.length - ts_info_desc_length_ptr - 1) % 256)

/-- The Service List descriptor (tag `0x41`) appended to the bytes written so
far. -/
def nit_service_list (ts : MpegTSWrite) (q : List Nat) : List Nat :=
  let q := q ++ [0x41]
  let service_list_desc_length_ptr := q.length
  let q := q ++ [0]
  let q := ts.services.foldl (fun q service => q ++ put16 service.sid ++ [0x01]) q
  q.set service_list_desc_length_ptr ((q.length - service_list_desc_length_ptr - 1) % 256)

/-- One turn of the Partial Reception loop: a descriptor (tag `0xFB`) for a
service whose id has both service-type bits set. -/
def nit_partial_reception (q : List Nat) (service : MpegTSService) : List Nat :=
  if (service.sid &&& 0x18) >>> 3 = 0x3 then
    let q := q ++ [0xFB]
    let part_rec_desc_length_ptr := q.length
    let q := q ++ [0]
    let q := q ++ put16 service.sid
    q.set part_rec_desc_length_ptr ((q.length - part_rec_desc_length_ptr - 1) % 256)
  else q

/-- The Terrestrial Delivery System descriptor (tag `0xFA`) appended to the
bytes written so far. The frequency is computed in C `int` arithmetic, `1/7`
being an integer division. -/
def nit_terrestrial_delivery (ts : MpegTSWrite) (q : List Nat) : List Nat :=
  let q := q ++ [0xFA]
  let terr_del_sys_desc_length_ptr := q.length
  let q := q ++ [0]
  let q := q ++ put16 ((ts.area_code <<< 4) ||| (ts.guard_interval <<< 2) ||| ts.transmission_mode)
  let q := q ++ put16 (int_low16
    ((473 + 6 * ((ts.physical_channel : Int) - 14) + Int.tdiv 1 7) * 7))
  q.set terr_del_sys_desc_length_ptr ((q.length - terr_del_sys_desc_length_ptr - 1) % 256)

/-- The `data` buffer that `mpegts_write_nit` fills. The C array holds 1012
bytes; a longer list stands for a run that wrote past its end. -/
def nit_data (ts : MpegTSWrite) : List Nat :=
  let q := nit_network_descriptors
  let ts_loop_len_ptr := q.length
  let q := q ++ [0, 0]
  let q := q ++ put16 ts.tsid
  let q := q ++ put16 ts.onid
  let transp_desc_len_ptr := q.length
  let q := q ++ [0, 0]
  let q := nit_ts_information ts q
  let q := nit_service_list ts q
  let q := ts.services.foldl nit_partial_reception q
  let q := nit_terrestrial_delivery ts q
  let transp_desc_len_val := (0xF0 <<< 8) ||| (q.length - transp_desc_len_ptr - 2)
  let q := q.set transp_desc_len_ptr ((transp_desc_len_val >>> 8) % 256)
  let q := q.set (transp_desc_len_ptr + 1) (transp_desc_len_val % 256)
  let ts_loop_length_val := (0xF0 <<< 8) ||| (q.length - ts_loop_len_ptr - 2)
  let q := q.set ts_loop_len_ptr ((ts_loop_length_val >>> 8) % 256)
  q.set (ts_loop_len_ptr + 1) (ts_loop_length_val % 256)

/-- `mpegts_write_nit`: returns the muxer state afterwards and the packets
handed to the sink. -/
def mpegts_write_nit (ts : MpegTSWrite) : MpegTSWrite × List (List Nat) :=
  let data := nit_data ts
  let r := mpegts_write_section1 ts.nit NIT_TID ts.onid ts.tables_version 0 0 data data.length
  ({ ts with nit := r.2.1 }, r.2.2)

/-- The `section` array that `mpegts_write_tot` fills, up to the CRC slot that
`mpegts_write_section` overwrites, and the section length `tot_length + 3`. -/
def tot_section : List Nat × Nat :=
  let q : List Nat := [TOT_TID % 256]
  let tot_length_ptr := q.length
  let q := q ++ [0, 0]
  let q := q ++ [0xDD, 0xE2, 0x10, 0x20, 0x30]
  let desc_len_ptr := q.length
  let q := q ++ [0, 0]
  let q := q ++ [0x58]
  let offset_desc_length_ptr := q.length
  let q := q ++ [0]
  let q := q ++ [0x42, 0x52, 0x41]
  let q := q ++ [((0x03 <<< 2) ||| 0x2) % 256]
  let q := q ++ put16 0x0000
  let q := q ++ [0xDE, 0x7B, 0x00, 0x00, 0x00]
  let q := q ++ put16 0x0100
  let q := q.set offset_desc_length_ptr ((q.length - offset_desc_length_ptr - 1) % 256)
  let temp_val := (0xF0 <<< 8) ||| (q.length - desc_len_ptr - 2)
  let q := q.set desc_len_ptr ((temp_val >>> 8) % 256)
  let q := q.set (desc_len_ptr + 1) (temp_val % 256)
  let tot_length := (q.length - tot_length_ptr - 2 + 4) % 2 ^ 32
  let len := put16 (0xB000 ||| tot_length)
  let q := q.set tot_length_ptr (len.getD 0 0)
  let q := q.set (tot_length_ptr + 1) (len.getD 1 0)
  (q ++ [0, 0, 0, 0], (tot_length + 3) % 2 ^ 32)

/-- `mpegts_write_tot`: returns the muxer state afterwards and the packets
handed to the sink. -/
def mpegts_write_tot (ts : MpegTSWrite) : MpegTSWrite × List (List Nat) :=
  let r := mpegts_write_section ts.tot tot_section.1 tot_section.2
  ({ ts with tot := r.1 }, r.2.2)

/-- The entry of a service in the SDT payload, in the words of the
specification: service id, `0xFC`, running status 4 with the descriptor loop
length, and the service descriptor with the two length-prefixed names. A NULL
name counts as the empty string. -/
def sdt_service_entry (service : MpegTSService) : List Nat :=
  let provider := service.provider_name.getD []
  let name := service.name.getD []
  let p := provider.length
  let n := name.length
  [service.sid / 256, service.sid % 256, 0xFC,
    (0x8000 ||| (p + n + 5)) / 256, (0x8000 ||| (p + n + 5)) % 256,
    0x48, p + n + 3, 0x01, p] ++ provider ++ [n] ++ name

/-! ## The sink, the PCR and the time stamps -/

/-- The output `AVIOContext` of the muxer (`s->pb`): the byte position that
`avio_tell` returns and the buffers handed to `avio_write`, in order. -/
structure AVIOContext where
  pos : Nat
  written : List (List Nat)
deriving Repr, DecidableEq

/-- Modelled from the spec: `avio_tell` of `libavformat/avio.h`, the number of
bytes written to the sink so far. -/
def avio_tell (pb : AVIOContext) : Int := pb.pos

/-- Modelled from the spec: `avio_write` of `libavformat/avio.h`, which appends
a buffer to the sink. -/
def avio_write (pb : AVIOContext) (buf : List Nat) : AVIOContext :=
  { pos := pb.pos + buf.length, written := pb.written ++ [buf] }

/-- `get_pcr`. -/
def get_pcr (ts : MpegTSWrite) (pb : AVIOContext) : Int :=
  av_rescale (avio_tell pb + 11) (8 * PCR_TIME_BASE) ts.mux_rate + ts.first_pcr

/-- The `uint32_t tp_extra_header` of `mpegts_prefix_m2ts_header`: the C
remainder `pcr % 0x3fffffff` converted to 32 bits. -/
def tp_extra_header (pcr : Int) : Nat := ((Int.tmod pcr 0x3fffffff) % 2 ^ 32).toNat

/-- The bytes of a 32-bit word in memory, least significant byte first on a
little-endian host and most significant byte first on a big-endian one. -/
def host_bytes32 (little_endian : Bool) (v : Nat) : List Nat :=
  if little_endian then (be32 v).reverse else be32 v

/-- Modelled from the spec: `AV_RB32` of `libavutil/intreadwrite.h`, which reads
four bytes as a big-endian 32-bit value. -/
def AV_RB32 (p : List Nat) : Nat :=
  (p.getD 0 0 <<< 24) ||| (p.getD 1 0 <<< 16) ||| (p.getD 2 0 <<< 8) ||| p.getD 3 0

/-- The four bytes that `mpegts_prefix_m2ts_header` hands to `avio_write`: the
memory of `tp_extra_header` after `AV_RB32` was applied to it in place. -/
def tp_extra_header_bytes (little_endian : Bool) (pcr : Int) : List Nat :=
  host_bytes32 little_endian (AV_RB32 (host_bytes32 little_endian (tp_extra_header pcr)))

/-- `mpegts_prefix_m2ts_header`. The bytes written are those of
`tp_extra_header_bytes`, which on either kind of host are the word
`tp_extra_header` most significant byte first. -/
def mpegts_prefix_m2ts_header (ts : MpegTSWrite) (pb : AVIOContext) : AVIOContext :=
  if ts.m2ts_mode ≠ 0 then
    let pcr := get_pcr ts pb
    avio_write pb (be32 (tp_extra_header pcr))
  else pb

/-- `section_write_packet`, the `write_packet` callback of every section. -/
def section_write_packet (ts : MpegTSWrite) (pb : AVIOContext) (packet : List Nat) :
    AVIOContext :=
  avio_write (mpegts_prefix_m2ts_header ts pb) (packet.take TS_PACKET_SIZE)

/-- Store of a C integer into a `uint8_t`: the low 8 bits of its two's
complement form. -/
def uint8 (v : Int) : Nat := (v % 256).toNat

/-- `write_pcr_bits`: the six bytes written at `buf` and the return value.
`pcr % 300` and `pcr / 300` truncate toward zero and `>>` is the arithmetic
shift. The low 8 bits of `pcr_high << 7 | pcr_low >> 8 | 0x7e` are the OR of the
low 8 bits of its three operands. -/
def write_pcr_bits (pcr : Int) : List Nat × Nat :=
  let pcr_low := Int.tmod pcr 300
  let pcr_high := Int.tdiv pcr 300
  ([uint8 (pcr_high >>> (25 : Nat)),
    uint8 (pcr_high >>> (17 : Nat)),
    uint8 (pcr_high >>> (9 : Nat)),
    uint8 (pcr_high >>> (1 : Nat)),
    uint8 (pcr_high * 2 ^ 7) ||| uint8 (pcr_low >>> (8 : Nat)) ||| 0x7e,
    uint8 pcr_low], 6)

/-- `write_pts`: the five bytes written at `q`. `pts` is a 64-bit two's
complement value, so `x & 0x07` and `x & 0x7fff` are `x mod 8` and
`x mod 0x8000`. -/
def write_pts (fourbits : Nat) (pts : Int) : List Nat :=
  let val := (fourbits <<< 4) ||| ((((pts >>> (30 : Nat)) % 0x08).toNat) <<< 1) ||| 1
  let q := [val % 256]
  let val := ((((pts >>> (15 : Nat)) % 0x8000).toNat) <<< 1) ||| 1
  let q := q ++ [(val >>> 8) % 256]
  let q := q ++ [val % 256]
  let val := (((pts % 0x8000).toNat) <<< 1) ||| 1
  let q := q ++ [(val >>> 8) % 256]
  q ++ [val % 256]

/-- The 33-bit base that a decoder reads from the six PCR bytes. -/
def pcr_base (b : List Nat) : Nat :=
  b.getD 0 0 * 2 ^ 25 + b.getD 1 0 * 2 ^ 17 + b.getD 2 0 * 2 ^ 9 + b.getD 3 0 * 2 +
    b.getD 4 0 / 128

/-- The six reserved bits that a decoder reads from the six PCR bytes. -/
def pcr_reserved (b : List Nat) : Nat := b.getD 4 0 / 2 % 64

/-- The 9-bit extension that a decoder reads from the six PCR bytes. -/
def pcr_extension (b : List Nat) : Nat := b.getD 4 0 % 2 * 256 + b.getD 5 0

/-- The 33-bit time stamp that a decoder reads from the five bytes of
`write_pts`: bits 3..1 of byte 0, then the 15 bits above the marker bit of
bytes 1-2 and of bytes 3-4. -/
def read_pts (b : List Nat) : Nat :=
  (b.getD 0 0 / 2 % 8) * 2 ^ 30 + ((b.getD 1 0 * 256 + b.getD 2 0) / 2) * 2 ^ 15 +
    (b.getD 3 0 * 256 + b.getD 4 0) / 2

/-! ## Table retransmission and PES packetisation -/

/-- Modelled from the spec: the `NO_PTS` sentinel `AV_NOPTS_VALUE` of
`libavutil/avutil.h`, the least 64-bit integer. A time stamp argument is
`none` when it equals the sentinel. -/
def AV_NOPTS_VALUE : Int := -2 ^ 63

/-- A stream with zeroed fields; it stands for an out-of-range stream number,
which no caller passes. -/
def AVStream.zero : AVStream :=
  { id := 0
    codec := { codec_type := .UNKNOWN, codec_id := .OTHER 0, extradata := [],
               frame_size := 0, sample_rate := 0, time_base_num := 0, time_base_den := 0 }
    language := none
    disposition := ⟨false, false, false⟩
    nb_frames := 0
    priv_data := ⟨0, 0, 0, 0, false, false, none, none, 0, [], false⟩ }

/-- The stream `s->streams[i]`. -/
def AVFormatContext.stream (s : AVFormatContext) (i : Nat) : AVStream :=
  s.streams.getD i AVStream.zero

/-- A store through `st->priv_data` of the stream number `i`. -/
def AVFormatContext.update_stream (s : AVFormatContext) (i : Nat)
    (f : MpegTSWriteStream → MpegTSWriteStream) : AVFormatContext :=
  { s with streams := s.streams.modify (fun st => { st with priv_data := f st.priv_data }) i }

/-- The packets of one section handed one by one to `section_write_packet`. -/
def write_packets (ts : MpegTSWrite) (pb : AVIOContext) (packets : List (List Nat)) :
    AVIOContext :=
  packets.foldl (section_write_packet ts) pb

/-- The SDT turn of `retransmit_si_info`. -/
def retransmit_sdt (ts : MpegTSWrite) (pb : AVIOContext) : MpegTSWrite × AVIOContext :=
  let ts : MpegTSWrite := { ts with sdt_packet_count := wrap_int32 (ts.sdt_packet_count + 1) }
  if ts.sdt_packet_count = ts.sdt_packet_period then
    let ts : MpegTSWrite := { ts with sdt_packet_count := 0 }
    let r := mpegts_write_sdt ts
    (r.1, write_packets r.1 pb r.2)
  else (ts, pb)

/-- The NIT turn of `retransmit_si_info`. -/
def retransmit_nit (ts : MpegTSWrite) (pb : AVIOContext) : MpegTSWrite × AVIOContext :=
  let ts : MpegTSWrite := { ts with nit_packet_count := wrap_int32 (ts.nit_packet_count + 1) }
  if ts.nit_packet_count = ts.nit_packet_period then
    let ts : MpegTSWrite := { ts with nit_packet_count := 0 }
    let r := mpegts_write_nit ts
    (r.1, write_packets r.1 pb r.2)
  else (ts, pb)

/-- The TOT turn of `retransmit_si_info`. -/
def retransmit_tot (ts : MpegTSWrite) (pb : AVIOContext) : MpegTSWrite × AVIOContext :=
  let ts : MpegTSWrite := { ts with tot_packet_count := wrap_int32 (ts.tot_packet_count + 1) }
  if ts.tot_packet_count = ts.tot_packet_period then
    let ts : MpegTSWrite := { ts with tot_packet_count := 0 }
    let r := mpegts_write_tot ts
    (r.1, write_packets r.1 pb r.2)
  else (ts, pb)

/-- One turn of the PMT loop of `retransmit_si_info`, for the service number
`i`. -/
def retransmit_pmt (acc : AVFormatContext × AVIOContext) (i : Nat) :
    AVFormatContext × AVIOContext :=
  let r := mpegts_write_pmt acc.1 i
  (r.2.1, write_packets r.2.1.priv_data acc.2 r.2.2)

/-- The PAT and PMT turn of `retransmit_si_info`. -/
def retransmit_pat (s : AVFormatContext) (pb : AVIOContext) (force_pat : Bool) :
    AVFormatContext × AVIOContext :=
  let ts := s.priv_data
  let ts : MpegTSWrite := { ts with pat_packet_count := wrap_int32 (ts.pat_packet_count + 1) }
  if ts.pat_packet_count = ts.pat_packet_period ∨ force_pat = true then
    let ts : MpegTSWrite := { ts with pat_packet_count := 0 }
    let r := mpegts_write_pat ts
    let pb := write_packets r.1 pb r.2
    let s : AVFormatContext := { s with priv_data := r.1 }
    (List.range s.priv_data.services.length).foldl retransmit_pmt (s, pb)
  else ({ s with priv_data := ts }, pb)

/-- `retransmit_si_info`. -/
def retransmit_si_info (s : AVFormatContext) (pb : AVIOContext) (force_pat : Bool) :
    AVFormatContext × AVIOContext :=
  let r := retransmit_sdt s.priv_data pb
  let r := retransmit_nit r.1 r.2
  let r := retransmit_tot r.1 r.2
  retransmit_pat { s with priv_data := r.1 } r.2 force_pat

/-- `mpegts_insert_null_packet`. -/
def mpegts_insert_null_packet (ts : MpegTSWrite) (pb : AVIOContext) : AVIOContext :=
  let q : List Nat := [0x47]
  let q := q ++ [0x00 ||| 0x1f]
  let q := q ++ [0xff]
  let q := q ++ [0x10]
  let q := q ++ List.replicate (TS_PACKET_SIZE - q.length) 0x0FF
  avio_write (mpegts_prefix_m2ts_header ts pb) q

/-- `mpegts_insert_pcr_only` for the stream `st`. -/
def mpegts_insert_pcr_only (ts : MpegTSWrite) (pb : AVIOContext) (st : AVStream) :
    AVIOContext :=
  let ts_st := st.priv_data
  let q : List Nat := [0x47]
  let q := q ++ [(ts_st.pid >>> 8) % 256]
  let q := q ++ [ts_st.pid % 256]
  let q := q ++ [(0x20 ||| ts_st.cc) % 256]
  let q := q ++ [(TS_PACKET_SIZE - 5) % 256]
  let q := q ++ [0x10]
  let q := q ++ ((write_pcr_bits (get_pcr ts pb)).1).take (write_pcr_bits (get_pcr ts pb)).2
  let q := q ++ List.replicate (TS_PACKET_SIZE - q.length) 0xFF
  avio_write (mpegts_prefix_m2ts_header ts pb) q

/-- `set_af_flag` on the bytes of the packet up to the start of its payload:
a packet of four header bytes gets the two bytes of a new adaptation field. -/
def set_af_flag (pkt : List Nat) (flag : Nat) : List Nat :=
  let pkt :=
    if pkt.getD 3 0 &&& 0x20 = 0 then
      (pkt.take 4).set 3 (pkt.getD 3 0 ||| 0x20) ++ [1, 0]
    else pkt
  pkt.set 5 ((pkt.getD 5 0 ||| flag) % 256)

/-- `extend_af`. -/
def extend_af (pkt : List Nat) (size : Nat) : List Nat :=
  pkt.set 4 ((pkt.getD 4 0 + size) % 256)

/-- `get_ts_payload_start`, as an offset from `pkt`. -/
def get_ts_payload_start (pkt : List Nat) : Nat :=
  if pkt.getD 3 0 &&& 0x20 ≠ 0 then 5 + pkt.getD 4 0 else 4

/-- The four header bytes that `mpegts_write_pes` prepares; `cc` is the
counter after its increment. -/
def pes_ts_header (pid cc : Nat) (is_start : Bool) : List Nat :=
  let q : List Nat := [0x47]
  let val := pid >>> 8
  let val := if is_start then val ||| 0x40 else val
  let q := q ++ [val % 256]
  let q := q ++ [pid % 256]
  q ++ [(0x10 ||| cc) % 256]

/-- The PCR value that `mpegts_write_pes` writes: `get_pcr` in CBR mode,
`(dts - delay) * 300` otherwise, the product taken in 64 bits. -/
def pes_pcr (ts : MpegTSWrite) (pb : AVIOContext) (dts : Option Int) (delay : Int) : Int :=
  if ts.mux_rate > 1 then get_pcr ts pb
  else ((dts.getD AV_NOPTS_VALUE - delay) * 300 + 2 ^ 63) % 2 ^ 64 - 2 ^ 63

/-- The adaptation field that `mpegts_write_pes` opens after the four header
bytes: the random access flag on the first packet of a key frame with a PTS,
and the PCR when it is due. `on_pcr_pid` tells whether the stream is the PCR
stream of its service. After each step the cursor is the payload start. -/
def pes_adaptation (ts : MpegTSWrite) (pb : AVIOContext) (buf : List Nat)
    (key is_start on_pcr_pid write_pcr : Bool) (pts dts : Option Int) (delay : Int) :
    List Nat :=
  let random_access := key && is_start && pts.isSome
  let write_pcr := if random_access then (if on_pcr_pid then true else write_pcr) else write_pcr
  let buf := if random_access then set_af_flag buf 0x40 else buf
  let q := if random_access then buf.take (get_ts_payload_start buf) else buf
  if write_pcr then
    let buf := set_af_flag q 0x10
    let q := buf.take (get_ts_payload_start buf)
    let pcr := pes_pcr ts pb dts delay
    let w := write_pcr_bits pcr
    let buf := extend_af (q ++ w.1) w.2
    buf.take (get_ts_payload_start buf)
  else q

/-- The stream id byte of the PES header and the flags `is_dvb_subtitle` and
`is_dvb_teletext`. -/
def pes_stream_id (codec : AVCodecContext) (m2ts_mode : Int) : Nat × Bool × Bool :=
  if codec.codec_type = .VIDEO then
    if codec.codec_id = .DIRAC then (0xfd, false, false) else (0xe0, false, false)
  else if codec.codec_type = AVMediaType.AUDIO ∧
      (codec.codec_id = .MP2 ∨ codec.codec_id = .MP3 ∨ codec.codec_id = .AAC) then
    (0xc0, false, false)
  else if codec.codec_type = AVMediaType.AUDIO ∧ codec.codec_id = .AC3 ∧ m2ts_mode ≠ 0 then
    (0xfd, false, false)
  else if codec.codec_type = .SUBTITLE then
    if codec.codec_id = .DVB_SUBTITLE then (0xbd, true, false)
    else if codec.codec_id = .DVB_TELETEXT then (0xbd, false, true)
    else (0xbd, false, false)
  else (0xbd, false, false)

/-- The `flags` byte, `header_len` and `pes_extension` of the PES header before
the teletext adjustment. -/
def pes_flags (codec : AVCodecContext) (m2ts_mode : Int) (pts dts : Option Int) :
    Nat × Nat × Bool :=
  let header_len := 0
  let flags := 0
  let pes_extension := false
  let header_len := if pts.isSome then header_len + 5 else header_len
  let flags := if pts.isSome then flags ||| 0x80 else flags
  let header_len := if dts.isSome ∧ pts.isSome ∧ dts ≠ pts then header_len + 5 else header_len
  let flags := if dts.isSome ∧ pts.isSome ∧ dts ≠ pts then flags ||| 0x40 else flags
  let dirac : Bool := codec.codec_type = .VIDEO ∧ codec.codec_id = .DIRAC
  let pes_extension := if dirac then true else pes_extension
  let flags := if dirac then flags ||| 0x01 else flags
  let header_len := if dirac then header_len + 3 else header_len
  let ac3 : Bool := m2ts_mode ≠ 0 ∧ codec.codec_type = AVMediaType.AUDIO ∧ codec.codec_id = .AC3
  let pes_extension := if ac3 then true else pes_extension
  let flags := if ac3 then flags ||| 0x01 else flags
  let header_len := if ac3 then header_len + 3 else header_len
  (flags, header_len, pes_extension)

/-- The optional fields of the PES header: PTS, DTS, and the three extension
bytes of a Dirac stream or of an AC-3 stream in M2TS mode. -/
def pes_optional_fields (codec : AVCodecContext) (m2ts_mode : Int) (pts dts : Option Int)
    (flags : Nat) (pes_extension : Bool) : List Nat :=
  let q : List Nat := []
  let q := match pts with
    | some p => q ++ write_pts (flags >>> 6) p
    | none => q
  let q := match dts, pts with
    | some d, some p => if d ≠ p then q ++ write_pts 1 d else q
    | _, _ => q
  let q :=
    if pes_extension ∧ codec.codec_id = .DIRAC then
      q ++ [0x01] ++ [0x80 ||| 0x01] ++ [0x00 ||| 0x60]
    else q
  if m2ts_mode ≠ 0 ∧ pes_extension ∧ codec.codec_id = .AC3 then
    q ++ [0x01] ++ [0x80 ||| 0x01] ++ [0x00 ||| 0x71]
  else q

/-- The PES header that `mpegts_write_pes` appends to the first packet: the
bytes written at the cursor, the payload size afterwards (one more for a DVB
subtitle) and `is_dvb_subtitle`. `0x24 - header_len` is not negative: the header
length before the teletext adjustment is at most 13. -/
def pes_header (codec : AVCodecContext) (m2ts_mode : Int) (payload_size : Nat)
    (pts dts : Option Int) : List Nat × Nat × Bool :=
  let q : List Nat := [0x00]
  let q := q ++ [0x00]
  let q := q ++ [0x01]
  let id := pes_stream_id codec m2ts_mode
  let is_dvb_subtitle := id.2.1
  let is_dvb_teletext := id.2.2
  let q := q ++ [id.1]
  let f := pes_flags codec m2ts_mode pts dts
  let flags := f.1
  let header_len := f.2.1
  let pes_extension := f.2.2
  let pes_header_stuffing_bytes := if is_dvb_teletext then 0x24 - header_len else 0
  let header_len := if is_dvb_teletext then 0x24 else header_len
  let len := payload_size + header_len + 3
  let len := if is_dvb_subtitle then len + 3 else len
  let payload_size := if is_dvb_subtitle then payload_size + 1 else payload_size
  let len := if len > 0xffff then 0 else len
  let q := q ++ [(len >>> 8) % 256]
  let q := q ++ [len % 256]
  let val := 0x80
  let val :=
    if codec.codec_type = .SUBTITLE ∨ codec.codec_type = .DATA then val ||| 0x04 else val
  let q := q ++ [val]
  let q := q ++ [flags % 256]
  let q := q ++ [header_len % 256]
  let q := q ++ pes_optional_fields codec m2ts_mode pts dts flags pes_extension
  let q := if is_dvb_subtitle then q ++ [0x20] ++ [0x00] else q
  let q := if is_dvb_teletext then q ++ List.replicate pes_header_stuffing_bytes 0xff else q
  (q, payload_size, is_dvb_subtitle)

/-- The stuffing that `mpegts_write_pes` inserts when the payload does not
fill the packet. `buf` holds the `header_len` bytes written so far. With an
adaptation field the bytes after it move up by `stuffing_len`, its length
grows and the gap is filled with `0xff`; without one the bytes after the four
header bytes move up and a new adaptation field of `stuffing_len` bytes is
written in the gap. -/
def pes_add_stuffing (buf : List Nat) (stuffing_len : Nat) : List Nat :=
  if stuffing_len > 0 then
    if buf.getD 3 0 &&& 0x20 ≠ 0 then
      let afc_len := buf.getD 4 0 + 1
      (buf.take (4 + afc_len)).set 4 ((buf.getD 4 0 + stuffing_len) % 256) ++
        List.replicate stuffing_len 0xff ++ buf.drop (4 + afc_len)
    else
      (buf.take 4).set 3 (buf.getD 3 0 ||| 0x20) ++ [(stuffing_len - 1) % 256] ++
        (if stuffing_len ≥ 2 then [0x00] ++ List.replicate (stuffing_len - 2) 0xff else []) ++
        buf.drop 4
  else buf

/-- The loop-carried variables of `mpegts_write_pes`. `payload` is the rest of
the payload buffer and `payload_size` the C variable, which for a DVB subtitle
is one more than the bytes left. -/
structure PesState where
  s : AVFormatContext
  pb : AVIOContext
  is_start : Bool
  force_pat : Bool
  payload : List Nat
  payload_size : Nat
  is_dvb_subtitle : Bool

/-- The PCR bookkeeping at the top of the loop body: the packet counter of the
stream's service and whether a PCR is due. -/
def pes_pcr_due (s : AVFormatContext) (sti : Nat) (is_start : Bool) :
    AVFormatContext × Bool :=
  let ts := s.priv_data
  let ts_st := (s.stream sti).priv_data
  let service := ts.services.getD ts_st.service MpegTSService.zero
  if ts_st.pid = service.pcr_pid then
    let count :=
      if ts.mux_rate > 1 ∨ is_start = true then wrap_int32 (service.pcr_packet_count + 1)
      else service.pcr_packet_count
    let due : Bool := count ≥ service.pcr_packet_period
    let count := if due then 0 else count
    let ts := ts.update_service ts_st.service
      (fun service => { service with pcr_packet_count := count })
    ({ s with priv_data := ts }, due)
  else (s, false)

/-- The test that makes `mpegts_write_pes` insert a null or PCR-only packet
instead of payload: CBR mode, a DTS, and the DTS ahead of the PCR by more than
`delay`. The difference and the comparison are those of the integers, which
are the ones of the `int64_t` operands of the source as long as these stay in
range; `pes_must_wait_int64` below is the test with the 64-bit wrap-around. -/
def pes_must_wait (ts : MpegTSWrite) (pb : AVIOContext) (dts : Option Int) (delay : Int) :
    Bool :=
  match dts with
  | none => false
  | some d => decide (ts.mux_rate > 1) && decide (d - Int.tdiv (get_pcr ts pb) 300 > delay)

/-- The end of one turn of the loop of `mpegts_write_pes`, from `header_len =
q - buf` on: `q` holds the bytes written so far; the payload length `len` of
the packet is computed, stuffing is added, and the payload bytes are copied to
the end of the packet. Returns the packet, the payload size afterwards and
`len`. -/
def pes_fill (q : List Nat) (is_dvb_subtitle : Bool) (payload : List Nat) (payload_size : Nat) :
    List Nat × Nat × Nat :=
  let header_len := q.length
  let len := TS_PACKET_SIZE - header_len
  let len := if len > payload_size then payload_size else len
  let stuffing_len := TS_PACKET_SIZE - header_len - len
  let buf := pes_add_stuffing q stuffing_len
  let buf :=
    if is_dvb_subtitle ∧ payload_size = len then buf ++ payload.take (len - 1) ++ [0xff]
    else buf ++ payload.take len
  (buf, payload_size - len, len)

/-- The packet that one turn of the loop of `mpegts_write_pes` builds, with
the payload size afterwards, the advance `len` of the payload pointer and
`is_dvb_subtitle`. `cc` is the counter after its increment. -/
def pes_packet (ts : MpegTSWrite) (pb : AVIOContext) (st : AVStream) (cc : Nat)
    (on_pcr_pid write_pcr key : Bool) (pts dts : Option Int) (delay : Int)
    (is_start is_dvb_subtitle : Bool) (payload : List Nat) (payload_size : Nat) :
    List Nat × Nat × Nat × Bool :=
  let q := pes_ts_header st.priv_data.pid cc is_start
  let q := pes_adaptation ts pb q key is_start on_pcr_pid write_pcr pts dts delay
  let h := pes_header st.codec ts.m2ts_mode payload_size pts dts
  let q := if is_start then q ++ h.1 else q
  let payload_size := if is_start then h.2.1 else payload_size
  let is_dvb_subtitle := if is_start then h.2.2 else is_dvb_subtitle
  let f := pes_fill q is_dvb_subtitle payload payload_size
  (f.1, f.2.1, f.2.2, is_dvb_subtitle)

/-- One turn of the `while (payload_size > 0)` loop of `mpegts_write_pes` for
the stream number `sti`. -/
def pes_step (sti : Nat) (pts dts : Option Int) (key : Bool) (delay : Int) (x : PesState) :
    PesState :=
  let r := retransmit_si_info x.s x.pb x.force_pat
  let on_pcr_pid : Bool :=
    (r.1.stream sti).priv_data.pid =
      (r.1.priv_data.services.getD (r.1.stream sti).priv_data.service MpegTSService.zero).pcr_pid
  let d := pes_pcr_due r.1 sti x.is_start
  let s := d.1
  let pb := r.2
  let write_pcr := d.2
  if pes_must_wait s.priv_data pb dts delay then
    let pb :=
      if write_pcr then mpegts_insert_pcr_only s.priv_data pb (s.stream sti)
      else mpegts_insert_null_packet s.priv_data pb
    { x with s := s, pb := pb, force_pat := false }
  else
    let cc := ((s.stream sti).priv_data.cc + 1) &&& 0xf
    let s := s.update_stream sti (fun ts_st => { ts_st with cc := cc })
    let p := pes_packet s.priv_data pb (s.stream sti) cc on_pcr_pid write_pcr key pts dts delay
      x.is_start x.is_dvb_subtitle x.payload x.payload_size
    let pb := avio_write (mpegts_prefix_m2ts_header s.priv_data pb) (p.1.take TS_PACKET_SIZE)
    { s := s, pb := pb, is_start := false, force_pat := false,
      payload := x.payload.drop p.2.2.1, payload_size := p.2.1,
      is_dvb_subtitle := p.2.2.2 }

/-- The `while (payload_size > 0)` loop of `mpegts_write_pes`; the first
argument bounds the number of turns, and the result is `none` when the bound
is reached with payload left. -/
def pes_loop : Nat → Nat → Option Int → Option Int → Bool → Int → PesState → Option PesState
  | 0, _, _, _, _, _, x => if x.payload_size > 0 then none else some x
  | fuel + 1, sti, pts, dts, key, delay, x =>
    if x.payload_size > 0 then pes_loop fuel sti pts dts key delay (pes_step sti pts dts key delay x)
    else some x

/-- A bound on the number of turns of the loop of `mpegts_write_pes`: one per
payload byte, and one per unit of the gap between the PCR and the DTS that
null packets have to fill in CBR mode (`pes_loop_fuel`). -/
def pes_fuel (s : AVFormatContext) (pb : AVIOContext) (payload_size : Nat)
    (dts : Option Int) (delay : Int) : Nat :=
  payload_size + 1 + ((dts.getD 0 - delay) * 300 - get_pcr s.priv_data pb).toNat

/-- `mpegts_write_pes(s, st, payload, payload_size, pts, dts, key)` for the
stream number `sti`, with `payload` the list of the `payload_size` bytes. A
time stamp is `none` when it is `AV_NOPTS_VALUE`. Returns the context and the
sink afterwards; `avio_flush` leaves both as they are. -/
def mpegts_write_pes (s : AVFormatContext) (pb : AVIOContext) (sti : Nat) (payload : List Nat)
    (pts dts : Option Int) (key : Bool) : Option (AVFormatContext × AVIOContext) :=
  let st := s.stream sti
  let ts_st := st.priv_data
  let delay := av_rescale s.max_delay 90000 AV_TIME_BASE
  let force_pat : Bool :=
    decide (st.codec.codec_type = .VIDEO) && key && !ts_st.prev_payload_key
  let x : PesState :=
    { s := s, pb := pb, is_start := true, force_pat := force_pat, payload := payload,
      payload_size := payload.length, is_dvb_subtitle := false }
  match pes_loop (pes_fuel s pb payload.length dts delay) sti pts dts key delay x with
  | none => none
  | some x => some (x.s.update_stream sti (fun ts_st => { ts_st with prev_payload_key := key }),
      x.pb)

/-! ## Reading transport packets back -/

/-- The 13-bit PID in bytes 1 and 2 of a transport packet. -/
def ts_pid (p : List Nat) : Nat := ((p.getD 1 0 &&& 0x1f) <<< 8) ||| p.getD 2 0

/-- A buffer written to the sink that is not a packet of PID `pid`: the
four-byte M2TS prefix, or a 188-byte packet with the sync byte on another
PID. -/
def foreign_chunk (m2ts_mode : Int) (pid : Nat) (c : List Nat) : Prop :=
  (m2ts_mode ≠ 0 ∧ c.length = 4) ∨ (c.length = 188 ∧ c.getD 0 0 = 0x47 ∧ ts_pid c ≠ pid)

/-- A transport packet given by its parts: the header bytes 1 to 3 (`b3`
without the adaptation field bit), the content of the adaptation field after
its length byte (`none` for no adaptation field), and the payload. -/
def ts_packet_form (b1 b2 b3 : Nat) (af : Option (List Nat)) (body : List Nat) : List Nat :=
  match af with
  | none => [0x47, b1, b2, b3] ++ body
  | some a => [0x47, b1, b2, b3 ||| 0x20, a.length] ++ a ++ body

/-- The adaptation fields that `mpegts_write_pes` builds: none, an empty one,
or a flags byte followed by the six PCR bytes when the PCR flag is set and by
stuffing bytes `0xff`. -/
def pes_af_ok (af : Option (List Nat)) : Prop :=
  af = none ∨ af = some [] ∨
    ∃ (fl : Nat) (pcr : List Nat) (k : Nat), af = some (fl :: pcr ++ List.replicate k 0xff) ∧
      fl < 256 ∧ pcr.length = (if fl &&& 0x10 ≠ 0 then 6 else 0)

/-- A payload packet of `mpegts_write_pes` on PID `pid` with counter `cc`,
start indicator `start` and payload `part`. -/
def pes_packet_ok (pid cc : Nat) (start : Bool) (part p : List Nat) : Prop :=
  p.length = 188 ∧
  ∃ af, pes_af_ok af ∧
    p = ts_packet_form ((if start then pid >>> 8 ||| 0x40 else pid >>> 8) % 256) (pid % 256)
      (0x10 ||| cc) af part

/-- A packet of `mpegts_insert_pcr_only` on PID `pid` repeating the counter
`cc`. -/
def pcr_only_ok (pid cc : Nat) (p : List Nat) : Prop :=
  ∃ pcr : List Nat, pcr.length = 6 ∧
    p = [0x47, (pid >>> 8) % 256, pid % 256, 0x20 ||| cc, 183, 0x10] ++ pcr ++
      List.replicate 176 0xff

/-- The buffers that one call of `mpegts_write_pes` appends to the sink, for a
stream on PID `pid` whose counter is `cc` before and `cc'` after: foreign
buffers and PCR-only packets in any number, and payload packets that advance
the counter; `start` tells whether the packet with the start indicator is
still to come, and `body` is the concatenation of the payloads. -/
inductive PesTrace (m2ts_mode : Int) (pid : Nat) :
    Nat → Bool → List Nat → List (List Nat) → Nat → Prop where
  | done (cc : Nat) : PesTrace m2ts_mode pid cc false [] [] cc
  | foreign (cc cc' : Nat) (start : Bool) (body c : List Nat) (rest : List (List Nat)) :
      foreign_chunk m2ts_mode pid c → PesTrace m2ts_mode pid cc start body rest cc' →
      PesTrace m2ts_mode pid cc start body (c :: rest) cc'
  | pcr_only (cc cc' : Nat) (start : Bool) (body p : List Nat) (rest : List (List Nat)) :
      pcr_only_ok pid cc p → PesTrace m2ts_mode pid cc start body rest cc' →
      PesTrace m2ts_mode pid cc start body (p :: rest) cc'
  | packet (cc cc' : Nat) (start : Bool) (part body p : List Nat) (rest : List (List Nat)) :
      pes_packet_ok pid ((cc + 1) % 16) start part p →
      PesTrace m2ts_mode pid ((cc + 1) % 16) false body rest cc' →
      PesTrace m2ts_mode pid cc start (part ++ body) (p :: rest) cc'

/-- The PIDs of all tables of the transport: PAT, SDT, NIT, TOT and the PMT of
every service. -/
def table_pids (ts : MpegTSWrite) : List Nat :=
  (table_sections ts).map (fun sec => sec.pid)

/-- The bytes that the packets of `mpegts_write_pes` still have to carry, from
the loop variables: nothing once `payload_size` is 0, else the PES header when
the first packet is still to come, the rest of the payload, and the closing
`0xff` of a DVB subtitle. -/
def pes_body (codec : AVCodecContext) (m2ts_mode : Int) (pts dts : Option Int)
    (is_start is_dvb_subtitle : Bool) (payload : List Nat) (payload_size : Nat) : List Nat :=
  if payload_size = 0 then []
  else if is_start then
    (pes_header codec m2ts_mode payload_size pts dts).1 ++ payload ++
      (if (pes_stream_id codec m2ts_mode).2.1 then [0xff] else [])
  else payload ++ (if is_dvb_subtitle then [0xff] else [])

/-- The quantity that every turn of the loop of `mpegts_write_pes` decreases:
the payload size, plus in CBR mode the gap that the PCR has to close before
the DTS is within `delay` of it. -/
def pes_measure (mux first : Int) (dts : Option Int) (delay : Int) (x : PesState) : Nat :=
  x.payload_size +
    (if mux > 1 then
      ((dts.getD 0 - delay) * 300 -
        (av_rescale ((x.pb.pos : Int) + 11) (8 * PCR_TIME_BASE) mux + first)).toNat
    else 0)

/-! ## Concrete inputs for the PES writer -/

/-- The PCR PIDs of the services, in order. -/
def ts_pcr_pids (ts : MpegTSWrite) : List Nat :=
  ts.services.map (fun service => service.pcr_pid)

/-- The test `ts_st->pid == ts_st->service->pcr_pid` for the stream number
`sti`: whether the stream is the PCR stream of its service. -/
def on_pcr_pid (s : AVFormatContext) (sti : Nat) : Bool :=
  decide ((s.stream sti).priv_data.pid =
    (s.priv_data.services.getD (s.stream sti).priv_data.service MpegTSService.zero).pcr_pid)

/-- Modelled from the spec: the fields of `AVPacket` that the muxer reads: the
stream number, the `size` bytes of `data`, the time stamps (`none` for
`AV_NOPTS_VALUE`) and the flags. -/
structure AVPacket where
  stream_index : Nat
  data : List Nat
  pts : Option Int
  dts : Option Int
  flags : Nat
deriving Repr, DecidableEq

/-- Modelled from the spec: `AV_PKT_FLAG_KEY` of `libavcodec/avcodec.h`, the
key-frame bit of the packet flags. -/
def AV_PKT_FLAG_KEY : Nat := 0x0001

/-- Modelled from the spec: the two external collaborators of the muxer loop,
which the specification treats as plug-ins with a byte-in/byte-out contract.
`find_start_code_state` is the value of `state` when the loop over
`avpriv_find_start_code` ends on the packet bytes; `amux_write_frame` is
`av_write_frame` on the AAC sub-muxer followed by `avio_close_dyn_buf`: the
re-framed bytes, or the error that `av_write_frame` returned. -/
structure PacketHooks where
  find_start_code_state : List Nat → Nat
  amux_write_frame : List Nat → Except AVError (List Nat)

/-- `AV_RB16` on the first two bytes of a buffer. -/
def AV_RB16 (p : List Nat) : Nat := (p.getD 0 0 <<< 8) ||| p.getD 1 0

/-- `ff_check_h264_startcode`: an error for a packet without the start code
`00 00 00 01` on a stream that has no frame yet, a warning later. -/
def ff_check_h264_startcode (st : AVStream) (pkt : AVPacket) : Except AVError Unit :=
  if pkt.data.length < 5 ∨ AV_RB32 pkt.data ≠ 0x0000001 then
    if st.nb_frames = 0 then .error .EINVAL else .ok ()
  else .ok ()

/-- The blocks of `mpegts_write_packet_internal` for H.264 and AAC streams:
the bytes `buf` to send (`size` is their number), or the error returned. An
H.264 packet whose scan does not end on an access unit delimiter gets the six
bytes `00 00 00 01 09 f0` in front; an AAC packet without the ADTS sync word
goes through the sub-muxer. Allocations are taken to succeed. -/
def packet_payload (hooks : PacketHooks) (st : AVStream) (pkt : AVPacket) :
    Except AVError (List Nat) :=
  if st.codec.codec_id = .H264 then
    match ff_check_h264_startcode st pkt with
    | .error e => .error e
    | .ok _ =>
      if hooks.find_start_code_state pkt.data &&& 0x1f ≠ 9 then
        .ok ([0x00, 0x00, 0x00, 0x01, 0x09, 0xf0] ++ pkt.data)
      else .ok pkt.data
  else if st.codec.codec_id = .AAC then
    if pkt.data.length < 2 then .error .INVALIDDATA
    else if AV_RB16 pkt.data &&& 0xfff0 ≠ 0xfff0 then
      if st.priv_data.amux = false then .error .INVALIDDATA
      else hooks.amux_write_frame pkt.data
    else .ok pkt.data
  else .ok pkt.data

/-- The two blocks on `reemit_pat_pmt` and `MPEGTS_FLAG_REEMIT_PAT_PMT` at the
start of `mpegts_write_packet_internal`: the deprecated option sets the flag,
and the flag arms the four table counters and is cleared. -/
def packet_reemit (ts : MpegTSWrite) : MpegTSWrite :=
  let ts : MpegTSWrite :=
    if ts.reemit_pat_pmt ≠ 0 then
      { ts with reemit_pat_pmt := 0, flags := ts.flags ||| MPEGTS_FLAG_REEMIT_PAT_PMT }
    else ts
  if ts.flags &&& MPEGTS_FLAG_REEMIT_PAT_PMT ≠ 0 then
    { ts with
      pat_packet_count := wrap_int32 (ts.pat_packet_period - 1)
      sdt_packet_count := wrap_int32 (ts.sdt_packet_period - 1)
      nit_packet_count := wrap_int32 (ts.nit_packet_period - 1)
      tot_packet_count := wrap_int32 (ts.tot_packet_period - 1)
      flags := ts.flags ^^^ (ts.flags &&& MPEGTS_FLAG_REEMIT_PAT_PMT) }
  else ts

/-- The value `av_rescale(s->max_delay, 90000, AV_TIME_BASE)*2` of the local
`delay` of `mpegts_write_packet_internal`. -/
def packet_delay (s : AVFormatContext) : Int :=
  av_rescale s.max_delay 90000 AV_TIME_BASE * 2

/-- The block `if (ts->copyts < 1)` of `mpegts_write_packet_internal`: the
local `pts` and `dts` after it. A sum outside the 64-bit range is undefined in
C and not modelled. -/
def packet_timestamps (ts : MpegTSWrite) (delay : Int) (pts dts : Option Int) :
    Option Int × Option Int :=
  if ts.copyts < 1 then
    (pts.map (fun v => v + delay), dts.map (fun v => v + delay))
  else (pts, dts)

/-- A call `mpegts_write_pes(s, st2, ts_st2->payload, ts_st2->payload_size,
ts_st2->payload_pts, ts_st2->payload_dts, ts_st2->payload_flags &
AV_PKT_FLAG_KEY)` for the stream number `i`, followed by `ts_st2->payload_size
= 0`. The `payload` field holds the bytes of the buffer in use, so it is
emptied with the size. -/
def packet_flush_stream (s : AVFormatContext) (pb : AVIOContext) (i : Nat) :
    Option (AVFormatContext × AVIOContext) :=
  let ts_st2 := (s.stream i).priv_data
  match mpegts_write_pes s pb i (ts_st2.payload.take ts_st2.payload_size.toNat)
      ts_st2.payload_pts ts_st2.payload_dts
      (decide (ts_st2.payload_flags &&& AV_PKT_FLAG_KEY ≠ 0)) with
  | none => none
  | some r =>
    some (r.1.update_stream i (fun ts_st => { ts_st with payload_size := 0, payload := [] }),
      r.2)

/-- The test of the loop over all streams in `mpegts_write_packet_internal`:
the stream has buffered payload, and that payload has no DTS or is older than
`delay/2` at the DTS `dts` of the new packet. -/
def packet_is_stale (ts_st2 : MpegTSWriteStream) (dts : Option Int) (delay : Int) : Bool :=
  decide (ts_st2.payload_size ≠ 0) &&
    (match ts_st2.payload_dts with
     | none => true
     | some payload_dts => decide (dts.getD AV_NOPTS_VALUE - payload_dts > Int.tdiv delay 2))

/-- One turn of that loop, for the stream number `i`; `none` when a call of
`mpegts_write_pes` before it did not return. -/
def packet_flush_stale (dts : Option Int) (delay : Int)
    (acc : Option (AVFormatContext × AVIOContext)) (i : Nat) :
    Option (AVFormatContext × AVIOContext) :=
  match acc with
  | none => none
  | some r =>
    if packet_is_stale (r.1.stream i).priv_data dts delay then packet_flush_stream r.1 r.2 i
    else some r

/-- The buffering at the end of `mpegts_write_packet_internal`: the time stamps
and flags of the packet are kept when the buffer is empty, and the bytes are
appended to the buffer. `payload_size += size` is an addition of two 32-bit
`int` values. -/
def packet_buffer (ts_st : MpegTSWriteStream) (buf : List Nat) (pts dts : Option Int)
    (flags : Nat) : MpegTSWriteStream :=
  let ts_st : MpegTSWriteStream :=
    if ts_st.payload_size = 0 then
      { ts_st with payload_pts := pts, payload_dts := dts, payload_flags := flags }
    else ts_st
  { ts_st with
    payload := ts_st.payload.take ts_st.payload_size.toNat ++ buf
    payload_size := wrap_int32 (ts_st.payload_size + buf.length) }

/-- The last part of `mpegts_write_packet_internal`, from the loop over all
streams on: `buf` holds the `size` bytes to send and `pts`, `dts` are the
local time stamps. The result is `none` when a call of `mpegts_write_pes` does
not return; the outcome `undefined` stands for the failed assertion
`av_assert0(!ts_st->payload_size)`. The sum `ts_st->payload_size + size` is a
sum of two 32-bit `int` values, with the two's complement wrap-around of the
usual targets. -/
def packet_write (s : AVFormatContext) (pb : AVIOContext) (pkt : AVPacket) (buf : List Nat)
    (pts dts : Option Int) (delay : Int) :
    Option (Outcome Unit × AVFormatContext × AVIOContext) :=
  let sti := pkt.stream_index
  let r : Option (AVFormatContext × AVIOContext) :=
    if pkt.dts ≠ none then
      (List.range s.streams.length).foldl (packet_flush_stale dts delay) (some (s, pb))
    else some (s, pb)
  match r with
  | none => none
  | some r =>
    let ts_st := (r.1.stream sti).priv_data
    let r : Option (AVFormatContext × AVIOContext) :=
      if ts_st.payload_size ≠ 0 ∧
          wrap_int32 (ts_st.payload_size + buf.length) > r.1.priv_data.pes_payload_size then
        packet_flush_stream r.1 r.2 sti
      else some r
    match r with
    | none => none
    | some r =>
      if (r.1.stream sti).codec.codec_type ≠ AVMediaType.AUDIO ∨
          (buf.length : Int) > r.1.priv_data.pes_payload_size then
        if (r.1.stream sti).priv_data.payload_size ≠ 0 then some (.undefined, r.1, r.2)
        else
          match mpegts_write_pes r.1 r.2 sti buf pts dts
              (decide (pkt.flags &&& AV_PKT_FLAG_KEY ≠ 0)) with
          | none => none
          | some w => some (.ok (), w.1, w.2)
      else
        some (.ok (),
          r.1.update_stream sti (fun ts_st => packet_buffer ts_st buf pts dts pkt.flags), r.2)

/-- `mpegts_write_packet_internal(s, pkt)`: the return value, the context and
the sink afterwards; `none` when a call of `mpegts_write_pes` does not
return. -/
def mpegts_write_packet_internal (hooks : PacketHooks) (s : AVFormatContext)
    (pb : AVIOContext) (pkt : AVPacket) :
    Option (Outcome Unit × AVFormatContext × AVIOContext) :=
  let sti := pkt.stream_index
  let delay := packet_delay s
  let s : AVFormatContext := { s with priv_data := packet_reemit s.priv_data }
  let t := packet_timestamps s.priv_data delay pkt.pts pkt.dts
  if (s.stream sti).priv_data.first_pts_check = true ∧ t.1 = none then
    some (.error .INVALIDDATA, s, pb)
  else
    let s := s.update_stream sti (fun ts_st => { ts_st with first_pts_check := false })
    match packet_payload hooks (s.stream sti) pkt with
    | .error e => some (.error e, s, pb)
    | .ok buf => packet_write s pb pkt buf t.1 t.2 delay

/-- `mpegts_write_flush`: every stream with buffered payload sends it as one
PES packet; `avio_flush` leaves the sink as it is. -/
def mpegts_write_flush (s : AVFormatContext) (pb : AVIOContext) :
    Option (AVFormatContext × AVIOContext) :=
  (List.range s.streams.length).foldl
    (fun acc i =>
      match acc with
      | none => none
      | some r =>
        if (r.1.stream i).priv_data.payload_size > 0 then packet_flush_stream r.1 r.2 i
        else some r)
    (some (s, pb))

/-- Hooks for packets that need neither: the scan ends on an access unit
delimiter and the sub-muxer returns the bytes as they are. -/
def example_hooks : PacketHooks :=
  { find_start_code_state := fun _ => 0x109
    amux_write_frame := fun data => .ok data }

/-- The stream without the two fields that `mpegts_write_pes` stores, the
continuity counter and `prev_payload_key`. -/
def AVStream.without_counter (st : AVStream) : AVStream :=
  { st with priv_data := { st.priv_data with cc := 0, prev_payload_key := false } }

/-- The options of the muxer state that no call after the header changes
except for the flag handling of `packet_reemit`: `pes_payload_size`, `copyts`,
`mux_rate`, `m2ts_mode` and `first_pcr`. -/
def ts_options (ts : MpegTSWrite) : Int × Int × Int × Int × Int :=
  (ts.pes_payload_size, ts.copyts, ts.mux_rate, ts.m2ts_mode, ts.first_pcr)

/-- What the flushes of `mpegts_write_packet_internal` can make of a stream,
counter and `prev_payload_key` apart: nothing, or an emptied buffer. -/
def stream_kept (a b : AVStream) : Prop :=
  b.without_counter = a.without_counter ∨
  b.without_counter =
    { a.without_counter with
      priv_data := { a.without_counter.priv_data with payload_size := 0, payload := [] } }

/-- The context `b` continues the context `a` after calls of `mpegts_write_pes`
and flushes: same number of streams, every stream kept, same `max_delay` and
options. -/
def ctx_kept (a b : AVFormatContext) : Prop :=
  b.streams.length = a.streams.length ∧ (∀ j, stream_kept (a.stream j) (b.stream j)) ∧
  b.max_delay = a.max_delay ∧ ts_options b.priv_data = ts_options a.priv_data

/-- The example transport with a `max_delay` of one second, before the header
is written. -/
def delay_input : AVFormatContext := { example_input with max_delay := 1000000 }

/-- The context that `mpegts_write_header` leaves for `delay_input`. -/
def delay_context : AVFormatContext :=
  match mpegts_write_header delay_input with
  | .ok s => s
  | _ => delay_input

/-- The streams that the header leaves when every check passes, from stream
number `i` on: stream `j` belongs to the service `j mod 2`, and its PID is
`start_pid + j` for a stream id below 16 and the stream id otherwise. -/
def header_assigned (ts : MpegTSWrite) : Nat → List AVStream → List AVStream
  | _, [] => []
  | i, st :: rest =>
    { st with priv_data := header_stream_priv (i % 2) (header_stream_pid ts i st) st } ::
      header_assigned ts (i + 1) rest

/-- The checks of the specification on the streams from number `i` on, `pids`
being the PIDs of the streams before: the stream id is below `0x1FFF`, and the
PID is neither the PMT PID of the service of the stream nor the PID of a stream
before it. -/
def header_checks (ts : MpegTSWrite) : List Nat → Nat → List AVStream → Prop
  | _, _, [] => True
  | pids, i, st :: rest =>
    st.id < 0x1FFF ∧
    header_stream_pid ts i st ≠ (ts.services.getD (i % 2) MpegTSService.zero).pmt.pid ∧
    header_stream_pid ts i st ∉ pids ∧
    header_checks ts (pids ++ [header_stream_pid ts i st]) (i + 1) rest

/-- What the stream loop of `mpegts_write_header` leaves alone in the muxer
state: `start_pid`, `final_nb_services`, and the id and PMT section of every
service. -/
def header_frame (a b : MpegTSWrite) : Prop :=
  b.start_pid = a.start_pid ∧ b.final_nb_services = a.final_nb_services ∧
  b.services.map (fun service => (service.sid, service.pmt)) =
    a.services.map (fun service => (service.sid, service.pmt))

/-- A transport with two streams whose ids are PIDs of tables: the video stream
has the id `0x1FC9`, the PMT PID of the LD service, and the audio stream the id
`0x10`, the PID of the NIT. -/
def table_pid_input : AVFormatContext :=
  { example_input with
    streams := [{ example_video with id := 0x1FC9 }, { example_audio with id := 0x10 }] }

/-- The context that `mpegts_write_header` leaves for `table_pid_input`. -/
def table_pid_context : AVFormatContext :=
  match mpegts_write_header table_pid_input with
  | .ok s => s
  | _ => table_pid_input

/-- A transport with two streams of the same id `0x100`. -/
def duplicate_pid_input : AVFormatContext :=
  { example_input with
    streams := [{ example_video with id := 0x100 }, { example_audio with id := 0x100 }] }

/-- A transport of four streams: audio, audio, video, audio. The HD service
owns streams 0 and 2, the LD service streams 1 and 3. -/
def four_stream_input : AVFormatContext :=
  { example_input with streams := [example_audio, example_audio, example_video, example_audio] }

/-- The context that `mpegts_write_header` leaves for `four_stream_input`. -/
def four_stream_context : AVFormatContext :=
  match mpegts_write_header four_stream_input with
  | .ok s => s
  | _ => four_stream_input

/-- The example transport at a constant bit rate of 10 kbit/s, before the
header is written. -/
def low_rate_input : AVFormatContext :=
  { example_input with priv_data := { MpegTSWrite.defaults with mux_rate := 10000 } }

/-- The context that `mpegts_write_header` leaves for `low_rate_input`. -/
def low_rate_context : AVFormatContext :=
  match mpegts_write_header low_rate_input with
  | .ok s => s
  | _ => low_rate_input

/-! ## The counters of `retransmit_si_info` -/

/-- The counters of the four tables of `retransmit_si_info` with their periods:
SDT, NIT, TOT and PAT, each as the pair of count and period. -/
def si_counters (ts : MpegTSWrite) : (Int × Int) × (Int × Int) × (Int × Int) × (Int × Int) :=
  ((ts.sdt_packet_count, ts.sdt_packet_period), (ts.nit_packet_count, ts.nit_packet_period),
   (ts.tot_packet_count, ts.tot_packet_period), (ts.pat_packet_count, ts.pat_packet_period))

/-- The test `++count == period || force` that `retransmit_si_info` makes for
a table. -/
def si_due (count period : Int) (force : Bool) : Bool :=
  decide (wrap_int32 (count + 1) = period) || force

/-- The value that `retransmit_si_info` leaves in a counter: 0 when the table
went out, the incremented counter otherwise. -/
def si_count_next (count period : Int) (force : Bool) : Int :=
  if si_due count period force then 0 else wrap_int32 (count + 1)

/-- The context and the sink after the first call of `retransmit_si_info` on
the 10 kbit/s transport. -/
def low_rate_first : AVFormatContext × AVIOContext :=
  retransmit_si_info low_rate_context ⟨0, []⟩ false

/-- The context and the sink after the second call. -/
def low_rate_second : AVFormatContext × AVIOContext :=
  retransmit_si_info low_rate_first.1 low_rate_first.2 false

/-! ## What the header leaves in the muxer state -/

/-- The statement `ts->pes_payload_size = (ts->pes_payload_size + 14 + 183) /
184 * 184 - 14` of `mpegts_write_header`, in 32-bit `int` arithmetic. -/
def round_pes_payload_size (x : Int) : Int :=
  wrap_int32 (wrap_int32 (Int.tdiv (wrap_int32 (x + 14 + 183)) 184 * 184) - 14)

/-- The fields of the muxer state that `mpegts_write_header` does not touch
after its first part `header_prepare`: the four table sections, the options,
and the id and names of every service. -/
def header_static (ts : MpegTSWrite) :
    (MpegTSSection × MpegTSSection × MpegTSSection × MpegTSSection) ×
    (Int × Int × Int × Int × Nat × Nat × Nat) ×
    (Nat × Nat × Nat × Nat × Nat) × (Int × Nat) ×
    List (Nat × Option (List Nat) × Option (List Nat)) :=
  ((ts.pat, ts.sdt, ts.nit, ts.tot),
   (ts.pes_payload_size, ts.mux_rate, ts.copyts, ts.transmission_profile, ts.onid, ts.tsid,
    ts.tables_version),
   (ts.area_code, ts.guard_interval, ts.transmission_mode, ts.physical_channel,
    ts.virtual_channel),
   (ts.reemit_pat_pmt, ts.flags),
   ts.services.map (fun service => (service.sid, service.name, service.provider_name)))

/-- The four table counters are one below their periods, in 32-bit
arithmetic. -/
def counters_armed (ts : MpegTSWrite) : Prop :=
  ts.pat_packet_count = wrap_int32 (ts.pat_packet_period - 1) ∧
  ts.sdt_packet_count = wrap_int32 (ts.sdt_packet_period - 1) ∧
  ts.nit_packet_count = wrap_int32 (ts.nit_packet_period - 1) ∧
  ts.tot_packet_count = wrap_int32 (ts.tot_packet_period - 1)

/-- The four table periods are values of a 32-bit `int`. -/
def periods_int32 (ts : MpegTSWrite) : Prop :=
  (-2 ^ 31 ≤ ts.pat_packet_period ∧ ts.pat_packet_period < 2 ^ 31) ∧
  (-2 ^ 31 ≤ ts.sdt_packet_period ∧ ts.sdt_packet_period < 2 ^ 31) ∧
  (-2 ^ 31 ≤ ts.nit_packet_period ∧ ts.nit_packet_period < 2 ^ 31) ∧
  (-2 ^ 31 ≤ ts.tot_packet_period ∧ ts.tot_packet_period < 2 ^ 31)

/-- The test `dts != AV_NOPTS_VALUE && dts < pcr / 300` that `mpegts_write_pes`
makes on the PCR it is about to write; when it holds the function logs "dts <
pcr, TS is invalid". -/
def pes_dts_before_pcr (ts : MpegTSWrite) (pb : AVIOContext) (dts : Option Int)
    (delay : Int) : Bool :=
  match dts with
  | none => false
  | some d => decide (d < Int.tdiv (pes_pcr ts pb dts delay) 300)

/-- Options with area code 1, guard interval 4 and transmission mode 4. -/
def guard_four_options : MpegTSWrite :=
  { MpegTSWrite.defaults with area_code := 1, guard_interval := 4, transmission_mode := 4 }

/-- Options with area code 1, guard interval 1 and transmission mode 4. -/
def guard_one_options : MpegTSWrite :=
  { MpegTSWrite.defaults with area_code := 1, guard_interval := 1, transmission_mode := 4 }

/-! ## The NIT buffer, in the words of the specification -/

/-- The entry of a service in the TS Information descriptor as the code writes
it: transmission type `0xAF` when the test `sid & 0x18 >> 3` holds and `0x0F`
otherwise, the count 1 and the service id. -/
def nit_transmission_entry (service : MpegTSService) : List Nat :=
  [if service.sid &&& (0x18 >>> 3) ≠ 0 then 0xAF else 0x0F, 0x01] ++ put16 service.sid

/-- The Partial Reception descriptor of a service: tag `0xFB`, length 2 and the
service id when both service-type bits of the id are set, nothing otherwise. -/
def nit_partial_entry (service : MpegTSService) : List Nat :=
  if (service.sid &&& 0x18) >>> 3 = 0x3 then [0xFB, 0x02] ++ put16 service.sid else []

/-- The network descriptors of the NIT: the Network Name descriptor and the
System Management descriptor. -/
def nit_network_area : List Nat :=
  [0x40, DEFAULT_NETWORK_NAME.length] ++ DEFAULT_NETWORK_NAME ++ [0xFE, 0x02, 0x03, 0x01]

/-- The transmission-type entries of the TS Information descriptor: none for
transmission profile 2, one per service otherwise. -/
def nit_transmission_entries (ts : MpegTSWrite) : List Nat :=
  if ts.transmission_profile = 2 then [] else (ts.services.map nit_transmission_entry).flatten

/-- The transport descriptors of the NIT: TS Information, Service List, the
Partial Reception descriptors and Terrestrial Delivery System, each as tag,
length and content. -/
def nit_transport_area (ts : MpegTSWrite) : List Nat :=
  [0xCD, 2 + DEFAULT_NETWORK_NAME.length + (nit_transmission_entries ts).length,
    ts.virtual_channel % 256, ((DEFAULT_NETWORK_NAME.length <<< 2) ||| 0x2) % 256] ++
    DEFAULT_NETWORK_NAME ++ nit_transmission_entries ts ++
  ([0x41, 3 * ts.services.length] ++
    (ts.services.map (fun service => put16 service.sid ++ [0x01])).flatten) ++
  (ts.services.map nit_partial_entry).flatten ++
  ([0xFA, 0x04] ++
    put16 ((ts.area_code <<< 4) ||| (ts.guard_interval <<< 2) ||| ts.transmission_mode) ++
    put16 (int_low16 ((473 + 6 * ((ts.physical_channel : Int) - 14) + Int.tdiv 1 7) * 7)))

/-- The tags of the descriptors that tile a descriptor area exactly: each
descriptor is a tag, a length byte and that many bytes. `none` when the area is
not such a sequence. The first argument bounds the number of descriptors. -/
def descriptor_tags_loop : Nat → List Nat → Option (List Nat)
  | _, [] => some []
  | 0, _ :: _ => none
  | _ + 1, [_] => none
  | fuel + 1, tag :: len :: rest =>
    if len ≤ rest.length then
      (descriptor_tags_loop fuel (rest.drop len)).map (fun tags => tag :: tags)
    else none

/-- The tags of the descriptors that tile the area `area`. -/
def descriptor_tags (area : List Nat) : Option (List Nat) :=
  descriptor_tags_loop area.length area

/-- A descriptor as it lies in a buffer: tag, length byte and content. -/
def descriptor_bytes (d : Nat × List Nat) : List Nat :=
  d.1 :: d.2.length :: d.2

/-- The descriptors of the transport area of the NIT, as pairs of tag and
content. -/
def nit_transport_descriptors (ts : MpegTSWrite) : List (Nat × List Nat) :=
  [(0xCD, [ts.virtual_channel % 256, ((DEFAULT_NETWORK_NAME.length <<< 2) ||| 0x2) % 256] ++
      DEFAULT_NETWORK_NAME ++ nit_transmission_entries ts),
   (0x41, (ts.services.map (fun service => put16 service.sid ++ [0x01])).flatten)] ++
  (ts.services.filter (fun service => (service.sid &&& 0x18) >>> 3 = 0x3)).map
    (fun service => (0xFB, put16 service.sid)) ++
  [(0xFA,
    put16 ((ts.area_code <<< 4) ||| (ts.guard_interval <<< 2) ||| ts.transmission_mode) ++
    put16 (int_low16 ((473 + 6 * ((ts.physical_channel : Int) - 14) + Int.tdiv 1 7) * 7)))]

/-! ## The language tag of the PMT, in the words of the specification -/

/-- The comma-separated tokens of a language tag. -/
def language_tokens : List Nat → List (List Nat)
  | [] => [[]]
  | x :: xs =>
    if x = 0x2c then [] :: language_tokens xs
    else
      match language_tokens xs with
      | [] => [[x]]
      | t :: ts => (x :: t) :: ts

/-- The tag text that a list of tokens stands for: the tokens with a comma
between them. -/
def language_join : List (List Nat) → List Nat
  | [] => []
  | [t] => t
  | t :: u :: ts => t ++ 0x2c :: language_join (u :: ts)

/-- The language entries that the code takes from the tokens of a tag, in
order: a token gives an entry when it is exactly three characters long, or when
the tag text from its start to the end of the tag is exactly three characters
long; the entry holds the three characters from the start of the token on. -/
def language_entries : List (List Nat) → List (List Nat)
  | [] => []
  | t :: ts =>
    (if t.length = 3 ∨ (language_join (t :: ts)).length = 3 then
      [(language_join (t :: ts)).take 3] else []) ++
    language_entries ts

/-- The number of entries that the loop guard lets through when the
descriptor starts after `n` bytes of `data`: at most 63, the length byte
staying below 252, and an entry being written only while fewer than 1008
bytes of the buffer are in use. -/
def language_cap (n : Nat) : Nat :=
  min 63 ((1009 - n) / 4)

/-- The ISO 639 language descriptor in the words of the specification,
appended to the `n = q.length` bytes written so far: tag `0x0A`, the length
`4k` and `k` entries of three characters and the audio type; nothing when no
entry is written. -/
def language_descriptor_spec (value : List Nat) (d : Disposition) (q : List Nat) : List Nat :=
  let entries := (language_entries (language_tokens value)).take (language_cap q.length)
  if entries = [] then q
  else q ++ [0x0a, 4 * entries.length] ++
    (entries.map (fun entry => entry ++ [pmt_audio_type d])).flatten

/-- An audio stream with the language tag `"a,b"`. -/
def comma_audio : AVStream := { example_audio with language := some [0x61, 0x2c, 0x62] }

/-! ## The buffers of the audio streams -/

/-- The buffering invariant of the muxer loop: `pes_payload_size` is not
negative, and every stream has between 0 and `pes_payload_size` bytes in its
buffer, as many as `payload_size` says, and none at all unless it is an audio
stream. -/
def buffers_ok (s : AVFormatContext) : Prop :=
  0 ≤ s.priv_data.pes_payload_size ∧
  ∀ j, j < s.streams.length →
    0 ≤ (s.stream j).priv_data.payload_size ∧
    (s.stream j).priv_data.payload_size ≤ s.priv_data.pes_payload_size ∧
    ((s.stream j).priv_data.payload.length : Int) = (s.stream j).priv_data.payload_size ∧
    ((s.stream j).codec.codec_type ≠ AVMediaType.AUDIO →
      (s.stream j).priv_data.payload_size = 0)

/-- An audio packet of 1000 bytes for stream 1 of the example transport. -/
def example_audio_packet : AVPacket :=
  { stream_index := 1, data := List.replicate 1000 0x55, pts := some 0, dts := some 0,
    flags := 0 }

/-- The return value, the context and the sink after
`mpegts_write_packet_internal` on `example_audio_packet`, the first packet of
the example transport. -/
def example_buffered : Outcome Unit × AVFormatContext × AVIOContext :=
  match mpegts_write_packet_internal example_hooks example_context ⟨0, []⟩
      example_audio_packet with
  | some res => res
  | none => (.undefined, example_context, ⟨0, []⟩)

/-! ## The sink only grows -/

/-- The sink `b` continues the sink `a`: the position has not gone back and
the buffers written to `a` are the first ones of `b`. -/
def sink_grows (a b : AVIOContext) : Prop :=
  a.pos ≤ b.pos ∧ ∃ more : List (List Nat), b.written = a.written ++ more

/-- What the loop of `mpegts_write_pes` keeps true whatever the PIDs are:
`mux_rate` and `first_pcr` have the values `mux` and `first`, and
`payload_size` counts the bytes left in `payload`, plus the closing byte of a
DVB subtitle once the PES header is written. -/
def pes_sizes_ok (mux first : Int) (x : PesState) : Prop :=
  x.s.priv_data.mux_rate = mux ∧ x.s.priv_data.first_pcr = first ∧
  (x.payload_size = 0 ∨
    x.payload_size = x.payload.length +
      (if x.is_start = false ∧ x.is_dvb_subtitle = true then 1 else 0))

/-- The example transport in CBR mode with a `muxrate` of 2000000 bit/s,
before the header is written. -/
def two_mbit_input : AVFormatContext :=
  { example_input with priv_data := { MpegTSWrite.defaults with mux_rate := 2000000 } }

/-- The context that `mpegts_write_header` leaves for `two_mbit_input`. -/
def two_mbit_context : AVFormatContext :=
  match mpegts_write_header two_mbit_input with
  | .ok s => s
  | _ => two_mbit_input

/-! ## The loop of `mpegts_write_pes` with its 64-bit wait test -/

/-- Value of a signed 64-bit `int64_t` after an arithmetic operation or a
conversion, with the two's complement wrap-around of the usual targets. -/
def wrap_int64 (x : Int) : Int := (x + 2 ^ 63) % 2 ^ 64 - 2 ^ 63

/-- The test `ts->mux_rate > 1 && dts != AV_NOPTS_VALUE && (dts - get_pcr(ts,
s->pb)/300) > delay` of `mpegts_write_pes` with the 64-bit operands of the
source: `get_pcr` returns an `int64_t`, the 64 low bits of the value that
`get_pcr` stands for, and the difference is an `int64_t` difference.
`pes_must_wait` is the same test over the integers. -/
def pes_must_wait_int64 (ts : MpegTSWrite) (pb : AVIOContext) (dts : Option Int)
    (delay : Int) : Bool :=
  match dts with
  | none => false
  | some d =>
    decide (ts.mux_rate > 1) &&
      decide (wrap_int64 (d - Int.tdiv (wrap_int64 (get_pcr ts pb)) 300) > delay)

/-- One turn of the `while (payload_size > 0)` loop of `mpegts_write_pes` for
the stream number `sti`, with the wait test in 64-bit arithmetic. -/
def pes_step_int64 (sti : Nat) (pts dts : Option Int) (key : Bool) (delay : Int)
    (x : PesState) : PesState :=
  let r := retransmit_si_info x.s x.pb x.force_pat
  let on_pcr_pid : Bool :=
    (r.1.stream sti).priv_data.pid =
      (r.1.priv_data.services.getD (r.1.stream sti).priv_data.service MpegTSService.zero).pcr_pid
  let d := pes_pcr_due r.1 sti x.is_start
  let s := d.1
  let pb := r.2
  let write_pcr := d.2
  if pes_must_wait_int64 s.priv_data pb dts delay then
    let pb :=
      if write_pcr then mpegts_insert_pcr_only s.priv_data pb (s.stream sti)
      else mpegts_insert_null_packet s.priv_data pb
    { x with s := s, pb := pb, force_pat := false }
  else
    let cc := ((s.stream sti).priv_data.cc + 1) &&& 0xf
    let s := s.update_stream sti (fun ts_st => { ts_st with cc := cc })
    let p := pes_packet s.priv_data pb (s.stream sti) cc on_pcr_pid write_pcr key pts dts delay
      x.is_start x.is_dvb_subtitle x.payload x.payload_size
    let pb := avio_write (mpegts_prefix_m2ts_header s.priv_data pb) (p.1.take TS_PACKET_SIZE)
    { s := s, pb := pb, is_start := false, force_pat := false,
      payload := x.payload.drop p.2.2.1, payload_size := p.2.1,
      is_dvb_subtitle := p.2.2.2 }

/-- The `while (payload_size > 0)` loop of `mpegts_write_pes` with the wait
test in 64-bit arithmetic; the first argument bounds the number of turns, and
the result is `none` when the bound is reached with payload left. -/
def pes_loop_int64 :
    Nat → Nat → Option Int → Option Int → Bool → Int → PesState → Option PesState
  | 0, _, _, _, _, _, x => if x.payload_size > 0 then none else some x
  | fuel + 1, sti, pts, dts, key, delay, x =>
    if x.payload_size > 0 then
      pes_loop_int64 fuel sti pts dts key delay (pes_step_int64 sti pts dts key delay x)
    else some x

/-- `mpegts_write_pes(s, st, payload, payload_size, pts, dts, key)` with the
wait test in 64-bit arithmetic, for at most `fuel` turns of the loop: `none`
when the loop has not ended by then. -/
def mpegts_write_pes_int64 (fuel : Nat) (s : AVFormatContext) (pb : AVIOContext) (sti : Nat)
    (payload : List Nat) (pts dts : Option Int) (key : Bool) :
    Option (AVFormatContext × AVIOContext) :=
  let st := s.stream sti
  let ts_st := st.priv_data
  let delay := av_rescale s.max_delay 90000 AV_TIME_BASE
  let force_pat : Bool :=
    decide (st.codec.codec_type = .VIDEO) && key && !ts_st.prev_payload_key
  let x : PesState :=
    { s := s, pb := pb, is_start := true, force_pat := force_pat, payload := payload,
      payload_size := payload.length, is_dvb_subtitle := false }
  match pes_loop_int64 fuel sti pts dts key delay x with
  | none => none
  | some x => some (x.s.update_stream sti (fun ts_st => { ts_st with prev_payload_key := key }),
      x.pb)

/-- The most bytes that one turn of the loop of `mpegts_write_pes` can hand to
the sink: at most six packets for each of the four tables and for the PMT of
each service, and the packet of the turn, each with the four bytes of the
`m2ts` prefix. -/
def pes_turn_bytes (ts : MpegTSWrite) : Nat := 192 * (25 + 6 * ts.services.length)

/-- The 64-bit values of the wait test are in range at the sink offset `pos`
and stay so for `turns` more turns of the loop. Nothing is asked without a DTS
or in VBR mode (`mux_rate ≤ 1`), where the test does not read them. In CBR
mode with the DTS `d`: `d` is within `2^62` of 0, `first_pcr` is not negative,
and `get_pcr` is still below `2^63` at the sink offset `pos + pes_turn_bytes *
(turns + 1)`, which the turns cannot pass. -/
def pes_in_range (ts : MpegTSWrite) (pos turns : Nat) (dts : Option Int) : Prop :=
  match dts with
  | none => True
  | some d =>
    ts.mux_rate ≤ 1 ∨
      (-2 ^ 62 ≤ d ∧ d < 2 ^ 62 ∧ 0 ≤ ts.first_pcr ∧
        get_pcr ts ⟨pos + pes_turn_bytes ts * (turns + 1), []⟩ < 2 ^ 63)

/-- An audio packet for stream 1 of the example transport whose size is
`INT_MAX`, with a PTS and no DTS. -/
def huge_audio_packet : AVPacket :=
  { stream_index := 1, data := List.replicate 2147483647 0x55, pts := some 0, dts := none,
    flags := 0 }

theorem and_0xf_eq_mod (x : Nat) : x &&& 0xf = x % 16 :=
  Nat.and_pow_two_sub_one_eq_mod x 4

theorem and_0xff_eq_mod (x : Nat) : x &&& 0xff = x % 256 :=
  Nat.and_pow_two_sub_one_eq_mod x 8

theorem section_packet_snd (pid cc : Nat) (first : Bool) (buf : List Nat) (off len : Nat) :
    (section_packet pid cc first buf off len).2 = min (section_room first) len := by
  cases first <;> simp [section_packet, section_room, TS_PACKET_SIZE] <;> split <;> omega

theorem section_packet_fst (pid cc : Nat) (first : Bool) (buf : List Nat) (off len : Nat)
    (h : off + len ≤ buf.length) :
    (section_packet pid cc first buf off len).1 =
      [0x47, (if first then pid >>> 8 ||| 0x40 else pid >>> 8) % 256, pid % 256,
        (0x10 ||| cc) % 256] ++ (if first then [0] else []) ++
        (buf.drop off).take (min (section_room first) len) ++
        List.replicate (section_room first - min (section_room first) len) 0xff := by
  cases first
  · simp only [section_packet, section_room, TS_PACKET_SIZE]
    by_cases hl : 184 > len
    · have h1 : min 184 len = len := by omega
      simp [hl, h1, List.length_take, List.length_drop]
      have h2 : min len (buf.length - off) = len := by omega
      simp [h2]
    · have h1 : min 184 len = 184 := by omega
      simp [hl, h1, List.length_take, List.length_drop]
      omega
  · simp only [section_packet, section_room, TS_PACKET_SIZE]
    by_cases hl : 183 > len
    · have h1 : min 183 len = len := by omega
      simp [hl, h1, List.length_take, List.length_drop]
      have h2 : min len (buf.length - off) = len := by omega
      simp [h2]
    · have h1 : min 183 len = 183 := by omega
      simp [hl, h1, List.length_take, List.length_drop]
      omega

theorem section_loop_zero_len (fuel : Nat) (s : MpegTSSection) (buf : List Nat) (off : Nat) :
    section_loop fuel s buf off 0 = (s, []) := by
  cases fuel <;> simp [section_loop]

theorem section_loop_succ (fuel : Nat) (s : MpegTSSection) (buf : List Nat) (off len : Nat)
    (h : 0 < len) :
    section_loop (fuel + 1) s buf off len =
      ((section_loop fuel ⟨s.pid, (s.cc + 1) % 16⟩ buf
          (off + min (section_room (off == 0)) len) (len - min (section_room (off == 0)) len)).1,
        (section_packet s.pid ((s.cc + 1) % 16) (off == 0) buf off len).1 ::
        (section_loop fuel ⟨s.pid, (s.cc + 1) % 16⟩ buf
          (off + min (section_room (off == 0)) len) (len - min (section_room (off == 0)) len)).2) := by
  simp [section_loop, h, section_packet_snd, and_0xf_eq_mod]

theorem byte1_bits : ∀ x < 32,
    (x % 256 &&& 0x1f = x ∧ x % 256 &&& 0x80 = 0 ∧ x % 256 &&& 0x20 = 0 ∧ x % 256 &&& 0x40 = 0) ∧
    ((x ||| 0x40) % 256 &&& 0x1f = x ∧ (x ||| 0x40) % 256 &&& 0x80 = 0 ∧
      (x ||| 0x40) % 256 &&& 0x20 = 0 ∧ (x ||| 0x40) % 256 &&& 0x40 = 0x40) := by
  decide

theorem byte3_bits : ∀ c < 16,
    ((0x10 ||| c) % 256) >>> 4 = 1 ∧ ((0x10 ||| c) % 256) &&& 0xf = c := by
  decide

theorem section_packet_ok (pid cc : Nat) (first : Bool) (buf : List Nat) (off len : Nat)
    (h : off + len ≤ buf.length) (hpid : pid < 0x2000) (hcc : cc < 16) :
    section_header_ok pid cc (section_packet pid cc first buf off len).1 ∧
    ((section_packet pid cc first buf off len).1.getD 1 0 &&& 0x40 = 0x40 ↔ first = true) ∧
    (first = true → (section_packet pid cc first buf off len).1.getD 4 0 = 0) := by
  have hx : pid >>> 8 < 32 := by rw [Nat.shiftRight_eq_div_pow]; omega
  have hb := byte1_bits (pid >>> 8) hx
  have hc := byte3_bits cc hcc
  rw [section_packet_fst pid cc first buf off len h]
  cases first
  · have hm : min 184 len ≤ 184 := by omega
    have hl : off + min 184 len ≤ buf.length := by omega
    simp [section_header_ok, section_room, hb.1, and_0xff_eq_mod, List.length_take,
      List.length_drop]
    exact ⟨by omega, hc⟩
  · have hm : min 183 len ≤ 183 := by omega
    have hl : off + min 183 len ≤ buf.length := by omega
    simp [section_header_ok, section_room, hb.2, and_0xff_eq_mod, List.length_take,
      List.length_drop]
    exact ⟨by omega, hc⟩

/-- Every packet produced by the loop has a well-formed header, carries the
counter `(cc + k + 1) mod 16`, and has the start indicator exactly when it is
the packet built at read offset 0. -/
theorem section_loop_packets (buf : List Nat) (pid : Nat) (hpid : pid < 0x2000) :
    ∀ (fuel len off cc : Nat), len ≤ fuel → off + len ≤ buf.length →
    ∀ (k : Nat) (hk : k < (section_loop fuel ⟨pid, cc⟩ buf off len).2.length),
      section_header_ok pid ((cc + k + 1) % 16)
        ((section_loop fuel ⟨pid, cc⟩ buf off len).2.get ⟨k, hk⟩) ∧
      (((section_loop fuel ⟨pid, cc⟩ buf off len).2.get ⟨k, hk⟩).getD 1 0 &&& 0x40 = 0x40 ↔
        (k = 0 ∧ off = 0)) ∧
      (k = 0 ∧ off = 0 →
        ((section_loop fuel ⟨pid, cc⟩ buf off len).2.get ⟨k, hk⟩).getD 4 0 = 0) := by
  intro fuel
  induction fuel with
  | zero =>
    intro len off cc _ _ k hk
    simp [section_loop] at hk
  | succ fuel ih =>
    intro len off cc hf hb k hk
    rcases Nat.eq_zero_or_pos len with h0 | hpos
    · subst h0
      simp [section_loop_zero_len] at hk
    · have hstep := section_loop_succ fuel ⟨pid, cc⟩ buf off len hpos
      simp only at hstep
      have hroom : 0 < min (section_room (off == 0)) len := by
        cases (off == 0) <;> simp [section_room] <;> omega
      have hmin : min (section_room (off == 0)) len ≤ len := by omega
      revert hk
      rw [hstep]
      intro hk
      cases k with
      | zero =>
        have hp := section_packet_ok pid ((cc + 1) % 16) (off == 0) buf off len hb hpid
          (Nat.mod_lt _ (by decide))
        simpa using hp
      | succ k =>
        have hk2 : k < (section_loop fuel ⟨pid, (cc + 1) % 16⟩ buf
            (off + min (section_room (off == 0)) len)
            (len - min (section_room (off == 0)) len)).2.length := by
          simpa using hk
        have := ih (len - min (section_room (off == 0)) len)
          (off + min (section_room (off == 0)) len) ((cc + 1) % 16) (by omega) (by omega) k hk2
        have hcc : ((cc + 1) % 16 + k + 1) % 16 = (cc + (k + 1) + 1) % 16 := by omega
        rw [hcc] at this
        have hne : ¬ (off + min (section_room (off == 0)) len = 0) := by omega
        simpa [hne] using this

/-- The counter of the section after the loop, and its PID. -/
theorem section_loop_state (buf : List Nat) :
    ∀ (fuel len off : Nat) (s : MpegTSSection), len ≤ fuel →
      (section_loop fuel s buf off len).1.pid = s.pid ∧
      (section_loop fuel s buf off len).1.cc =
        if (section_loop fuel s buf off len).2.length = 0 then s.cc
        else (s.cc + (section_loop fuel s buf off len).2.length) % 16 := by
  intro fuel
  induction fuel with
  | zero => intro len off s _; simp [section_loop]
  | succ fuel ih =>
    intro len off s hf
    rcases Nat.eq_zero_or_pos len with h0 | hpos
    · subst h0; simp [section_loop_zero_len]
    · have hroom : 0 < min (section_room (off == 0)) len := by
        cases (off == 0) <;> simp [section_room] <;> omega
      rw [section_loop_succ fuel s buf off len hpos]
      have := ih (len - min (section_room (off == 0)) len)
        (off + min (section_room (off == 0)) len) ⟨s.pid, (s.cc + 1) % 16⟩ (by omega)
      simp only [List.length_cons]
      refine ⟨this.1, ?_⟩
      rw [this.2]
      split <;> simp <;> omega

/-- Packets after the first: their payloads are the remaining section bytes
followed by the padding of the last packet. -/
theorem section_loop_tail (buf : List Nat) :
    ∀ (fuel len off : Nat) (s : MpegTSSection), len ≤ fuel → 0 < off →
      off + len ≤ buf.length →
      ((section_loop fuel s buf off len).2.map (List.drop 4)).flatten =
        (buf.drop off).take len ++ List.replicate (184 * ((len + 183) / 184) - len) 0xff ∧
      (section_loop fuel s buf off len).2.length = (len + 183) / 184 := by
  intro fuel
  induction fuel with
  | zero =>
    intro len off s hf _ _
    have : len = 0 := by omega
    subst this
    simp [section_loop]
  | succ fuel ih =>
    intro len off s hf hoff hb
    rcases Nat.eq_zero_or_pos len with h0 | hpos
    · subst h0; simp [section_loop_zero_len]
    · have hne : (off == 0) = false := by simp; omega
      rw [section_loop_succ fuel s buf off len hpos, hne]
      simp only [section_room, Bool.false_eq_true, if_false]
      rw [section_packet_fst _ _ _ _ _ _ hb]
      simp only [section_room, Bool.false_eq_true, if_false]
      have ih' := ih (len - min 184 len) (off + min 184 len) ⟨s.pid, (s.cc + 1) % 16⟩
        (by omega) (by omega) (by omega)
      simp only [List.map_cons, List.flatten_cons, List.length_cons]
      rw [ih'.1, ih'.2]
      by_cases hl : len ≤ 184
      · have h1 : min 184 len = len := by omega
        have h2 : (len + 183) / 184 = 1 := by omega
        simp [h1, h2]
      · have h1 : min 184 len = 184 := by omega
        have h3 : len = 184 + (len - 184) := by omega
        have h4 : (len + 183) / 184 = (len - 184 + 183) / 184 + 1 := by omega
        rw [h1]
        refine ⟨?_, by omega⟩
        conv_rhs => rw [h3, List.take_add, List.drop_drop]
        have h5 : 184 * ((184 + (len - 184) + 183) / 184) - (184 + (len - 184)) =
            184 * ((len - 184 + 183) / 184) - (len - 184) := by omega
        rw [h5]
        simp

/-- Reassembling the packets of the whole loop gives back the first `len`
bytes of the buffer, followed by `0xFF` padding up to the packet boundary. -/
theorem section_loop_reassemble (buf : List Nat) (len : Nat) (s : MpegTSSection)
    (hpos : 0 < len) (hb : len ≤ buf.length) :
    section_reassemble (section_loop len s buf 0 len).2 =
        buf.take len ++
          List.replicate (183 + 184 * ((len - 183 + 183) / 184) - len) 0xff ∧
      (section_loop len s buf 0 len).2.length = 1 + (len - 183 + 183) / 184 := by
  obtain ⟨fuel, rfl⟩ : ∃ fuel, len = fuel + 1 := ⟨len - 1, by omega⟩
  rw [section_loop_succ fuel s buf 0 (fuel + 1) hpos]
  have hfirst : ((0 : Nat) == 0) = true := rfl
  rw [hfirst]
  simp only [section_room, if_true, section_reassemble, List.length_cons]
  rw [section_packet_fst _ _ _ _ _ _ (by omega)]
  simp only [section_room, if_true]
  by_cases hl : fuel + 1 ≤ 183
  · have h1 : min 183 (fuel + 1) = fuel + 1 := by omega
    have h2 : (fuel + 1 - 183 + 183) / 184 = 0 := by omega
    simp [h1, h2, section_loop_zero_len]
    omega
  · have h1 : min 183 (fuel + 1) = 183 := by omega
    rw [h1]
    have ht := section_loop_tail buf fuel (fuel + 1 - 183) (0 + 183) ⟨s.pid, (s.cc + 1) % 16⟩
      (by omega) (by omega) (by omega)
    rw [ht.1, ht.2]
    refine ⟨?_, by omega⟩
    have h3 : fuel + 1 = 183 + (fuel + 1 - 183) := by omega
    conv_rhs => rw [h3, List.take_add]
    have h5 : 183 + 184 * ((183 + (fuel + 1 - 183) - 183 + 183) / 184) -
        (183 + (fuel + 1 - 183)) =
        184 * ((fuel + 1 - 183 + 183) / 184) - (fuel + 1 - 183) := by omega
    rw [h5]
    simp

/-- The iteration bound of `section_loop` is never reached: any bound of at
least `len` gives the same result. -/
theorem section_loop_fuel (buf : List Nat) :
    ∀ (fuel len off : Nat) (s : MpegTSSection), len ≤ fuel →
      section_loop fuel s buf off len = section_loop len s buf off len := by
  intro fuel
  induction fuel using Nat.strong_induction_on with
  | _ fuel ih =>
    intro len off s hf
    rcases Nat.eq_zero_or_pos len with h0 | hpos
    · subst h0; simp [section_loop_zero_len]
    · obtain ⟨l, rfl⟩ : ∃ l, len = l + 1 := ⟨len - 1, by omega⟩
      obtain ⟨f, rfl⟩ : ∃ f, fuel = f + 1 := ⟨fuel - 1, by omega⟩
      have hroom : 0 < min (section_room (off == 0)) (l + 1) := by
        cases (off == 0) <;> simp [section_room]
      rw [section_loop_succ f s buf off (l + 1) hpos,
        section_loop_succ l s buf off (l + 1) hpos]
      rw [ih f (by omega) _ _ _
          (by omega : l + 1 - min (section_room (off == 0)) (l + 1) ≤ f),
        ih l (by omega) _ _ _
          (by omega : l + 1 - min (section_room (off == 0)) (l + 1) ≤ l)]

theorem crc32_mpeg_bit_lt (crc : Nat) : crc32_mpeg_bit crc < 2 ^ 32 := by
  unfold crc32_mpeg_bit
  split <;> exact Nat.mod_lt _ (by decide)

theorem crc32_mpeg_byte_lt (crc b : Nat) : crc32_mpeg_byte crc b < 2 ^ 32 :=
  crc32_mpeg_bit_lt _

theorem crc32_mpeg_foldl_lt (data : List Nat) :
    ∀ init, init < 2 ^ 32 → data.foldl crc32_mpeg_byte init < 2 ^ 32 := by
  induction data with
  | nil => intro init h; simpa using h
  | cons b bs ih => intro init _; exact ih _ (crc32_mpeg_byte_lt init b)

theorem crc32_mpeg_lt (data : List Nat) : crc32_mpeg data < 2 ^ 32 :=
  crc32_mpeg_foldl_lt data _ (by decide)

/-- The four bytes of `be32` decode, most significant first, to the value. -/
theorem be32_decode (v : Nat) (h : v < 2 ^ 32) :
    (v >>> 24) % 256 * 2 ^ 24 + (v >>> 16) % 256 * 2 ^ 16 + (v >>> 8) % 256 * 2 ^ 8 + v % 256
      = v := by
  simp only [Nat.shiftRight_eq_div_pow]
  norm_num at h ⊢
  omega

theorem set_four (A C : List Nat) (x0 x1 x2 x3 b0 b1 b2 b3 : Nat) :
    ((((A ++ x0 :: x1 :: x2 :: x3 :: C).set A.length b0).set (A.length + 1) b1).set
      (A.length + 2) b2).set (A.length + 3) b3 = A ++ b0 :: b1 :: b2 :: b3 :: C := by
  induction A with
  | nil => simp
  | cons a A ih => simp [ih]

/-- The CRC stores replace exactly the bytes `len-4 .. len-1`. -/
theorem section_fill_crc_eq (buf : List Nat) (len : Nat) (hlen : 4 ≤ len)
    (hbuf : len ≤ buf.length) :
    section_fill_crc buf len =
      buf.take (len - 4) ++ be32 (crc32_mpeg (buf.take (len - 4))) ++ buf.drop len := by
  have hsplit : buf = buf.take (len - 4) ++ (buf.drop (len - 4)).take 4 ++ buf.drop len := by
    have h1 : buf.drop len = (buf.drop (len - 4)).drop 4 := by
      rw [List.drop_drop]; congr 1; omega
    rw [h1, List.append_assoc, List.take_append_drop, List.take_append_drop]
  have hl4 : ((buf.drop (len - 4)).take 4).length = 4 := by
    simp [List.length_take, List.length_drop]; omega
  obtain ⟨x0, x1, x2, x3, hx⟩ : ∃ x0 x1 x2 x3, (buf.drop (len - 4)).take 4 = [x0, x1, x2, x3] := by
    match h : (buf.drop (len - 4)).take 4, hl4 with
    | [x0, x1, x2, x3], _ => exact ⟨x0, x1, x2, x3, rfl⟩
  have hA : (buf.take (len - 4)).length = len - 4 := by
    simp [List.length_take]; omega
  have e3 : len - 3 = (buf.take (len - 4)).length + 1 := by omega
  have e2 : len - 2 = (buf.take (len - 4)).length + 2 := by omega
  have e1 : len - 1 = (buf.take (len - 4)).length + 3 := by omega
  have e4 : len - 4 = (buf.take (len - 4)).length := by omega
  unfold section_fill_crc
  simp only [e3, e2, e1]
  generalize hcrc : crc32_mpeg (buf.take (len - 4)) = crc
  rw [hx] at hsplit
  generalize buf.take (len - 4) = A at hsplit e4 ⊢
  generalize buf.drop len = C at hsplit ⊢
  subst hsplit
  rw [e4]
  simp only [List.append_assoc, List.cons_append, List.nil_append]
  rw [set_four]
  simp [be32, and_0xff_eq_mod]

/-- The section carried by the packets of `mpegts_write_section`: the first
`len` reassembled bytes are the bytes of the buffer before the CRC slot followed
by the CRC, most significant byte first. -/
theorem mpegts_write_section_carried (s : MpegTSSection) (buf : List Nat) (len : Nat)
    (hlen : 4 ≤ len) (hbuf : len ≤ buf.length) :
    (section_reassemble (mpegts_write_section s buf len).2.2).take len =
      buf.take (len - 4) ++ be32 (crc32_mpeg (buf.take (len - 4))) := by
  have hfill := section_fill_crc_eq buf len hlen hbuf
  have hlen2 : len ≤ (section_fill_crc buf len).length := by
    simp [section_fill_crc]; omega
  have hre := (section_loop_reassemble (section_fill_crc buf len) len s (by omega) hlen2).1
  have hA : (buf.take (len - 4)).length = len - 4 := by
    simp [List.length_take]; omega
  have hbe : (be32 (crc32_mpeg (buf.take (len - 4)))).length = 4 := by simp [be32]
  simp only [mpegts_write_section]
  rw [hre, List.take_append_of_le_length (by simp [List.length_take]; omega),
    List.take_take, Nat.min_self, hfill,
    List.take_append_of_le_length (by simp [hA, hbe]; omega)]
  apply List.take_of_length_le
  simp [hA, hbe]; omega

/-- Whatever follows the `len` section bytes in the reassembled payloads is
padding. -/
theorem mpegts_write_section_padding (s : MpegTSSection) (buf : List Nat) (len : Nat)
    (hlen : 4 ≤ len) (hbuf : len ≤ buf.length) :
    ∀ i, len ≤ i → i < (section_reassemble (mpegts_write_section s buf len).2.2).length →
      (section_reassemble (mpegts_write_section s buf len).2.2).getD i 0 = 0xff := by
  have hlen2 : len ≤ (section_fill_crc buf len).length := by
    simp [section_fill_crc]; omega
  have hre := (section_loop_reassemble (section_fill_crc buf len) len s (by omega) hlen2).1
  have htl : ((section_fill_crc buf len).take len).length = len := by
    simp [List.length_take]; omega
  simp only [mpegts_write_section]
  rw [hre]
  intro i hi hi2
  rw [List.getD_eq_getElem _ _ hi2, List.getElem_append_right (by omega)]
  simp

/-- Header fields of the packets of `mpegts_write_section`, for a section of at
least 4 bytes on a 13-bit PID. -/
theorem mpegts_write_section_headers (s : MpegTSSection) (buf : List Nat) (len : Nat)
    (hlen : 4 ≤ len) (hbuf : len ≤ buf.length) (hpid : s.pid < 0x2000) :
    0 < (mpegts_write_section s buf len).2.2.length ∧
    ∀ (k : Nat) (hk : k < (mpegts_write_section s buf len).2.2.length),
      ((mpegts_write_section s buf len).2.2.get ⟨k, hk⟩).length = 188 ∧
      ((mpegts_write_section s buf len).2.2.get ⟨k, hk⟩).getD 0 0 = 0x47 ∧
      ((mpegts_write_section s buf len).2.2.get ⟨k, hk⟩).getD 1 0 &&& 0x1f = s.pid >>> 8 ∧
      ((mpegts_write_section s buf len).2.2.get ⟨k, hk⟩).getD 2 0 = s.pid &&& 0xff ∧
      ((mpegts_write_section s buf len).2.2.get ⟨k, hk⟩).getD 1 0 &&& 0x80 = 0 ∧
      ((mpegts_write_section s buf len).2.2.get ⟨k, hk⟩).getD 1 0 &&& 0x20 = 0 ∧
      ((mpegts_write_section s buf len).2.2.get ⟨k, hk⟩).getD 3 0 >>> 4 = 0x1 ∧
      (((mpegts_write_section s buf len).2.2.get ⟨k, hk⟩).getD 1 0 &&& 0x40 = 0x40 ↔ k = 0) ∧
      (k = 0 → ((mpegts_write_section s buf len).2.2.get ⟨k, hk⟩).getD 4 0 = 0) := by
  have hbuf2 : 0 + len ≤ (section_fill_crc buf len).length := by
    simp [section_fill_crc]; omega
  constructor
  · have := (section_loop_reassemble (section_fill_crc buf len) len s (by omega)
      (by simpa using hbuf2)).2
    simp only [mpegts_write_section]
    omega
  · intro k hk
    have h := section_loop_packets (section_fill_crc buf len) s.pid hpid len len 0 s.cc
      (Nat.le_refl _) hbuf2 k hk
    obtain ⟨⟨h1, h2, h3, h4, h5, h6, h7, _⟩, h9, h10⟩ := h
    refine ⟨h1, h2, h3, h4, h5, h6, h7, ?_, ?_⟩
    · simpa using h9
    · simpa using h10

/-! ## Continuity counter of the section packets -/

theorem section_packet_byte3 (pid cc : Nat) (first : Bool) (buf : List Nat) (off len : Nat) :
    (section_packet pid cc first buf off len).1.getD 3 0 = (0x10 ||| cc) % 256 := by
  simp only [section_packet]
  split_ifs <;> simp

/-- The packet number `k` (from 0) of the loop carries the counter
`(cc + k + 1) mod 16`, whatever the PID and the buffer. -/
theorem section_loop_cc (buf : List Nat) :
    ∀ (fuel len off : Nat) (s : MpegTSSection)
      (k : Nat) (hk : k < (section_loop fuel s buf off len).2.length),
      ((section_loop fuel s buf off len).2.get ⟨k, hk⟩).getD 3 0 &&& 0xf =
        (s.cc + k + 1) % 16 := by
  intro fuel
  induction fuel with
  | zero =>
    intro len off s k hk
    simp [section_loop] at hk
  | succ fuel ih =>
    intro len off s k hk
    rcases Nat.eq_zero_or_pos len with h0 | hpos
    · subst h0
      simp [section_loop_zero_len] at hk
    · have hstep := section_loop_succ fuel s buf off len hpos
      revert hk
      rw [hstep]
      intro hk
      cases k with
      | zero =>
        have h3 := section_packet_byte3 s.pid ((s.cc + 1) % 16) (off == 0) buf off len
        have hb := (byte3_bits ((s.cc + 1) % 16) (Nat.mod_lt _ (by decide))).2
        simp only [List.get_eq_getElem, List.getElem_cons_zero]
        rw [h3, hb]
      | succ k =>
        have hk2 : k < (section_loop fuel ⟨s.pid, (s.cc + 1) % 16⟩ buf
            (off + min (section_room (off == 0)) len)
            (len - min (section_room (off == 0)) len)).2.length := by
          simpa using hk
        have := ih (len - min (section_room (off == 0)) len)
          (off + min (section_room (off == 0)) len) ⟨s.pid, (s.cc + 1) % 16⟩ k hk2
        have hcc : ((s.cc + 1) % 16 + k + 1) % 16 = (s.cc + (k + 1) + 1) % 16 := by omega
        simp only [List.get_eq_getElem, List.getElem_cons_succ]
        simp only [List.get_eq_getElem] at this
        rw [this, hcc]

/-! ## The section packetizer: properties of the specification -/

/-- C1: for a section buffer of length `len ≥ 4` and a PID below `0x2000`, every
packet handed to the sink by `mpegts_write_section` has 188 bytes, sync byte
`0x47`, the PID in the low 5 bits of byte 1 and in byte 2, TEI and
transport_priority clear, and `0x1` in the high nibble of byte 3; the
payload_unit_start_indicator is set on the first packet and on no other, and
byte 4 of the first packet is the pointer field 0. -/
theorem mpegts_write_section_packet_headers (s : MpegTSSection) (buf : List Nat) (len : Nat)
    (hlen : 4 ≤ len) (hbuf : len ≤ buf.length) (hpid : s.pid < 0x2000) :
    0 < (mpegts_write_section s buf len).2.2.length ∧
    ∀ (k : Nat) (hk : k < (mpegts_write_section s buf len).2.2.length),
      ((mpegts_write_section s buf len).2.2.get ⟨k, hk⟩).length = 188 ∧
      ((mpegts_write_section s buf len).2.2.get ⟨k, hk⟩).getD 0 0 = 0x47 ∧
      ((mpegts_write_section s buf len).2.2.get ⟨k, hk⟩).getD 1 0 &&& 0x1f = s.pid >>> 8 ∧
      ((mpegts_write_section s buf len).2.2.get ⟨k, hk⟩).getD 2 0 = s.pid &&& 0xff ∧
      ((mpegts_write_section s buf len).2.2.get ⟨k, hk⟩).getD 1 0 &&& 0x80 = 0 ∧
      ((mpegts_write_section s buf len).2.2.get ⟨k, hk⟩).getD 1 0 &&& 0x20 = 0 ∧
      ((mpegts_write_section s buf len).2.2.get ⟨k, hk⟩).getD 3 0 >>> 4 = 0x1 ∧
      (((mpegts_write_section s buf len).2.2.get ⟨k, hk⟩).getD 1 0 &&& 0x40 = 0x40 ↔ k = 0) ∧
      (k = 0 → ((mpegts_write_section s buf len).2.2.get ⟨k, hk⟩).getD 4 0 = 0) :=
  mpegts_write_section_headers s buf len hlen hbuf hpid

/-- Witness for C1: a 5-byte section on the SDT PID. -/
theorem mpegts_write_section_packet_headers_witness :
    (4 ≤ 5 ∧ 5 ≤ [0x42, 1, 2, 3, 4].length ∧ (⟨0x11, 15⟩ : MpegTSSection).pid < 0x2000) ∧
    0 < (mpegts_write_section ⟨0x11, 15⟩ [0x42, 1, 2, 3, 4] 5).2.2.length :=
  ⟨⟨by decide, by decide, by decide⟩,
    (mpegts_write_section_packet_headers ⟨0x11, 15⟩ [0x42, 1, 2, 3, 4] 5
      (by decide) (by decide) (by decide)).1⟩

/-- C2: for a section buffer of length `len ≥ 4`, `mpegts_write_section`
overwrites bytes `len-4 .. len-1` with the big-endian CRC-32/MPEG of bytes
`0 .. len-5` and leaves every other byte alone, so the section `S` carried by
the emitted packets satisfies `CRC32_MPEG(S[0..len-4]) == S[len-4..len]`. -/
theorem mpegts_write_section_crc (s : MpegTSSection) (buf : List Nat) (len : Nat)
    (hlen : 4 ≤ len) (hbuf : len ≤ buf.length) :
    (mpegts_write_section s buf len).2.1 =
      buf.take (len - 4) ++ be32 (crc32_mpeg (buf.take (len - 4))) ++ buf.drop len ∧
    crc32_mpeg (buf.take (len - 4)) < 2 ^ 32 ∧
    ((section_reassemble (mpegts_write_section s buf len).2.2).take len).drop (len - 4) =
      be32 (crc32_mpeg
        (((section_reassemble (mpegts_write_section s buf len).2.2).take len).take (len - 4))) := by
  have hfill := section_fill_crc_eq buf len hlen hbuf
  have hlen2 : len ≤ (section_fill_crc buf len).length := by
    simp [section_fill_crc]; omega
  have hre := (section_loop_reassemble (section_fill_crc buf len) len s (by omega) hlen2).1
  have hA : (buf.take (len - 4)).length = len - 4 := by
    simp [List.length_take]; omega
  have hS := mpegts_write_section_carried s buf len hlen hbuf
  refine ⟨hfill, crc32_mpeg_lt _, ?_⟩
  rw [hS, List.drop_left' hA, List.take_left' hA]

/-- Witness for C2: the 6-byte section `31 32 | slot`, CRC over its first two bytes. -/
theorem mpegts_write_section_crc_witness :
    (4 ≤ 6 ∧ 6 ≤ [0x31, 0x32, 0, 0, 0, 0].length) ∧
    (mpegts_write_section ⟨0x10, 15⟩ [0x31, 0x32, 0, 0, 0, 0] 6).2.1 =
      [0x31, 0x32] ++ be32 (crc32_mpeg [0x31, 0x32]) ++ [] :=
  ⟨⟨by decide, by decide⟩,
    (mpegts_write_section_crc ⟨0x10, 15⟩ [0x31, 0x32, 0, 0, 0, 0] 6 (by decide) (by decide)).1⟩

/-- C3: section round trip. Stripping the 4-byte header of every packet emitted
by `mpegts_write_section` (and the pointer field of the first), concatenating,
and keeping `len` bytes gives the section with its CRC filled in; all later
bytes are `0xFF`; the number of packets is 1 for `len ≤ 183` and
`1 + ceil((len - 183) / 184)` otherwise. -/
theorem mpegts_write_section_roundtrip (s : MpegTSSection) (buf : List Nat) (len : Nat)
    (hlen : 4 ≤ len) (hbuf : len ≤ buf.length) :
    (section_reassemble (mpegts_write_section s buf len).2.2).take len =
      buf.take (len - 4) ++ be32 (crc32_mpeg (buf.take (len - 4))) ∧
    (section_reassemble (mpegts_write_section s buf len).2.2).take len =
      (mpegts_write_section s buf len).2.1.take len ∧
    (∀ i, len ≤ i → i < (section_reassemble (mpegts_write_section s buf len).2.2).length →
      (section_reassemble (mpegts_write_section s buf len).2.2).getD i 0 = 0xff) ∧
    (mpegts_write_section s buf len).2.2.length =
      (if len ≤ 183 then 1 else 1 + (len - 183 + 183) / 184) ∧
    (183 < len →
      len - 183 ≤ 184 * ((mpegts_write_section s buf len).2.2.length - 1) ∧
      184 * ((mpegts_write_section s buf len).2.2.length - 1) < len - 183 + 184) := by
  have hlen2 : len ≤ (section_fill_crc buf len).length := by
    simp [section_fill_crc]; omega
  have hre := section_loop_reassemble (section_fill_crc buf len) len s (by omega) hlen2
  have hcar := mpegts_write_section_carried s buf len hlen hbuf
  have hfill := section_fill_crc_eq buf len hlen hbuf
  have hA : (buf.take (len - 4)).length = len - 4 := by
    simp [List.length_take]; omega
  have hbe : (be32 (crc32_mpeg (buf.take (len - 4)))).length = 4 := by simp [be32]
  have hcount : (mpegts_write_section s buf len).2.2.length = 1 + (len - 183 + 183) / 184 := by
    simp only [mpegts_write_section]; exact hre.2
  refine ⟨hcar, ?_, mpegts_write_section_padding s buf len hlen hbuf, ?_, ?_⟩
  · rw [hcar]
    simp only [mpegts_write_section]
    rw [hfill, List.take_append_of_le_length (by simp [hA, hbe]; omega)]
    symm
    apply List.take_of_length_le
    simp [hA, hbe]; omega
  · rw [hcount]
    split
    · have : (len - 183 + 183) / 184 = 0 := by omega
      omega
    · rfl
  · intro h
    rw [hcount]
    omega

/-- Witness for C3: a 200-byte section needs two packets. -/
theorem mpegts_write_section_roundtrip_witness :
    (4 ≤ 200 ∧ 200 ≤ (List.replicate 200 7).length) ∧
    (mpegts_write_section ⟨0x10, 15⟩ (List.replicate 200 7) 200).2.2.length =
      (if 200 ≤ 183 then 1 else 1 + (200 - 183 + 183) / 184) :=
  ⟨⟨by decide, (List.length_replicate 200 7).ge⟩,
    (mpegts_write_section_roundtrip ⟨0x10, 15⟩ (List.replicate 200 7) 200 (by decide)
      (List.length_replicate 200 7).ge).2.2.2.1⟩

/-! ## Facts about `mpegts_write_section1` and the table payloads -/

theorem or_b000 (n : Nat) (h : n < 4096) : 0xb000 ||| n = 0xb000 + n := by
  have := Nat.mul_add_lt_is_or (i := 12) (b := n) (by simpa using h) 11
  simpa using this.symm

theorem or_f000 (n : Nat) (h : n < 4096) : 0xf000 ||| n = 0xf000 + n := by
  have := Nat.mul_add_lt_is_or (i := 12) (b := n) (by simpa using h) 15
  simpa using this.symm

theorem or_e000 (n : Nat) (h : n < 8192) : 0xe000 ||| n = 0xe000 + n := by
  have := Nat.mul_add_lt_is_or (i := 13) (b := n) (by simpa using h) 7
  simpa using this.symm

theorem version_byte : ∀ v < 32, (0xc1 ||| (v <<< 1)) % 256 = 0xc1 ||| (v <<< 1) := by
  decide

theorem put16_eq (v : Nat) (h : v < 65536) : put16 v = [v / 256, v % 256] := by
  simp only [put16, Nat.shiftRight_eq_div_pow]
  have : v / 2 ^ 8 % 256 = v / 256 := by norm_num; omega
  rw [this]

theorem section1_build_length (tid id version sec_num last_sec_num : Nat) (buf : List Nat)
    (len : Nat) (hbuf : len ≤ buf.length) :
    (section1_build tid id version sec_num last_sec_num buf len).length = len + 12 := by
  simp [section1_build, put16, List.length_take]
  omega

/-- The first `len + 8` bytes of the section array: the 8 header bytes and the
payload. -/
theorem section1_build_take (tid id version sec_num last_sec_num : Nat) (buf : List Nat)
    (len : Nat) (hbuf : len ≤ buf.length) :
    (section1_build tid id version sec_num last_sec_num buf len).take (len + 8) =
      [tid % 256] ++ put16 ((if tid = SDT_TID then 0xf000 else 0xb000) ||| (len + 5 + 4)) ++
        put16 id ++ [(0xc1 ||| (version <<< 1)) % 256, sec_num % 256, last_sec_num % 256] ++
        buf.take len := by
  have hl : ([tid % 256] ++ put16 ((if tid = SDT_TID then 0xf000 else 0xb000) ||| (len + 5 + 4)) ++
        put16 id ++ [(0xc1 ||| (version <<< 1)) % 256, sec_num % 256, last_sec_num % 256] ++
        buf.take len).length = len + 8 := by
    simp [put16, List.length_take]; omega
  have : section1_build tid id version sec_num last_sec_num buf len =
      ([tid % 256] ++ put16 ((if tid = SDT_TID then 0xf000 else 0xb000) ||| (len + 5 + 4)) ++
        put16 id ++ [(0xc1 ||| (version <<< 1)) % 256, sec_num % 256, last_sec_num % 256] ++
        buf.take len) ++ [0, 0, 0, 0] := by
    simp [section1_build]
  rw [this, List.take_left' hl]

theorem mpegts_write_section1_ok (s : MpegTSSection) (tid id version sec_num last_sec_num : Nat)
    (buf : List Nat) (len : Nat) (hlen : len ≤ 1012) :
    mpegts_write_section1 s tid id version sec_num last_sec_num buf len =
      (.ok (),
        (mpegts_write_section s (section1_build tid id version sec_num last_sec_num buf len)
          (len + 12)).1,
        (mpegts_write_section s (section1_build tid id version sec_num last_sec_num buf len)
          (len + 12)).2.2) := by
  have h1 : (3 + 5 + len + 4) % 2 ^ 32 = len + 12 := by
    rw [Nat.mod_eq_of_lt] <;> omega
  have h2 : ¬ (len + 12 > 1024) := by omega
  simp only [mpegts_write_section1, h1, h2, if_false]

theorem mpegts_write_section1_error (s : MpegTSSection)
    (tid id version sec_num last_sec_num : Nat) (buf : List Nat) (len : Nat)
    (hlen : 1012 < len) (hint : len < 2 ^ 31) :
    mpegts_write_section1 s tid id version sec_num last_sec_num buf len =
      (.error .INVALIDDATA, s, []) := by
  have h1 : (3 + 5 + len + 4) % 2 ^ 32 = len + 12 := by
    rw [Nat.mod_eq_of_lt] <;> omega
  have h2 : len + 12 > 1024 := by omega
  simp only [mpegts_write_section1, h1, h2, if_true]

/-- The section carried by the packets of a successful `mpegts_write_section1`:
header, payload, CRC. -/
theorem mpegts_write_section1_carried (s : MpegTSSection)
    (tid id version sec_num last_sec_num : Nat) (buf : List Nat) (len : Nat)
    (hlen : len ≤ 1012) (hbuf : len ≤ buf.length) :
    (section_reassemble
        (mpegts_write_section1 s tid id version sec_num last_sec_num buf len).2.2).take
        (len + 12) =
      (section1_build tid id version sec_num last_sec_num buf len).take (len + 8) ++
        be32 (crc32_mpeg
          ((section1_build tid id version sec_num last_sec_num buf len).take (len + 8))) := by
  rw [mpegts_write_section1_ok s tid id version sec_num last_sec_num buf len hlen]
  have hb := section1_build_length tid id version sec_num last_sec_num buf len hbuf
  have := mpegts_write_section_carried s
    (section1_build tid id version sec_num last_sec_num buf len) (len + 12) (by omega) (by omega)
  simpa using this

/-- The payload of the PAT as a concatenation over the services. -/
theorem pat_data_foldl (services : List MpegTSService) :
    ∀ init : List Nat,
      services.foldl
        (fun q service => q ++ put16 service.sid ++ put16 (0xe000 ||| service.pmt.pid)) init =
      init ++ (services.map
        (fun service => put16 service.sid ++ put16 (0xe000 ||| service.pmt.pid))).flatten := by
  induction services with
  | nil => intro init; simp
  | cons sv rest ih =>
    intro init
    simp only [List.foldl_cons, List.map_cons, List.flatten_cons]
    rw [ih]
    simp [List.append_assoc]

/-! ## Sections with the generic header, and the PAT: properties of the specification -/

/-- C5: `mpegts_write_section1` fails with `AVERROR_INVALIDDATA` if and only if
the total section length `3 + 5 + len + 4` exceeds 1024, that is if and only if
`len > 1012`; when it fails no packet is emitted and the section state is
unchanged; when it succeeds it hands a section of exactly `len + 12` bytes to
`mpegts_write_section`, and these bytes followed by padding are what the packets
carry. -/
theorem mpegts_write_section1_fails_iff (s : MpegTSSection)
    (tid id version sec_num last_sec_num : Nat) (buf : List Nat) (len : Nat)
    (hint : len < 2 ^ 31) (hbuf : len ≤ buf.length) :
    ((mpegts_write_section1 s tid id version sec_num last_sec_num buf len).1 =
        .error .INVALIDDATA ↔ 3 + 5 + len + 4 > 1024) ∧
    (3 + 5 + len + 4 > 1024 ↔ len > 1012) ∧
    ((mpegts_write_section1 s tid id version sec_num last_sec_num buf len).1 = .ok () ∨
      (mpegts_write_section1 s tid id version sec_num last_sec_num buf len).1 =
        .error .INVALIDDATA) ∧
    ((mpegts_write_section1 s tid id version sec_num last_sec_num buf len).1 ≠ .ok () →
      (mpegts_write_section1 s tid id version sec_num last_sec_num buf len).2.2 = [] ∧
      (mpegts_write_section1 s tid id version sec_num last_sec_num buf len).2.1 = s) ∧
    ((mpegts_write_section1 s tid id version sec_num last_sec_num buf len).1 = .ok () →
      (section1_build tid id version sec_num last_sec_num buf len).length = len + 12 ∧
      (mpegts_write_section1 s tid id version sec_num last_sec_num buf len).2 =
        ((mpegts_write_section s
            (section1_build tid id version sec_num last_sec_num buf len) (len + 12)).1,
          (mpegts_write_section s
            (section1_build tid id version sec_num last_sec_num buf len) (len + 12)).2.2) ∧
      ((section_reassemble
          (mpegts_write_section1 s tid id version sec_num last_sec_num buf len).2.2).take
          (len + 12)).length = len + 12 ∧
      ∀ i, len + 12 ≤ i →
        i < (section_reassemble
          (mpegts_write_section1 s tid id version sec_num last_sec_num buf len).2.2).length →
        (section_reassemble
          (mpegts_write_section1 s tid id version sec_num last_sec_num buf len).2.2).getD i 0 =
          0xff) := by
  have hb := section1_build_length tid id version sec_num last_sec_num buf len hbuf
  by_cases hlen : len ≤ 1012
  · have hok := mpegts_write_section1_ok s tid id version sec_num last_sec_num buf len hlen
    have hcar := mpegts_write_section1_carried s tid id version sec_num last_sec_num buf len
      hlen hbuf
    have hpad := mpegts_write_section_padding s
      (section1_build tid id version sec_num last_sec_num buf len) (len + 12) (by omega)
      (by omega)
    refine ⟨?_, by omega, ?_, ?_, ?_⟩
    · rw [hok]
      constructor
      · intro h; cases h
      · intro h; omega
    · rw [hok]; exact Or.inl rfl
    · rw [hok]; intro h; exact absurd rfl h
    · intro _
      refine ⟨hb, ?_, ?_, ?_⟩
      · rw [hok]
      · rw [hcar]
        simp [be32, List.length_take, hb]
      · rw [hok]; exact hpad
  · have herr := mpegts_write_section1_error s tid id version sec_num last_sec_num buf len
      (by omega) hint
    refine ⟨?_, by omega, ?_, ?_, ?_⟩
    · rw [herr]
      constructor
      · intro _; omega
      · intro _; rfl
    · rw [herr]; exact Or.inr rfl
    · rw [herr]; intro _; exact ⟨rfl, rfl⟩
    · rw [herr]; intro h; cases h

/-- Witness for C5: a payload of 1013 bytes is refused. -/
theorem mpegts_write_section1_fails_iff_witness :
    (1013 < 2 ^ 31 ∧ 1013 ≤ (List.replicate 1013 0).length) ∧
    ((mpegts_write_section1 ⟨0, 15⟩ 0 1 0 0 0 (List.replicate 1013 0) 1013).1 =
        .error .INVALIDDATA ↔ 3 + 5 + 1013 + 4 > 1024) :=
  ⟨⟨by decide, (List.length_replicate 1013 0).ge⟩,
    (mpegts_write_section1_fails_iff ⟨0, 15⟩ 0 1 0 0 0 (List.replicate 1013 0) 1013
      (by decide) (List.length_replicate 1013 0).ge).1⟩

/-- C6: for a table id, a 16-bit extension id, a version in 0..31, section
numbers and a payload of `len ≤ 1012` bytes, the section that
`mpegts_write_section1` sends begins with the table id, the big-endian 16-bit
value `F | (len + 9)` with `F = 0xF000` for the SDT table id `0x42` and `0xB000`
otherwise, the big-endian id, `0xC1 | (version << 1)`, the two section numbers,
and then the payload unchanged. The low 12 bits of the length field are
`len + 9`, the number of bytes of the section after that field. -/
theorem mpegts_write_section1_header (s : MpegTSSection)
    (tid id version sec_num last_sec_num : Nat) (buf : List Nat) (len : Nat)
    (htid : tid < 256) (hid : id < 65536) (hver : version < 32) (hsec : sec_num < 256)
    (hlast : last_sec_num < 256) (hlen : len ≤ 1012) (hbuf : len ≤ buf.length) :
    (section_reassemble
        (mpegts_write_section1 s tid id version sec_num last_sec_num buf len).2.2).take
        (len + 8) =
      [tid, ((if tid = 0x42 then 0xF000 else 0xB000) ||| (len + 9)) / 256,
        ((if tid = 0x42 then 0xF000 else 0xB000) ||| (len + 9)) % 256,
        id / 256, id % 256, 0xC1 ||| (version <<< 1), sec_num, last_sec_num] ++ buf.take len ∧
    ((if tid = 0x42 then 0xF000 else 0xB000) ||| (len + 9)) < 65536 ∧
    0xC1 ||| (version <<< 1) < 256 ∧
    ((if tid = 0x42 then 0xF000 else 0xB000) ||| (len + 9)) &&& 0xFFF = len + 9 ∧
    ((section_reassemble
        (mpegts_write_section1 s tid id version sec_num last_sec_num buf len).2.2).take
        (len + 12)).length - 3 = len + 9 := by
  have hb := section1_build_length tid id version sec_num last_sec_num buf len hbuf
  have hcar := mpegts_write_section1_carried s tid id version sec_num last_sec_num buf len
    hlen hbuf
  have htk := section1_build_take tid id version sec_num last_sec_num buf len hbuf
  have hF : ((if tid = 0x42 then 0xF000 else 0xB000) ||| (len + 9)) =
      (if tid = 0x42 then 0xF000 else 0xB000) + (len + 9) := by
    split
    · exact or_f000 _ (by omega)
    · exact or_b000 _ (by omega)
  have hFlt : ((if tid = 0x42 then 0xF000 else 0xB000) ||| (len + 9)) < 65536 := by
    rw [hF]; split <;> omega
  have hv := version_byte version hver
  have hvlt : 0xC1 ||| (version <<< 1) < 256 := by
    have := Nat.mod_lt (0xc1 ||| (version <<< 1)) (by decide : 0 < 256)
    omega
  have hAl : ((section1_build tid id version sec_num last_sec_num buf len).take
      (len + 8)).length = len + 8 := by
    simp [List.length_take, hb]
  refine ⟨?_, hFlt, hvlt, ?_, ?_⟩
  · have h1 : (section_reassemble
          (mpegts_write_section1 s tid id version sec_num last_sec_num buf len).2.2).take
          (len + 8) =
        ((section_reassemble
          (mpegts_write_section1 s tid id version sec_num last_sec_num buf len).2.2).take
          (len + 12)).take (len + 8) := by
      rw [List.take_take]; congr 1; omega
    rw [h1, hcar, List.take_left' hAl, htk]
    have h59 : len + 5 + 4 = len + 9 := by omega
    simp only [SDT_TID]
    rw [h59, put16_eq _ hFlt, put16_eq _ hid, hv, Nat.mod_eq_of_lt htid,
      Nat.mod_eq_of_lt hsec, Nat.mod_eq_of_lt hlast]
    simp
  · rw [hF]
    have : (0xFFF : Nat) = 2 ^ 12 - 1 := by norm_num
    rw [this, Nat.and_pow_two_sub_one_eq_mod]
    split <;> omega
  · rw [hcar]
    simp [be32, hAl]

/-- Witness for C6: a four-byte payload in an SDT section. -/
theorem mpegts_write_section1_header_witness :
    ((0x42 : Nat) < 256 ∧ (1 : Nat) < 65536 ∧ (0 : Nat) < 32 ∧ (0 : Nat) < 256 ∧
      (4 : Nat) ≤ 1012 ∧ 4 ≤ [1, 2, 3, 4].length) ∧
    ((if (0x42 : Nat) = 0x42 then 0xF000 else 0xB000) ||| (4 + 9)) &&& 0xFFF = 4 + 9 :=
  ⟨⟨by decide, by decide, by decide, by decide, by decide, by decide⟩,
    (mpegts_write_section1_header ⟨0x11, 15⟩ 0x42 1 0 0 0 [1, 2, 3, 4] 4 (by decide) (by decide)
      (by decide) (by decide) (by decide) (by decide) (by decide)).2.2.2.1⟩

/-- C7: for `n ≤ 253` services with 16-bit service ids and 13-bit PMT PIDs, the
payload built by `mpegts_write_pat` has exactly `4n` bytes: for each service in
registration order the big-endian service id, then the big-endian 16-bit value
`0xE000 | PMT_PID`. It is sent with table id `0x00` and table_id_extension `tsid`
on the PAT section, whose packets carry PID 0. -/
theorem mpegts_write_pat_payload (ts : MpegTSWrite)
    (hn : ts.services.length ≤ 253) (hpat : ts.pat.pid = PAT_PID)
    (hsv : ∀ sv ∈ ts.services, sv.sid < 65536 ∧ sv.pmt.pid < 0x2000)
    (htsid : ts.tsid < 65536) (hver : ts.tables_version < 32) :
    pat_data ts.services =
      (ts.services.map (fun sv =>
        [sv.sid / 256, sv.sid % 256,
          (0xE000 ||| sv.pmt.pid) / 256, (0xE000 ||| sv.pmt.pid) % 256])).flatten ∧
    (∀ sv ∈ ts.services, 0xE000 ||| sv.pmt.pid < 65536) ∧
    (pat_data ts.services).length = 4 * ts.services.length ∧
    (mpegts_write_pat ts).2 =
      (mpegts_write_section1 ts.pat 0x00 ts.tsid ts.tables_version 0 0
        (pat_data ts.services) (4 * ts.services.length)).2.2 ∧
    (section_reassemble (mpegts_write_pat ts).2).take (4 * ts.services.length + 8) =
      [0x00, (0xB000 ||| (4 * ts.services.length + 9)) / 256,
        (0xB000 ||| (4 * ts.services.length + 9)) % 256,
        ts.tsid / 256, ts.tsid % 256, 0xC1 ||| (ts.tables_version <<< 1), 0, 0] ++
        pat_data ts.services ∧
    0 < (mpegts_write_pat ts).2.length ∧
    (∀ (k : Nat) (hk : k < (mpegts_write_pat ts).2.length),
      ((mpegts_write_pat ts).2.get ⟨k, hk⟩).getD 1 0 &&& 0x1f = 0 ∧
      ((mpegts_write_pat ts).2.get ⟨k, hk⟩).getD 2 0 = 0) := by
  have hflat := pat_data_foldl ts.services []
  have hdata : pat_data ts.services =
      (ts.services.map (fun sv =>
        [sv.sid / 256, sv.sid % 256,
          (0xE000 ||| sv.pmt.pid) / 256, (0xE000 ||| sv.pmt.pid) % 256])).flatten := by
    unfold pat_data
    rw [hflat, List.nil_append]
    congr 1
    apply List.map_congr_left
    intro sv hmem
    have h := hsv sv hmem
    have hor : 0xe000 ||| sv.pmt.pid < 65536 := by
      rw [or_e000 _ h.2]; omega
    rw [put16_eq _ h.1, put16_eq _ hor]
    rfl
  have hlen : (pat_data ts.services).length = 4 * ts.services.length := by
    rw [hdata, List.length_flatten, List.map_map]
    have : (List.length ∘ fun sv : MpegTSService =>
        [sv.sid / 256, sv.sid % 256,
          (0xE000 ||| sv.pmt.pid) / 256, (0xE000 ||| sv.pmt.pid) % 256]) = fun _ => 4 := by
      funext sv; rfl
    rw [this]
    simp [Nat.mul_comm]
  have hcall : (mpegts_write_pat ts).2 =
      (mpegts_write_section1 ts.pat 0x00 ts.tsid ts.tables_version 0 0
        (pat_data ts.services) (4 * ts.services.length)).2.2 := by
    simp only [mpegts_write_pat, hlen]
    rfl
  have hl1012 : 4 * ts.services.length ≤ 1012 := by omega
  have hhdr := mpegts_write_section1_carried ts.pat 0x00 ts.tsid ts.tables_version 0 0
    (pat_data ts.services) (4 * ts.services.length) hl1012 (by omega)
  have hok := mpegts_write_section1_ok ts.pat 0x00 ts.tsid ts.tables_version 0 0
    (pat_data ts.services) (4 * ts.services.length) hl1012
  have hb := section1_build_length 0x00 ts.tsid ts.tables_version 0 0
    (pat_data ts.services) (4 * ts.services.length) (by omega)
  have htk := section1_build_take 0x00 ts.tsid ts.tables_version 0 0
    (pat_data ts.services) (4 * ts.services.length) (by omega)
  have hAl : ((section1_build 0x00 ts.tsid ts.tables_version 0 0
      (pat_data ts.services) (4 * ts.services.length)).take
      (4 * ts.services.length + 8)).length = 4 * ts.services.length + 8 := by
    simp [List.length_take, hb]
  have hF : 0xB000 ||| (4 * ts.services.length + 9) < 65536 := by
    rw [or_b000 _ (by omega)]; omega
  refine ⟨hdata, ?_, hlen, hcall, ?_, ?_, ?_⟩
  · intro sv hmem
    have h := (hsv sv hmem).2
    rw [or_e000 _ h]; omega
  · have h1 : (section_reassemble (mpegts_write_pat ts).2).take (4 * ts.services.length + 8) =
        ((section_reassemble (mpegts_write_pat ts).2).take
          (4 * ts.services.length + 12)).take (4 * ts.services.length + 8) := by
      rw [List.take_take]; congr 1; omega
    rw [h1, hcall, hhdr, List.take_left' hAl, htk]
    have h59 : 4 * ts.services.length + 5 + 4 = 4 * ts.services.length + 9 := by omega
    simp only [SDT_TID]
    rw [h59, if_neg (by decide), put16_eq _ hF, put16_eq _ htsid, version_byte _ hver]
    have htake : List.take (4 * ts.services.length) (pat_data ts.services) =
        pat_data ts.services := List.take_of_length_le (by omega)
    rw [htake]
    simp
  · rw [hcall, hok]
    exact (mpegts_write_section_headers ts.pat _ _ (by omega) (by omega)
      (by rw [hpat]; decide)).1
  · rw [hcall, hok]
    intro k hk
    have h := (mpegts_write_section_headers ts.pat _ _ (by omega) (by omega)
      (by rw [hpat]; decide)).2 k hk
    obtain ⟨_, _, h3, h4, _⟩ := h
    rw [hpat] at h3 h4
    exact ⟨h3, h4⟩

/-- Witness for C7: the HD and LD services of network 1 after the header. -/
theorem mpegts_write_pat_payload_witness :
    pat_data [{ MpegTSService.zero with sid := 0x20, pmt := ⟨0x1FC8, 15⟩ },
        { MpegTSService.zero with sid := 0x39, pmt := ⟨0x1FC9, 15⟩ }] =
      [0x20 / 256, 0x20 % 256, (0xE000 ||| 0x1FC8) / 256, (0xE000 ||| 0x1FC8) % 256,
        0x39 / 256, 0x39 % 256, (0xE000 ||| 0x1FC9) / 256, (0xE000 ||| 0x1FC9) % 256] :=
  (mpegts_write_pat_payload
    { MpegTSWrite.defaults with
      pat := ⟨0, 15⟩
      tsid := 1
      services := [{ MpegTSService.zero with sid := 0x20, pmt := ⟨0x1FC8, 15⟩ },
        { MpegTSService.zero with sid := 0x39, pmt := ⟨0x1FC9, 15⟩ }] }
    (by decide) (by decide) (by decide) (by decide) (by decide)).1

/-! ## Facts about the PMT builder -/

theorem strchr_lt (c : Nat) : ∀ (p : List Nat) (i : Nat), strchr p c = some i → i < p.length := by
  intro p
  induction p with
  | nil => intro i h; simp [strchr] at h
  | cons x xs ih =>
    intro i h
    simp only [strchr] at h
    split at h
    · cases h; simp
    · cases hx : strchr xs c with
      | none => simp [hx] at h
      | some j =>
        simp [hx] at h
        have := ih j hx
        subst h
        simp; omega

theorem pmt_stream_type_lt (codec_id : AVCodecID) (flags : Nat) :
    pmt_stream_type codec_id flags < 256 := by
  unfold pmt_stream_type
  split <;> try decide
  split <;> decide

theorem getD_append_cons (A : List Nat) (L : Nat) (Y : List Nat) :
    (A ++ L :: Y).getD A.length 0 = L := by
  induction A with
  | nil => rfl
  | cons a A ih => simpa using ih

theorem set_append_cons (A : List Nat) (L v : Nat) (Y : List Nat) :
    (A ++ L :: Y).set A.length v = A ++ v :: Y := by
  induction A with
  | nil => rfl
  | cons a A ih => simp [ih]

/-- Invariant of the language loop: the buffer keeps the form
`A ++ [L] ++ Y` with the length byte `L` counting the bytes of `Y`. -/
theorem pmt_language_loop_inv (d : Disposition) (A : List Nat) :
    ∀ (fuel : Nat) (p : List Nat) (L : Nat) (Y : List Nat), L ≤ 255 →
      ∃ L1 Y1, pmt_language_loop fuel p d A.length (A ++ [L] ++ Y) = A ++ [L1] ++ Y1 ∧
        Y1.length + L = Y.length + L1 ∧ L ≤ L1 ∧ L1 ≤ 255 := by
  intro fuel
  induction fuel with
  | zero => intro p L Y hL; exact ⟨L, Y, rfl, rfl, Nat.le_refl _, hL⟩
  | succ fuel ih =>
    intro p L Y hL
    have hget : (A ++ [L] ++ Y).getD A.length 0 = L := by
      rw [List.append_assoc]; exact getD_append_cons A L Y
    simp only [pmt_language_loop, hget]
    split
    · rename_i hguard
      split
      · -- not a 3-letter code
        cases hnext : strchr p 0x2c with
        | none => exact ⟨L, Y, rfl, rfl, Nat.le_refl _, hL⟩
        | some i => exact ih _ L Y hL
      · rename_i hacc
        have hp3 : (p.take 3).length = 3 := by
          rw [List.length_take]
          by_cases h3 : p.length = 3
          · omega
          · have hn : strchr p 0x2c = some 3 := by
              by_contra hne
              apply hacc
              refine ⟨h3, ?_⟩
              by_cases hnone : strchr p 0x2c = none
              · exact Or.inl hnone
              · exact Or.inr hne
            have := strchr_lt _ p 3 hn
            omega
        have hL4 : L + 4 ≤ 255 := by
          have := hguard.1
          norm_num at this
          omega
        have hmod : (L + 4) % 256 = L + 4 := Nat.mod_eq_of_lt (by omega)
        have hform : A ++ [L] ++ Y ++ p.take 3 ++ [pmt_audio_type d] =
            A ++ L :: (Y ++ p.take 3 ++ [pmt_audio_type d]) := by simp
        have hset : ((A ++ [L] ++ Y ++ p.take 3 ++ [pmt_audio_type d]).set A.length
            (((A ++ [L] ++ Y ++ p.take 3 ++ [pmt_audio_type d]).getD A.length 0 + 4) % 256)) =
            A ++ [L + 4] ++ (Y ++ p.take 3 ++ [pmt_audio_type d]) := by
          rw [hform, getD_append_cons, hmod, set_append_cons]
          simp
        cases hnext : strchr p 0x2c with
        | none =>
          refine ⟨L + 4, Y ++ p.take 3 ++ [pmt_audio_type d], ?_, ?_, by omega, hL4⟩
          · simpa using hset
          · simp [hp3]; omega
        | some i =>
          simp only []
          rw [hset]
          obtain ⟨L1, Y1, h1, h2, h3, h4⟩ := ih (p.drop (i + 1)) (L + 4)
            (Y ++ p.take 3 ++ [pmt_audio_type d]) hL4
          refine ⟨L1, Y1, h1, ?_, by omega, h4⟩
          simp [hp3] at h2
          omega
    · exact ⟨L, Y, rfl, rfl, Nat.le_refl _, hL⟩

/-- The DVB subtitle loop only appends, and never beyond byte 1012 of `data`. -/
theorem pmt_dvb_subtitle_loop_append (extradata : List Nat) (hearing : Bool) :
    ∀ (fuel : Nat) (language : List Nat) (copied : Nat) (q : List Nat),
      ∃ Y, pmt_dvb_subtitle_loop fuel language extradata copied hearing q = q ++ Y ∧
        q.length + Y.length ≤ max q.length 1012 := by
  intro fuel
  induction fuel with
  | zero => intro language copied q; exact ⟨[], by simp [pmt_dvb_subtitle_loop], by simp⟩
  | succ fuel ih =>
    intro language copied q
    simp only [pmt_dvb_subtitle_loop]
    split
    · rename_i hguard
      have h3 : (language.take 3).length ≤ 3 := by simp [List.length_take]
      split
      · obtain ⟨Y, hY, hlen⟩ := ih
          (if language.drop 3 ≠ [] then (language.drop 3).drop 1 else language.drop 3)
          (copied + 5)
          (q ++ language.take 3 ++ [extradata.getD (copied + 4) 0] ++
            (extradata.drop copied).take 4)
        refine ⟨language.take 3 ++ [extradata.getD (copied + 4) 0] ++
            (extradata.drop copied).take 4 ++ Y, ?_, ?_⟩
        · rw [hY]; simp
        · have h4 : ((extradata.drop copied).take 4).length ≤ 4 := by simp [List.length_take]
          simp only [List.length_append, List.length_singleton] at hlen ⊢
          omega
      · split
        · obtain ⟨Y, hY, hlen⟩ := ih
            (if language.drop 3 ≠ [] then (language.drop 3).drop 1 else language.drop 3)
            (copied + 4)
            (q ++ language.take 3 ++ [if hearing then 0x20 else 0x10] ++ extradata.take 4)
          refine ⟨language.take 3 ++ [if hearing then 0x20 else 0x10] ++ extradata.take 4 ++ Y,
            ?_, ?_⟩
          · rw [hY]; simp
          · have h4 : (extradata.take 4).length ≤ 4 := by simp [List.length_take]
            simp only [List.length_append, List.length_singleton] at hlen ⊢
            omega
        · obtain ⟨Y, hY, hlen⟩ := ih
            (if language.drop 3 ≠ [] then (language.drop 3).drop 1 else language.drop 3)
            copied
            (q ++ language.take 3 ++ [if hearing then 0x20 else 0x10] ++ put16 1 ++ put16 1)
          refine ⟨language.take 3 ++ [if hearing then 0x20 else 0x10] ++ put16 1 ++ put16 1 ++ Y,
            ?_, ?_⟩
          · rw [hY]; simp
          · have h4 : (put16 1).length = 2 := rfl
            simp only [List.length_append, List.length_singleton, h4] at hlen ⊢
            omega
    · exact ⟨[], by simp, by simp⟩

/-- The DVB teletext loop only appends, and never beyond byte 1012 of `data`. -/
theorem pmt_dvb_teletext_loop_append (extradata : List Nat) :
    ∀ (fuel : Nat) (language : List Nat) (copied : Nat) (q : List Nat),
      ∃ Y, pmt_dvb_teletext_loop fuel language extradata copied q = q ++ Y ∧
        q.length + Y.length ≤ max q.length 1012 := by
  intro fuel
  induction fuel with
  | zero => intro language copied q; exact ⟨[], by simp [pmt_dvb_teletext_loop], by simp⟩
  | succ fuel ih =>
    intro language copied q
    simp only [pmt_dvb_teletext_loop]
    split
    · rename_i hguard
      have h3 : (language.take 3).length ≤ 3 := by simp [List.length_take]
      split
      · obtain ⟨Y, hY, hlen⟩ := ih
          (if language.drop 3 ≠ [] then (language.drop 3).drop 1 else language.drop 3)
          (copied + 2) (q ++ language.take 3 ++ (extradata.drop copied).take 2)
        refine ⟨language.take 3 ++ (extradata.drop copied).take 2 ++ Y, ?_, ?_⟩
        · rw [hY]; simp
        · have h4 : ((extradata.drop copied).take 2).length ≤ 2 := by simp [List.length_take]
          simp only [List.length_append] at hlen ⊢
          omega
      · obtain ⟨Y, hY, hlen⟩ := ih
          (if language.drop 3 ≠ [] then (language.drop 3).drop 1 else language.drop 3)
          copied (q ++ language.take 3 ++ [0x08] ++ [0x00])
        refine ⟨language.take 3 ++ [0x08] ++ [0x00] ++ Y, ?_, ?_⟩
        · rw [hY]; simp
        · simp only [List.length_append, List.length_singleton] at hlen ⊢
          omega
    · exact ⟨[], by simp, by simp⟩

theorem pmt_audio_codec_descriptors_append (codec_id : AVCodecID) (q : List Nat) :
    ∃ F, pmt_audio_codec_descriptors codec_id q = q ++ F ∧ F.length ≤ 13 := by
  refine ⟨(if codec_id = .EAC3 then [0x7a, 1, 0] else []) ++
      (if codec_id = .AAC_LATM then [0x7C, 0x2, 0x2E, 0x00] else []) ++
      (if codec_id = .S302M then [0x05, 4, 0x42, 0x53, 0x53, 0x44] else []), ?_, ?_⟩
  · unfold pmt_audio_codec_descriptors
    split_ifs <;> simp
  · split_ifs <;> simp

theorem pmt_language_descriptor_append (value : List Nat) (d : Disposition) (q : List Nat) :
    ∃ D, pmt_language_descriptor value d q = q ++ D ∧ D.length ≤ 257 := by
  unfold pmt_language_descriptor
  obtain ⟨L1, Y1, h1, h2, _, h4⟩ := pmt_language_loop_inv d (q ++ [0x0a])
    (value.length + 1) value 0 [] (by omega)
  simp only [List.append_nil] at h1
  simp only []
  rw [h1]
  have hget : (q ++ [0x0a] ++ [L1] ++ Y1).getD (q ++ [0x0a]).length 0 = L1 := by
    rw [List.append_assoc _ [L1] Y1]; exact getD_append_cons _ L1 Y1
  rw [hget]
  have hYl : Y1.length = L1 := by simpa using h2
  split
  · rename_i h0
    have hY : Y1 = [] := List.eq_nil_of_length_eq_zero (by omega)
    subst hY
    refine ⟨[], ?_, by simp⟩
    have hl : (q ++ [0x0a] ++ [L1] ++ []).length - 2 = q.length := by
      simp only [List.length_append, List.length_singleton, List.length_nil]; omega
    rw [hl]
    simp [List.append_assoc]
  · refine ⟨[0x0a] ++ [L1] ++ Y1, by simp [List.append_assoc], ?_⟩
    simp only [List.length_append, List.length_singleton]
    omega

theorem pmt_dvb_subtitle_descriptor_append (language extradata : List Nat) (hearing : Bool)
    (q : List Nat) :
    ∃ D, pmt_dvb_subtitle_descriptor language extradata hearing q = q ++ D ∧
      D.length ≤ 1014 := by
  unfold pmt_dvb_subtitle_descriptor
  obtain ⟨Y, hY, hlen⟩ := pmt_dvb_subtitle_loop_append extradata hearing
    (language.length + 1) language 0 (q ++ [0x59] ++ [0])
  simp only []
  rw [hY]
  refine ⟨[0x59, ((q ++ [0x59] ++ [0] ++ Y).length - (q ++ [0x59]).length - 1) % 256] ++ Y,
    ?_, ?_⟩
  · have : q ++ [0x59] ++ [0] ++ Y = (q ++ [0x59]) ++ 0 :: Y := by simp
    rw [this, set_append_cons]
    simp
  · simp only [List.length_append, List.length_singleton, List.length_cons,
      List.length_nil] at hlen ⊢
    omega

theorem pmt_dvb_teletext_descriptor_append (language extradata : List Nat) (q : List Nat) :
    ∃ D, pmt_dvb_teletext_descriptor language extradata q = q ++ D ∧ D.length ≤ 1014 := by
  unfold pmt_dvb_teletext_descriptor
  obtain ⟨Y, hY, hlen⟩ := pmt_dvb_teletext_loop_append extradata
    (language.length + 1) language 0 (q ++ [0x56] ++ [0])
  simp only []
  rw [hY]
  refine ⟨[0x56, ((q ++ [0x56] ++ [0] ++ Y).length - (q ++ [0x56]).length - 1) % 256] ++ Y,
    ?_, ?_⟩
  · have : q ++ [0x56] ++ [0] ++ Y = (q ++ [0x56]) ++ 0 :: Y := by simp
    rw [this, set_append_cons]
    simp
  · simp only [List.length_append, List.length_singleton, List.length_cons,
      List.length_nil] at hlen ⊢
    omega

/-- The descriptors of a stream are appended to `data`; there are fewer than
4096 bytes of them. -/
theorem pmt_descriptors_append (st : AVStream) (stream_type : Nat) (q : List Nat) :
    ∃ D, pmt_descriptors st stream_type q = q ++ D ∧ D.length < 4096 := by
  unfold pmt_descriptors
  split
  · obtain ⟨F, hF, hFl⟩ := pmt_audio_codec_descriptors_append st.codec.codec_id q
    simp only []
    rw [hF]
    cases st.language with
    | none => exact ⟨F, rfl, by omega⟩
    | some value =>
      obtain ⟨D, hD, hDl⟩ := pmt_language_descriptor_append value st.disposition (q ++ F)
      refine ⟨F ++ D, ?_, ?_⟩
      · simp only []; rw [hD, List.append_assoc]
      · simp only [List.length_append]; omega
  · simp only []
    split
    · obtain ⟨D, hD, hDl⟩ := pmt_dvb_subtitle_descriptor_append
        (pmt_subtitle_language st.language) st.codec.extradata
        st.disposition.hearing_impaired q
      exact ⟨D, hD, by omega⟩
    · split
      · obtain ⟨D, hD, hDl⟩ := pmt_dvb_teletext_descriptor_append
          (pmt_subtitle_language st.language) st.codec.extradata q
        exact ⟨D, hD, by omega⟩
      · exact ⟨[], by simp, by simp⟩
  · split
    · exact ⟨_, rfl, by simp⟩
    · exact ⟨[], by simp, by simp⟩
  · split
    · exact ⟨_, rfl, by simp⟩
    · exact ⟨[], by simp, by simp⟩
  · exact ⟨[], by simp, by simp⟩

theorem set_two (B D : List Nat) (x y hi lo : Nat) :
    ((B ++ [x, y] ++ D).set B.length hi).set (B.length + 1) lo = B ++ [hi, lo] ++ D := by
  induction B with
  | nil => simp
  | cons b B ih => simp [ih]

/-- With at least 32 bytes left in `data`, the entry of a stream is appended in
the form the specification gives. -/
theorem pmt_stream_ok (flags : Nat) (st : AVStream) (q : List Nat)
    (hq : q.length ≤ 1012 - 32) :
    ∃ D, D.length < 4096 ∧
      pmt_stream flags st q =
        .ok (q ++ pmt_stream_entry (pmt_stream_type st.codec.codec_id flags)
          st.priv_data.pid D) := by
  obtain ⟨D, hD, hDl⟩ := pmt_descriptors_append st (pmt_stream_type st.codec.codec_id flags)
    (q ++ [pmt_stream_type st.codec.codec_id flags % 256] ++
      put16 (0xe000 ||| st.priv_data.pid) ++ [0, 0])
  refine ⟨D, hDl, ?_⟩
  have hnot : ¬ (q.length > 1012 - 32) := by omega
  simp only [pmt_stream, hnot, if_false]
  rw [hD]
  have hlen : (q ++ [pmt_stream_type st.codec.codec_id flags % 256] ++
      put16 (0xe000 ||| st.priv_data.pid) ++ [0, 0] ++ D).length -
      (q ++ [pmt_stream_type st.codec.codec_id flags % 256] ++
        put16 (0xe000 ||| st.priv_data.pid)).length - 2 = D.length := by
    simp only [List.length_append, List.length_cons, List.length_nil]
    omega
  rw [hlen, set_two]
  have hst := Nat.mod_eq_of_lt (pmt_stream_type_lt st.codec.codec_id flags)
  rw [hst]
  have hor := or_f000 D.length hDl
  have hmod : (0xf000 ||| D.length) / 2 ^ 8 % 256 = (0xF000 ||| D.length) / 256 := by
    rw [hor]; norm_num; omega
  have hpow : (0xe000 ||| st.priv_data.pid) / 2 ^ 8 = (0xE000 ||| st.priv_data.pid) / 256 := by
    norm_num
  simp only [pmt_stream_entry, put16, Nat.shiftRight_eq_div_pow, hmod, hpow]
  simp only [List.append_assoc, List.cons_append, List.nil_append]

theorem pmt_stream_full (flags : Nat) (st : AVStream) (q : List Nat)
    (hq : 1012 - 32 < q.length) : pmt_stream flags st q = .error .EINVAL := by
  simp only [pmt_stream]
  rw [if_pos hq]

/-- When the stream loop succeeds, what it appended is one entry per stream of
the service. -/
theorem pmt_streams_spec (ts : MpegTSWrite) (sid : Nat) :
    ∀ (streams : List AVStream) (q data : List Nat),
      pmt_streams ts sid streams q = .ok data →
      ∃ bytes, data = q ++ bytes ∧ pmt_stream_loop_spec ts sid streams bytes := by
  intro streams
  induction streams with
  | nil =>
    intro q data h
    simp only [pmt_streams] at h
    cases h
    exact ⟨[], by simp, rfl⟩
  | cons st rest ih =>
    intro q data h
    simp only [pmt_streams] at h
    by_cases hsid : (ts.services.getD st.priv_data.service MpegTSService.zero).sid = sid
    · rw [if_pos hsid] at h
      by_cases hq : q.length ≤ 1012 - 32
      · obtain ⟨D, hDl, hD⟩ := pmt_stream_ok ts.flags st q hq
        rw [hD] at h
        obtain ⟨bytes, hb, hspec⟩ := ih _ data h
        refine ⟨pmt_stream_entry (pmt_stream_type st.codec.codec_id ts.flags)
          st.priv_data.pid D ++ bytes, ?_, ?_⟩
        · rw [hb, List.append_assoc]
        · simp only [pmt_stream_loop_spec]
          rw [if_pos hsid]
          exact ⟨D, bytes, hDl, rfl, hspec⟩
      · rw [pmt_stream_full ts.flags st q (by omega)] at h
        cases h
    · rw [if_neg hsid] at h
      obtain ⟨bytes, hb, hspec⟩ := ih q data h
      refine ⟨bytes, hb, ?_⟩
      simp only [pmt_stream_loop_spec]
      rw [if_neg hsid]
      exact hspec

/-- A service that owns none of the streams gets nothing from the stream loop. -/
theorem pmt_streams_none (ts : MpegTSWrite) (sid : Nat) :
    ∀ (streams : List AVStream) (q : List Nat),
      (∀ st ∈ streams, (ts.services.getD st.priv_data.service MpegTSService.zero).sid ≠ sid) →
      pmt_streams ts sid streams q = .ok q := by
  intro streams
  induction streams with
  | nil => intro q _; rfl
  | cons st rest ih =>
    intro q h
    simp only [pmt_streams]
    rw [if_neg (h st (List.mem_cons_self _ _))]
    exact ih q (fun x hx => h x (List.mem_cons_of_mem _ hx))

/-- The stream loop succeeds as long as 32 bytes of `data` stay free before
each stream of the service; in particular for a single stream. -/
theorem pmt_streams_single (ts : MpegTSWrite) (sid : Nat) (st : AVStream) (q : List Nat)
    (hq : q.length ≤ 1012 - 32) :
    ∃ data, pmt_streams ts sid [st] q = .ok data := by
  simp only [pmt_streams]
  split
  · obtain ⟨D, _, hD⟩ := pmt_stream_ok ts.flags st q hq
    rw [hD]
    exact ⟨_, rfl⟩
  · exact ⟨_, rfl⟩

/-- The ten bytes before the stream loop. -/
theorem pmt_program_info_eq (service : MpegTSService) :
    pmt_program_info service =
      [(0xE000 ||| service.pcr_pid) / 256 % 256, (0xE000 ||| service.pcr_pid) % 256,
        0xF0, 0x06, 0x55, 0x04, 0x42, 0x52, 0x41, 0x01] := by
  have h : (0xe000 ||| service.pcr_pid) >>> 8 = (0xE000 ||| service.pcr_pid) / 256 :=
    Nat.shiftRight_eq_div_pow _ 8
  simp only [pmt_program_info, put16, h]
  generalize (0xE000 ||| service.pcr_pid) / 256 % 256 = a
  generalize (0xE000 ||| service.pcr_pid) % 256 = b
  simp only [List.nil_append, List.cons_append, List.length_cons, List.length_nil,
    List.set_cons_succ, List.set_cons_zero, Nat.reduceAdd, Nat.reduceSub, Nat.reduceMod,
    Nat.reduceOr, Nat.reduceShiftRight, zero_add]

/-! ## The iteration bounds of the PMT loops are never reached -/

/-- The language loop gives the same result for every bound above the length
of the rest of the tag: each iteration drops at least the comma it found. -/
theorem pmt_language_loop_fuel (d : Disposition) (len_ptr : Nat) :
    ∀ (f1 f2 : Nat) (p q : List Nat), p.length < f1 → p.length < f2 →
      pmt_language_loop f1 p d len_ptr q = pmt_language_loop f2 p d len_ptr q := by
  intro f1
  induction f1 with
  | zero => intro f2 p q h1 _; omega
  | succ a ih =>
    intro f2 p q h1 h2
    obtain ⟨b, rfl⟩ : ∃ b, f2 = b + 1 := ⟨f2 - 1, by omega⟩
    simp only [pmt_language_loop]
    split
    · cases hnext : strchr p 0x2c with
      | none => rfl
      | some i =>
        have hi := strchr_lt _ p i hnext
        have hl : (p.drop (i + 1)).length < a := by
          rw [List.length_drop]; omega
        have hl2 : (p.drop (i + 1)).length < b := by
          rw [List.length_drop]; omega
        simp only []
        split
        · exact ih b _ _ hl hl2
        · exact ih b _ _ hl hl2
    · rfl

/-- The DVB subtitle loop gives the same result for every bound above the
length of the rest of the language string: each iteration consumes at least
three characters. -/
theorem pmt_dvb_subtitle_loop_fuel (extradata : List Nat) (hearing : Bool) :
    ∀ (f1 f2 : Nat) (language : List Nat) (copied : Nat) (q : List Nat),
      language.length < f1 → language.length < f2 →
      pmt_dvb_subtitle_loop f1 language extradata copied hearing q =
        pmt_dvb_subtitle_loop f2 language extradata copied hearing q := by
  intro f1
  induction f1 with
  | zero => intro f2 language copied q h1 _; omega
  | succ a ih =>
    intro f2 language copied q h1 h2
    obtain ⟨b, rfl⟩ : ∃ b, f2 = b + 1 := ⟨f2 - 1, by omega⟩
    simp only [pmt_dvb_subtitle_loop]
    split
    · rename_i hguard
      have hl : (if language.drop 3 ≠ [] then (language.drop 3).drop 1
          else language.drop 3).length < a := by
        split <;> simp only [List.length_drop] <;> omega
      have hl2 : (if language.drop 3 ≠ [] then (language.drop 3).drop 1
          else language.drop 3).length < b := by
        split <;> simp only [List.length_drop] <;> omega
      split
      · exact ih b _ _ _ hl hl2
      · split
        · exact ih b _ _ _ hl hl2
        · exact ih b _ _ _ hl hl2
    · rfl

/-- The DVB teletext loop gives the same result for every bound above the
length of the rest of the language string. -/
theorem pmt_dvb_teletext_loop_fuel (extradata : List Nat) :
    ∀ (f1 f2 : Nat) (language : List Nat) (copied : Nat) (q : List Nat),
      language.length < f1 → language.length < f2 →
      pmt_dvb_teletext_loop f1 language extradata copied q =
        pmt_dvb_teletext_loop f2 language extradata copied q := by
  intro f1
  induction f1 with
  | zero => intro f2 language copied q h1 _; omega
  | succ a ih =>
    intro f2 language copied q h1 h2
    obtain ⟨b, rfl⟩ : ∃ b, f2 = b + 1 := ⟨f2 - 1, by omega⟩
    simp only [pmt_dvb_teletext_loop]
    split
    · rename_i hguard
      have hl : (if language.drop 3 ≠ [] then (language.drop 3).drop 1
          else language.drop 3).length < a := by
        split <;> simp only [List.length_drop] <;> omega
      have hl2 : (if language.drop 3 ≠ [] then (language.drop 3).drop 1
          else language.drop 3).length < b := by
        split <;> simp only [List.length_drop] <;> omega
      split
      · exact ih b _ _ _ hl hl2
      · exact ih b _ _ _ hl hl2
    · rfl

set_option maxRecDepth 100000 in
/-- The check value of CRC-32/MPEG: the CRC of the ASCII string `123456789`. -/
theorem crc32_mpeg_check :
    crc32_mpeg [0x31, 0x32, 0x33, 0x34, 0x35, 0x36, 0x37, 0x38, 0x39] = 0x0376E6E7 := by
  decide

/-! ## Facts about `mpegts_write_header` -/

theorem map_pmt_modify (f : MpegTSService → MpegTSService) (hf : ∀ sv, (f sv).pmt = sv.pmt) :
    ∀ (i : Nat) (l : List MpegTSService),
      (l.modify f i).map (fun service => service.pmt) = l.map (fun service => service.pmt) := by
  intro i l
  induction l generalizing i with
  | nil => simp
  | cons a l ih =>
    cases i with
    | zero => simp [List.modify_zero_cons, hf]
    | succ i => simp [List.modify_succ_cons, ih]

/-- A store into a field of a service other than its PMT section leaves all
table sections as they are. -/
theorem table_sections_update_service (ts : MpegTSWrite) (i : Nat)
    (f : MpegTSService → MpegTSService) (hf : ∀ sv, (f sv).pmt = sv.pmt) :
    table_sections (ts.update_service i f) = table_sections ts := by
  simp only [table_sections, MpegTSWrite.update_service]
  rw [map_pmt_modify f hf]

theorem table_sections_congr (a b : MpegTSWrite) (h1 : a.pat = b.pat) (h2 : a.sdt = b.sdt)
    (h3 : a.nit = b.nit) (h4 : a.tot = b.tot)
    (h5 : a.services.map (fun service => service.pmt) =
      b.services.map (fun service => service.pmt)) :
    table_sections a = table_sections b := by
  simp only [table_sections, h1, h2, h3, h4, h5]

theorem table_sections_header_stream (ts ts1 : MpegTSWrite) (pids : List Nat) (i : Nat)
    (st st1 : AVStream) (b : Bool) (h : header_stream ts pids i st = .ok (ts1, st1, b)) :
    table_sections ts1 = table_sections ts := by
  unfold header_stream at h
  split at h
  · cases h
  · split at h
    · cases h
    · split at h
      · cases h
      · split at h
        · cases h
        · split at h
          · cases h
          · simp only [Outcome.ok.injEq, Prod.mk.injEq] at h
            obtain ⟨h1, _, _⟩ := h
            rw [← h1]
            split
            · exact table_sections_update_service _ _ _ (fun _ => rfl)
            · rfl

theorem table_sections_header_streams :
    ∀ (todo : List AVStream) (ts : MpegTSWrite) (pids : List Nat) (pcr_st : Option Nat)
      (i : Nat) (done : List AVStream) (ts1 : MpegTSWrite) (streams : List AVStream)
      (pcr1 : Option Nat),
      header_streams ts pids pcr_st i todo done = .ok (ts1, streams, pcr1) →
      table_sections ts1 = table_sections ts := by
  intro todo
  induction todo with
  | nil =>
    intro ts pids pcr_st i done ts1 streams pcr1 h
    simp only [header_streams, Outcome.ok.injEq, Prod.mk.injEq] at h
    rw [h.1]
  | cons st rest ih =>
    intro ts pids pcr_st i done ts1 streams pcr1 h
    simp only [header_streams] at h
    split at h
    · cases h
    · cases h
    · rename_i ts2 st2 b hst
      rw [ih _ _ _ _ _ _ _ _ h]
      exact table_sections_header_stream ts ts2 pids i st st2 b hst

theorem table_sections_header_periods_cbr (ts : MpegTSWrite) (svc : Nat) (max_delay : Int) :
    table_sections (header_periods_cbr ts svc max_delay) = table_sections ts := by
  have h := table_sections_update_service ts svc (fun service => { service with
      pcr_packet_period := Int.tdiv (ts.mux_rate * PCR_RETRANS_TIME)
        ((TS_PACKET_SIZE : Int) * 8 * 1000) }) (fun _ => rfl)
  rw [← h]
  unfold header_periods_cbr
  simp only []
  split <;> exact table_sections_congr _ _ rfl rfl rfl rfl rfl

theorem table_sections_header_periods_vbr (ts ts1 : MpegTSWrite) (svc : Nat)
    (codec : AVCodecContext) (h : header_periods_vbr ts svc codec = some ts1) :
    table_sections ts1 = table_sections ts := by
  unfold header_periods_vbr at h
  simp only [] at h
  split at h
  · cases h
  · simp only [Option.some.injEq] at h
    rw [← h]
    refine Eq.trans (table_sections_update_service _ _ _ ?_) ?_
    · intro _; rfl
    · exact table_sections_congr _ _ rfl rfl rfl rfl rfl

theorem table_sections_header_counters (ts : MpegTSWrite) (svc : Nat) (m2ts : Bool) :
    table_sections (header_counters ts svc m2ts) = table_sections ts := by
  have h := table_sections_update_service ts svc
    (fun service => { service with pcr_packet_count := service.pcr_packet_period })
    (fun _ => rfl)
  rw [← h]
  unfold header_counters
  simp only []
  split <;> exact table_sections_congr _ _ rfl rfl rfl rfl rfl

theorem table_sections_header_first_as_pcr (ts : MpegTSWrite) (streams : List AVStream)
    (last : AVStream) :
    table_sections (header_first_as_pcr ts streams last) = table_sections ts := by
  unfold header_first_as_pcr
  split
  · exact table_sections_update_service _ _ _ (fun _ => rfl)
  · rfl

theorem table_sections_header_periods (ts ts1 : MpegTSWrite) (svc : Nat) (max_delay : Int)
    (streams : List AVStream) (pcr_st : Option Nat)
    (h : header_periods ts svc max_delay streams pcr_st = some ts1) :
    table_sections ts1 = table_sections ts := by
  unfold header_periods at h
  split at h
  · simp only [Option.some.injEq] at h
    rw [← h]
    exact table_sections_header_periods_cbr ts svc max_delay
  · split at h
    · cases h
    · split at h
      · cases h
      · exact table_sections_header_periods_vbr _ _ _ _ h

theorem table_sections_header_finish (s s1 : AVFormatContext) (max_delay : Int)
    (ts : MpegTSWrite) (streams : List AVStream) (pcr_st : Option Nat)
    (h : header_finish s max_delay ts streams pcr_st = .ok s1) :
    table_sections s1.priv_data = table_sections ts := by
  unfold header_finish at h
  split at h
  · cases h
  · split at h
    · cases h
    · rename_i ts2 hper
      simp only [Outcome.ok.injEq] at h
      rw [← h]
      simp only []
      rw [table_sections_header_counters, table_sections_header_periods _ _ _ _ _ _ hper,
        table_sections_header_first_as_pcr]

/-- The table sections that the start of the header sets up on a fresh muxer
state: the four fixed tables and, unless the profile is 2, the PMT of the HD and
of the LD service, all with counter 15. -/
theorem table_sections_header_prepare (s : AVFormatContext) (h0 : s.priv_data.services = []) :
    ∀ sec ∈ table_sections (header_prepare s), sec.cc = 15 := by
  intro sec hsec
  simp only [header_prepare, header_tables, header_services, table_sections] at hsec
  split at hsec
  · simp [h0] at hsec
    rcases hsec with h | h | h | h <;> rw [h]
  · simp [h0, header_init_last_pmt, mpegts_add_service, MpegTSWrite.update_service,
      List.modify_zero_cons, List.modify_succ_cons] at hsec
    rcases hsec with h | h | h | h | h | h <;> rw [h]

/-- After a successful `mpegts_write_header` on a fresh muxer state, every
table section has the continuity counter 15. -/
theorem table_sections_header (s s1 : AVFormatContext) (h0 : s.priv_data.services = [])
    (h : mpegts_write_header s = .ok s1) :
    ∀ sec ∈ table_sections s1.priv_data, sec.cc = 15 := by
  unfold mpegts_write_header at h
  simp only [] at h
  split at h
  · cases h
  · cases h
  · rename_i ts streams pcr_st hloop
    rw [table_sections_header_finish _ _ _ _ _ _ h,
      table_sections_header_streams _ _ _ _ _ _ _ _ _ hloop]
    exact table_sections_header_prepare s h0

/-! ## Continuity counters of the tables: property of the specification -/

/-- C4: when the counter of a section is `c` before `mpegts_write_section` and
the section is split into `n` packets, the `k`-th packet (`k = 1..n`) carries
`(c + k) mod 16` in the low nibble of byte 3 and the counter is `(c + n) mod 16`
afterwards; `mpegts_write_header` leaves every table section (PAT, SDT, NIT, TOT
and the PMT of every service) with counter 15, so the first packet written on
such a section carries counter 0. -/
theorem mpegts_write_section_continuity (s : MpegTSSection) (buf : List Nat) (len : Nat)
    (hlen : 4 ≤ len) (hbuf : len ≤ buf.length)
    (ctx ctx1 : AVFormatContext) (hfresh : ctx.priv_data.services = [])
    (hhdr : mpegts_write_header ctx = .ok ctx1) :
    (∀ (k : Nat) (hk : k < (mpegts_write_section s buf len).2.2.length),
      ((mpegts_write_section s buf len).2.2.get ⟨k, hk⟩).getD 3 0 &&& 0xf =
        (s.cc + (k + 1)) % 16) ∧
    (mpegts_write_section s buf len).1.cc =
      (s.cc + (mpegts_write_section s buf len).2.2.length) % 16 ∧
    (∀ sec ∈ table_sections ctx1.priv_data, sec.cc = 15 ∧
      ∀ (b : List Nat) (n : Nat) (h0 : 0 < (mpegts_write_section sec b n).2.2.length),
        ((mpegts_write_section sec b n).2.2.get ⟨0, h0⟩).getD 3 0 &&& 0xf = 0) := by
  refine ⟨?_, ?_, ?_⟩
  · intro k hk
    exact section_loop_cc (section_fill_crc buf len) len len 0 s k hk
  · have hlen2 : len ≤ (section_fill_crc buf len).length := by
      simp [section_fill_crc]; omega
    have hn := (section_loop_reassemble (section_fill_crc buf len) len s (by omega) hlen2).2
    have hst := (section_loop_state (section_fill_crc buf len) len len 0 s (Nat.le_refl _)).2
    simp only [mpegts_write_section]
    rw [hst, if_neg (by omega)]
  · intro sec hsec
    have h15 := table_sections_header ctx ctx1 hfresh hhdr sec hsec
    refine ⟨h15, ?_⟩
    intro b n h0
    have := section_loop_cc (section_fill_crc b n) n n 0 sec 0 h0
    rw [h15] at this
    exact this

/-- Witness for C4: a 5-byte section, and the header of a transport with a
video and an audio stream. -/
theorem mpegts_write_section_continuity_witness :
    (4 ≤ 5 ∧ 5 ≤ [0x42, 1, 2, 3, 4].length ∧ example_input.priv_data.services = [] ∧
      mpegts_write_header example_input = .ok example_context) ∧
    (mpegts_write_section ⟨0x11, 15⟩ [0x42, 1, 2, 3, 4] 5).1.cc =
      (15 + (mpegts_write_section ⟨0x11, 15⟩ [0x42, 1, 2, 3, 4] 5).2.2.length) % 16 :=
  ⟨⟨by decide, by decide, rfl, rfl⟩,
    (mpegts_write_section_continuity ⟨0x11, 15⟩ [0x42, 1, 2, 3, 4] 5 (by decide) (by decide)
      example_input example_context rfl rfl).2.1⟩

/-! ## The PMT: properties of the specification -/

/-- C8: the stream type that `mpegts_write_pmt` writes for a stream is fixed by
its codec: MPEG-1 and MPEG-2 video give `0x02`, MPEG-4 part 2 `0x10`, H.264
`0x1B`, HEVC `0x24`, CAVS `0x42`, Dirac `0xD1`, AAC `0x0F` with the AAC_LATM flag
(`0x02`) clear and `0x11` with it set, AAC LATM `0x11`, AC-3 `0x81`, and the codecs
that the table of the specification does not name give `0x06`. With room left in
the buffer this value is the first byte of the entry of the stream. -/
theorem pmt_stream_type_table (flags : Nat) :
    pmt_stream_type .MPEG1VIDEO flags = 0x02 ∧
    pmt_stream_type .MPEG2VIDEO flags = 0x02 ∧
    pmt_stream_type .MPEG4 flags = 0x10 ∧
    pmt_stream_type .H264 flags = 0x1B ∧
    pmt_stream_type .HEVC flags = 0x24 ∧
    pmt_stream_type .CAVS flags = 0x42 ∧
    pmt_stream_type .DIRAC flags = 0xD1 ∧
    (flags &&& 0x02 = 0 → pmt_stream_type .AAC flags = 0x0F) ∧
    (flags &&& 0x02 ≠ 0 → pmt_stream_type .AAC flags = 0x11) ∧
    pmt_stream_type .AAC_LATM flags = 0x11 ∧
    pmt_stream_type .AC3 flags = 0x81 ∧
    pmt_stream_type .EAC3 flags = 0x06 ∧
    pmt_stream_type .S302M flags = 0x06 ∧
    pmt_stream_type .DVB_SUBTITLE flags = 0x06 ∧
    pmt_stream_type .DVB_TELETEXT flags = 0x06 ∧
    pmt_stream_type .SMPTE_KLV flags = 0x06 ∧
    (∀ n, pmt_stream_type (.OTHER n) flags = 0x06) ∧
    (∀ (st : AVStream) (q : List Nat), q.length ≤ 1012 - 32 →
      ∃ r, pmt_stream flags st q = .ok r ∧
        r.getD q.length 0 = pmt_stream_type st.codec.codec_id flags) := by
  refine ⟨rfl, rfl, rfl, rfl, rfl, rfl, rfl, ?_, ?_, rfl, rfl, rfl, rfl, rfl, rfl, rfl,
    fun _ => rfl, ?_⟩
  · intro h
    simp [pmt_stream_type, MPEGTS_FLAG_AAC_LATM, h, STREAM_TYPE_AUDIO_AAC]
  · intro h
    simp [pmt_stream_type, MPEGTS_FLAG_AAC_LATM, h, STREAM_TYPE_AUDIO_AAC_LATM]
  · intro st q hq
    obtain ⟨D, _, hD⟩ := pmt_stream_ok flags st q hq
    refine ⟨_, hD, ?_⟩
    simp only [pmt_stream_entry, List.cons_append]
    exact getD_append_cons q _ _

/-- Witness for C8: the AAC cases, with the flags `0x00` and `0x02`. -/
theorem pmt_stream_type_table_witness :
    ((0x00 &&& 0x02 = 0) ∧ pmt_stream_type .AAC 0x00 = 0x0F) ∧
    ((0x02 &&& 0x02 ≠ 0) ∧ pmt_stream_type .AAC 0x02 = 0x11) :=
  ⟨⟨by decide, (pmt_stream_type_table 0x00).2.2.2.2.2.2.2.1 (by decide)⟩,
    ⟨by decide, (pmt_stream_type_table 0x02).2.2.2.2.2.2.2.2.1 (by decide)⟩⟩

/-- C9, as the specification states it, fails: an MP3 stream gets the stream
type `0x03`, not `0x04`, and an MP1 stream gets `0x06`, not `0x03`. -/
theorem pmt_stream_type_mpeg_audio_counterexample :
    ¬ (pmt_stream_type .MP1 0 = 0x03 ∧ pmt_stream_type .MP2 0 = 0x03 ∧
      pmt_stream_type .MP3 0 = 0x04) := by
  decide

/-- C9, amended: `mpegts_write_pmt` maps MP2 and MP3 alike to the stream type
`0x03`; MP1 has no case of its own and gets the default `0x06`. -/
theorem pmt_stream_type_mpeg_audio (flags : Nat) :
    pmt_stream_type .MP2 flags = 0x03 ∧ pmt_stream_type .MP3 flags = 0x03 ∧
    pmt_stream_type .MP1 flags = 0x06 :=
  ⟨rfl, rfl, rfl⟩

/-- C10: the payload that `mpegts_write_pmt` builds for a service begins with
the ten bytes `0xE000 | pcr_pid` (big-endian), `0xF0 0x06`, `0x55 0x04 'B' 'R' 'A'
0x01`; every stream of the service then contributes its stream type, the
big-endian `0xE000 | PID` and the two bytes of `0xF000 | ES_info_length`, whose
low 12 bits are the number of descriptor bytes that follow for that stream; for
a service without streams the payload is those ten bytes; the payload is what
`mpegts_write_section1` is given, with the PMT table id. -/
theorem mpegts_write_pmt_payload (s : AVFormatContext) (service : MpegTSService) :
    pmt_program_info service =
      [(0xE000 ||| service.pcr_pid) / 256 % 256, (0xE000 ||| service.pcr_pid) % 256,
        0xF0, 0x06, 0x55, 0x04, 0x42, 0x52, 0x41, 0x01] ∧
    (∀ data, pmt_data s service = .ok data →
      ∃ bytes, data = pmt_program_info service ++ bytes ∧
        pmt_stream_loop_spec s.priv_data service.sid s.streams bytes) ∧
    (∀ d : List Nat, d.length < 4096 →
      (0xF000 ||| d.length) &&& 0xFFF = d.length ∧ 0xF000 ||| d.length < 65536) ∧
    ((∀ st ∈ s.streams,
        (s.priv_data.services.getD st.priv_data.service MpegTSService.zero).sid ≠ service.sid) →
      pmt_data s service = .ok (pmt_program_info service)) ∧
    (∀ (i : Nat) (data : List Nat),
      pmt_data s (s.priv_data.services.getD i MpegTSService.zero) = .ok data →
      (mpegts_write_pmt s i).2.2 =
        (mpegts_write_section1 (s.priv_data.services.getD i MpegTSService.zero).pmt PMT_TID
          (s.priv_data.services.getD i MpegTSService.zero).sid s.priv_data.tables_version 0 0
          data data.length).2.2) := by
  refine ⟨pmt_program_info_eq service, ?_, ?_, ?_, ?_⟩
  · intro data h
    exact pmt_streams_spec s.priv_data service.sid s.streams _ data h
  · intro d hd
    rw [or_f000 _ hd]
    have : (0xFFF : Nat) = 2 ^ 12 - 1 := by norm_num
    rw [this, Nat.and_pow_two_sub_one_eq_mod]
    omega
  · intro h
    exact pmt_streams_none s.priv_data service.sid s.streams _ h
  · intro i data h
    simp only [mpegts_write_pmt, h]

/-- Witness for C10: the PMT of the LD service of the example transport, which
owns the MP2 audio stream with the language tag `"por"`. -/
theorem mpegts_write_pmt_payload_witness :
    ∃ bytes,
      [0xFF, 0xFF, 0xF0, 0x06, 0x55, 0x04, 0x42, 0x52, 0x41, 0x01,
        0x03, 0xE1, 0x01, 0xF0, 0x06, 0x0A, 0x04, 0x70, 0x6F, 0x72, 0x00] =
        pmt_program_info (example_context.priv_data.services.getD 1 MpegTSService.zero) ++
          bytes ∧
      pmt_stream_loop_spec example_context.priv_data
        (example_context.priv_data.services.getD 1 MpegTSService.zero).sid
        example_context.streams bytes :=
  (mpegts_write_pmt_payload example_context
    (example_context.priv_data.services.getD 1 MpegTSService.zero)).2.1 _ rfl

/-! ## SDT payload -/

theorem sdt_patch (B D : List Nat) (d hi lo : Nat) :
    (((B ++ [0, 0] ++ [0x48] ++ [0] ++ D).set (B.length + 3) d).set B.length hi).set
      (B.length + 1) lo = B ++ [hi, lo, 0x48, d] ++ D := by
  induction B with
  | nil => simp
  | cons b B ih => simp [ih]

theorem putstr8_length (str : Option (List Nat)) :
    (putstr8 str).length = (str.getD []).length + 1 := by
  cases str <;> simp [putstr8]

theorem putstr8_eq (str : Option (List Nat)) (h : (str.getD []).length < 256) :
    putstr8 str = (str.getD []).length :: str.getD [] := by
  cases str with
  | none => rfl
  | some s =>
    simp only [Option.getD_some] at h
    simp [putstr8, Nat.mod_eq_of_lt h]

theorem or_8000 (n : Nat) (h : n < 4096) : 0x8000 ||| n = 0x8000 + n := by
  have := Nat.mul_add_lt_is_or (i := 12) (b := n) (by simpa using h) 8
  simpa using this.symm

theorem sdt_service_eq (q : List Nat) (service : MpegTSService) (hsid : service.sid < 65536)
    (hlen : (service.provider_name.getD []).length + (service.name.getD []).length + 3 ≤ 255) :
    sdt_service q service = q ++ sdt_service_entry service := by
  have hp := putstr8_eq service.provider_name (by omega)
  have hn := putstr8_eq service.name (by omega)
  simp only [sdt_service, sdt_service_entry, hp, hn, put16_eq _ hsid]
  generalize service.provider_name.getD [] = P at *
  generalize service.name.getD [] = N at *
  have e1 : (q ++ [service.sid / 256, service.sid % 256] ++ [0xfc ||| 0x00] ++ [0, 0] ++
      [0x48]).length = (q ++ [service.sid / 256, service.sid % 256, 0xFC]).length + 3 := by
    simp
  have e2 : (q ++ [service.sid / 256, service.sid % 256] ++ [0xfc ||| 0x00]).length =
      (q ++ [service.sid / 256, service.sid % 256, 0xFC]).length := by simp
  have e3 : q ++ [service.sid / 256, service.sid % 256] ++ [0xfc ||| 0x00] ++ [0, 0] ++
      [0x48] ++ [0] ++ [0x01] ++ (P.length :: P) ++ (N.length :: N) =
      (q ++ [service.sid / 256, service.sid % 256, 0xFC]) ++ [0, 0] ++ [0x48] ++ [0] ++
        ([0x01] ++ (P.length :: P) ++ (N.length :: N)) := by simp
  rw [e1, e2, e3]
  have l1 : (q ++ [service.sid / 256, service.sid % 256, 0xFC] ++ [0, 0] ++ [0x48] ++ [0] ++
      ([0x01] ++ (P.length :: P) ++ (N.length :: N))).length -
      ((q ++ [service.sid / 256, service.sid % 256, 0xFC]).length + 3) - 1 =
      P.length + N.length + 3 := by
    simp only [List.length_append, List.length_cons, List.length_nil]; omega
  rw [l1]
  have l2 : ((q ++ [service.sid / 256, service.sid % 256, 0xFC] ++ [0, 0] ++ [0x48] ++ [0] ++
      ([0x01] ++ (P.length :: P) ++ (N.length :: N))).set
        ((q ++ [service.sid / 256, service.sid % 256, 0xFC]).length + 3)
        ((P.length + N.length + 3) % 256)).length -
      (q ++ [service.sid / 256, service.sid % 256, 0xFC]).length - 2 =
      P.length + N.length + 5 := by
    simp only [List.length_set, List.length_append, List.length_cons, List.length_nil]; omega
  rw [l2, sdt_patch]
  have hval : (4 <<< 13 ||| 0 <<< 12 ||| (P.length + N.length + 5)) =
      0x8000 ||| (P.length + N.length + 5) := by
    simp
  rw [hval, Nat.mod_eq_of_lt (by omega : P.length + N.length + 3 < 256)]
  have hor := or_8000 (P.length + N.length + 5) (by omega)
  have hhi : (0x8000 ||| (P.length + N.length + 5)) >>> 8 % 256 =
      (0x8000 ||| (P.length + N.length + 5)) / 256 := by
    rw [Nat.shiftRight_eq_div_pow, hor]; omega
  rw [hhi]
  simp

theorem sdt_services_foldl (services : List MpegTSService) :
    ∀ q : List Nat,
      (∀ sv ∈ services, sv.sid < 65536 ∧
        (sv.provider_name.getD []).length + (sv.name.getD []).length + 3 ≤ 255) →
      services.foldl sdt_service q = q ++ (services.map sdt_service_entry).flatten := by
  induction services with
  | nil => intro q _; simp
  | cons sv rest ih =>
    intro q h
    have hsv := h sv (List.mem_cons_self _ _)
    rw [List.foldl_cons, sdt_service_eq q sv hsv.1 hsv.2,
      ih _ (fun x hx => h x (List.mem_cons_of_mem _ hx))]
    simp

/-- The payload handed to a successful `mpegts_write_section1` sits in the
reassembled section right after the 8 header bytes. -/
theorem mpegts_write_section1_payload (s : MpegTSSection)
    (tid id version sec_num last_sec_num : Nat) (buf : List Nat) (hlen : buf.length ≤ 1012) :
    ((section_reassemble
      (mpegts_write_section1 s tid id version sec_num last_sec_num buf buf.length).2.2).drop
        8).take buf.length = buf := by
  have hc := mpegts_write_section1_carried s tid id version sec_num last_sec_num buf buf.length
    hlen (Nat.le_refl _)
  have htk := section1_build_take tid id version sec_num last_sec_num buf buf.length
    (Nat.le_refl _)
  rw [htk, List.take_length] at hc
  generalize section_reassemble
    (mpegts_write_section1 s tid id version sec_num last_sec_num buf buf.length).2.2 = R at hc
  have h1 : (R.drop 8).take buf.length = ((R.take (buf.length + 12)).drop 8).take buf.length := by
    rw [List.drop_take, List.take_take]
    congr 1
    omega
  rw [h1, hc]
  simp [put16]

/-! ## NIT payload -/

theorem nit_transmission_type_length (q : List Nat) (service : MpegTSService) :
    (nit_transmission_type q service).length = q.length + 4 := by
  unfold nit_transmission_type
  split <;> simp [put16]

theorem nit_partial_reception_length (q : List Nat) (service : MpegTSService) :
    q.length ≤ (nit_partial_reception q service).length := by
  unfold nit_partial_reception
  split <;> simp

theorem foldl_length_le {α : Type} (f : List Nat → α → List Nat)
    (hf : ∀ q a, q.length ≤ (f q a).length) (l : List α) :
    ∀ q : List Nat, q.length ≤ (l.foldl f q).length := by
  induction l with
  | nil => intro q; exact Nat.le_refl _
  | cons a l ih => intro q; exact Nat.le_trans (hf q a) (ih _)

theorem nit_ts_information_length (ts : MpegTSWrite) (q : List Nat) :
    q.length ≤ (nit_ts_information ts q).length := by
  simp only [nit_ts_information, List.length_set]
  split
  · simp only [List.length_append]; omega
  · refine Nat.le_trans ?_ (foldl_length_le nit_transmission_type
      (fun q a => by rw [nit_transmission_type_length]; omega) _ _)
    simp only [List.length_append]; omega

theorem nit_service_list_length (ts : MpegTSWrite) (q : List Nat) :
    q.length ≤ (nit_service_list ts q).length := by
  simp only [nit_service_list, List.length_set]
  refine Nat.le_trans ?_ (foldl_length_le _ (fun q a => by simp only [List.length_append]; omega)
    _ _)
  simp only [List.length_append]; omega

/-- The Terrestrial Delivery System descriptor is appended to the bytes written
so far: tag, length 4 and the two 16-bit fields as `put16` stores them. -/
theorem nit_terrestrial_delivery_eq (ts : MpegTSWrite) (q : List Nat) :
    nit_terrestrial_delivery ts q =
      q ++ ([0xFA, 0x04] ++
        put16 ((ts.area_code <<< 4) ||| (ts.guard_interval <<< 2) ||| ts.transmission_mode) ++
        put16 (int_low16 ((473 + 6 * ((ts.physical_channel : Int) - 14) + Int.tdiv 1 7) * 7))) := by
  simp only [nit_terrestrial_delivery, put16]
  have e : q ++ [0xFA] ++ [0] ++
      [(ts.area_code <<< 4 ||| ts.guard_interval <<< 2 ||| ts.transmission_mode) >>> 8 % 256,
        (ts.area_code <<< 4 ||| ts.guard_interval <<< 2 ||| ts.transmission_mode) % 256] ++
      [int_low16 ((473 + 6 * ((ts.physical_channel : Int) - 14) + Int.tdiv 1 7) * 7) >>> 8 % 256,
        int_low16 ((473 + 6 * ((ts.physical_channel : Int) - 14) + Int.tdiv 1 7) * 7) % 256] =
      (q ++ [0xFA]) ++ 0 ::
      [(ts.area_code <<< 4 ||| ts.guard_interval <<< 2 ||| ts.transmission_mode) >>> 8 % 256,
        (ts.area_code <<< 4 ||| ts.guard_interval <<< 2 ||| ts.transmission_mode) % 256,
        int_low16 ((473 + 6 * ((ts.physical_channel : Int) - 14) + Int.tdiv 1 7) * 7) >>> 8 % 256,
        int_low16 ((473 + 6 * ((ts.physical_channel : Int) - 14) + Int.tdiv 1 7) * 7) % 256] := by
    simp
  rw [e, set_append_cons]
  simp

/-- The `data` buffer of the NIT ends with the Terrestrial Delivery System
descriptor. -/
theorem nit_data_suffix (ts : MpegTSWrite) :
    (nit_data ts).drop ((nit_data ts).length - 6) =
      [0xFA, 0x04] ++
        put16 ((ts.area_code <<< 4) ||| (ts.guard_interval <<< 2) ||| ts.transmission_mode) ++
        put16 (int_low16 ((473 + 6 * ((ts.physical_channel : Int) - 14) + Int.tdiv 1 7) * 7)) := by
  simp only [nit_data]
  generalize hQ : ts.services.foldl nit_partial_reception
    (nit_service_list ts (nit_ts_information ts
      (nit_network_descriptors ++ [0, 0] ++ put16 ts.tsid ++ put16 ts.onid ++ [0, 0]))) = Q
  have hQl : 32 ≤ Q.length := by
    rw [← hQ]
    refine Nat.le_trans ?_ (foldl_length_le _ nit_partial_reception_length _ _)
    refine Nat.le_trans ?_ (nit_service_list_length _ _)
    refine Nat.le_trans ?_ (nit_ts_information_length _ _)
    simp [put16, nit_network_descriptors, putstr8, DEFAULT_NETWORK_NAME]
  rw [nit_terrestrial_delivery_eq]
  generalize hD : [0xFA, 0x04] ++
    put16 ((ts.area_code <<< 4) ||| (ts.guard_interval <<< 2) ||| ts.transmission_mode) ++
    put16 (int_low16 ((473 + 6 * ((ts.physical_channel : Int) - 14) + Int.tdiv 1 7) * 7)) = D
  have hDl : D.length = 6 := by rw [← hD]; simp [put16]
  have hn : nit_network_descriptors.length = 24 := by
    simp [nit_network_descriptors, putstr8, DEFAULT_NETWORK_NAME]
  have h30 : (nit_network_descriptors ++ [0, 0] ++ put16 ts.tsid ++ put16 ts.onid).length = 30 := by
    simp [put16, hn]
  simp only [List.length_set, List.length_append, hDl, hn, h30]
  rw [List.drop_set_of_lt _ _ (by omega), List.drop_set_of_lt _ _ (by omega),
    List.drop_set_of_lt _ _ (by omega), List.drop_set_of_lt _ _ (by omega)]
  have : Q.length + 6 - 6 = Q.length := by omega
  rw [this, List.drop_left]

theorem int_low16_natCast (n : Nat) : int_low16 (n : Int) = n % 65536 := by
  unfold int_low16
  have : ((n : Int) % 65536) = ((n % 65536 : Nat) : Int) := by push_cast; rfl
  rw [this, Int.toNat_natCast]

theorem nit_frequency (c : Nat) (h : 14 ≤ c) :
    int_low16 ((473 + 6 * ((c : Int) - 14) + Int.tdiv 1 7) * 7) =
      (3311 + 42 * (c - 14)) % 65536 := by
  have h0 : Int.tdiv 1 7 = 0 := by decide
  have : ((473 + 6 * ((c : Int) - 14) + Int.tdiv 1 7) * 7) = ((3311 + 42 * (c - 14) : Nat) : Int) := by
    rw [h0]; push_cast; omega
  rw [this, int_low16_natCast]

/-! ## PCR and time stamp encodings -/

theorem uint8_natCast (n : Nat) : uint8 (n : Int) = n % 256 := by
  unfold uint8
  have : ((n : Int) % 256) = ((n % 256 : Nat) : Int) := by push_cast; rfl
  rw [this, Int.toNat_natCast]

theorem uint8_lt (v : Int) : uint8 v < 256 := by
  unfold uint8
  have h1 : 0 ≤ v % 256 := Int.emod_nonneg _ (by decide)
  have h2 : v % 256 < 256 := Int.emod_lt_of_pos _ (by decide)
  omega

theorem or3_bytes : ∀ a < 2, ∀ b < 2, (a * 128) ||| b ||| 0x7e = a * 128 + 0x7e + b := by
  decide

/-- The six PCR bytes of a non-negative value, in terms of the quotient and
the remainder by 300. -/
theorem write_pcr_bits_natCast (n : Nat) :
    write_pcr_bits (n : Int) =
      ([n / 300 / 2 ^ 25 % 256, n / 300 / 2 ^ 17 % 256, n / 300 / 2 ^ 9 % 256,
        n / 300 / 2 % 256, n / 300 % 2 * 128 + 0x7e + n % 300 / 256, n % 300 % 256], 6) := by
  have hlow : Int.tmod (n : Int) 300 = ((n % 300 : Nat) : Int) := by
    rw [Int.ofNat_tmod]; rfl
  have hhigh : Int.tdiv (n : Int) 300 = ((n / 300 : Nat) : Int) := by
    rw [Int.ofNat_tdiv]; rfl
  have hshift : ∀ (m k : Nat), ((m : Int) >>> k) = ((m / 2 ^ k : Nat) : Int) := by
    intro m k
    rw [Int.shiftRight_eq_div_pow]
    push_cast
    rfl
  have hmul : ((n / 300 : Nat) : Int) * 2 ^ 7 = ((n / 300 * 2 ^ 7 : Nat) : Int) := by
    push_cast; rfl
  simp only [write_pcr_bits, hlow, hhigh, hshift, hmul, uint8_natCast]
  have h4 : n / 300 * 2 ^ 7 % 256 = (n / 300 % 2) * 128 := by omega
  have h5 : n % 300 / 2 ^ 8 % 256 = n % 300 / 256 := by omega
  rw [h4, h5, or3_bytes _ (by omega) _ (by omega)]
  norm_num

theorem shl1_or1 (b : Nat) : (b <<< 1) ||| 1 = 2 * b + 1 := by
  rw [Nat.shiftLeft_eq, Nat.mul_comm]
  exact (Nat.mul_add_lt_is_or (i := 1) (b := 1) (by decide) b).symm

theorem or_marker : ∀ m < 16, ∀ a < 8, (m <<< 4) ||| (a <<< 1) ||| 1 = 16 * m + 2 * a + 1 := by
  decide

/-- The five time stamp bytes in terms of the three fields of `pts`. -/
theorem write_pts_eq (m : Nat) (hm : m < 16) (pts : Int) :
    write_pts m pts =
      [16 * m + 2 * ((pts >>> (30 : Nat)) % 8).toNat + 1,
        (2 * ((pts >>> (15 : Nat)) % 0x8000).toNat + 1) / 256,
        (2 * ((pts >>> (15 : Nat)) % 0x8000).toNat + 1) % 256,
        (2 * (pts % 0x8000).toNat + 1) / 256,
        (2 * (pts % 0x8000).toNat + 1) % 256] := by
  have hA : ((pts >>> (30 : Nat)) % 8).toNat < 8 := by
    have h1 : 0 ≤ (pts >>> (30 : Nat)) % 8 := Int.emod_nonneg _ (by decide)
    have h2 : (pts >>> (30 : Nat)) % 8 < 8 := Int.emod_lt_of_pos _ (by decide)
    omega
  have hB : ((pts >>> (15 : Nat)) % 0x8000).toNat < 0x8000 := by
    have h1 : 0 ≤ (pts >>> (15 : Nat)) % 0x8000 := Int.emod_nonneg _ (by decide)
    have h2 : (pts >>> (15 : Nat)) % 0x8000 < 0x8000 := Int.emod_lt_of_pos _ (by decide)
    omega
  have hC : (pts % 0x8000).toNat < 0x8000 := by
    have h1 : 0 ≤ pts % 0x8000 := Int.emod_nonneg _ (by decide)
    have h2 : pts % 0x8000 < 0x8000 := Int.emod_lt_of_pos _ (by decide)
    omega
  simp only [write_pts, shl1_or1, or_marker m hm _ hA, Nat.shiftRight_eq_div_pow]
  generalize ((pts >>> (30 : Nat)) % 8).toNat = A at *
  generalize ((pts >>> (15 : Nat)) % 0x8000).toNat = B at *
  generalize (pts % 0x8000).toNat = C at *
  have e1 : (16 * m + 2 * A + 1) % 256 = 16 * m + 2 * A + 1 := by omega
  have e2 : (2 * B + 1) / 2 ^ 8 % 256 = (2 * B + 1) / 256 := by omega
  have e3 : (2 * C + 1) / 2 ^ 8 % 256 = (2 * C + 1) / 256 := by omega
  rw [e1, e2, e3]
  rfl

/-- The three fields of a time stamp make up its residue modulo `2^33`. -/
theorem pts_fields (pts : Int) :
    ((pts >>> (30 : Nat)) % 8).toNat * 2 ^ 30 + ((pts >>> (15 : Nat)) % 0x8000).toNat * 2 ^ 15 +
      (pts % 0x8000).toNat = (pts % 2 ^ 33).toNat := by
  rw [Int.shiftRight_eq_div_pow, Int.shiftRight_eq_div_pow]
  have h30 : ((2 ^ 30 : Nat) : Int) = 1073741824 := by norm_num
  have h15 : ((2 ^ 15 : Nat) : Int) = 32768 := by norm_num
  have h33 : (2 ^ 33 : Int) = 8589934592 := by norm_num
  rw [h30, h15, h33]
  omega

theorem get_pcr_mono (ts : MpegTSWrite) (a b : AVIOContext) (hm : 0 < ts.mux_rate)
    (h : a.pos ≤ b.pos) : get_pcr ts a ≤ get_pcr ts b := by
  unfold get_pcr av_rescale avio_tell
  have h1 : ((a.pos : Int) + 11) * (8 * PCR_TIME_BASE) ≤ ((b.pos : Int) + 11) * (8 * PCR_TIME_BASE) := by
    apply Int.mul_le_mul_of_nonneg_right
    · omega
    · decide
  have := Int.ediv_le_ediv hm h1
  omega

theorem be32_AV_RB32 (a b c d : Nat) (ha : a < 256) (hb : b < 256) (hc : c < 256)
    (hd : d < 256) : be32 (AV_RB32 [a, b, c, d]) = [a, b, c, d] := by
  have h1 : (a <<< 24) ||| (b <<< 16) = 2 ^ 24 * a + b * 2 ^ 16 := by
    rw [Nat.shiftLeft_eq, Nat.shiftLeft_eq, Nat.mul_comm a]
    exact (Nat.mul_add_lt_is_or (i := 24) (by omega) a).symm
  have h2 : (2 ^ 24 * a + b * 2 ^ 16) ||| (c <<< 8) = 2 ^ 16 * (2 ^ 8 * a + b) + c * 2 ^ 8 := by
    rw [Nat.shiftLeft_eq]
    have : 2 ^ 24 * a + b * 2 ^ 16 = 2 ^ 16 * (2 ^ 8 * a + b) := by ring
    rw [this]
    exact (Nat.mul_add_lt_is_or (i := 16) (by omega) _).symm
  have h3 : (2 ^ 16 * (2 ^ 8 * a + b) + c * 2 ^ 8) ||| d =
      2 ^ 8 * (2 ^ 8 * (2 ^ 8 * a + b) + c) + d := by
    have : 2 ^ 16 * (2 ^ 8 * a + b) + c * 2 ^ 8 = 2 ^ 8 * (2 ^ 8 * (2 ^ 8 * a + b) + c) := by ring
    rw [this]
    exact (Nat.mul_add_lt_is_or (i := 8) (by omega) _).symm
  simp only [AV_RB32, List.getD_cons_zero, List.getD_cons_succ, h1, h2, h3, be32,
    Nat.shiftRight_eq_div_pow]
  have e1 : (2 ^ 8 * (2 ^ 8 * (2 ^ 8 * a + b) + c) + d) / 2 ^ 24 % 256 = a := by omega
  have e2 : (2 ^ 8 * (2 ^ 8 * (2 ^ 8 * a + b) + c) + d) / 2 ^ 16 % 256 = b := by omega
  have e3 : (2 ^ 8 * (2 ^ 8 * (2 ^ 8 * a + b) + c) + d) / 2 ^ 8 % 256 = c := by omega
  have e4 : (2 ^ 8 * (2 ^ 8 * (2 ^ 8 * a + b) + c) + d) % 256 = d := by omega
  rw [e1, e2, e3, e4]

/-- On a little-endian and on a big-endian host alike, the bytes handed to
`avio_write` are the word `tp_extra_header` most significant byte first. -/
theorem tp_extra_header_bytes_eq (little_endian : Bool) (pcr : Int) :
    tp_extra_header_bytes little_endian pcr = be32 (tp_extra_header pcr) := by
  unfold tp_extra_header_bytes
  generalize tp_extra_header pcr = v
  have hb : ∀ k : Nat, v >>> k % 256 < 256 := fun k => Nat.mod_lt _ (by decide)
  cases little_endian with
  | false =>
    simp only [host_bytes32, Bool.false_eq_true, if_false]
    have := be32_AV_RB32 _ _ _ _ (hb 24) (hb 16) (hb 8) (hb 0)
    simp only [Nat.shiftRight_zero] at this
    rw [show be32 v = [v >>> 24 % 256, v >>> 16 % 256, v >>> 8 % 256, v % 256] from rfl, this]
  | true =>
    simp only [host_bytes32, if_true]
    have := be32_AV_RB32 _ _ _ _ (hb 0) (hb 8) (hb 16) (hb 24)
    simp only [Nat.shiftRight_zero] at this
    rw [show (be32 v).reverse = [v % 256, v >>> 8 % 256, v >>> 16 % 256, v >>> 24 % 256] from rfl,
      this]
    rfl

/-- The four whole bytes and the top bit of the fifth hold a 33-bit base. -/
theorem pcr_base_bytes (H L : Nat) (hH : H < 2 ^ 33) (hL : L < 300) :
    H / 2 ^ 25 % 256 * 2 ^ 25 + H / 2 ^ 17 % 256 * 2 ^ 17 + H / 2 ^ 9 % 256 * 2 ^ 9 +
      H / 2 % 256 * 2 + (H % 2 * 128 + 0x7e + L / 256) / 128 = H := by
  have h1 : H / 2 ^ 17 / 256 = H / 2 ^ 25 := by rw [Nat.div_div_eq_div_mul]; norm_num
  have h2 : H / 2 ^ 9 / 256 = H / 2 ^ 17 := by rw [Nat.div_div_eq_div_mul]; norm_num
  have h3 : H / 2 / 256 = H / 2 ^ 9 := by rw [Nat.div_div_eq_div_mul]; norm_num
  have h4 : (H % 2 * 128 + 0x7e + L / 256) / 128 = H % 2 := by omega
  have h0 : H / 2 ^ 25 < 256 := by omega
  omega

/-- The low bit of the fifth byte and the sixth byte hold the extension. -/
theorem pcr_extension_bytes (H L : Nat) (hL : L < 300) :
    (H % 2 * 128 + 0x7e + L / 256) % 2 * 256 + L % 256 = L ∧
    (H % 2 * 128 + 0x7e + L / 256) / 2 % 64 = 0x3F := by
  have h1 : L / 256 ≤ 1 := by omega
  have h2 : H % 2 ≤ 1 := by omega
  constructor
  · omega
  · omega

/-! ## The packets of the tables -/

theorem be32_length (v : Nat) : (be32 v).length = 4 := rfl

theorem cc_bits : ∀ c < 16,
    (0x10 ||| c) % 256 = 0x10 ||| c ∧
    (0x10 ||| c) &&& 0x20 = 0 ∧ (0x10 ||| c) &&& 0x10 ≠ 0 ∧ (0x10 ||| c) &&& 0xf = c ∧
    ((0x10 ||| c) ||| 0x20) &&& 0x20 ≠ 0 ∧ ((0x10 ||| c) ||| 0x20) &&& 0x10 ≠ 0 ∧
    ((0x10 ||| c) ||| 0x20) &&& 0xf = c ∧
    (0x20 ||| c) % 256 = 0x20 ||| c ∧ (0x20 ||| c) &&& 0x10 = 0 ∧ (0x20 ||| c) &&& 0x20 ≠ 0 := by
  decide

theorem write_pcr_bits_shape (pcr : Int) :
    (write_pcr_bits pcr).2 = 6 ∧ ∃ p0 p1 p2 p3 p4 p5,
      (write_pcr_bits pcr).1 = [p0, p1, p2, p3, p4, p5] :=
  ⟨rfl, _, _, _, _, _, _, rfl⟩

theorem flag_bits :
    ((0 ||| 0x40) % 256 = 0x40 ∧ (0x40 : Nat) &&& 0x10 = 0) ∧
    ((0 ||| 0x10) % 256 = 0x10 ∧ (0x10 : Nat) &&& 0x10 ≠ 0) ∧
    ((0x40 ||| 0x10) % 256 = 0x50 ∧ (0x50 : Nat) &&& 0x10 ≠ 0) := by
  decide

/-- The bytes before the PES header or the payload: the four header bytes
alone, or with an adaptation field of a flags byte and, when the PCR flag is
set, the six PCR bytes. -/
theorem pes_adaptation_cases (ts : MpegTSWrite) (pb : AVIOContext) (pid cc : Nat)
    (hcc : cc < 16) (key is_start on_pcr_pid write_pcr : Bool) (pts dts : Option Int)
    (delay : Int) :
    pes_adaptation ts pb (pes_ts_header pid cc is_start) key is_start on_pcr_pid write_pcr
        pts dts delay =
      [0x47, (if is_start then pid >>> 8 ||| 0x40 else pid >>> 8) % 256, pid % 256,
        0x10 ||| cc] ∨
    ∃ (fl : Nat) (pcr : List Nat),
      pes_adaptation ts pb (pes_ts_header pid cc is_start) key is_start on_pcr_pid write_pcr
          pts dts delay =
        [0x47, (if is_start then pid >>> 8 ||| 0x40 else pid >>> 8) % 256, pid % 256,
          (0x10 ||| cc) ||| 0x20, 1 + pcr.length, fl] ++ pcr ∧
      fl < 256 ∧ pcr.length = (if fl &&& 0x10 ≠ 0 then 6 else 0) := by
  have hc := cc_bits cc hcc
  have hhdr : pes_ts_header pid cc is_start =
      [0x47, (if is_start then pid >>> 8 ||| 0x40 else pid >>> 8) % 256, pid % 256,
        0x10 ||| cc] := by
    cases is_start <;> simp [pes_ts_header, hc.1]
  rw [hhdr]
  generalize (if is_start then pid >>> 8 ||| 0x40 else pid >>> 8) % 256 = b1
  generalize pid % 256 = b2
  obtain ⟨h20, h20'⟩ : (0x10 ||| cc) &&& 0x20 = 0 ∧ ((0x10 ||| cc) ||| 0x20) &&& 0x20 ≠ 0 :=
    ⟨hc.2.1, hc.2.2.2.2.1⟩
  generalize 0x10 ||| cc = b3 at h20 h20' ⊢
  obtain ⟨_, p0, p1, p2, p3, p4, p5, hw⟩ := write_pcr_bits_shape (pes_pcr ts pb dts delay)
  have hw2 : (write_pcr_bits (pes_pcr ts pb dts delay)).2 = 6 := rfl
  unfold pes_adaptation
  simp only [hw, hw2]
  generalize (key && is_start && pts.isSome) = ra
  cases ra
  · -- no random access flag
    simp only [Bool.false_eq_true, if_false]
    cases write_pcr
    · simp only [Bool.false_eq_true, if_false]
      simp
    · simp only [if_true]
      refine Or.inr ⟨0x10, [p0, p1, p2, p3, p4, p5], ?_, by decide, rfl⟩
      simp [set_af_flag, extend_af, get_ts_payload_start, h20, h20']
  · simp only [if_true]
    have hq : List.take (get_ts_payload_start (set_af_flag [0x47, b1, b2, b3] 0x40))
        (set_af_flag [0x47, b1, b2, b3] 0x40) = [0x47, b1, b2, b3 ||| 0x20, 1, 0x40] := by
      simp [set_af_flag, get_ts_payload_start, h20, h20']
    rw [hq]
    generalize (if on_pcr_pid = true then true else write_pcr) = w
    cases w
    · simp only [Bool.false_eq_true, if_false]
      exact Or.inr ⟨0x40, [], rfl, by decide, rfl⟩
    · simp only [if_true]
      refine Or.inr ⟨0x50, [p0, p1, p2, p3, p4, p5], ?_, by decide, rfl⟩
      simp [set_af_flag, extend_af, get_ts_payload_start, h20']

theorem write_pts_length (m : Nat) (pts : Int) : (write_pts m pts).length = 5 := rfl

/-- The optional fields of the PES header have the length announced in its
`header_len` byte (before the teletext adjustment). -/
theorem pes_optional_fields_length (codec : AVCodecContext) (m2ts_mode : Int)
    (pts dts : Option Int) :
    (pes_optional_fields codec m2ts_mode pts dts (pes_flags codec m2ts_mode pts dts).1
      (pes_flags codec m2ts_mode pts dts).2.2).length = (pes_flags codec m2ts_mode pts dts).2.1 := by
  unfold pes_optional_fields pes_flags
  by_cases hV : codec.codec_type = AVMediaType.VIDEO <;>
  by_cases hA : codec.codec_type = AVMediaType.AUDIO <;>
  by_cases hD : codec.codec_id = AVCodecID.DIRAC <;>
  by_cases h3 : codec.codec_id = AVCodecID.AC3 <;>
  by_cases hm : m2ts_mode = 0 <;>
  cases pts <;> cases dts <;>
  simp_all [write_pts_length] <;>
  split <;> simp_all [write_pts_length]

theorem pes_flags_bounds (codec : AVCodecContext) (m2ts_mode : Int) (pts dts : Option Int) :
    (pes_flags codec m2ts_mode pts dts).1 < 256 ∧ (pes_flags codec m2ts_mode pts dts).2.1 ≤ 13 := by
  unfold pes_flags
  by_cases hV : codec.codec_type = AVMediaType.VIDEO <;>
  by_cases hA : codec.codec_type = AVMediaType.AUDIO <;>
  by_cases hD : codec.codec_id = AVCodecID.DIRAC <;>
  by_cases h3 : codec.codec_id = AVCodecID.AC3 <;>
  by_cases hm : m2ts_mode = 0 <;>
  cases pts <;> cases dts <;>
  simp_all <;>
  split <;> simp_all

/-- The PES header byte by byte. -/
theorem pes_header_eq (codec : AVCodecContext) (m2ts_mode : Int) (n : Nat)
    (pts dts : Option Int) :
    (pes_header codec m2ts_mode n pts dts).1 =
      [0x00, 0x00, 0x01, (pes_stream_id codec m2ts_mode).1,
        ((if (if (pes_stream_id codec m2ts_mode).2.1 then
              n + (if (pes_stream_id codec m2ts_mode).2.2 then 0x24
                else (pes_flags codec m2ts_mode pts dts).2.1) + 3 + 3
            else n + (if (pes_stream_id codec m2ts_mode).2.2 then 0x24
                else (pes_flags codec m2ts_mode pts dts).2.1) + 3) > 0xffff then 0
          else (if (pes_stream_id codec m2ts_mode).2.1 then
              n + (if (pes_stream_id codec m2ts_mode).2.2 then 0x24
                else (pes_flags codec m2ts_mode pts dts).2.1) + 3 + 3
            else n + (if (pes_stream_id codec m2ts_mode).2.2 then 0x24
                else (pes_flags codec m2ts_mode pts dts).2.1) + 3)) >>> 8) % 256,
        (if (if (pes_stream_id codec m2ts_mode).2.1 then
              n + (if (pes_stream_id codec m2ts_mode).2.2 then 0x24
                else (pes_flags codec m2ts_mode pts dts).2.1) + 3 + 3
            else n + (if (pes_stream_id codec m2ts_mode).2.2 then 0x24
                else (pes_flags codec m2ts_mode pts dts).2.1) + 3) > 0xffff then 0
          else (if (pes_stream_id codec m2ts_mode).2.1 then
              n + (if (pes_stream_id codec m2ts_mode).2.2 then 0x24
                else (pes_flags codec m2ts_mode pts dts).2.1) + 3 + 3
            else n + (if (pes_stream_id codec m2ts_mode).2.2 then 0x24
                else (pes_flags codec m2ts_mode pts dts).2.1) + 3)) % 256,
        (if codec.codec_type = AVMediaType.SUBTITLE ∨ codec.codec_type = AVMediaType.DATA then
          0x80 ||| 0x04 else 0x80),
        (pes_flags codec m2ts_mode pts dts).1 % 256,
        (if (pes_stream_id codec m2ts_mode).2.2 then 0x24
          else (pes_flags codec m2ts_mode pts dts).2.1) % 256] ++
        pes_optional_fields codec m2ts_mode pts dts (pes_flags codec m2ts_mode pts dts).1
          (pes_flags codec m2ts_mode pts dts).2.2 ++
        (if (pes_stream_id codec m2ts_mode).2.1 then [0x20, 0x00] else []) ++
        (if (pes_stream_id codec m2ts_mode).2.2 then
          List.replicate (0x24 - (pes_flags codec m2ts_mode pts dts).2.1) 0xff else []) ∧
    (pes_header codec m2ts_mode n pts dts).2.1 =
      (if (pes_stream_id codec m2ts_mode).2.1 then n + 1 else n) ∧
    (pes_header codec m2ts_mode n pts dts).2.2 = (pes_stream_id codec m2ts_mode).2.1 := by
  unfold pes_header
  generalize pes_stream_id codec m2ts_mode = id
  obtain ⟨i, sub, txt⟩ := id
  cases sub <;> cases txt <;> simp

/-- The flags `is_dvb_subtitle` and `is_dvb_teletext` exclude each other. -/
theorem pes_stream_id_excl (codec : AVCodecContext) (m2ts_mode : Int) :
    ¬ ((pes_stream_id codec m2ts_mode).2.1 = true ∧ (pes_stream_id codec m2ts_mode).2.2 = true) := by
  unfold pes_stream_id
  repeat' split
  all_goals simp

/-- The PES header has at least 9 and at most 45 bytes. -/
theorem pes_header_length (codec : AVCodecContext) (m2ts_mode : Int) (n : Nat)
    (pts dts : Option Int) :
    9 ≤ (pes_header codec m2ts_mode n pts dts).1.length ∧
    (pes_header codec m2ts_mode n pts dts).1.length ≤ 45 := by
  have hx := pes_stream_id_excl codec m2ts_mode
  have hb := (pes_flags_bounds codec m2ts_mode pts dts).2
  have hl := pes_optional_fields_length codec m2ts_mode pts dts
  rw [(pes_header_eq codec m2ts_mode n pts dts).1]
  simp only [List.length_append, List.length_cons, List.length_nil, hl]
  generalize (pes_flags codec m2ts_mode pts dts).2.1 = L at hb ⊢
  generalize pes_stream_id codec m2ts_mode = id at hx ⊢
  obtain ⟨i, sub, txt⟩ := id
  cases sub <;> cases txt <;> simp at hx ⊢ <;> omega

theorem ts_packet_form_append (b1 b2 b3 : Nat) (af : Option (List Nat)) (H C : List Nat) :
    ts_packet_form b1 b2 b3 af H ++ C = ts_packet_form b1 b2 b3 af (H ++ C) := by
  cases af <;> simp [ts_packet_form]

/-- The stuffing step turns the bytes written so far into a packet with an
adaptation field of the kinds of `pes_af_ok`, and adds `k` bytes. -/
theorem pes_add_stuffing_form (b1 b2 b3 : Nat) (h20 : b3 &&& 0x20 = 0)
    (h20' : (b3 ||| 0x20) &&& 0x20 ≠ 0) (q H : List Nat) (k : Nat) (hk : k < 200)
    (hq : q = [0x47, b1, b2, b3] ∨
      ∃ (fl : Nat) (pcr : List Nat),
        q = [0x47, b1, b2, b3 ||| 0x20, 1 + pcr.length, fl] ++ pcr ∧ fl < 256 ∧
          pcr.length = (if fl &&& 0x10 ≠ 0 then 6 else 0)) :
    ∃ af, pes_af_ok af ∧ pes_add_stuffing (q ++ H) k = ts_packet_form b1 b2 b3 af H ∧
      (pes_add_stuffing (q ++ H) k).length = q.length + H.length + k := by
  rcases hq with hq | ⟨fl, pcr, hq, hfl, hp⟩
  · subst hq
    rcases Nat.eq_zero_or_pos k with h0 | hpos
    · subst h0
      exact ⟨none, Or.inl rfl, by simp [pes_add_stuffing, ts_packet_form], by
        simp [pes_add_stuffing]; omega⟩
    · by_cases h2 : k ≥ 2
      · refine ⟨some (0x00 :: [] ++ List.replicate (k - 2) 0xff), Or.inr (Or.inr
          ⟨0, [], k - 2, rfl, by decide, rfl⟩), ?_, ?_⟩
        · have e : (k - 1) % 256 = k - 2 + 1 := by omega
          simp [pes_add_stuffing, ts_packet_form, hpos, h20, h2, e]
        · simp [pes_add_stuffing, hpos, h20, h2]
          omega
      · have h1 : k = 1 := by omega
        subst h1
        exact ⟨some [], Or.inr (Or.inl rfl), by
          simp [pes_add_stuffing, ts_packet_form, h20], by
          simp [pes_add_stuffing, h20]; omega⟩
  · subst hq
    have hpl : pcr.length ≤ 6 := by rw [hp]; split <;> omega
    refine ⟨some (fl :: pcr ++ List.replicate k 0xff), Or.inr (Or.inr
      ⟨fl, pcr, k, rfl, hfl, hp⟩), ?_, ?_⟩
    · rcases Nat.eq_zero_or_pos k with h0 | hpos
      · subst h0
        simp [pes_add_stuffing, ts_packet_form]
        omega
      · have e : (1 + pcr.length + k) % 256 = pcr.length + k + 1 := by omega
        have htk : List.take (4 + (1 + pcr.length + 1))
            ([0x47, b1, b2, b3 ||| 0x20, 1 + pcr.length, fl] ++ pcr ++ H) =
            [0x47, b1, b2, b3 ||| 0x20, 1 + pcr.length, fl] ++ pcr := by
          apply List.take_left'
          simp; omega
        have hdr : List.drop (4 + (1 + pcr.length + 1))
            ([0x47, b1, b2, b3 ||| 0x20, 1 + pcr.length, fl] ++ pcr ++ H) = H := by
          apply List.drop_left'
          simp; omega
        simp only [pes_add_stuffing, hpos, if_true, List.cons_append, List.nil_append,
          List.getD_cons_succ, List.getD_cons_zero, h20', ne_eq, not_false_eq_true]
        simp only [List.cons_append, List.nil_append] at htk hdr
        rw [htk, hdr]
        simp [ts_packet_form, e]
    · rcases Nat.eq_zero_or_pos k with h0 | hpos
      · subst h0
        simp [pes_add_stuffing]
        omega
      · simp [pes_add_stuffing, hpos, h20']
        omega

/-- The end of a turn of the loop, on bytes `q1 ++ Hh` of a header with or
without adaptation field followed by the PES header (if any): the packet has
188 bytes, carries `Hh` and the next payload bytes, and consumes at least one
byte. -/
theorem pes_fill_spec (b1 b2 cc : Nat) (hcc : cc < 16) (q1 Hh : List Nat) (sub : Bool)
    (payload : List Nat) (n : Nat) (hpos : 0 < n)
    (hsize : n = payload.length + (if sub = true then 1 else 0))
    (hHl : Hh.length ≤ 45)
    (hq : q1 = [0x47, b1, b2, 0x10 ||| cc] ∨
      ∃ (fl : Nat) (pcr : List Nat),
        q1 = [0x47, b1, b2, (0x10 ||| cc) ||| 0x20, 1 + pcr.length, fl] ++ pcr ∧ fl < 256 ∧
          pcr.length = (if fl &&& 0x10 ≠ 0 then 6 else 0)) :
    ∃ (af : Option (List Nat)) (chunk : List Nat), pes_af_ok af ∧
      (pes_fill (q1 ++ Hh) sub payload n).1 =
        ts_packet_form b1 b2 (0x10 ||| cc) af (Hh ++ chunk) ∧
      (pes_fill (q1 ++ Hh) sub payload n).1.length = 188 ∧
      0 < (pes_fill (q1 ++ Hh) sub payload n).2.2 ∧
      (pes_fill (q1 ++ Hh) sub payload n).2.1 + (pes_fill (q1 ++ Hh) sub payload n).2.2 = n ∧
      ((pes_fill (q1 ++ Hh) sub payload n).2.1 = 0 ∨
        (pes_fill (q1 ++ Hh) sub payload n).2.1 =
          (payload.drop (pes_fill (q1 ++ Hh) sub payload n).2.2).length +
            (if sub = true then 1 else 0)) ∧
      payload ++ (if sub = true then [0xff] else []) =
        chunk ++ (if (pes_fill (q1 ++ Hh) sub payload n).2.1 = 0 then []
          else payload.drop (pes_fill (q1 ++ Hh) sub payload n).2.2 ++
            (if sub = true then [0xff] else [])) := by
  have hc := cc_bits cc hcc
  have hq1l : 4 ≤ q1.length ∧ q1.length ≤ 12 := by
    rcases hq with h | ⟨fl, pcr, h, _, hp⟩
    · rw [h]; simp
    · rw [h]
      have : pcr.length ≤ 6 := by rw [hp]; split <;> omega
      simp; omega
  unfold pes_fill
  simp only [List.length_append, TS_PACKET_SIZE]
  generalize hlen : (if 188 - (q1.length + Hh.length) > n then n
    else 188 - (q1.length + Hh.length)) = len
  have hlenv : 0 < len ∧ len ≤ n ∧ len ≤ 188 - (q1.length + Hh.length) ∧
      (len < n → len = 188 - (q1.length + Hh.length)) := by
    rw [← hlen]; split <;> omega
  obtain ⟨af, haf, hform, hfl⟩ := pes_add_stuffing_form b1 b2 (0x10 ||| cc) hc.2.1
    hc.2.2.2.2.1 q1 Hh (188 - (q1.length + Hh.length) - len) (by omega) hq
  rw [hform] at hfl ⊢
  have hfl2 : (ts_packet_form b1 b2 (0x10 ||| cc) af Hh).length + len = 188 := by
    rw [hfl]; omega
  by_cases hfin : sub = true ∧ n = len
  · -- the last packet of a DVB subtitle
    have hs1 : n = payload.length + 1 := by
      rw [hsize, if_pos hfin.1]
    have hpl : payload.length = len - 1 := by omega
    have hz : n - len = 0 := by omega
    simp only [if_pos hfin, if_pos hfin.1, hz, if_true]
    refine ⟨af, payload.take (len - 1) ++ [0xff], haf, ?_, ?_, hlenv.1, by omega,
      Or.inl trivial, ?_⟩
    · rw [List.append_assoc, ts_packet_form_append]
    · rw [List.append_assoc, List.length_append]
      simp only [List.length_append, List.length_take, List.length_cons, List.length_nil]
      omega
    · rw [List.take_of_length_le (by omega), List.append_nil]
  · simp only [if_neg hfin]
    have hle : len ≤ payload.length := by
      by_cases hs : sub = true
      · rw [if_pos hs] at hsize
        have : n ≠ len := fun e => hfin ⟨hs, e⟩
        omega
      · rw [if_neg hs] at hsize
        omega
    refine ⟨af, payload.take len, haf, ?_, ?_, hlenv.1, by omega, ?_, ?_⟩
    · rw [ts_packet_form_append]
    · rw [List.length_append, List.length_take]
      omega
    · by_cases hz : n - len = 0
      · exact Or.inl hz
      · right
        rw [List.length_drop, hsize]
        omega
    · by_cases hz : n - len = 0
      · have hnl : n = len := by omega
        have hs : ¬ sub = true := fun h => hfin ⟨h, hnl⟩
        rw [if_neg hs] at hsize
        simp only [if_neg hs, if_pos hz, List.append_nil]
        rw [List.take_of_length_le (by omega)]
      · simp only [if_neg hz]
        rw [← List.append_assoc, List.take_append_drop]

/-- One turn of the loop builds a 188-byte payload packet that carries the
next `part` of the bytes still to send, and consumes at least one byte. -/
theorem pes_packet_spec (ts : MpegTSWrite) (pb : AVIOContext) (st : AVStream) (cc : Nat)
    (hcc : cc < 16) (on_pcr_pid write_pcr key : Bool) (pts dts : Option Int) (delay : Int)
    (is_start sub : Bool) (payload : List Nat) (n : Nat) (hpos : 0 < n)
    (hsize : n = payload.length + (if is_start = false ∧ sub = true then 1 else 0)) :
    ∃ part : List Nat,
      pes_packet_ok st.priv_data.pid cc is_start part
        (pes_packet ts pb st cc on_pcr_pid write_pcr key pts dts delay is_start sub payload
          n).1 ∧
      (pes_packet ts pb st cc on_pcr_pid write_pcr key pts dts delay is_start sub payload
          n).2.1 < n ∧
      ((pes_packet ts pb st cc on_pcr_pid write_pcr key pts dts delay is_start sub payload
          n).2.1 = 0 ∨
        (pes_packet ts pb st cc on_pcr_pid write_pcr key pts dts delay is_start sub payload
          n).2.1 =
          (payload.drop (pes_packet ts pb st cc on_pcr_pid write_pcr key pts dts delay is_start
            sub payload n).2.2.1).length +
          (if (pes_packet ts pb st cc on_pcr_pid write_pcr key pts dts delay is_start sub
            payload n).2.2.2 = true then 1 else 0)) ∧
      pes_body st.codec ts.m2ts_mode pts dts is_start sub payload n =
        part ++ pes_body st.codec ts.m2ts_mode pts dts false
          (pes_packet ts pb st cc on_pcr_pid write_pcr key pts dts delay is_start sub payload
            n).2.2.2
          (payload.drop (pes_packet ts pb st cc on_pcr_pid write_pcr key pts dts delay is_start
            sub payload n).2.2.1)
          (pes_packet ts pb st cc on_pcr_pid write_pcr key pts dts delay is_start sub payload
            n).2.1 := by
  have hq := pes_adaptation_cases ts pb st.priv_data.pid cc hcc key is_start on_pcr_pid
    write_pcr pts dts delay
  have hh := pes_header_eq st.codec ts.m2ts_mode n pts dts
  have hhl := pes_header_length st.codec ts.m2ts_mode n pts dts
  have hn0 : ¬ n = 0 := by omega
  unfold pes_packet
  simp only [pes_body, hn0, if_false, Bool.false_eq_true]
  generalize pes_adaptation ts pb (pes_ts_header st.priv_data.pid cc is_start) key is_start
    on_pcr_pid write_pcr pts dts delay = q1 at hq ⊢
  cases is_start
  · -- a later packet
    simp only [Bool.false_eq_true, if_false, true_and] at hsize hq ⊢
    obtain ⟨af, chunk, haf, hform, hl, hlen, hsum, hinv, hb⟩ :=
      pes_fill_spec _ _ cc hcc q1 [] sub payload n hpos hsize (by simp) hq
    simp only [List.append_nil, List.nil_append] at hform hl hlen hsum hinv hb
    exact ⟨chunk, ⟨hl, af, haf, hform⟩, by omega, hinv, hb⟩
  · -- the first packet, with the PES header
    simp only [if_true, Bool.true_eq_false, false_and, if_false, Nat.add_zero] at hsize hq ⊢
    rw [hh.2.1, hh.2.2]
    generalize (pes_header st.codec ts.m2ts_mode n pts dts).1 = Hh at hhl ⊢
    generalize (pes_stream_id st.codec ts.m2ts_mode).2.1 = sub2
    have hq1l : q1.length ≤ 12 := by
      rcases hq with h | ⟨fl, pcr, h, _, hp⟩
      · rw [h]; simp
      · rw [h]
        have : pcr.length ≤ 6 := by rw [hp]; split <;> omega
        simp; omega
    cases sub2
    · simp only [Bool.false_eq_true, if_false]
      obtain ⟨af, chunk, haf, hform, hl, hlen, hsum, hinv, hb⟩ :=
        pes_fill_spec _ _ cc hcc q1 Hh false payload n hpos (by simpa using hsize) hhl.2 hq
      simp only [Bool.false_eq_true, if_false, List.append_nil] at hinv hb ⊢
      refine ⟨Hh ++ chunk, ⟨hl, af, haf, hform⟩, by omega, hinv, ?_⟩
      rw [List.append_assoc, ← hb]
    · simp only [if_true]
      obtain ⟨af, chunk, haf, hform, hl, hlen, hsum, hinv, hb⟩ :=
        pes_fill_spec _ _ cc hcc q1 Hh true payload (n + 1) (by omega)
          (by simpa using hsize) hhl.2 hq
      simp only [if_true] at hinv hb ⊢
      have hlen2 : 2 ≤ (pes_fill (q1 ++ Hh) true payload (n + 1)).2.2 := by
        have hH : 9 ≤ Hh.length := hhl.1
        simp only [pes_fill, List.length_append, TS_PACKET_SIZE]
        split <;> omega
      refine ⟨Hh ++ chunk, ⟨hl, af, haf, hform⟩, by omega, hinv, ?_⟩
      rw [List.append_assoc, List.append_assoc, hb]

/-! ## One turn of the loop of `mpegts_write_pes` -/

theorem get_pcr_eq (ts : MpegTSWrite) (pb : AVIOContext) :
    get_pcr ts pb =
      av_rescale ((pb.pos : Int) + 11) (8 * PCR_TIME_BASE) ts.mux_rate + ts.first_pcr := rfl

/-- In CBR mode with a 32-bit mux rate the PCR grows by at least one unit
over 188 bytes. -/
theorem av_rescale_step (mux : Int) (a b : Nat) (hm : 0 < mux) (hm31 : mux < 2 ^ 31)
    (h : a + 188 ≤ b) :
    av_rescale ((a : Int) + 11) (8 * PCR_TIME_BASE) mux + 1 ≤
      av_rescale ((b : Int) + 11) (8 * PCR_TIME_BASE) mux := by
  unfold av_rescale PCR_TIME_BASE
  have h1 : ((a : Int) + 11) * (8 * 27000000) + 1 * mux ≤ ((b : Int) + 11) * (8 * 27000000) := by
    have : (2 : Int) ^ 31 = 2147483648 := by norm_num
    have hb : (a : Int) + 188 ≤ (b : Int) := by exact_mod_cast h
    nlinarith
  have h2 := Int.ediv_le_ediv hm h1
  rw [Int.add_mul_ediv_right _ _ (by omega : mux ≠ 0)] at h2
  exact h2

theorem av_rescale_mono (mux : Int) (a b : Nat) (hm : 0 < mux) (h : a ≤ b) :
    av_rescale ((a : Int) + 11) (8 * PCR_TIME_BASE) mux ≤
      av_rescale ((b : Int) + 11) (8 * PCR_TIME_BASE) mux := by
  unfold av_rescale PCR_TIME_BASE
  have h1 : ((a : Int) + 11) * (8 * 27000000) ≤ ((b : Int) + 11) * (8 * 27000000) := by
    have hb : (a : Int) ≤ (b : Int) := by exact_mod_cast h
    nlinarith
  exact Int.ediv_le_ediv hm h1

/-- The measure of the loop in terms of the fields it depends on. -/
theorem pes_measure_eq (mux first : Int) (dts : Option Int) (delay : Int) (x : PesState) :
    pes_measure mux first dts delay x =
      x.payload_size +
        (if mux > 1 then
          ((dts.getD 0 - delay) * 300 -
            (av_rescale ((x.pb.pos : Int) + 11) (8 * PCR_TIME_BASE) mux + first)).toNat
        else 0) := rfl

theorem pes_fuel_measure (s : AVFormatContext) (pb : AVIOContext) (n : Nat) (dts : Option Int)
    (delay : Int) (x : PesState) (hpb : x.pb = pb) (hn : x.payload_size = n) :
    pes_measure s.priv_data.mux_rate s.priv_data.first_pcr dts delay x ≤
      pes_fuel s pb n dts delay := by
  rw [pes_measure_eq, hpb, hn]
  unfold pes_fuel
  rw [get_pcr_eq]
  split <;> omega

theorem trace_cc_lt (m : Int) (pid : Nat) :
    ∀ (cc : Nat) (start : Bool) (body : List Nat) (new : List (List Nat)) (cc2 : Nat),
      PesTrace m pid cc start body new cc2 → cc < 16 → cc2 < 16 := by
  intro cc start body new cc2 h
  induction h with
  | done cc => exact id
  | foreign cc cc2 start body c rest _ _ ih => exact ih
  | pcr_only cc cc2 start body p rest _ _ ih => exact ih
  | packet cc cc2 start part body p rest _ _ ih =>
    intro _
    exact ih (Nat.mod_lt _ (by decide))

theorem mpegts_write_pmt_static (s : AVFormatContext) (i : Nat) :
    (mpegts_write_pmt s i).2.1.streams = s.streams ∧
    (mpegts_write_pmt s i).2.1.max_delay = s.max_delay ∧
    ts_options (mpegts_write_pmt s i).2.1.priv_data = ts_options s.priv_data := by
  unfold mpegts_write_pmt
  simp only []
  generalize pmt_data s (s.priv_data.services.getD i MpegTSService.zero) = D
  cases D with
  | error e => exact ⟨rfl, rfl, rfl⟩
  | ok data => exact ⟨rfl, rfl, rfl⟩

theorem retransmit_pmt_static (l : List Nat) :
    ∀ acc : AVFormatContext × AVIOContext,
      (l.foldl retransmit_pmt acc).1.streams = acc.1.streams ∧
      (l.foldl retransmit_pmt acc).1.max_delay = acc.1.max_delay ∧
      ts_options (l.foldl retransmit_pmt acc).1.priv_data = ts_options acc.1.priv_data := by
  induction l with
  | nil => intro acc; exact ⟨rfl, rfl, rfl⟩
  | cons i l ih =>
    intro acc
    rw [List.foldl_cons]
    have h1 := mpegts_write_pmt_static acc.1 i
    have h2 := ih (retransmit_pmt acc i)
    have e : (retransmit_pmt acc i).1 = (mpegts_write_pmt acc.1 i).2.1 := rfl
    rw [e] at h2
    exact ⟨h2.1.trans h1.1, h2.2.1.trans h1.2.1, h2.2.2.trans h1.2.2⟩

theorem retransmit_sdt_static (ts : MpegTSWrite) (pb : AVIOContext) :
    ts_options (retransmit_sdt ts pb).1 = ts_options ts := by
  unfold retransmit_sdt
  simp only []
  split
  · rfl
  · rfl

theorem retransmit_nit_static (ts : MpegTSWrite) (pb : AVIOContext) :
    ts_options (retransmit_nit ts pb).1 = ts_options ts := by
  unfold retransmit_nit
  simp only []
  split
  · rfl
  · rfl

theorem retransmit_tot_static (ts : MpegTSWrite) (pb : AVIOContext) :
    ts_options (retransmit_tot ts pb).1 = ts_options ts := by
  unfold retransmit_tot
  simp only []
  split
  · rfl
  · rfl

theorem retransmit_pat_static (s : AVFormatContext) (pb : AVIOContext) (force_pat : Bool) :
    (retransmit_pat s pb force_pat).1.streams = s.streams ∧
    (retransmit_pat s pb force_pat).1.max_delay = s.max_delay ∧
    ts_options (retransmit_pat s pb force_pat).1.priv_data = ts_options s.priv_data := by
  unfold retransmit_pat
  simp only []
  split
  · have hW : ts_options (mpegts_write_pat { s.priv_data with pat_packet_count := 0 }).1 =
        ts_options s.priv_data := rfl
    generalize mpegts_write_pat { s.priv_data with pat_packet_count := 0 } = W at hW ⊢
    have h := retransmit_pmt_static (List.range W.1.services.length)
      ({ s with priv_data := W.1 }, write_packets W.1 pb W.2)
    exact ⟨h.1, h.2.1, h.2.2.trans hW⟩
  · exact ⟨rfl, rfl, rfl⟩

/-- `retransmit_si_info` leaves the streams, `max_delay` and the options
alone, whatever the PIDs. -/
theorem retransmit_si_info_static (s : AVFormatContext) (pb : AVIOContext) (force_pat : Bool) :
    (retransmit_si_info s pb force_pat).1.streams = s.streams ∧
    (retransmit_si_info s pb force_pat).1.max_delay = s.max_delay ∧
    ts_options (retransmit_si_info s pb force_pat).1.priv_data = ts_options s.priv_data := by
  unfold retransmit_si_info
  simp only []
  have h1 := retransmit_sdt_static s.priv_data pb
  generalize retransmit_sdt s.priv_data pb = r1 at h1 ⊢
  have h2 := retransmit_nit_static r1.1 r1.2
  generalize retransmit_nit r1.1 r1.2 = r2 at h2 ⊢
  have h3 := retransmit_tot_static r2.1 r2.2
  generalize retransmit_tot r2.1 r2.2 = r3 at h3 ⊢
  have h4 := retransmit_pat_static { s with priv_data := r3.1 } r3.2 force_pat
  generalize retransmit_pat { s with priv_data := r3.1 } r3.2 force_pat = r4 at h4 ⊢
  exact ⟨h4.1, h4.2.1, h4.2.2.trans (h3.trans (h2.trans h1))⟩

theorem pes_pcr_due_static (s : AVFormatContext) (sti : Nat) (is_start : Bool) :
    (pes_pcr_due s sti is_start).1.streams = s.streams ∧
    (pes_pcr_due s sti is_start).1.max_delay = s.max_delay ∧
    ts_options (pes_pcr_due s sti is_start).1.priv_data = ts_options s.priv_data := by
  unfold pes_pcr_due
  simp only []
  split
  · exact ⟨rfl, rfl, rfl⟩
  · exact ⟨rfl, rfl, rfl⟩

theorem map_modify_same {α β : Type} (h : α → β) (g : α → α) (hg : ∀ a, h (g a) = h a) :
    ∀ (i : Nat) (l : List α), (l.modify g i).map h = l.map h := by
  intro i l
  induction l generalizing i with
  | nil => simp
  | cons a l ih =>
    cases i with
    | zero => simp [hg]
    | succ i => simp [ih]

theorem update_stream_without_counter (s : AVFormatContext) (i : Nat)
    (f : MpegTSWriteStream → MpegTSWriteStream)
    (hf : ∀ t, { f t with cc := 0, prev_payload_key := false } =
      { t with cc := 0, prev_payload_key := false }) :
    (s.update_stream i f).streams.map AVStream.without_counter =
      s.streams.map AVStream.without_counter := by
  unfold AVFormatContext.update_stream
  simp only []
  apply map_modify_same
  intro st
  simp only [AVStream.without_counter, hf]

/-- One turn of the loop of `mpegts_write_pes` changes no stream beyond its
continuity counter. -/
theorem pes_step_static (sti : Nat) (pts dts : Option Int) (key : Bool) (delay : Int)
    (x : PesState) :
    (pes_step sti pts dts key delay x).s.streams.map AVStream.without_counter =
      x.s.streams.map AVStream.without_counter ∧
    (pes_step sti pts dts key delay x).s.max_delay = x.s.max_delay ∧
    ts_options (pes_step sti pts dts key delay x).s.priv_data = ts_options x.s.priv_data := by
  have hr := retransmit_si_info_static x.s x.pb x.force_pat
  unfold pes_step
  simp only []
  generalize retransmit_si_info x.s x.pb x.force_pat = r at hr ⊢
  have hd := pes_pcr_due_static r.1 sti x.is_start
  generalize pes_pcr_due r.1 sti x.is_start = d at hd ⊢
  split
  · exact ⟨by rw [hd.1, hr.1], hd.2.1.trans hr.2.1, hd.2.2.trans hr.2.2⟩
  · refine ⟨?_, hd.2.1.trans hr.2.1, hd.2.2.trans hr.2.2⟩
    exact (update_stream_without_counter d.1 sti
      (fun ts_st => { ts_st with cc := ((d.1.stream sti).priv_data.cc + 1) &&& 0xf })
      (fun _ => rfl)).trans (by rw [hd.1, hr.1])

theorem pes_loop_static (sti : Nat) (pts dts : Option Int) (key : Bool) (delay : Int) :
    ∀ (fuel : Nat) (x y : PesState), pes_loop fuel sti pts dts key delay x = some y →
      y.s.streams.map AVStream.without_counter = x.s.streams.map AVStream.without_counter ∧
      y.s.max_delay = x.s.max_delay ∧
      ts_options y.s.priv_data = ts_options x.s.priv_data := by
  intro fuel
  induction fuel with
  | zero =>
    intro x y h
    unfold pes_loop at h
    split at h
    · cases h
    · cases h; exact ⟨rfl, rfl, rfl⟩
  | succ n ih =>
    intro x y h
    unfold pes_loop at h
    split at h
    · have h1 := pes_step_static sti pts dts key delay x
      have h2 := ih _ _ h
      exact ⟨h2.1.trans h1.1, h2.2.1.trans h1.2.1, h2.2.2.trans h1.2.2⟩
    · cases h; exact ⟨rfl, rfl, rfl⟩

/-- A call of `mpegts_write_pes` changes no stream beyond its continuity
counter and `prev_payload_key`, and leaves `max_delay` and the options
alone. -/
theorem mpegts_write_pes_static (s : AVFormatContext) (pb : AVIOContext) (sti : Nat)
    (payload : List Nat) (pts dts : Option Int) (key : Bool)
    (r : AVFormatContext × AVIOContext)
    (h : mpegts_write_pes s pb sti payload pts dts key = some r) :
    r.1.streams.map AVStream.without_counter = s.streams.map AVStream.without_counter ∧
    r.1.max_delay = s.max_delay ∧
    ts_options r.1.priv_data = ts_options s.priv_data := by
  unfold mpegts_write_pes at h
  simp only [] at h
  split at h
  · cases h
  · rename_i y hy
    have hl := pes_loop_static sti pts dts key _ _ _ _ hy
    cases h
    refine ⟨?_, hl.2.1, hl.2.2⟩
    exact (update_stream_without_counter y.s sti
      (fun ts_st => { ts_st with prev_payload_key := key }) (fun _ => rfl)).trans hl.1

theorem stream_without_counter (a b : AVFormatContext)
    (h : b.streams.map AVStream.without_counter = a.streams.map AVStream.without_counter)
    (j : Nat) : (b.stream j).without_counter = (a.stream j).without_counter := by
  have hz : AVStream.zero.without_counter = AVStream.zero := rfl
  have e : ∀ c : AVFormatContext, (c.stream j).without_counter =
      (c.streams.map AVStream.without_counter).getD j AVStream.zero := by
    intro c
    unfold AVFormatContext.stream
    rw [List.getD_eq_getElem?_getD, List.getD_eq_getElem?_getD, List.getElem?_map]
    cases c.streams[j]? <;> simp [hz]
  rw [e, e, h]

/-! ## Facts about the muxer loop -/

theorem getD_modify {α : Type} (f : α → α) (d : α) (l : List α) (i j : Nat) :
    (l.modify f i).getD j d = if j = i ∧ j < l.length then f (l.getD j d) else l.getD j d := by
  rw [List.getD_eq_getElem?_getD, List.getD_eq_getElem?_getD, List.getElem?_modify]
  by_cases hj : j < l.length
  · rw [List.getElem?_eq_getElem hj]
    by_cases hij : i = j
    · subst hij
      simp [hj]
    · have : ¬ j = i := fun h => hij h.symm
      simp [hij, this]
  · rw [List.getElem?_eq_none (by omega)]
    simp [hj]

theorem stream_update_stream (s : AVFormatContext) (i : Nat)
    (f : MpegTSWriteStream → MpegTSWriteStream) (j : Nat) :
    (s.update_stream i f).stream j =
      if j = i ∧ j < s.streams.length then
        { s.stream j with priv_data := f (s.stream j).priv_data }
      else s.stream j := by
  simp only [AVFormatContext.stream, AVFormatContext.update_stream]
  exact getD_modify _ _ _ _ _

theorem stream_kept_refl (a : AVStream) : stream_kept a a := Or.inl rfl

theorem stream_kept_trans (a b c : AVStream) (h1 : stream_kept a b) (h2 : stream_kept b c) :
    stream_kept a c := by
  unfold stream_kept at *
  rcases h1 with h1 | h1 <;> rcases h2 with h2 | h2
  · exact Or.inl (h2.trans h1)
  · exact Or.inr (by rw [h2, h1])
  · exact Or.inr (by rw [h2, h1])
  · exact Or.inr (by rw [h2, h1])

theorem ctx_kept_refl (a : AVFormatContext) : ctx_kept a a :=
  ⟨rfl, fun _ => stream_kept_refl _, rfl, rfl⟩

theorem ctx_kept_trans (a b c : AVFormatContext) (h1 : ctx_kept a b) (h2 : ctx_kept b c) :
    ctx_kept a c :=
  ⟨h2.1.trans h1.1, fun j => stream_kept_trans _ _ _ (h1.2.1 j) (h2.2.1 j),
    h2.2.2.1.trans h1.2.2.1, h2.2.2.2.trans h1.2.2.2⟩

/-- What a kept stream has in common with the stream it comes from. -/
theorem stream_kept_fields (a b : AVStream) (h : stream_kept a b) :
    b.codec = a.codec ∧ b.id = a.id ∧ b.nb_frames = a.nb_frames ∧
    b.priv_data.pid = a.priv_data.pid ∧ b.priv_data.service = a.priv_data.service ∧
    b.priv_data.first_pts_check = a.priv_data.first_pts_check ∧
    b.priv_data.amux = a.priv_data.amux ∧
    (b.priv_data.payload_size = 0 ∨
      (b.priv_data.payload_size = a.priv_data.payload_size ∧
        b.priv_data.payload = a.priv_data.payload ∧
        b.priv_data.payload_pts = a.priv_data.payload_pts ∧
        b.priv_data.payload_dts = a.priv_data.payload_dts ∧
        b.priv_data.payload_flags = a.priv_data.payload_flags)) := by
  rcases h with h | h
  · simp only [AVStream.without_counter, AVStream.mk.injEq, MpegTSWriteStream.mk.injEq,
      true_and] at h
    obtain ⟨hi, hc, _, _, hn, hs, hp, hps, hf, hpp, hpd, hpf, hpl, ha⟩ := h
    exact ⟨hc, hi, hn, hp, hs, hf, ha, Or.inr ⟨hps, hpl, hpp, hpd, hpf⟩⟩
  · simp only [AVStream.without_counter, AVStream.mk.injEq, MpegTSWriteStream.mk.injEq,
      true_and] at h
    obtain ⟨hi, hc, _, _, hn, hs, hp, hps, hf, hpp, hpd, hpf, hpl, ha⟩ := h
    exact ⟨hc, hi, hn, hp, hs, hf, ha, Or.inl hps⟩

theorem mpegts_write_pes_kept (s : AVFormatContext) (pb : AVIOContext) (sti : Nat)
    (payload : List Nat) (pts dts : Option Int) (key : Bool)
    (r : AVFormatContext × AVIOContext)
    (h : mpegts_write_pes s pb sti payload pts dts key = some r) : ctx_kept s r.1 := by
  obtain ⟨h1, h2, h3⟩ := mpegts_write_pes_static s pb sti payload pts dts key r h
  refine ⟨?_, fun j => Or.inl (stream_without_counter s r.1 h1 j), h2, h3⟩
  have := congrArg List.length h1
  simpa using this

/-- A flush of the stream number `i` keeps every stream and leaves the buffer
of stream `i` empty. -/
theorem packet_flush_stream_kept (s : AVFormatContext) (pb : AVIOContext) (i : Nat)
    (r : AVFormatContext × AVIOContext) (h : packet_flush_stream s pb i = some r) :
    ctx_kept s r.1 ∧ (r.1.stream i).priv_data.payload_size = 0 := by
  unfold packet_flush_stream at h
  simp only [] at h
  split at h
  · cases h
  · rename_i w hw
    have hk := mpegts_write_pes_kept _ _ _ _ _ _ _ _ hw
    cases h
    have hlen : (w.1.update_stream i
        (fun ts_st => { ts_st with payload_size := 0, payload := [] })).streams.length =
        w.1.streams.length := by
      simp only [AVFormatContext.update_stream, List.length_modify]
    constructor
    · refine ⟨hlen.trans hk.1, ?_, hk.2.2.1, hk.2.2.2⟩
      intro j
      refine stream_kept_trans _ _ _ (hk.2.1 j) ?_
      rw [stream_update_stream]
      split
      · exact Or.inr rfl
      · exact Or.inl rfl
    · rw [stream_update_stream]
      split
      · rfl
      · rename_i hn
        have hge : ¬ i < w.1.streams.length := fun hlt => hn ⟨rfl, hlt⟩
        simp only [AVFormatContext.stream]
        rw [List.getD_eq_default _ _ (by omega)]
        rfl

theorem packet_flush_stale_kept (dts : Option Int) (delay : Int) (l : List Nat) :
    ∀ (s : AVFormatContext) (pb : AVIOContext) (r : AVFormatContext × AVIOContext),
      l.foldl (packet_flush_stale dts delay) (some (s, pb)) = some r → ctx_kept s r.1 := by
  induction l with
  | nil =>
    intro s pb r h
    simp only [List.foldl_nil, Option.some.injEq] at h
    rw [← h]
    exact ctx_kept_refl _
  | cons i l ih =>
    intro s pb r h
    rw [List.foldl_cons] at h
    have hnone : ∀ l2 : List Nat, l2.foldl (packet_flush_stale dts delay) none = none := by
      intro l2
      induction l2 with
      | nil => rfl
      | cons a l2 ih2 => rw [List.foldl_cons]; exact ih2
    cases hstep : packet_flush_stale dts delay (some (s, pb)) i with
    | none => rw [hstep, hnone] at h; cases h
    | some r1 =>
      rw [hstep] at h
      have h1 : ctx_kept s r1.1 := by
        unfold packet_flush_stale at hstep
        simp only [] at hstep
        split at hstep
        · exact (packet_flush_stream_kept _ _ _ _ hstep).1
        · cases hstep
          exact ctx_kept_refl _
      exact ctx_kept_trans _ _ _ h1 (ih r1.1 r1.2 r h)

theorem packet_reemit_options (ts : MpegTSWrite) : ts_options (packet_reemit ts) = ts_options ts := by
  unfold packet_reemit
  simp only []
  split <;> split <;> rfl

/-- The last part of `mpegts_write_packet_internal`: after flushes that keep
every stream, the packet goes to `mpegts_write_pes` at once (unless the
assertion fails) or into the buffer of its stream. -/
theorem packet_write_spec (s : AVFormatContext) (pb : AVIOContext) (pkt : AVPacket)
    (buf : List Nat) (pts dts : Option Int) (delay : Int)
    (res : Outcome Unit × AVFormatContext × AVIOContext)
    (h : packet_write s pb pkt buf pts dts delay = some res) :
    ∃ r : AVFormatContext × AVIOContext, ctx_kept s r.1 ∧
      (((r.1.stream pkt.stream_index).codec.codec_type ≠ AVMediaType.AUDIO ∨
          (buf.length : Int) > r.1.priv_data.pes_payload_size) ∧
        (((r.1.stream pkt.stream_index).priv_data.payload_size ≠ 0 ∧
            res = (.undefined, r.1, r.2)) ∨
          ((r.1.stream pkt.stream_index).priv_data.payload_size = 0 ∧
            ∃ w, mpegts_write_pes r.1 r.2 pkt.stream_index buf pts dts
                (decide (pkt.flags &&& AV_PKT_FLAG_KEY ≠ 0)) = some w ∧
              res = (.ok (), w.1, w.2))) ∨
       (¬ ((r.1.stream pkt.stream_index).codec.codec_type ≠ AVMediaType.AUDIO ∨
          (buf.length : Int) > r.1.priv_data.pes_payload_size) ∧
        res = (.ok (), r.1.update_stream pkt.stream_index
          (fun ts_st => packet_buffer ts_st buf pts dts pkt.flags), r.2))) := by
  unfold packet_write at h
  simp only [] at h
  split at h
  · cases h
  · rename_i r1 hr1
    have hk1 : ctx_kept s r1.1 := by
      split at hr1
      · exact packet_flush_stale_kept dts delay _ s pb r1 hr1
      · cases hr1
        exact ctx_kept_refl _
    split at h
    · cases h
    · rename_i r2 hr2
      have hk2 : ctx_kept r1.1 r2.1 := by
        split at hr2
        · exact (packet_flush_stream_kept _ _ _ _ hr2).1
        · cases hr2
          exact ctx_kept_refl _
      refine ⟨r2, ctx_kept_trans _ _ _ hk1 hk2, ?_⟩
      split at h
      · rename_i hby
        refine Or.inl ⟨hby, ?_⟩
        split at h
        · rename_i hne
          cases h
          exact Or.inl ⟨hne, rfl⟩
        · rename_i hz
          split at h
          · cases h
          · rename_i w hw
            cases h
            exact Or.inr ⟨by simpa using hz, w, hw, rfl⟩
      · rename_i hby
        cases h
        exact Or.inr ⟨hby, rfl⟩

/-- The last part of `mpegts_write_packet_internal` changes the
`first_pts_check` bit of no stream. -/
theorem packet_write_first_pts_check (s : AVFormatContext) (pb : AVIOContext) (pkt : AVPacket)
    (buf : List Nat) (pts dts : Option Int) (delay : Int)
    (res : Outcome Unit × AVFormatContext × AVIOContext)
    (h : packet_write s pb pkt buf pts dts delay = some res) (j : Nat) :
    (res.2.1.stream j).priv_data.first_pts_check = (s.stream j).priv_data.first_pts_check ∧
    res.1 ≠ .error .INVALIDDATA := by
  obtain ⟨r, hk, hcase⟩ := packet_write_spec s pb pkt buf pts dts delay res h
  have hf := (stream_kept_fields _ _ (hk.2.1 j)).2.2.2.2.2.1
  rcases hcase with ⟨_, ⟨_, hres⟩ | ⟨_, w, hw, hres⟩⟩ | ⟨_, hres⟩
  · rw [hres]
    exact ⟨hf, by simp⟩
  · rw [hres]
    have hk2 := mpegts_write_pes_kept _ _ _ _ _ _ _ _ hw
    exact ⟨((stream_kept_fields _ _ (hk2.2.1 j)).2.2.2.2.2.1).trans hf, by simp⟩
  · rw [hres]
    refine ⟨?_, by simp⟩
    simp only []
    rw [stream_update_stream]
    split
    · simp only [packet_buffer]
      split <;> exact hf
    · exact hf

/-- The blocks for H.264 and AAC read the codec, the frame counter and the
sub-muxer flag of the stream only. -/
theorem packet_payload_congr (hooks : PacketHooks) (a b : AVStream) (pkt : AVPacket)
    (hc : b.codec = a.codec) (hn : b.nb_frames = a.nb_frames)
    (ha : b.priv_data.amux = a.priv_data.amux) :
    packet_payload hooks b pkt = packet_payload hooks a pkt := by
  unfold packet_payload ff_check_h264_startcode
  rw [hc, hn, ha]

theorem packet_payload_plain (hooks : PacketHooks) (st : AVStream) (pkt : AVPacket)
    (h1 : st.codec.codec_id ≠ AVCodecID.H264) (h2 : st.codec.codec_id ≠ AVCodecID.AAC) :
    packet_payload hooks st pkt = .ok pkt.data := by
  unfold packet_payload
  rw [if_neg h1, if_neg h2]

theorem packet_payload_invaliddata (hooks : PacketHooks) (st : AVStream) (pkt : AVPacket)
    (h : packet_payload hooks st pkt = .error .INVALIDDATA) :
    st.codec.codec_id = AVCodecID.AAC := by
  unfold packet_payload ff_check_h264_startcode at h
  split at h
  · split at h
    · rename_i e he
      split at he
      · split at he
        · cases he; cases h
        · cases he
      · cases he
    · split at h <;> cases h
  · split at h
    · assumption
    · cases h

/-- The course of `mpegts_write_packet_internal`: the error for a missing
first PTS, or the context `s2` with the bit cleared and then the error of the
H.264 or AAC block or the last part of the function. -/
theorem mpegts_write_packet_internal_spec (hooks : PacketHooks) (s : AVFormatContext)
    (pb : AVIOContext) (pkt : AVPacket) (res : Outcome Unit × AVFormatContext × AVIOContext)
    (h : mpegts_write_packet_internal hooks s pb pkt = some res) :
    ((s.stream pkt.stream_index).priv_data.first_pts_check = true ∧
      (packet_timestamps (packet_reemit s.priv_data) (packet_delay s) pkt.pts pkt.dts).1 = none ∧
      res = (.error .INVALIDDATA, { s with priv_data := packet_reemit s.priv_data }, pb)) ∨
    (¬ ((s.stream pkt.stream_index).priv_data.first_pts_check = true ∧
        (packet_timestamps (packet_reemit s.priv_data) (packet_delay s) pkt.pts pkt.dts).1 =
          none) ∧
      ∃ s2 : AVFormatContext,
        s2.streams.length = s.streams.length ∧
        (∀ j, s2.stream j =
          if j = pkt.stream_index ∧ j < s.streams.length then
            { s.stream j with
              priv_data := { (s.stream j).priv_data with first_pts_check := false } }
          else s.stream j) ∧
        s2.max_delay = s.max_delay ∧ ts_options s2.priv_data = ts_options s.priv_data ∧
        ((∃ e, packet_payload hooks (s.stream pkt.stream_index) pkt = .error e ∧
            res = (.error e, s2, pb)) ∨
          (∃ buf, packet_payload hooks (s.stream pkt.stream_index) pkt = .ok buf ∧
            packet_write s2 pb pkt buf
              (packet_timestamps (packet_reemit s.priv_data) (packet_delay s) pkt.pts pkt.dts).1
              (packet_timestamps (packet_reemit s.priv_data) (packet_delay s) pkt.pts pkt.dts).2
              (packet_delay s) = some res))) := by
  unfold mpegts_write_packet_internal at h
  simp only [] at h
  split at h
  · rename_i hchk
    cases h
    exact Or.inl ⟨hchk.1, hchk.2, rfl⟩
  · rename_i hchk
    refine Or.inr ⟨hchk, ?_⟩
    generalize hs2 : ({ s with priv_data := packet_reemit s.priv_data } :
      AVFormatContext).update_stream pkt.stream_index
        (fun ts_st => { ts_st with first_pts_check := false }) = s2 at h
    have hstream : ∀ j, s2.stream j =
        if j = pkt.stream_index ∧ j < s.streams.length then
          { s.stream j with
            priv_data := { (s.stream j).priv_data with first_pts_check := false } }
        else s.stream j := by
      intro j
      rw [← hs2, stream_update_stream]
      rfl
    have hlen : s2.streams.length = s.streams.length := by
      rw [← hs2]
      simp only [AVFormatContext.update_stream, List.length_modify]
    have hmd : s2.max_delay = s.max_delay := by rw [← hs2]; rfl
    have hopt : ts_options s2.priv_data = ts_options s.priv_data := by
      rw [← hs2]
      exact packet_reemit_options s.priv_data
    have hpay : packet_payload hooks (s2.stream pkt.stream_index) pkt =
        packet_payload hooks (s.stream pkt.stream_index) pkt := by
      apply packet_payload_congr
      · rw [hstream]; split <;> rfl
      · rw [hstream]; split <;> rfl
      · rw [hstream]; split <;> rfl
    rw [hpay] at h
    refine ⟨s2, hlen, hstream, hmd, hopt, ?_⟩
    cases hp : packet_payload hooks (s.stream pkt.stream_index) pkt with
    | error e =>
      rw [hp] at h
      simp only [Option.some.injEq] at h
      exact Or.inl ⟨e, rfl, h.symm⟩
    | ok buf =>
      rw [hp] at h
      exact Or.inr ⟨buf, rfl, h⟩

/-- For a stream other than audio with an empty buffer, of a codec other than
H.264 and AAC, a call of `mpegts_write_packet_internal` that passes the check
of the first PTS hands the bytes of the packet to `mpegts_write_pes` with the
time stamps of `packet_timestamps`. -/
theorem mpegts_write_packet_internal_bypass (hooks : PacketHooks) (s : AVFormatContext)
    (pb : AVIOContext) (pkt : AVPacket) (res : Outcome Unit × AVFormatContext × AVIOContext)
    (h : mpegts_write_packet_internal hooks s pb pkt = some res)
    (hchk : ¬ ((s.stream pkt.stream_index).priv_data.first_pts_check = true ∧ pkt.pts = none))
    (h1 : (s.stream pkt.stream_index).codec.codec_id ≠ AVCodecID.H264)
    (h2 : (s.stream pkt.stream_index).codec.codec_id ≠ AVCodecID.AAC)
    (hty : (s.stream pkt.stream_index).codec.codec_type ≠ AVMediaType.AUDIO)
    (hsz : (s.stream pkt.stream_index).priv_data.payload_size = 0) :
    ∃ (s2 : AVFormatContext) (pb2 : AVIOContext) (w : AVFormatContext × AVIOContext),
      mpegts_write_pes s2 pb2 pkt.stream_index pkt.data
        (packet_timestamps (packet_reemit s.priv_data) (packet_delay s) pkt.pts pkt.dts).1
        (packet_timestamps (packet_reemit s.priv_data) (packet_delay s) pkt.pts pkt.dts).2
        (decide (pkt.flags &&& AV_PKT_FLAG_KEY ≠ 0)) = some w ∧
      res = (.ok (), w.1, w.2) := by
  rcases mpegts_write_packet_internal_spec hooks s pb pkt res h with
    ⟨hc, ht, _⟩ | ⟨_, s2, _, hstream, _, _, hcase⟩
  · exfalso
    apply hchk
    refine ⟨hc, ?_⟩
    unfold packet_timestamps at ht
    split at ht
    · cases hp : pkt.pts with
      | none => rfl
      | some v => rw [hp] at ht; simp at ht
    · exact ht
  · rw [packet_payload_plain hooks _ pkt h1 h2] at hcase
    rcases hcase with ⟨e, he, _⟩ | ⟨buf, hb, hw⟩
    · cases he
    · cases hb
      obtain ⟨r, hk, hcase2⟩ := packet_write_spec _ _ _ _ _ _ _ _ hw
      have hf := stream_kept_fields _ _ (hk.2.1 pkt.stream_index)
      have hs2 : (s2.stream pkt.stream_index).codec = (s.stream pkt.stream_index).codec ∧
          (s2.stream pkt.stream_index).priv_data.payload_size = 0 := by
        rw [hstream]
        split
        · exact ⟨rfl, hsz⟩
        · exact ⟨rfl, hsz⟩
      have hrty : (r.1.stream pkt.stream_index).codec.codec_type ≠ AVMediaType.AUDIO := by
        rw [hf.1, hs2.1]; exact hty
      have hrsz : (r.1.stream pkt.stream_index).priv_data.payload_size = 0 := by
        rcases hf.2.2.2.2.2.2.2 with h0 | h0
        · exact h0
        · rw [h0.1]; exact hs2.2
      rcases hcase2 with ⟨_, ⟨hne, _⟩ | ⟨_, w, hw2, hres⟩⟩ | ⟨hnb, _⟩
      · exact absurd hrsz hne
      · exact ⟨r.1, r.2, w, hw2, hres⟩
      · exact absurd (Or.inl hrty) hnb

theorem stream_out_of_range (s : AVFormatContext) (j : Nat) (h : ¬ j < s.streams.length) :
    s.stream j = AVStream.zero := by
  simp only [AVFormatContext.stream]
  exact List.getD_eq_default _ _ (by omega)

/-- For an audio stream with an empty buffer, of a codec other than AAC, a
packet that fits `pes_payload_size` and passes the check of the first PTS is
put into the buffer with the time stamps of `packet_timestamps`. -/
theorem mpegts_write_packet_internal_buffer (hooks : PacketHooks) (s : AVFormatContext)
    (pb : AVIOContext) (pkt : AVPacket) (res : Outcome Unit × AVFormatContext × AVIOContext)
    (h : mpegts_write_packet_internal hooks s pb pkt = some res)
    (hchk : ¬ ((s.stream pkt.stream_index).priv_data.first_pts_check = true ∧ pkt.pts = none))
    (h1 : (s.stream pkt.stream_index).codec.codec_id ≠ AVCodecID.H264)
    (h2 : (s.stream pkt.stream_index).codec.codec_id ≠ AVCodecID.AAC)
    (hty : (s.stream pkt.stream_index).codec.codec_type = AVMediaType.AUDIO)
    (hfit : (pkt.data.length : Int) ≤ s.priv_data.pes_payload_size)
    (hsz : (s.stream pkt.stream_index).priv_data.payload_size = 0) :
    res.1 = .ok () ∧
    (res.2.1.stream pkt.stream_index).priv_data.payload_pts =
      (packet_timestamps (packet_reemit s.priv_data) (packet_delay s) pkt.pts pkt.dts).1 ∧
    (res.2.1.stream pkt.stream_index).priv_data.payload_dts =
      (packet_timestamps (packet_reemit s.priv_data) (packet_delay s) pkt.pts pkt.dts).2 ∧
    (res.2.1.stream pkt.stream_index).priv_data.payload_flags = pkt.flags ∧
    (res.2.1.stream pkt.stream_index).priv_data.payload = pkt.data ∧
    (res.2.1.stream pkt.stream_index).priv_data.payload_size =
      wrap_int32 pkt.data.length := by
  have hin : pkt.stream_index < s.streams.length := by
    by_contra hout
    rw [stream_out_of_range s _ hout] at hty
    cases hty
  rcases mpegts_write_packet_internal_spec hooks s pb pkt res h with
    ⟨hc, ht, _⟩ | ⟨_, s2, hlen2, hstream, _, hopt2, hcase⟩
  · exfalso
    apply hchk
    refine ⟨hc, ?_⟩
    unfold packet_timestamps at ht
    split at ht
    · cases hp : pkt.pts with
      | none => rfl
      | some v => rw [hp] at ht; simp at ht
    · exact ht
  · rw [packet_payload_plain hooks _ pkt h1 h2] at hcase
    rcases hcase with ⟨e, he, _⟩ | ⟨buf, hb, hw⟩
    · cases he
    · cases hb
      obtain ⟨r, hk, hcase2⟩ := packet_write_spec _ _ _ _ _ _ _ _ hw
      have hf := stream_kept_fields _ _ (hk.2.1 pkt.stream_index)
      have hs2 : (s2.stream pkt.stream_index).codec = (s.stream pkt.stream_index).codec ∧
          (s2.stream pkt.stream_index).priv_data.payload_size = 0 := by
        rw [hstream]
        split
        · exact ⟨rfl, hsz⟩
        · exact ⟨rfl, hsz⟩
      have hrty : (r.1.stream pkt.stream_index).codec.codec_type = AVMediaType.AUDIO := by
        rw [hf.1, hs2.1]; exact hty
      have hrsz : (r.1.stream pkt.stream_index).priv_data.payload_size = 0 := by
        rcases hf.2.2.2.2.2.2.2 with h0 | h0
        · exact h0
        · rw [h0.1]; exact hs2.2
      have hpes : r.1.priv_data.pes_payload_size = s.priv_data.pes_payload_size := by
        have e := hk.2.2.2.trans hopt2
        exact congrArg Prod.fst e
      have hrin : pkt.stream_index < r.1.streams.length := by
        rw [hk.1, hlen2]; exact hin
      rcases hcase2 with ⟨hby, _⟩ | ⟨_, hres⟩
      · exfalso
        rcases hby with hby | hby
        · exact hby hrty
        · rw [hpes] at hby
          omega
      · rw [hres]
        simp only []
        rw [stream_update_stream, if_pos ⟨rfl, hrin⟩]
        simp only [packet_buffer, hrsz, if_true, Int.toNat_zero, List.take_zero, List.nil_append,
          Int.zero_add]
        exact ⟨trivial, trivial, trivial, trivial, trivial, trivial⟩

theorem fold_kept (g : Option (AVFormatContext × AVIOContext) → Nat →
      Option (AVFormatContext × AVIOContext))
    (hnone : ∀ i, g none i = none)
    (hstep : ∀ (a r : AVFormatContext × AVIOContext) (i : Nat),
      g (some a) i = some r → ctx_kept a.1 r.1) (l : List Nat) :
    ∀ (a r : AVFormatContext × AVIOContext), l.foldl g (some a) = some r → ctx_kept a.1 r.1 := by
  induction l with
  | nil =>
    intro a r h
    simp only [List.foldl_nil, Option.some.injEq] at h
    rw [← h]
    exact ctx_kept_refl _
  | cons i l ih =>
    intro a r h
    rw [List.foldl_cons] at h
    have hn : ∀ l2 : List Nat, l2.foldl g none = none := by
      intro l2
      induction l2 with
      | nil => rfl
      | cons b l2 ih2 => rw [List.foldl_cons, hnone]; exact ih2
    cases hs : g (some a) i with
    | none => rw [hs, hn] at h; cases h
    | some r1 =>
      rw [hs] at h
      exact ctx_kept_trans _ _ _ (hstep a r1 i hs) (ih r1 r h)

/-- `mpegts_write_flush` keeps every stream. -/
theorem mpegts_write_flush_kept (s : AVFormatContext) (pb : AVIOContext)
    (r : AVFormatContext × AVIOContext) (h : mpegts_write_flush s pb = some r) :
    ctx_kept s r.1 := by
  unfold mpegts_write_flush at h
  refine fold_kept _ (fun _ => rfl) ?_ _ (s, pb) r h
  intro a r1 i hs
  simp only [] at hs
  split at hs
  · exact (packet_flush_stream_kept _ _ _ _ hs).1
  · cases hs
    exact ctx_kept_refl _

/-! ## The first packet of a key frame -/

theorem pes_pcr_due_pcr_pids (s : AVFormatContext) (sti : Nat) (is_start : Bool) :
    ts_pcr_pids (pes_pcr_due s sti is_start).1.priv_data = ts_pcr_pids s.priv_data ∧
    ((pes_pcr_due s sti is_start).2 = true → on_pcr_pid s sti = true) := by
  unfold pes_pcr_due on_pcr_pid
  simp only []
  split
  · rename_i hp
    refine ⟨?_, fun _ => by simpa using hp⟩
    simp only [ts_pcr_pids, MpegTSWrite.update_service]
    refine map_modify_same (fun service : MpegTSService => service.pcr_pid) _ ?_ _ _
    intro a
    rfl
  · exact ⟨rfl, fun h => by cases h⟩

theorem header_frame_refl (a : MpegTSWrite) : header_frame a a := ⟨rfl, rfl, rfl⟩

theorem header_frame_trans (a b c : MpegTSWrite) (h1 : header_frame a b)
    (h2 : header_frame b c) : header_frame a c :=
  ⟨h2.1.trans h1.1, h2.2.1.trans h1.2.1, h2.2.2.trans h1.2.2⟩

theorem header_frame_update_service (ts : MpegTSWrite) (i : Nat)
    (f : MpegTSService → MpegTSService)
    (hf : ∀ sv, ((f sv).sid, (f sv).pmt) = (sv.sid, sv.pmt)) :
    header_frame ts (ts.update_service i f) := by
  refine ⟨rfl, rfl, ?_⟩
  simp only [MpegTSWrite.update_service]
  exact map_modify_same (fun service : MpegTSService => (service.sid, service.pmt)) f hf _ _

theorem header_frame_length (a b : MpegTSWrite) (h : header_frame a b) :
    b.services.length = a.services.length := by
  have := congrArg List.length h.2.2
  simpa using this

theorem header_frame_pmt (a b : MpegTSWrite) (h : header_frame a b) (k : Nat) :
    (b.services.getD k MpegTSService.zero).pmt = (a.services.getD k MpegTSService.zero).pmt ∧
    (b.services.getD k MpegTSService.zero).sid = (a.services.getD k MpegTSService.zero).sid := by
  have e : ∀ c : MpegTSWrite,
      ((c.services.getD k MpegTSService.zero).sid, (c.services.getD k MpegTSService.zero).pmt) =
      (c.services.map (fun service => (service.sid, service.pmt))).getD k
        (MpegTSService.zero.sid, MpegTSService.zero.pmt) := by
    intro c
    rw [List.getD_eq_getElem?_getD, List.getD_eq_getElem?_getD, List.getElem?_map]
    cases c.services[k]? <;> rfl
  have h2 := (e b).trans ((congrArg (fun l => l.getD k
    (MpegTSService.zero.sid, MpegTSService.zero.pmt)) h.2.2).trans (e a).symm)
  simp only [Prod.mk.injEq] at h2
  exact ⟨h2.2, h2.1⟩

theorem header_stream_pid_frame (a b : MpegTSWrite) (h : header_frame a b) (i : Nat)
    (st : AVStream) : header_stream_pid b i st = header_stream_pid a i st := by
  unfold header_stream_pid
  rw [h.1]

theorem tmod_two (i : Nat) : (Int.tmod (i : Int) 2).toNat = i % 2 := by
  have h : Int.tmod (i : Int) 2 = ((i % 2 : Nat) : Int) := (Int.ofNat_tmod i 2).symm
  rw [h]
  rfl

theorem getD_get? {α : Type} (l : List α) (k : Nat) (d : α) (h : k < l.length) :
    l.get? k = some (l.getD k d) := by
  rw [List.get?_eq_getElem?, List.getD_eq_getElem?_getD, List.getElem?_eq_getElem h]
  rfl

/-- One turn of the stream loop with two services: the three checks pass and
the stream gets its service and PID, or one of them fails and the header
returns `AVERROR(EINVAL)`. -/
theorem header_stream_spec (ts : MpegTSWrite) (pids : List Nat) (i : Nat) (st : AVStream)
    (hn : ts.final_nb_services = 2) (hl : ts.services.length = 2) :
    (st.id < 0x1FFF ∧
      header_stream_pid ts i st ≠ (ts.services.getD (i % 2) MpegTSService.zero).pmt.pid ∧
      header_stream_pid ts i st ∉ pids ∧
      ∃ (ts1 : MpegTSWrite) (b : Bool),
        header_stream ts pids i st =
          .ok (ts1, { st with priv_data :=
            header_stream_priv (i % 2) (header_stream_pid ts i st) st }, b) ∧
        header_frame ts ts1) ∨
    (¬ (st.id < 0x1FFF ∧
        header_stream_pid ts i st ≠ (ts.services.getD (i % 2) MpegTSService.zero).pmt.pid ∧
        header_stream_pid ts i st ∉ pids) ∧
      header_stream ts pids i st = .error .EINVAL) := by
  have hi : i % 2 < ts.services.length := by rw [hl]; exact Nat.mod_lt _ (by decide)
  unfold header_stream
  rw [if_neg (by rw [hn]; decide), hn, tmod_two, getD_get? _ _ MpegTSService.zero hi]
  simp only []
  by_cases h1 : 0x1FFF ≤ st.id
  · rw [if_pos h1]
    exact Or.inr ⟨fun h => by omega, rfl⟩
  · rw [if_neg h1]
    by_cases h2 : header_stream_pid ts i st =
        (ts.services.getD (i % 2) MpegTSService.zero).pmt.pid
    · rw [if_pos h2]
      exact Or.inr ⟨fun h => h.2.1 h2, rfl⟩
    · rw [if_neg h2]
      by_cases h3 : header_stream_pid ts i st ∈ pids
      · rw [if_pos h3]
        exact Or.inr ⟨fun h => h.2.2 h3, rfl⟩
      · rw [if_neg h3]
        refine Or.inl ⟨by omega, h2, h3, _, _, rfl, ?_⟩
        split
        · exact header_frame_update_service _ _ _ (fun _ => rfl)
        · exact header_frame_refl _

theorem header_checks_frame (a b : MpegTSWrite) (h : header_frame a b) :
    ∀ (todo : List AVStream) (pids : List Nat) (i : Nat),
      header_checks b pids i todo ↔ header_checks a pids i todo := by
  intro todo
  induction todo with
  | nil => intro pids i; exact Iff.rfl
  | cons st rest ih =>
    intro pids i
    simp only [header_checks]
    rw [header_stream_pid_frame a b h, (header_frame_pmt a b h (i % 2)).1, ih]

theorem header_assigned_frame (a b : MpegTSWrite) (h : header_frame a b) :
    ∀ (todo : List AVStream) (i : Nat), header_assigned b i todo = header_assigned a i todo := by
  intro todo
  induction todo with
  | nil => intro i; rfl
  | cons st rest ih =>
    intro i
    simp only [header_assigned]
    rw [header_stream_pid_frame a b h, ih]

/-- The stream loop with two services: every check of the specification
passes and the streams are those of `header_assigned`, or a check fails and
the header returns `AVERROR(EINVAL)`. -/
theorem header_streams_spec :
    ∀ (todo : List AVStream) (ts : MpegTSWrite) (pids : List Nat) (pcr_st : Option Nat)
      (i : Nat) (done : List AVStream),
      ts.final_nb_services = 2 → ts.services.length = 2 →
      (header_checks ts pids i todo ∧
        ∃ (ts1 : MpegTSWrite) (pcr1 : Option Nat),
          header_streams ts pids pcr_st i todo done =
            .ok (ts1, done ++ header_assigned ts i todo, pcr1) ∧
          header_frame ts ts1) ∨
      (¬ header_checks ts pids i todo ∧
        header_streams ts pids pcr_st i todo done = .error .EINVAL) := by
  intro todo
  induction todo with
  | nil =>
    intro ts pids pcr_st i done _ _
    exact Or.inl ⟨trivial, ts, pcr_st, by simp [header_streams, header_assigned],
      header_frame_refl _⟩
  | cons st rest ih =>
    intro ts pids pcr_st i done hn hl
    rcases header_stream_spec ts pids i st hn hl with
      ⟨h1, h2, h3, ts1, b, hs, hf⟩ | ⟨hno, hs⟩
    · have hn1 : ts1.final_nb_services = 2 := by rw [hf.2.1]; exact hn
      have hl1 : ts1.services.length = 2 := by rw [header_frame_length _ _ hf]; exact hl
      unfold header_streams
      rw [hs]
      simp only []
      rcases ih ts1 (pids ++ [header_stream_pid ts i st]) (if b = true then some i else pcr_st)
          (i + 1) (done ++ [AVStream.mk st.id st.codec st.language st.disposition st.nb_frames
            (header_stream_priv (i % 2) (header_stream_pid ts i st) st)]) hn1 hl1 with
        ⟨hc, ts2, pcr2, hr, hf2⟩ | ⟨hc, hr⟩
      · refine Or.inl ⟨⟨h1, h2, h3, (header_checks_frame ts ts1 hf _ _ _).mp hc⟩, ts2, pcr2, ?_,
          header_frame_trans _ _ _ hf hf2⟩
        have hp : (header_stream_priv (i % 2) (header_stream_pid ts i st) st).pid =
            header_stream_pid ts i st := rfl
        rw [hp, hr, header_assigned_frame ts ts1 hf]
        simp [header_assigned]
      · refine Or.inr ⟨fun h => hc ((header_checks_frame ts ts1 hf _ _ _).mpr h.2.2.2), ?_⟩
        have hp : (header_stream_priv (i % 2) (header_stream_pid ts i st) st).pid =
            header_stream_pid ts i st := rfl
        rw [hp, hr]
    · refine Or.inr ⟨fun h => hno ⟨h.1, h.2.1, h.2.2.1⟩, ?_⟩
      unfold header_streams
      rw [hs]

theorem header_first_as_pcr_frame (ts : MpegTSWrite) (streams : List AVStream)
    (last : AVStream) : header_frame ts (header_first_as_pcr ts streams last) := by
  unfold header_first_as_pcr
  split
  · exact header_frame_update_service _ _ _ (fun _ => rfl)
  · exact header_frame_refl _

theorem header_periods_cbr_frame (ts : MpegTSWrite) (svc : Nat) (max_delay : Int) :
    header_frame ts (header_periods_cbr ts svc max_delay) := by
  have h := header_frame_update_service ts svc (fun service => { service with
      pcr_packet_period := Int.tdiv (ts.mux_rate * PCR_RETRANS_TIME)
        ((TS_PACKET_SIZE : Int) * 8 * 1000) }) (fun _ => rfl)
  unfold header_periods_cbr
  simp only []
  split
  · exact header_frame_trans _ _ _ h ⟨rfl, rfl, rfl⟩
  · exact header_frame_trans _ _ _ h ⟨rfl, rfl, rfl⟩

theorem header_periods_vbr_frame (ts ts1 : MpegTSWrite) (svc : Nat) (codec : AVCodecContext)
    (h : header_periods_vbr ts svc codec = some ts1) : header_frame ts ts1 := by
  unfold header_periods_vbr at h
  simp only [] at h
  split at h
  · cases h
  · simp only [Option.some.injEq] at h
    rw [← h]
    exact header_frame_trans ts
      { ts with sdt_packet_period := 200, nit_packet_period := 200, tot_packet_period := 200,
                pat_packet_period := 40 } _ ⟨rfl, rfl, rfl⟩
      (header_frame_update_service _ _ _ (fun _ => rfl))

theorem header_periods_frame (ts ts1 : MpegTSWrite) (svc : Nat) (max_delay : Int)
    (streams : List AVStream) (pcr_st : Option Nat)
    (h : header_periods ts svc max_delay streams pcr_st = some ts1) : header_frame ts ts1 := by
  unfold header_periods at h
  split at h
  · simp only [Option.some.injEq] at h
    rw [← h]
    exact header_periods_cbr_frame _ _ _
  · split at h
    · cases h
    · split at h
      · cases h
      · exact header_periods_vbr_frame _ _ _ _ h

theorem header_counters_frame (ts : MpegTSWrite) (svc : Nat) (m2ts : Bool) :
    header_frame ts (header_counters ts svc m2ts) := by
  have h := header_frame_update_service ts svc
    (fun service => { service with pcr_packet_count := service.pcr_packet_period })
    (fun _ => rfl)
  unfold header_counters
  simp only []
  split
  · exact header_frame_trans _ _ _ h ⟨rfl, rfl, rfl⟩
  · exact header_frame_trans _ _ _ h ⟨rfl, rfl, rfl⟩

/-- The end of the header keeps the streams of the loop and the ids and PMT
sections of the services. -/
theorem header_finish_frame (s s1 : AVFormatContext) (max_delay : Int) (ts : MpegTSWrite)
    (streams : List AVStream) (pcr_st : Option Nat)
    (h : header_finish s max_delay ts streams pcr_st = .ok s1) :
    s1.streams = streams ∧ header_frame ts s1.priv_data ∧ s1.max_delay = max_delay := by
  unfold header_finish at h
  split at h
  · cases h
  · split at h
    · cases h
    · rename_i ts2 hper
      simp only [Outcome.ok.injEq] at h
      rw [← h]
      refine ⟨rfl, ?_, rfl⟩
      exact header_frame_trans _ _ _ (header_first_as_pcr_frame ts streams _)
        (header_frame_trans _ _ _ (header_periods_frame _ _ _ _ _ _ hper)
          (header_counters_frame _ _ _))

theorem header_services_spec (ts : MpegTSWrite) (provider name : List Nat)
    (h0 : ts.services = []) (hprof : ts.transmission_profile ≠ 2) :
    (header_services ts provider name).services =
      [{ pmt := { pid := 0x1FC8 + (((ts.onid &&& 0x7FF) <<< 5 ||| (0x0 <<< 3) ||| 0x0) &&& 0x03),
                  cc := 15 }
         sid := (ts.onid &&& 0x7FF) <<< 5 ||| (0x0 <<< 3) ||| 0x0
         name := some name, provider_name := some provider
         pcr_pid := 0x1fff, pcr_packet_count := 0, pcr_packet_period := 0 },
       { pmt := { pid := 0x1FC8 + (((ts.onid &&& 0x7FF) <<< 5 ||| (0x3 <<< 3) ||| 0x1) &&& 0x03),
                  cc := 15 }
         sid := (ts.onid &&& 0x7FF) <<< 5 ||| (0x3 <<< 3) ||| 0x1
         name := some name, provider_name := some provider
         pcr_pid := 0x1fff, pcr_packet_count := 0, pcr_packet_period := 0 }] ∧
    (header_services ts provider name).final_nb_services = 2 ∧
    (header_services ts provider name).start_pid = ts.start_pid := by
  unfold header_services
  rw [if_neg hprof]
  simp [h0, header_init_last_pmt, mpegts_add_service, MpegTSWrite.update_service,
    List.modify_zero_cons, List.modify_succ_cons]

/-- The services that the start of the header registers on a fresh muxer state
for a transmission profile other than 2. -/
theorem header_prepare_services (s : AVFormatContext) (h0 : s.priv_data.services = [])
    (hprof : s.priv_data.transmission_profile ≠ 2) :
    (∃ name provider : List Nat, (header_prepare s).services =
      [{ pmt := { pid := 0x1FC8 + (((s.priv_data.original_network_id &&& 0x7FF) <<< 5 |||
            (0x0 <<< 3) ||| 0x0) &&& 0x03), cc := 15 }
         sid := (s.priv_data.original_network_id &&& 0x7FF) <<< 5 ||| (0x0 <<< 3) ||| 0x0
         name := some name, provider_name := some provider
         pcr_pid := 0x1fff, pcr_packet_count := 0, pcr_packet_period := 0 },
       { pmt := { pid := 0x1FC8 + (((s.priv_data.original_network_id &&& 0x7FF) <<< 5 |||
            (0x3 <<< 3) ||| 0x1) &&& 0x03), cc := 15 }
         sid := (s.priv_data.original_network_id &&& 0x7FF) <<< 5 ||| (0x3 <<< 3) ||| 0x1
         name := some name, provider_name := some provider
         pcr_pid := 0x1fff, pcr_packet_count := 0, pcr_packet_period := 0 }]) ∧
    (header_prepare s).final_nb_services = 2 ∧
    (header_prepare s).start_pid = s.priv_data.start_pid := by
  have key : ∀ (ts : MpegTSWrite) (P N : List Nat), ts.services = [] →
      ts.transmission_profile ≠ 2 → ts.onid = s.priv_data.original_network_id →
      ts.start_pid = s.priv_data.start_pid →
      (∃ name provider : List Nat, (header_tables (header_services ts P N)).services =
        [{ pmt := { pid := 0x1FC8 + (((s.priv_data.original_network_id &&& 0x7FF) <<< 5 |||
              (0x0 <<< 3) ||| 0x0) &&& 0x03), cc := 15 }
           sid := (s.priv_data.original_network_id &&& 0x7FF) <<< 5 ||| (0x0 <<< 3) ||| 0x0
           name := some name, provider_name := some provider
           pcr_pid := 0x1fff, pcr_packet_count := 0, pcr_packet_period := 0 },
         { pmt := { pid := 0x1FC8 + (((s.priv_data.original_network_id &&& 0x7FF) <<< 5 |||
              (0x3 <<< 3) ||| 0x1) &&& 0x03), cc := 15 }
           sid := (s.priv_data.original_network_id &&& 0x7FF) <<< 5 ||| (0x3 <<< 3) ||| 0x1
           name := some name, provider_name := some provider
           pcr_pid := 0x1fff, pcr_packet_count := 0, pcr_packet_period := 0 }]) ∧
      (header_tables (header_services ts P N)).final_nb_services = 2 ∧
      (header_tables (header_services ts P N)).start_pid = s.priv_data.start_pid := by
    intro ts P N hs hp ho hsp
    have h := header_services_spec ts P N hs hp
    rw [ho, hsp] at h
    exact ⟨⟨N, P, h.1⟩, h.2.1, h.2.2⟩
  unfold header_prepare
  simp only []
  exact key _ _ _ h0 hprof rfl rfl

/-- The service ids of the two services and their PMT PIDs. -/
theorem service_id_bits (onid : Nat) :
    (onid &&& 0x7FF) <<< 5 ||| (0x0 <<< 3) ||| 0x0 = (onid &&& 0x7FF) <<< 5 ∧
    (onid &&& 0x7FF) <<< 5 ||| (0x3 <<< 3) ||| 0x1 = (onid &&& 0x7FF) <<< 5 ||| 0x19 ∧
    (onid &&& 0x7FF) <<< 5 = (onid % 2048) * 32 ∧
    (onid &&& 0x7FF) <<< 5 ||| 0x19 = (onid % 2048) * 32 + 25 ∧
    0x1FC8 + ((onid &&& 0x7FF) <<< 5 &&& 0x03) = 0x1FC8 ∧
    0x1FC8 + (((onid &&& 0x7FF) <<< 5 ||| 0x19) &&& 0x03) = 0x1FC9 ∧
    0x1FC8 ||| ((onid &&& 0x7FF) <<< 5 &&& 0x03) = 0x1FC8 ∧
    0x1FC8 ||| (((onid &&& 0x7FF) <<< 5 ||| 0x19) &&& 0x03) = 0x1FC9 := by
  have hm : onid &&& 0x7FF = onid % 2048 := Nat.and_pow_two_sub_one_eq_mod onid 11
  have h3 : ∀ x : Nat, x &&& 0x03 = x % 4 := fun x => Nat.and_pow_two_sub_one_eq_mod x 2
  have hs : (onid % 2048) <<< 5 = (onid % 2048) * 32 := by
    rw [Nat.shiftLeft_eq]
  have hor : (onid % 2048) * 32 ||| 0x19 = (onid % 2048) * 32 + 25 := by
    have := Nat.mul_add_lt_is_or (i := 5) (b := 25) (by decide) (onid % 2048)
    rw [Nat.mul_comm]
    exact this.symm
  have ha : ((onid % 2048) * 32) % 4 = 0 := by omega
  have hb : ((onid % 2048) * 32 + 25) % 4 = 1 := by omega
  rw [hm, hs]
  refine ⟨by simp, ?_, rfl, hor, ?_, ?_, ?_, ?_⟩
  · have e : (0x3 <<< 3 : Nat) = 0x18 := by decide
    rw [e, Nat.lor_assoc]
    rfl
  · rw [h3, ha]
  · rw [hor, h3, hb]
  · rw [h3, ha]; rfl
  · rw [hor, h3, hb]; rfl

/-- The streams of `header_assigned`, one by one. -/
theorem header_assigned_getD (ts : MpegTSWrite) :
    ∀ (todo : List AVStream) (i : Nat),
      (header_assigned ts i todo).length = todo.length ∧
      ∀ k, k < todo.length →
        ((header_assigned ts i todo).getD k AVStream.zero).priv_data =
          header_stream_priv ((i + k) % 2)
            (header_stream_pid ts (i + k) (todo.getD k AVStream.zero))
            (todo.getD k AVStream.zero) ∧
        ((header_assigned ts i todo).getD k AVStream.zero).codec =
          (todo.getD k AVStream.zero).codec ∧
        ((header_assigned ts i todo).getD k AVStream.zero).id = (todo.getD k AVStream.zero).id := by
  intro todo
  induction todo with
  | nil => intro i; exact ⟨rfl, fun k hk => by simp at hk⟩
  | cons st rest ih =>
    intro i
    obtain ⟨hl, hg⟩ := ih (i + 1)
    refine ⟨by simp [header_assigned, hl], ?_⟩
    intro k hk
    cases k with
    | zero => exact ⟨rfl, rfl, rfl⟩
    | succ k =>
      have h := hg k (by simpa using hk)
      simp only [header_assigned, List.getD_cons_succ]
      have e : i + (k + 1) = i + 1 + k := by omega
      rw [e]
      exact h

/-- What the checks of the specification say stream by stream, and on the
list of all PIDs. -/
theorem header_checks_spec (ts : MpegTSWrite) :
    ∀ (todo : List AVStream) (pids : List Nat) (i : Nat), header_checks ts pids i todo →
      (∀ k, k < todo.length →
        (todo.getD k AVStream.zero).id < 0x1FFF ∧
        header_stream_pid ts (i + k) (todo.getD k AVStream.zero) ≠
          (ts.services.getD ((i + k) % 2) MpegTSService.zero).pmt.pid ∧
        header_stream_pid ts (i + k) (todo.getD k AVStream.zero) ∉ pids) ∧
      (pids.Nodup →
        (pids ++ (header_assigned ts i todo).map (fun st => st.priv_data.pid)).Nodup) := by
  intro todo
  induction todo with
  | nil =>
    intro pids i _
    exact ⟨fun k hk => by simp at hk, fun h => by simpa [header_assigned] using h⟩
  | cons st rest ih =>
    intro pids i hc
    obtain ⟨h1, h2, h3, hrest⟩ := hc
    obtain ⟨hk, hnd⟩ := ih _ _ hrest
    constructor
    · intro k hlt
      cases k with
      | zero => exact ⟨h1, h2, h3⟩
      | succ k =>
        have h := hk k (by simpa using hlt)
        have e : i + (k + 1) = i + 1 + k := by omega
        simp only [List.getD_cons_succ]
        rw [e]
        exact ⟨h.1, h.2.1, fun hm => h.2.2 (List.mem_append_left _ hm)⟩
    · intro hp
      have hp2 : (pids ++ [header_stream_pid ts i st]).Nodup := by
        rw [List.nodup_append]
        refine ⟨hp, List.nodup_singleton _, ?_⟩
        intro a ha hb
        rw [List.mem_singleton] at hb
        rw [hb] at ha
        exact h3 ha
      have := hnd hp2
      simpa [header_assigned, List.append_assoc] using this

/-- The course of `mpegts_write_header` on a fresh muxer state with a
transmission profile other than 2: when every check of the specification
passes, a successful call leaves the streams of `header_assigned`; when one
fails, the call returns `AVERROR(EINVAL)`. -/
theorem mpegts_write_header_spec (s : AVFormatContext) (h0 : s.priv_data.services = [])
    (hprof : s.priv_data.transmission_profile ≠ 2) :
    (header_checks (header_prepare s) [] 0 s.streams ∧
      ∀ s1, mpegts_write_header s = .ok s1 →
        s1.streams = header_assigned (header_prepare s) 0 s.streams ∧
        header_frame (header_prepare s) s1.priv_data) ∨
    (¬ header_checks (header_prepare s) [] 0 s.streams ∧
      mpegts_write_header s = .error .EINVAL) := by
  obtain ⟨⟨name, provider, hsv⟩, hn, _⟩ := header_prepare_services s h0 hprof
  have hl : (header_prepare s).services.length = 2 := by rw [hsv]; rfl
  rcases header_streams_spec s.streams (header_prepare s) [] none 0 [] hn hl with
    ⟨hc, ts1, pcr1, hr, hf⟩ | ⟨hc, hr⟩
  · refine Or.inl ⟨hc, ?_⟩
    intro s1 hs1
    unfold mpegts_write_header at hs1
    simp only [] at hs1
    rw [hr] at hs1
    simp only [List.nil_append] at hs1
    obtain ⟨e1, e2, _⟩ := header_finish_frame _ _ _ _ _ _ hs1
    exact ⟨e1, header_frame_trans _ _ _ hf e2⟩
  · refine Or.inr ⟨hc, ?_⟩
    unfold mpegts_write_header
    simp only []
    rw [hr]

/-- The PMT PID of the service of stream number `i` is `0x1FC8` for an even
and `0x1FC9` for an odd `i`. -/
theorem header_prepare_pmt_pid (s : AVFormatContext) (h0 : s.priv_data.services = [])
    (hprof : s.priv_data.transmission_profile ≠ 2) (i : Nat) :
    ((header_prepare s).services.getD (i % 2) MpegTSService.zero).pmt.pid = 0x1FC8 + i % 2 := by
  obtain ⟨⟨name, provider, hsv⟩, _, _⟩ := header_prepare_services s h0 hprof
  obtain ⟨e1, e2, _, _, e5, e6, _, _⟩ := service_id_bits s.priv_data.original_network_id
  rw [hsv]
  rcases Nat.mod_two_eq_zero_or_one i with h | h
  · rw [h]
    simp only [List.getD_cons_zero]
    rw [e1, e5]
  · rw [h]
    simp only [List.getD_cons_succ, List.getD_cons_zero]
    rw [e2, e6]

/-- The PID rule reads `start_pid` only, which the start of the header keeps. -/
theorem header_prepare_stream_pid (s : AVFormatContext) (h0 : s.priv_data.services = [])
    (hprof : s.priv_data.transmission_profile ≠ 2) (i : Nat) (st : AVStream) :
    header_stream_pid (header_prepare s) i st = header_stream_pid s.priv_data i st := by
  obtain ⟨_, _, hsp⟩ := header_prepare_services s h0 hprof
  unfold header_stream_pid
  rw [hsp]

/-- The PIDs of `header_assigned`, one by one. -/
theorem header_assigned_pid_get (ts : MpegTSWrite) (todo : List AVStream) (i k : Nat)
    (hk : k < todo.length) :
    ((header_assigned ts i todo).map (fun st => st.priv_data.pid))[k]? =
      some (header_stream_pid ts (i + k) (todo.getD k AVStream.zero)) := by
  obtain ⟨hl, hg⟩ := header_assigned_getD ts todo i
  have hk2 : k < (header_assigned ts i todo).length := by rw [hl]; exact hk
  have e : (header_assigned ts i todo)[k]? =
      some ((header_assigned ts i todo).getD k AVStream.zero) := by
    rw [List.getD_eq_getElem?_getD, List.getElem?_eq_getElem hk2]
    rfl
  rw [List.getElem?_map, e]
  simp only [Option.map_some']
  rw [(hg k hk).1]
  rfl

/-- What the checks of the specification mean on a fresh muxer state. -/
theorem header_checks_fresh (s : AVFormatContext) (h0 : s.priv_data.services = [])
    (hprof : s.priv_data.transmission_profile ≠ 2)
    (hc : header_checks (header_prepare s) [] 0 s.streams) :
    (∀ k, k < s.streams.length →
      (s.stream k).id < 0x1FFF ∧
      header_stream_pid s.priv_data k (s.stream k) ≠ 0x1FC8 + k % 2) ∧
    (∀ i j, i < j → j < s.streams.length →
      header_stream_pid s.priv_data i (s.stream i) ≠
        header_stream_pid s.priv_data j (s.stream j)) ∧
    ((header_assigned (header_prepare s) 0 s.streams).map (fun st => st.priv_data.pid)).Nodup := by
  obtain ⟨hk, hnd⟩ := header_checks_spec (header_prepare s) s.streams [] 0 hc
  have hn := hnd List.nodup_nil
  rw [List.nil_append] at hn
  refine ⟨?_, ?_, hn⟩
  · intro k hlt
    obtain ⟨a, b, _⟩ := hk k hlt
    rw [Nat.zero_add, header_prepare_pmt_pid s h0 hprof, header_prepare_stream_pid s h0 hprof] at b
    exact ⟨a, b⟩
  · intro i j hij hj heq
    have hi : i < s.streams.length := by omega
    have gi := header_assigned_pid_get (header_prepare s) s.streams 0 i hi
    have gj := header_assigned_pid_get (header_prepare s) s.streams 0 j hj
    rw [Nat.zero_add, header_prepare_stream_pid s h0 hprof] at gi gj
    have hlen : j < ((header_assigned (header_prepare s) 0 s.streams).map
        (fun st => st.priv_data.pid)).length := by
      rw [List.length_map, (header_assigned_getD (header_prepare s) s.streams 0).1]
      exact hj
    have := (List.nodup_iff_getElem?_ne_getElem?.mp hn) i j hij hlen
    apply this
    rw [gi, gj]
    exact congrArg some heq

/-- The streams and the PMT PIDs after a successful header on a fresh muxer
state. -/
theorem mpegts_write_header_streams (s s1 : AVFormatContext)
    (h0 : s.priv_data.services = []) (hprof : s.priv_data.transmission_profile ≠ 2)
    (h : mpegts_write_header s = .ok s1) :
    header_checks (header_prepare s) [] 0 s.streams ∧
    s1.streams.length = s.streams.length ∧
    (∀ i, i < s.streams.length →
      (s1.stream i).priv_data =
        header_stream_priv (i % 2) (header_stream_pid s.priv_data i (s.stream i)) (s.stream i) ∧
      (s1.stream i).codec = (s.stream i).codec ∧ (s1.stream i).id = (s.stream i).id) ∧
    s1.streams.map (fun st => st.priv_data.pid) =
      (header_assigned (header_prepare s) 0 s.streams).map (fun st => st.priv_data.pid) ∧
    (∀ i, (s1.priv_data.services.getD (i % 2) MpegTSService.zero).pmt.pid = 0x1FC8 + i % 2) ∧
    header_frame (header_prepare s) s1.priv_data := by
  rcases mpegts_write_header_spec s h0 hprof with ⟨hc, hok⟩ | ⟨_, he⟩
  · obtain ⟨hst, hf⟩ := hok s1 h
    obtain ⟨hl, hg⟩ := header_assigned_getD (header_prepare s) s.streams 0
    refine ⟨hc, by rw [hst, hl], ?_, by rw [hst], ?_, hf⟩
    · intro i hi
      have := hg i hi
      rw [Nat.zero_add, header_prepare_stream_pid s h0 hprof] at this
      unfold AVFormatContext.stream
      rw [hst]
      exact this
    · intro i
      rw [(header_frame_pmt _ _ hf (i % 2)).1, header_prepare_pmt_pid s h0 hprof]
  · rw [he] at h
    cases h

/-- The PMT turn of `retransmit_si_info` leaves the table counters alone. -/
theorem retransmit_pmt_counters (acc : AVFormatContext × AVIOContext) (i : Nat) :
    si_counters (retransmit_pmt acc i).1.priv_data = si_counters acc.1.priv_data := by
  unfold retransmit_pmt mpegts_write_pmt
  simp only []
  split <;> rfl

/-- The PMT loop of `retransmit_si_info` leaves the table counters alone. -/
theorem retransmit_pmt_foldl_counters (l : List Nat) :
    ∀ acc : AVFormatContext × AVIOContext,
      si_counters (l.foldl retransmit_pmt acc).1.priv_data = si_counters acc.1.priv_data := by
  induction l with
  | nil => intro acc; rfl
  | cons i l ih =>
    intro acc
    rw [List.foldl_cons, ih, retransmit_pmt_counters]

/-- The SDT turn of `retransmit_si_info` on the counters. -/
theorem retransmit_sdt_counters (ts : MpegTSWrite) (pb : AVIOContext) :
    si_counters (retransmit_sdt ts pb).1 =
      ((si_count_next ts.sdt_packet_count ts.sdt_packet_period false, ts.sdt_packet_period),
       (si_counters ts).2) := by
  unfold retransmit_sdt si_count_next si_due
  simp only [Bool.or_false, decide_eq_true_eq]
  split <;> rfl

/-- The NIT turn of `retransmit_si_info` on the counters. -/
theorem retransmit_nit_counters (ts : MpegTSWrite) (pb : AVIOContext) :
    si_counters (retransmit_nit ts pb).1 =
      ((si_counters ts).1,
       (si_count_next ts.nit_packet_count ts.nit_packet_period false, ts.nit_packet_period),
       (si_counters ts).2.2) := by
  unfold retransmit_nit si_count_next si_due
  simp only [Bool.or_false, decide_eq_true_eq]
  split <;> rfl

/-- The TOT turn of `retransmit_si_info` on the counters. -/
theorem retransmit_tot_counters (ts : MpegTSWrite) (pb : AVIOContext) :
    si_counters (retransmit_tot ts pb).1 =
      ((si_counters ts).1, (si_counters ts).2.1,
       (si_count_next ts.tot_packet_count ts.tot_packet_period false, ts.tot_packet_period),
       (si_counters ts).2.2.2) := by
  unfold retransmit_tot si_count_next si_due
  simp only [Bool.or_false, decide_eq_true_eq]
  split <;> rfl

/-- The PAT and PMT turn of `retransmit_si_info` on the counters. -/
theorem retransmit_pat_counters (s : AVFormatContext) (pb : AVIOContext) (force_pat : Bool) :
    si_counters (retransmit_pat s pb force_pat).1.priv_data =
      ((si_counters s.priv_data).1, (si_counters s.priv_data).2.1,
       (si_counters s.priv_data).2.2.1,
       (si_count_next s.priv_data.pat_packet_count s.priv_data.pat_packet_period force_pat,
        s.priv_data.pat_packet_period)) := by
  unfold retransmit_pat si_count_next si_due
  simp only [Bool.or_eq_true, decide_eq_true_eq]
  split
  · rw [retransmit_pmt_foldl_counters]
    rfl
  · rfl

/-- The counters after one call of `retransmit_si_info`. -/
theorem retransmit_si_info_si_counters (s : AVFormatContext) (pb : AVIOContext)
    (force_pat : Bool) :
    si_counters (retransmit_si_info s pb force_pat).1.priv_data =
      ((si_count_next s.priv_data.sdt_packet_count s.priv_data.sdt_packet_period false,
        s.priv_data.sdt_packet_period),
       (si_count_next s.priv_data.nit_packet_count s.priv_data.nit_packet_period false,
        s.priv_data.nit_packet_period),
       (si_count_next s.priv_data.tot_packet_count s.priv_data.tot_packet_period false,
        s.priv_data.tot_packet_period),
       (si_count_next s.priv_data.pat_packet_count s.priv_data.pat_packet_period force_pat,
        s.priv_data.pat_packet_period)) := by
  unfold retransmit_si_info
  simp only []
  have h1 := retransmit_sdt_counters s.priv_data pb
  generalize retransmit_sdt s.priv_data pb = r1 at h1 ⊢
  have h2 := retransmit_nit_counters r1.1 r1.2
  generalize retransmit_nit r1.1 r1.2 = r2 at h2 ⊢
  have h3 := retransmit_tot_counters r2.1 r2.2
  generalize retransmit_tot r2.1 r2.2 = r3 at h3 ⊢
  rw [retransmit_pat_counters]
  simp only [si_counters, Prod.mk.injEq] at h1 h2 h3 ⊢
  obtain ⟨⟨a1, a2⟩, ⟨a3, a4⟩, ⟨a5, a6⟩, a7, a8⟩ := h1
  obtain ⟨⟨b1, b2⟩, ⟨b3, b4⟩, ⟨b5, b6⟩, b7, b8⟩ := h2
  obtain ⟨⟨c1, c2⟩, ⟨c3, c4⟩, ⟨c5, c6⟩, c7, c8⟩ := h3
  refine ⟨⟨?_, ?_⟩, ⟨?_, ?_⟩, ⟨?_, ?_⟩, ?_, ?_⟩
  · rw [c1, b1, a1]
  · rw [c2, b2, a2]
  · rw [c3, b3, a3, a4]
  · rw [c4, b4, a4]
  · rw [c5, b5, b6, a5, a6]
  · rw [c6, b6, a6]
  · rw [c7, c8, b7, b8, a7, a8]
  · rw [c8, b8, a8]

/-- The equality test of `retransmit_si_info` agrees with a comparison of the
incremented counter with the period as long as the counter is below the
period. -/
theorem si_due_below (count period : Int) (force : Bool)
    (h0 : -2 ^ 31 ≤ count) (h1 : count < period) (h2 : period < 2 ^ 31) :
    (si_due count period force = true ↔ (period ≤ count + 1 ∨ force = true)) := by
  unfold si_due wrap_int32
  simp only [Bool.or_eq_true, decide_eq_true_eq]
  have e : (count + 1 + 2 ^ 31) % 2 ^ 32 = count + 1 + 2 ^ 31 :=
    Int.emod_eq_of_lt (by omega) (by omega)
  rw [e]
  constructor
  · rintro (h | h)
    · left; omega
    · right; exact h
  · rintro (h | h)
    · left; omega
    · right; exact h

/-! ## The header: what it leaves in the muxer state -/

theorem header_static_update_service (ts : MpegTSWrite) (i : Nat)
    (f : MpegTSService → MpegTSService)
    (hf : ∀ sv, ((f sv).sid, (f sv).name, (f sv).provider_name) =
      (sv.sid, sv.name, sv.provider_name)) :
    header_static (ts.update_service i f) = header_static ts := by
  unfold header_static MpegTSWrite.update_service
  simp only []
  rw [map_modify_same (fun service : MpegTSService =>
    (service.sid, service.name, service.provider_name)) f hf]

theorem header_stream_static (ts ts1 : MpegTSWrite) (pids : List Nat) (i : Nat)
    (st st1 : AVStream) (b : Bool) (h : header_stream ts pids i st = .ok (ts1, st1, b)) :
    header_static ts1 = header_static ts := by
  unfold header_stream at h
  split at h
  · cases h
  · split at h
    · cases h
    · split at h
      · cases h
      · split at h
        · cases h
        · split at h
          · cases h
          · simp only [Outcome.ok.injEq, Prod.mk.injEq] at h
            rw [← h.1]
            split
            · exact header_static_update_service _ _ _ (fun _ => rfl)
            · rfl

theorem header_streams_static :
    ∀ (todo : List AVStream) (ts : MpegTSWrite) (pids : List Nat) (pcr_st : Option Nat)
      (i : Nat) (done : List AVStream) (ts1 : MpegTSWrite) (streams : List AVStream)
      (pcr1 : Option Nat),
      header_streams ts pids pcr_st i todo done = .ok (ts1, streams, pcr1) →
      header_static ts1 = header_static ts := by
  intro todo
  induction todo with
  | nil =>
    intro ts pids pcr_st i done ts1 streams pcr1 h
    simp only [header_streams, Outcome.ok.injEq, Prod.mk.injEq] at h
    rw [← h.1]
  | cons st rest ih =>
    intro ts pids pcr_st i done ts1 streams pcr1 h
    unfold header_streams at h
    split at h
    · cases h
    · cases h
    · rename_i ts2 st2 b hs
      exact (ih _ _ _ _ _ _ _ _ h).trans (header_stream_static _ _ _ _ _ _ _ hs)

theorem header_first_as_pcr_static (ts : MpegTSWrite) (streams : List AVStream)
    (last : AVStream) :
    header_static (header_first_as_pcr ts streams last) = header_static ts := by
  unfold header_first_as_pcr
  split
  · exact header_static_update_service _ _ _ (fun _ => rfl)
  · rfl

theorem int32_tdiv_range (a d : Int) (h0 : -2 ^ 31 ≤ a) (h1 : a < 2 ^ 31) (hd : 1 ≤ d) :
    -2 ^ 31 ≤ Int.tdiv a d ∧ Int.tdiv a d < 2 ^ 31 := by
  rcases Int.le_total 0 a with ha | ha
  · have e := Int.tdiv_eq_ediv (a := a) (b := d) ha (by omega)
    have h2 : 0 ≤ a / d := Int.ediv_nonneg ha (by omega)
    have h3 : a / d ≤ a := Int.ediv_le_self d ha
    omega
  · have e : Int.tdiv a d = -(Int.tdiv (-a) d) := by
      rw [Int.neg_tdiv, Int.neg_neg]
    have hn : 0 ≤ -a := by omega
    have e2 := Int.tdiv_eq_ediv (a := -a) (b := d) hn (by omega)
    have h2 : 0 ≤ (-a) / d := Int.ediv_nonneg hn (by omega)
    have h3 : (-a) / d ≤ -a := Int.ediv_le_self d hn
    omega

theorem wrap_int32_range (x : Int) : -2 ^ 31 ≤ wrap_int32 x ∧ wrap_int32 x < 2 ^ 31 := by
  unfold wrap_int32
  have h1 : 0 ≤ (x + 2 ^ 31) % 2 ^ 32 := Int.emod_nonneg _ (by decide)
  have h2 : (x + 2 ^ 31) % 2 ^ 32 < 2 ^ 32 := Int.emod_lt_of_pos _ (by decide)
  omega

theorem wrap_int32_id (x : Int) (h0 : -2 ^ 31 ≤ x) (h1 : x < 2 ^ 31) : wrap_int32 x = x := by
  unfold wrap_int32
  rw [Int.emod_eq_of_lt (by omega) (by omega)]
  omega

theorem period_int32_range (mux c : Int) (h0 : 0 ≤ mux) (h1 : mux < 2 ^ 31) (hc0 : 0 ≤ c)
    (hc : c ≤ (TS_PACKET_SIZE : Int) * 8 * 1000) :
    -2 ^ 31 ≤ Int.tdiv (mux * c) ((TS_PACKET_SIZE : Int) * 8 * 1000) ∧
    Int.tdiv (mux * c) ((TS_PACKET_SIZE : Int) * 8 * 1000) < 2 ^ 31 := by
  have hd : (0 : Int) < (TS_PACKET_SIZE : Int) * 8 * 1000 := by decide
  have hp : 0 ≤ mux * c := Int.mul_nonneg h0 hc0
  rw [Int.tdiv_eq_ediv hp (Int.le_of_lt hd)]
  have h2 : 0 ≤ mux * c / ((TS_PACKET_SIZE : Int) * 8 * 1000) := Int.ediv_nonneg hp (Int.le_of_lt hd)
  have h3 : mux * c / ((TS_PACKET_SIZE : Int) * 8 * 1000) ≤
      mux * ((TS_PACKET_SIZE : Int) * 8 * 1000) / ((TS_PACKET_SIZE : Int) * 8 * 1000) :=
    Int.ediv_le_ediv hd (Int.mul_le_mul_of_nonneg_left hc h0)
  rw [Int.mul_ediv_cancel _ (Int.ne_of_gt hd)] at h3
  omega

theorem header_periods_cbr_static (ts : MpegTSWrite) (svc : Nat) (max_delay : Int) :
    header_static (header_periods_cbr ts svc max_delay) = header_static ts ∧
    (0 ≤ ts.mux_rate → ts.mux_rate < 2 ^ 31 →
      periods_int32 (header_periods_cbr ts svc max_delay)) := by
  have h := header_static_update_service ts svc (fun service => { service with
      pcr_packet_period := Int.tdiv (ts.mux_rate * PCR_RETRANS_TIME)
        ((TS_PACKET_SIZE : Int) * 8 * 1000) }) (fun _ => rfl)
  unfold header_periods_cbr
  simp only []
  split
  · refine ⟨h, fun h0 h1 => ?_⟩
    exact ⟨period_int32_range _ _ h0 h1 (by decide) (by decide),
      period_int32_range _ _ h0 h1 (by decide) (by decide),
      period_int32_range _ _ h0 h1 (by decide) (by decide),
      period_int32_range _ _ h0 h1 (by decide) (by decide)⟩
  · refine ⟨h, fun h0 h1 => ?_⟩
    exact ⟨period_int32_range _ _ h0 h1 (by decide) (by decide),
      period_int32_range _ _ h0 h1 (by decide) (by decide),
      period_int32_range _ _ h0 h1 (by decide) (by decide),
      period_int32_range _ _ h0 h1 (by decide) (by decide)⟩

theorem header_periods_vbr_static (ts ts1 : MpegTSWrite) (svc : Nat) (codec : AVCodecContext)
    (h : header_periods_vbr ts svc codec = some ts1) :
    header_static ts1 = header_static ts ∧ periods_int32 ts1 := by
  unfold header_periods_vbr at h
  simp only [] at h
  split at h
  · cases h
  · simp only [Option.some.injEq] at h
    rw [← h]
    refine ⟨header_static_update_service _ _ _ (fun _ => rfl), ?_⟩
    unfold periods_int32 MpegTSWrite.update_service
    simp only []
    omega

theorem header_periods_static (ts ts1 : MpegTSWrite) (svc : Nat) (max_delay : Int)
    (streams : List AVStream) (pcr_st : Option Nat)
    (h : header_periods ts svc max_delay streams pcr_st = some ts1) :
    header_static ts1 = header_static ts ∧ (ts.mux_rate < 2 ^ 31 → periods_int32 ts1) := by
  unfold header_periods at h
  split at h
  · rename_i hcbr
    simp only [Option.some.injEq] at h
    rw [← h]
    exact ⟨(header_periods_cbr_static _ _ _).1,
      fun h1 => (header_periods_cbr_static _ _ _).2 (by omega) h1⟩
  · split at h
    · cases h
    · split at h
      · cases h
      · exact ⟨(header_periods_vbr_static _ _ _ _ h).1,
          fun _ => (header_periods_vbr_static _ _ _ _ h).2⟩

theorem header_counters_static (ts : MpegTSWrite) (svc : Nat) (m2ts : Bool) :
    header_static (header_counters ts svc m2ts) = header_static ts ∧
    counters_armed (header_counters ts svc m2ts) ∧
    (periods_int32 ts → periods_int32 (header_counters ts svc m2ts)) := by
  have h := header_static_update_service ts svc
    (fun service => { service with pcr_packet_count := service.pcr_packet_period })
    (fun _ => rfl)
  unfold header_counters
  simp only []
  split
  · exact ⟨h, ⟨rfl, rfl, rfl, rfl⟩, fun hp => hp⟩
  · exact ⟨h, ⟨rfl, rfl, rfl, rfl⟩, fun hp => hp⟩

theorem header_first_as_pcr_mux (ts : MpegTSWrite) (streams : List AVStream) (last : AVStream) :
    (header_first_as_pcr ts streams last).mux_rate = ts.mux_rate := by
  unfold header_first_as_pcr
  split <;> rfl

theorem header_finish_static (s s1 : AVFormatContext) (max_delay : Int) (ts : MpegTSWrite)
    (streams : List AVStream) (pcr_st : Option Nat)
    (h : header_finish s max_delay ts streams pcr_st = .ok s1) :
    header_static s1.priv_data = header_static ts ∧ counters_armed s1.priv_data ∧
    (ts.mux_rate < 2 ^ 31 → periods_int32 s1.priv_data) ∧ s1.max_delay = max_delay := by
  unfold header_finish at h
  split at h
  · cases h
  · split at h
    · cases h
    · rename_i ts2 hper
      simp only [Outcome.ok.injEq] at h
      rw [← h]
      obtain ⟨p1, p2⟩ := header_periods_static _ _ _ _ _ _ hper
      obtain ⟨c1, c2, c3⟩ := header_counters_static ts2 (header_ts_st ts streams _).service
        s.filename_is_m2ts
      rw [header_first_as_pcr_mux] at p2
      exact ⟨c1.trans (p1.trans (header_first_as_pcr_static _ _ _)), c2, fun hm => c3 (p2 hm),
        rfl⟩

/-- What the first part of the header makes of the options: the PES payload
size is rounded, the four table sections get their PIDs, and the ids of the
transport and of the network are `original_network_id`. -/
theorem header_prepare_static (s : AVFormatContext) :
    (header_prepare s).pes_payload_size = round_pes_payload_size s.priv_data.pes_payload_size ∧
    ((header_prepare s).pat = ⟨PAT_PID, 15⟩ ∧ (header_prepare s).sdt = ⟨SDT_PID, 15⟩ ∧
      (header_prepare s).nit = ⟨NIT_PID, 15⟩ ∧ (header_prepare s).tot = ⟨TOT_PID, 15⟩) ∧
    (header_prepare s).mux_rate = s.priv_data.mux_rate ∧
    (header_prepare s).copyts = s.priv_data.copyts ∧
    (header_prepare s).transmission_profile = s.priv_data.transmission_profile ∧
    (header_prepare s).onid = s.priv_data.original_network_id ∧
    (header_prepare s).tsid = s.priv_data.original_network_id := by
  have key : ∀ (ts : MpegTSWrite) (P N : List Nat),
      (header_tables (header_services ts P N)).pes_payload_size = ts.pes_payload_size ∧
      ((header_tables (header_services ts P N)).pat = ⟨PAT_PID, 15⟩ ∧
        (header_tables (header_services ts P N)).sdt = ⟨SDT_PID, 15⟩ ∧
        (header_tables (header_services ts P N)).nit = ⟨NIT_PID, 15⟩ ∧
        (header_tables (header_services ts P N)).tot = ⟨TOT_PID, 15⟩) ∧
      (header_tables (header_services ts P N)).mux_rate = ts.mux_rate ∧
      (header_tables (header_services ts P N)).copyts = ts.copyts ∧
      (header_tables (header_services ts P N)).transmission_profile = ts.transmission_profile ∧
      (header_tables (header_services ts P N)).onid = ts.onid ∧
      (header_tables (header_services ts P N)).tsid = ts.tsid := by
    intro ts P N
    unfold header_tables header_services
    split
    · exact ⟨rfl, ⟨rfl, rfl, rfl, rfl⟩, rfl, rfl, rfl, rfl, rfl⟩
    · exact ⟨rfl, ⟨rfl, rfl, rfl, rfl⟩, rfl, rfl, rfl, rfl, rfl⟩
  unfold header_prepare
  simp only []
  exact key _ _ _

/-- A successful header leaves the static part of the muxer state as its first
part made it, the four table counters one below their periods, the periods
32-bit values when the mux rate is one, and a `max_delay` that is not
negative. -/
theorem mpegts_write_header_static (s s1 : AVFormatContext)
    (h : mpegts_write_header s = .ok s1) :
    header_static s1.priv_data = header_static (header_prepare s) ∧
    counters_armed s1.priv_data ∧
    (s.priv_data.mux_rate < 2 ^ 31 → periods_int32 s1.priv_data) ∧
    s1.max_delay = (if s.max_delay < 0 then 0 else s.max_delay) := by
  unfold mpegts_write_header at h
  simp only [] at h
  split at h
  · cases h
  · cases h
  · rename_i ts streams pcr_st hs
    obtain ⟨f1, f2, f3, f4⟩ := header_finish_static _ _ _ _ _ _ h
    have hst := header_streams_static _ _ _ _ _ _ _ _ _ hs
    have hmux : ts.mux_rate = s.priv_data.mux_rate := by
      have e := congrArg (fun t => t.2.1.2.1) hst
      simp only [header_static] at e
      rw [e]
      exact (header_prepare_static s).2.2.1
    rw [hmux] at f3
    exact ⟨f1.trans hst, f2, f3, f4⟩

/-- The rounding of the PES payload size without overflow: the next multiple
of 184 at or above `x + 14`, less 14. -/
theorem round_pes_payload_size_eq (x : Int) (h0 : 0 ≤ x) (h1 : x ≤ 2 ^ 31 - 198) :
    round_pes_payload_size x = (x + 14 + 183) / 184 * 184 - 14 := by
  unfold round_pes_payload_size
  rw [wrap_int32_id (x + 14 + 183) (by omega) (by omega),
    Int.tdiv_eq_ediv (by omega : (0 : Int) ≤ x + 14 + 183) (by decide)]
  rw [wrap_int32_id ((x + 14 + 183) / 184 * 184) (by omega) (by omega)]
  rw [wrap_int32_id _ (by omega) (by omega)]

/-- The area, guard and mode word when guard interval and transmission mode
have two bits each. -/
theorem terrestrial_word_eq (a g m : Nat) (hg : g ≤ 3) (hm : m ≤ 3) :
    (a <<< 4) ||| (g <<< 2) ||| m = a * 16 + g * 4 + m := by
  have h1 : 2 ^ 2 * g + m = 2 ^ 2 * g ||| m := Nat.mul_add_lt_is_or (by omega) g
  have h2 : 2 ^ 4 * a + (g * 4 + m) = 2 ^ 4 * a ||| (g * 4 + m) :=
    Nat.mul_add_lt_is_or (by omega) a
  have e1 : g <<< 2 ||| m = g * 4 + m := by
    rw [Nat.shiftLeft_eq, Nat.mul_comm g (2 ^ 2), ← h1]
  have e2 : a <<< 4 = 2 ^ 4 * a := by rw [Nat.shiftLeft_eq, Nat.mul_comm]
  rw [Nat.lor_assoc, e1, e2, ← h2]
  omega

theorem put16_inj (a b : Nat) (ha : a < 65536) (hb : b < 65536) (h : put16 a = put16 b) :
    a = b := by
  unfold put16 at h
  simp only [List.cons.injEq, and_true] at h
  rw [Nat.shiftRight_eq_div_pow, Nat.shiftRight_eq_div_pow] at h
  omega

/-! ## The NIT buffer in closed form -/

theorem nit_network_descriptors_eq :
    nit_network_descriptors = put16 (0xF000 ||| nit_network_area.length) ++ nit_network_area := by
  decide

theorem nit_transmission_type_eq (q : List Nat) (service : MpegTSService) :
    nit_transmission_type q service = q ++ nit_transmission_entry service := by
  unfold nit_transmission_type nit_transmission_entry
  split <;> simp

theorem nit_transmission_foldl (services : List MpegTSService) :
    ∀ q : List Nat, services.foldl nit_transmission_type q =
      q ++ (services.map nit_transmission_entry).flatten := by
  induction services with
  | nil => intro q; simp
  | cons sv rest ih =>
    intro q
    rw [List.foldl_cons, nit_transmission_type_eq, ih]
    simp

theorem nit_transmission_entry_length (service : MpegTSService) :
    (nit_transmission_entry service).length = 4 := by
  simp [nit_transmission_entry, put16]

theorem flatten_length_const {α : Type} (f : α → List Nat) (k : Nat)
    (hf : ∀ a, (f a).length = k) (l : List α) : (l.map f).flatten.length = k * l.length := by
  induction l with
  | nil => simp
  | cons a l ih =>
    simp only [List.map_cons, List.flatten_cons, List.length_append, List.length_cons, hf, ih]
    rw [Nat.mul_add]
    omega

theorem nit_transmission_entries_length (ts : MpegTSWrite) :
    (nit_transmission_entries ts).length ≤ 4 * ts.services.length := by
  unfold nit_transmission_entries
  split
  · simp
  · rw [flatten_length_const _ 4 nit_transmission_entry_length]

theorem nit_ts_information_eq (ts : MpegTSWrite) (q : List Nat)
    (hn : ts.services.length ≤ 59) :
    nit_ts_information ts q =
      q ++ ([0xCD, 2 + DEFAULT_NETWORK_NAME.length + (nit_transmission_entries ts).length,
        ts.virtual_channel % 256, ((DEFAULT_NETWORK_NAME.length <<< 2) ||| 0x2) % 256] ++
        DEFAULT_NETWORK_NAME ++ nit_transmission_entries ts) := by
  have hE := nit_transmission_entries_length ts
  have hQ : (if ts.transmission_profile = 2 then
        q ++ [0xCD] ++ [0] ++ [ts.virtual_channel % 256] ++
          [((DEFAULT_NETWORK_NAME.length <<< 2) ||| 0x2) % 256] ++ DEFAULT_NETWORK_NAME
      else ts.services.foldl nit_transmission_type
        (q ++ [0xCD] ++ [0] ++ [ts.virtual_channel % 256] ++
          [((DEFAULT_NETWORK_NAME.length <<< 2) ||| 0x2) % 256] ++ DEFAULT_NETWORK_NAME)) =
      (q ++ [0xCD]) ++ 0 :: ([ts.virtual_channel % 256,
        ((DEFAULT_NETWORK_NAME.length <<< 2) ||| 0x2) % 256] ++ DEFAULT_NETWORK_NAME ++
        nit_transmission_entries ts) := by
    unfold nit_transmission_entries
    split
    · simp
    · rw [nit_transmission_foldl]
      simp
  unfold nit_ts_information
  simp only []
  rw [hQ, set_append_cons]
  have hl : ((q ++ [0xCD]) ++ 0 :: ([ts.virtual_channel % 256,
        ((DEFAULT_NETWORK_NAME.length <<< 2) ||| 0x2) % 256] ++ DEFAULT_NETWORK_NAME ++
        nit_transmission_entries ts)).length - (q ++ [0xCD]).length - 1 =
      2 + DEFAULT_NETWORK_NAME.length + (nit_transmission_entries ts).length := by
    simp only [List.length_append, List.length_cons, List.length_nil]
    omega
  rw [hl]
  have hN : DEFAULT_NETWORK_NAME.length = 16 := rfl
  rw [Nat.mod_eq_of_lt (by rw [hN]; omega)]
  simp

theorem nit_service_list_eq (ts : MpegTSWrite) (q : List Nat) (hn : ts.services.length ≤ 59) :
    nit_service_list ts q =
      q ++ ([0x41, 3 * ts.services.length] ++
        (ts.services.map (fun service : MpegTSService => put16 service.sid ++ [0x01])).flatten) := by
  have hf : ∀ (l : List MpegTSService) (Q : List Nat),
      l.foldl (fun (q : List Nat) (service : MpegTSService) =>
          q ++ put16 service.sid ++ [0x01]) Q =
        Q ++ (l.map (fun service : MpegTSService => put16 service.sid ++ [0x01])).flatten := by
    intro l
    induction l with
    | nil => intro Q; simp
    | cons sv rest ih => intro Q; rw [List.foldl_cons, ih]; simp
  have hlen := flatten_length_const (fun service : MpegTSService => put16 service.sid ++ [0x01])
    3 (fun a => by simp [put16]) ts.services
  unfold nit_service_list
  simp only []
  rw [hf]
  have e : q ++ [0x41] ++ [0] ++
      (ts.services.map (fun service : MpegTSService => put16 service.sid ++ [0x01])).flatten =
      (q ++ [0x41]) ++ 0 :: (ts.services.map (fun service : MpegTSService => put16 service.sid ++ [0x01])).flatten := by
    simp
  rw [e, set_append_cons]
  have hl : ((q ++ [0x41]) ++ 0 ::
      (ts.services.map (fun service : MpegTSService => put16 service.sid ++ [0x01])).flatten).length -
      (q ++ [0x41]).length - 1 = 3 * ts.services.length := by
    simp only [List.length_append, List.length_cons, List.length_nil, hlen]
    omega
  rw [hl, Nat.mod_eq_of_lt (by omega)]
  simp

theorem nit_partial_reception_eq (q : List Nat) (service : MpegTSService) :
    nit_partial_reception q service = q ++ nit_partial_entry service := by
  unfold nit_partial_reception nit_partial_entry
  split
  · simp only []
    have e : q ++ [0xFB] ++ [0] ++ put16 service.sid = (q ++ [0xFB]) ++ 0 :: put16 service.sid := by
      simp
    rw [e, set_append_cons]
    simp [put16]
  · simp

theorem nit_partial_foldl (services : List MpegTSService) :
    ∀ q : List Nat, services.foldl nit_partial_reception q =
      q ++ (services.map nit_partial_entry).flatten := by
  induction services with
  | nil => intro q; simp
  | cons sv rest ih =>
    intro q
    rw [List.foldl_cons, nit_partial_reception_eq, ih]
    simp

theorem nit_partial_entries_length (services : List MpegTSService) :
    (services.map nit_partial_entry).flatten.length ≤ 4 * services.length := by
  induction services with
  | nil => simp
  | cons sv rest ih =>
    simp only [List.map_cons, List.flatten_cons, List.length_append, List.length_cons]
    have : (nit_partial_entry sv).length ≤ 4 := by
      unfold nit_partial_entry
      split <;> simp [put16]
    omega

theorem nit_transport_area_length (ts : MpegTSWrite) (hn : ts.services.length ≤ 59) :
    (nit_transport_area ts).length ≤ 677 := by
  have h1 := nit_transmission_entries_length ts
  have h2 := nit_partial_entries_length ts.services
  have h3 := flatten_length_const (fun service : MpegTSService => put16 service.sid ++ [0x01])
    3 (fun a => by simp [put16]) ts.services
  have hN : DEFAULT_NETWORK_NAME.length = 16 := rfl
  have hp : ∀ v, (put16 v).length = 2 := fun _ => rfl
  simp only [nit_transport_area, List.length_append, List.length_cons, List.length_nil, hN, h3,
    hp]
  omega

theorem set_two_append (A C : List Nat) (x0 x1 b0 b1 : Nat) :
    ((A ++ x0 :: x1 :: C).set A.length b0).set (A.length + 1) b1 = A ++ b0 :: b1 :: C := by
  induction A with
  | nil => simp
  | cons a A ih => simp [ih]

theorem length_field (n : Nat) :
    [(((0xF0 <<< 8) ||| n) >>> 8) % 256, ((0xF0 <<< 8) ||| n) % 256] = put16 (0xF000 ||| n) := by
  rfl

/-- The `data` buffer of `mpegts_write_nit` for at most 59 services: the
length field of the network descriptors and the descriptors, the length field
of the transport stream loop, `tsid`, `onid`, the length field of the transport
descriptors and the descriptors. -/
theorem nit_data_eq (ts : MpegTSWrite) (hn : ts.services.length ≤ 59) :
    nit_data ts =
      put16 (0xF000 ||| nit_network_area.length) ++ nit_network_area ++
      put16 (0xF000 ||| ((nit_transport_area ts).length + 6)) ++
      put16 ts.tsid ++ put16 ts.onid ++
      put16 (0xF000 ||| (nit_transport_area ts).length) ++ nit_transport_area ts := by
  unfold nit_data
  simp only []
  rw [nit_ts_information_eq ts _ hn, nit_service_list_eq ts _ hn, nit_partial_foldl,
    nit_terrestrial_delivery_eq, nit_network_descriptors_eq]
  generalize hN : put16 (0xF000 ||| nit_network_area.length) ++ nit_network_area = N
  have e0 : N ++ [0, 0] ++ put16 ts.tsid ++ put16 ts.onid ++ [0, 0] ++
      ([0xCD, 2 + DEFAULT_NETWORK_NAME.length + (nit_transmission_entries ts).length,
        ts.virtual_channel % 256, ((DEFAULT_NETWORK_NAME.length <<< 2) ||| 0x2) % 256] ++
        DEFAULT_NETWORK_NAME ++ nit_transmission_entries ts) ++
      ([0x41, 3 * ts.services.length] ++
        (ts.services.map (fun service => put16 service.sid ++ [0x01])).flatten) ++
      (ts.services.map nit_partial_entry).flatten ++
      ([0xFA, 0x04] ++
        put16 ((ts.area_code <<< 4) ||| (ts.guard_interval <<< 2) ||| ts.transmission_mode) ++
        put16 (int_low16 ((473 + 6 * ((ts.physical_channel : Int) - 14) + Int.tdiv 1 7) * 7))) =
      N ++ [0, 0] ++ put16 ts.tsid ++ put16 ts.onid ++ [0, 0] ++ nit_transport_area ts := by
    unfold nit_transport_area
    simp only [List.append_assoc]
  rw [e0]
  generalize nit_transport_area ts = T
  have e : N ++ [0, 0] ++ put16 ts.tsid ++ put16 ts.onid ++ [0, 0] ++ T =
      (N ++ [0, 0] ++ put16 ts.tsid ++ put16 ts.onid) ++ 0 :: 0 :: T := by simp
  have hl1 : (N ++ [0, 0] ++ put16 ts.tsid ++ put16 ts.onid ++ [0, 0] ++ T).length -
      (N ++ [0, 0] ++ put16 ts.tsid ++ put16 ts.onid).length - 2 = T.length := by
    simp only [List.length_append, List.length_cons, List.length_nil]
    omega
  rw [hl1, e, set_two_append]
  have e2 : (N ++ [0, 0] ++ put16 ts.tsid ++ put16 ts.onid) ++
      ((0xF0 <<< 8 ||| T.length) >>> 8 % 256) :: ((0xF0 <<< 8 ||| T.length) % 256) :: T =
      N ++ 0 :: 0 :: (put16 ts.tsid ++ put16 ts.onid ++ put16 (0xF000 ||| T.length) ++ T) := by
    simp [put16]
  rw [e2]
  have hl2 : (N ++ 0 :: 0 :: (put16 ts.tsid ++ put16 ts.onid ++ put16 (0xF000 ||| T.length) ++
      T)).length - N.length - 2 = T.length + 6 := by
    simp only [List.length_append, List.length_cons, List.length_nil, put16]
    omega
  rw [hl2, set_two_append]
  simp [put16]

/-- A buffer made of descriptors is tiled by them. -/
theorem descriptor_tags_loop_tiles :
    ∀ (ds : List (Nat × List Nat)) (fuel : Nat),
      (ds.map descriptor_bytes).flatten.length ≤ fuel →
      descriptor_tags_loop fuel (ds.map descriptor_bytes).flatten = some (ds.map (fun d => d.1)) := by
  intro ds
  induction ds with
  | nil => intro fuel _; cases fuel <;> rfl
  | cons d ds ih =>
    intro fuel hf
    simp only [List.map_cons, List.flatten_cons, descriptor_bytes, List.cons_append,
      List.length_cons, List.length_append] at hf ⊢
    cases fuel with
    | zero => omega
    | succ fuel =>
      simp only [descriptor_tags_loop]
      rw [if_pos (by simp), List.drop_left, ih fuel (by omega)]
      rfl

theorem descriptor_tags_tiles (ds : List (Nat × List Nat)) :
    descriptor_tags (ds.map descriptor_bytes).flatten = some (ds.map (fun d => d.1)) :=
  descriptor_tags_loop_tiles ds _ (Nat.le_refl _)

theorem partial_entries_eq (services : List MpegTSService) :
    (services.map nit_partial_entry).flatten =
      ((services.filter (fun service => (service.sid &&& 0x18) >>> 3 = 0x3)).map
        (fun service => descriptor_bytes (0xFB, put16 service.sid))).flatten := by
  induction services with
  | nil => rfl
  | cons sv rest ih =>
    simp only [List.map_cons, List.flatten_cons, List.filter_cons, ih, nit_partial_entry]
    by_cases h : (sv.sid &&& 0x18) >>> 3 = 0x3
    · simp [h, descriptor_bytes, put16]
    · simp [h]

/-- The transport area of the NIT is made of its descriptors. -/
theorem nit_transport_area_eq (ts : MpegTSWrite) :
    nit_transport_area ts = ((nit_transport_descriptors ts).map descriptor_bytes).flatten := by
  have h3 := flatten_length_const (fun service : MpegTSService => put16 service.sid ++ [0x01])
    3 (fun a => by simp [put16]) ts.services
  unfold nit_transport_area nit_transport_descriptors
  rw [partial_entries_eq]
  simp only [List.map_append, List.map_cons, List.map_nil, List.flatten_append,
    List.flatten_cons, List.flatten_nil, descriptor_bytes, List.map_map, List.length_append,
    List.length_cons, List.length_nil, h3, List.append_nil]
  have hp : ∀ v, (put16 v).length = 2 := fun _ => rfl
  simp only [hp, List.cons_append, List.nil_append, List.append_assoc, List.cons.injEq, true_and]
  rfl

theorem nit_transport_tags (ts : MpegTSWrite) :
    (nit_transport_descriptors ts).map (fun d => d.1) =
      [0xCD, 0x41] ++ List.replicate
        (ts.services.filter (fun service => (service.sid &&& 0x18) >>> 3 = 0x3)).length 0xFB ++
        [0xFA] := by
  unfold nit_transport_descriptors
  simp only [List.map_append, List.map_cons, List.map_nil, List.map_map]
  congr 2
  generalize ts.services.filter (fun service => (service.sid &&& 0x18) >>> 3 = 0x3) = l
  induction l with
  | nil => rfl
  | cons a l ih => simp [List.replicate_succ, ih]

/-- The two 1-seg tests of `mpegts_write_nit` on the ids of the two services
of the header. -/
theorem service_type_tests (onid : Nat) :
    ((onid &&& 0x7FF) <<< 5) &&& (0x18 >>> 3) = 0 ∧
    (((onid &&& 0x7FF) <<< 5) &&& 0x18) >>> 3 = 0 ∧
    (((onid &&& 0x7FF) <<< 5) ||| 0x19) &&& (0x18 >>> 3) = 1 ∧
    ((((onid &&& 0x7FF) <<< 5) ||| 0x19) &&& 0x18) >>> 3 = 3 := by
  obtain ⟨_, _, e3, e4, _⟩ := service_id_bits onid
  rw [e4, e3]
  have h3 : ∀ x : Nat, x &&& (0x18 >>> 3) = x % 4 := fun x =>
    Nat.and_pow_two_sub_one_eq_mod x 2
  have h18 : ∀ x : Nat, (x &&& 0x18) >>> 3 = x / 8 % 4 := by
    intro x
    have e8 : ∀ y : Nat, y / 2 ^ 3 = y / 2 / 2 / 2 := by intro y; omega
    rw [Nat.shiftRight_eq_div_pow, e8, Nat.and_div_two, Nat.and_div_two, Nat.and_div_two]
    have := Nat.and_pow_two_sub_one_eq_mod (x / 2 / 2 / 2) 2
    have e : x / 2 / 2 / 2 = x / 8 := by omega
    rw [e] at this ⊢
    exact this
  rw [h3, h3, h18, h18]
  omega

theorem nit_entries_of_sids (services : List MpegTSService) (a b : Nat)
    (h : services.map (fun service => service.sid) = [a, b]) :
    ∃ sa sb : MpegTSService, services = [sa, sb] ∧ sa.sid = a ∧ sb.sid = b := by
  match services, h with
  | [sa, sb], h =>
    simp only [List.map_cons, List.map_nil, List.cons.injEq, and_true] at h
    exact ⟨sa, sb, rfl, h.1, h.2⟩

/-! ## The language loop of the PMT and the tokens of the tag -/

theorem strchr_none (t : List Nat) (c : Nat) (h : c ∉ t) : strchr t c = none := by
  induction t with
  | nil => rfl
  | cons x xs ih =>
    simp only [List.mem_cons, not_or] at h
    simp only [strchr]
    rw [if_neg (fun e => h.1 e.symm), ih h.2]
    rfl

theorem strchr_append (t r : List Nat) (c : Nat) (h : c ∉ t) :
    strchr (t ++ c :: r) c = some t.length := by
  induction t with
  | nil => simp [strchr]
  | cons x xs ih =>
    simp only [List.mem_cons, not_or] at h
    have ih2 := ih h.2
    rw [List.cons_append]
    unfold strchr
    rw [if_neg (fun e => h.1 e.symm), ih2]
    rfl

/-- The tokens of a tag: there is at least one, none holds a comma, and joined
with commas they give the tag back. -/
theorem language_tokens_spec (value : List Nat) :
    language_tokens value ≠ [] ∧ (∀ t ∈ language_tokens value, 0x2c ∉ t) ∧
    language_join (language_tokens value) = value ∧
    (language_tokens value).length ≤ value.length + 1 := by
  induction value with
  | nil => exact ⟨by simp [language_tokens], by simp [language_tokens], rfl, by simp [language_tokens]⟩
  | cons x xs ih =>
    obtain ⟨h1, h2, h3, h4⟩ := ih
    unfold language_tokens
    by_cases hx : x = 0x2c
    · rw [if_pos hx]
      refine ⟨by simp, ?_, ?_, by simp; omega⟩
      · intro t ht
        rcases List.mem_cons.mp ht with rfl | ht
        · simp
        · exact h2 t ht
      · cases hT : language_tokens xs with
        | nil => exact absurd hT h1
        | cons u us =>
          rw [hT] at h3
          simp only [language_join, List.nil_append]
          rw [h3, hx]
    · rw [if_neg hx]
      cases hT : language_tokens xs with
      | nil => exact absurd hT h1
      | cons u us =>
        rw [hT] at h2 h3 h4
        simp only []
        refine ⟨by simp, ?_, ?_, by simp at h4 ⊢; omega⟩
        · intro t ht
          rcases List.mem_cons.mp ht with rfl | ht
          · intro hm
            rcases List.mem_cons.mp hm with e | hm
            · exact hx e.symm
            · exact h2 u (List.mem_cons_self _ _) hm
          · exact h2 t (List.mem_cons_of_mem _ ht)
        · cases us with
          | nil =>
            simp only [language_join] at h3 ⊢
            rw [h3]
          | cons v vs =>
            simp only [language_join, List.cons_append] at h3 ⊢
            rw [h3]

/-- The language loop on a tag given by its tokens, entered with `j` entries
written: it appends the entries of the specification as long as the guard of
the loop lets them through. -/
theorem pmt_language_loop_tokens (d : Disposition) (A : List Nat) :
    ∀ (tokens : List (List Nat)), tokens ≠ [] → (∀ t ∈ tokens, 0x2c ∉ t) →
    ∀ (fuel j : Nat) (Y : List Nat), tokens.length ≤ fuel → Y.length = 4 * j → j ≤ 63 →
      pmt_language_loop fuel (language_join tokens) d A.length (A ++ (4 * j) :: Y) =
        A ++ (4 * (j + ((language_entries tokens).take
            (min 63 ((1010 - A.length) / 4) - j)).length)) ::
          (Y ++ (((language_entries tokens).take (min 63 ((1010 - A.length) / 4) - j)).map
            (fun entry => entry ++ [pmt_audio_type d])).flatten) := by
  intro tokens
  induction tokens with
  | nil => intro h; exact absurd rfl h
  | cons t ts ih =>
    intro _ hcf fuel j Y hfuel hY hj
    have ht : 0x2c ∉ t := hcf t (List.mem_cons_self _ _)
    cases fuel with
    | zero => simp at hfuel
    | succ fuel =>
      unfold pmt_language_loop
      rw [getD_append_cons]
      have hlen : (A ++ (4 * j) :: Y).length = A.length + 1 + 4 * j := by
        simp only [List.length_append, List.length_cons, hY]
        omega
      rw [hlen]
      by_cases hroom : 4 * j < 255 / 4 * 4 ∧ A.length + 1 + 4 * j < 1012 - 4
      · rw [if_pos hroom]
        have hK : j < min 63 ((1010 - A.length) / 4) := by
          have := hroom.1
          have := hroom.2
          omega
        have hK1 : min 63 ((1010 - A.length) / 4) - j =
            (min 63 ((1010 - A.length) / 4) - (j + 1)) + 1 := by omega
        simp only []
        have hset : ∀ e : List Nat,
            (A ++ (4 * j) :: Y ++ e ++ [pmt_audio_type d]).set A.length
              (((A ++ (4 * j) :: Y ++ e ++ [pmt_audio_type d]).getD A.length 0 + 4) % 256) =
            A ++ (4 * (j + 1)) :: (Y ++ (e ++ [pmt_audio_type d])) := by
          intro e
          have e1 : A ++ (4 * j) :: Y ++ e ++ [pmt_audio_type d] =
              A ++ (4 * j) :: (Y ++ (e ++ [pmt_audio_type d])) := by simp
          rw [e1, getD_append_cons, set_append_cons, Nat.mod_eq_of_lt (by omega)]
          congr 2
        cases ts with
        | nil =>
          simp only [language_join, language_entries, List.append_nil, or_self]
          rw [strchr_none t _ ht]
          by_cases h3 : t.length = 3
          · rw [if_neg (by simp [h3]), if_pos h3, hset, hK1]
            simp
          · rw [if_pos ⟨h3, Or.inl rfl⟩, if_neg h3]
            simp
        | cons u us =>
          have hjoin : language_join (t :: u :: us) = t ++ 0x2c :: language_join (u :: us) := rfl
          have hent : language_entries (t :: u :: us) =
              (if t.length = 3 ∨ (language_join (t :: u :: us)).length = 3 then
                [(language_join (t :: u :: us)).take 3] else []) ++
              language_entries (u :: us) := rfl
          have hdrop : (language_join (t :: u :: us)).drop (t.length + 1) =
              language_join (u :: us) := by
            rw [hjoin]
            have : t ++ 0x2c :: language_join (u :: us) = (t ++ [0x2c]) ++ language_join (u :: us) := by
              simp
            rw [this]
            exact List.drop_left' (by simp)
          have hnext : strchr (language_join (t :: u :: us)) 0x2c = some t.length := by
            rw [hjoin]
            exact strchr_append t _ _ ht
          have hcf2 : ∀ x ∈ u :: us, 0x2c ∉ x := fun x hx => hcf x (List.mem_cons_of_mem _ hx)
          have hfuel2 : (u :: us).length ≤ fuel := by
            simp only [List.length_cons] at hfuel ⊢
            omega
          rw [hnext, hent]
          by_cases hw : t.length = 3 ∨ (language_join (t :: u :: us)).length = 3
          · have hskip : ¬ ((language_join (t :: u :: us)).length ≠ 3 ∧
                (some t.length = none ∨ some t.length ≠ some 3)) := by
              rintro ⟨a, b⟩
              rcases b with b | b
              · cases b
              · rcases hw with hw | hw
                · exact b (by rw [hw])
                · exact a hw
            rw [if_neg hskip, if_pos hw, hset]
            simp only []
            rw [hdrop]
            have h3len : ((language_join (t :: u :: us)).take 3).length = 3 := by
              rw [List.length_take]
              rcases hw with hw | hw
              · rw [hjoin, List.length_append]
                omega
              · omega
            rw [ih (by simp) hcf2 fuel (j + 1)
              (Y ++ ((language_join (t :: u :: us)).take 3 ++ [pmt_audio_type d])) hfuel2
              (by simp only [List.length_append, List.length_cons, List.length_nil, h3len, hY]
                  omega) (by omega)]
            rw [hK1]
            simp only [List.singleton_append, List.take_succ_cons, List.length_cons, List.map_cons,
              List.flatten_cons, List.append_assoc]
            congr 2
            omega
          · have hskip : (language_join (t :: u :: us)).length ≠ 3 ∧
                (some t.length = none ∨ some t.length ≠ some 3) := by
              refine ⟨fun a => hw (Or.inr a), Or.inr ?_⟩
              intro b
              exact hw (Or.inl (Option.some.inj b))
            rw [if_pos hskip, if_neg hw]
            simp only [List.nil_append]
            rw [hdrop]
            exact ih (by simp) hcf2 fuel j Y hfuel2 hY hj
      · rw [if_neg hroom]
        have hK : min 63 ((1010 - A.length) / 4) - j = 0 := by
          have e : (255 / 4 * 4 : Nat) = 252 := by decide
          rw [e] at hroom
          omega
        rw [hK]
        simp

/-- The `if (lang)` block of `mpegts_write_pmt` writes the ISO 639 descriptor
of the specification. -/
theorem pmt_language_descriptor_eq (value : List Nat) (d : Disposition) (q : List Nat) :
    pmt_language_descriptor value d q = language_descriptor_spec value d q := by
  obtain ⟨h1, h2, h3, h4⟩ := language_tokens_spec value
  have hloop := pmt_language_loop_tokens d (q ++ [0x0a]) (language_tokens value) h1 h2
    (value.length + 1) 0 [] h4 rfl (by omega)
  rw [h3] at hloop
  have hcap : min 63 ((1010 - (q ++ [0x0a]).length) / 4) - 0 = language_cap q.length := by
    unfold language_cap
    simp only [List.length_append, List.length_cons, List.length_nil]
    have : 1010 - (q.length + (0 + 1)) = 1009 - q.length := by omega
    rw [this]
    rfl
  rw [hcap] at hloop
  unfold pmt_language_descriptor language_descriptor_spec
  simp only []
  have e : q ++ [0x0a] ++ [0] = (q ++ [0x0a]) ++ (4 * 0) :: [] := by simp
  rw [e, hloop, getD_append_cons]
  generalize (language_entries (language_tokens value)).take (language_cap q.length) = E
  cases E with
  | nil => simp
  | cons a E =>
    rw [if_neg (by simp), if_neg (by simp)]
    simp

/-- Every language entry has three characters when it comes from comma-free
tokens. -/
theorem language_entries_length :
    ∀ tokens : List (List Nat), ∀ e ∈ language_entries tokens, e.length = 3 := by
  intro tokens
  induction tokens with
  | nil => intro e he; simp [language_entries] at he
  | cons t ts ih =>
    intro e he
    simp only [language_entries, List.mem_append] at he
    rcases he with he | he
    · split at he
      · rename_i hw
        simp only [List.mem_singleton] at he
        rw [he, List.length_take]
        rcases hw with hw | hw
        · have : t.length ≤ (language_join (t :: ts)).length := by
            cases ts with
            | nil => simp [language_join]
            | cons u us => simp [language_join]
          omega
        · omega
      · simp at he
    · exact ih e he

/-- Where no token start has exactly three characters of tag left unless the
token itself has three, the entries are the tokens of three characters. -/
theorem language_entries_filter :
    ∀ tokens : List (List Nat),
      (∀ t ts, (t :: ts) <:+ tokens → (language_join (t :: ts)).length = 3 → t.length = 3) →
      language_entries tokens = tokens.filter (fun t => t.length = 3) := by
  intro tokens
  induction tokens with
  | nil => intro _; rfl
  | cons t ts ih =>
    intro h
    have hrest := ih (fun u us hs => h u us (List.IsSuffix.trans hs (List.suffix_cons t ts)))
    have ht := h t ts (List.suffix_refl _)
    simp only [language_entries, List.filter_cons, hrest]
    by_cases h3 : t.length = 3
    · have htake : (language_join (t :: ts)).take 3 = t := by
        cases ts with
        | nil => simp only [language_join]; rw [← h3]; exact List.take_length _
        | cons u us =>
          simp only [language_join]
          rw [← h3]
          exact List.take_left _ _
      simp [h3, htake]
    · have : ¬ (t.length = 3 ∨ (language_join (t :: ts)).length = 3) := by
        rintro (a | a)
        · exact h3 a
        · exact h3 (ht a)
      have h4 : ¬ (language_join (t :: ts)).length = 3 := fun a => h3 (ht a)
      simp [h3, h4]

/-! ## The buffering invariant -/

/-- What a kept stream has in common with the stream it comes from, with the
buffer. -/
theorem stream_kept_buffer (a b : AVStream) (h : stream_kept a b) :
    b.codec = a.codec ∧
    ((b.priv_data.payload_size = 0 ∧ b.priv_data.payload = []) ∨
      (b.priv_data.payload_size = a.priv_data.payload_size ∧
        b.priv_data.payload = a.priv_data.payload)) := by
  rcases h with h | h
  · simp only [AVStream.without_counter, AVStream.mk.injEq, MpegTSWriteStream.mk.injEq,
      true_and] at h
    obtain ⟨hi, hc, _, _, hn, hs, hp, hps, hf, hpp, hpd, hpf, hpl, ha⟩ := h
    exact ⟨hc, Or.inr ⟨hps, hpl⟩⟩
  · simp only [AVStream.without_counter, AVStream.mk.injEq, MpegTSWriteStream.mk.injEq,
      true_and] at h
    obtain ⟨hi, hc, _, _, hn, hs, hp, hps, hf, hpp, hpd, hpf, hpl, ha⟩ := h
    exact ⟨hc, Or.inl ⟨hps, hpl⟩⟩

theorem buffers_ok_kept (a b : AVFormatContext) (hk : ctx_kept a b) (h : buffers_ok a) :
    buffers_ok b := by
  obtain ⟨hlen, hst, _, hopt⟩ := hk
  have hp : b.priv_data.pes_payload_size = a.priv_data.pes_payload_size :=
    congrArg (fun t => t.1) hopt
  refine ⟨by rw [hp]; exact h.1, ?_⟩
  intro j hj
  rw [hlen] at hj
  obtain ⟨h1, h2, h3, h4⟩ := h.2 j hj
  obtain ⟨hc, hb⟩ := stream_kept_buffer _ _ (hst j)
  rw [hp, hc]
  rcases hb with ⟨e1, e2⟩ | ⟨e1, e2⟩
  · rw [e1, e2]
    exact ⟨Int.le_refl _, h.1, rfl, fun _ => rfl⟩
  · rw [e1, e2]
    exact ⟨h1, h2, h3, h4⟩

/-- The last part of `mpegts_write_packet_internal` keeps the buffering
invariant, and its assertion holds. -/
theorem packet_write_buffers (s : AVFormatContext) (pb : AVIOContext) (pkt : AVPacket)
    (buf : List Nat) (pts dts : Option Int) (delay : Int)
    (res : Outcome Unit × AVFormatContext × AVIOContext)
    (hinv : buffers_ok s) (hsti : pkt.stream_index < s.streams.length)
    (hbound : s.priv_data.pes_payload_size + buf.length < 2 ^ 31)
    (h : packet_write s pb pkt buf pts dts delay = some res) :
    res.1 = .ok () ∧ buffers_ok res.2.1 ∧ res.2.1.streams.length = s.streams.length := by
  unfold packet_write at h
  simp only [] at h
  split at h
  · cases h
  · rename_i r1 hr1
    have hk1 : ctx_kept s r1.1 := by
      split at hr1
      · exact packet_flush_stale_kept dts delay _ s pb r1 hr1
      · cases hr1
        exact ctx_kept_refl _
    have hinv1 := buffers_ok_kept _ _ hk1 hinv
    have hsti1 : pkt.stream_index < r1.1.streams.length := by rw [hk1.1]; exact hsti
    have hp1 : r1.1.priv_data.pes_payload_size = s.priv_data.pes_payload_size :=
      congrArg (fun t => t.1) hk1.2.2.2
    have hb1 := hinv1.2 _ hsti1
    have hw1 : wrap_int32 ((r1.1.stream pkt.stream_index).priv_data.payload_size + buf.length) =
        (r1.1.stream pkt.stream_index).priv_data.payload_size + buf.length :=
      wrap_int32_id _ (by omega) (by omega)
    split at h
    · cases h
    · rename_i r2 hr2
      have h2 : ctx_kept r1.1 r2.1 ∧
          ((r2.1.stream pkt.stream_index).priv_data.payload_size = 0 ∨
            (r2.1.stream pkt.stream_index).priv_data.payload_size + buf.length ≤
              r2.1.priv_data.pes_payload_size) := by
        split at hr2
        · obtain ⟨a, b⟩ := packet_flush_stream_kept _ _ _ _ hr2
          exact ⟨a, Or.inl b⟩
        · rename_i hc
          cases hr2
          refine ⟨ctx_kept_refl _, ?_⟩
          by_cases hz : (r1.1.stream pkt.stream_index).priv_data.payload_size = 0
          · exact Or.inl hz
          · exact Or.inr (by
              rw [hw1] at hc
              have := fun hgt => hc ⟨hz, hgt⟩
              omega)
      obtain ⟨hk2, hroom⟩ := h2
      have hinv2 := buffers_ok_kept _ _ hk2 hinv1
      have hsti2 : pkt.stream_index < r2.1.streams.length := by rw [hk2.1]; exact hsti1
      have hp2 : r2.1.priv_data.pes_payload_size = s.priv_data.pes_payload_size :=
        (congrArg (fun t => t.1) hk2.2.2.2).trans hp1
      obtain ⟨g1, g2, g3, g4⟩ := hinv2.2 _ hsti2
      split at h
      · rename_i hby
        have hz : (r2.1.stream pkt.stream_index).priv_data.payload_size = 0 := by
          rcases hby with hby | hby
          · exact g4 hby
          · rcases hroom with hroom | hroom
            · exact hroom
            · omega
        rw [if_neg (by simp [hz])] at h
        split at h
        · cases h
        · rename_i w hw
          cases h
          have hkw := mpegts_write_pes_kept _ _ _ _ _ _ _ _ hw
          exact ⟨rfl, buffers_ok_kept _ _ hkw hinv2, hkw.1.trans (hk2.1.trans hk1.1)⟩
      · rename_i hby
        cases h
        refine ⟨rfl, ⟨hinv2.1, ?_⟩, by
          simp only [AVFormatContext.update_stream, List.length_modify]
          exact hk2.1.trans hk1.1⟩
        intro j hj
        have hj2 : j < r2.1.streams.length := by
          simpa only [AVFormatContext.update_stream, List.length_modify] using hj
        have epes : (r2.1.update_stream pkt.stream_index
            (fun ts_st => packet_buffer ts_st buf pts dts pkt.flags)).priv_data.pes_payload_size =
            r2.1.priv_data.pes_payload_size := rfl
        simp only []
        rw [stream_update_stream, epes]
        split
        · rename_i hji
          obtain ⟨rfl, _⟩ := hji
          have haud : (r2.1.stream pkt.stream_index).codec.codec_type = AVMediaType.AUDIO := by
            by_contra hne
            exact hby (Or.inl hne)
          have hfit : (buf.length : Int) ≤ r2.1.priv_data.pes_payload_size := by
            by_contra hgt
            exact hby (Or.inr (by omega))
          have hps : (packet_buffer (r2.1.stream pkt.stream_index).priv_data buf pts dts
              pkt.flags).payload_size =
              (r2.1.stream pkt.stream_index).priv_data.payload_size + buf.length := by
            have hw2 : wrap_int32
                ((r2.1.stream pkt.stream_index).priv_data.payload_size + buf.length) =
                (r2.1.stream pkt.stream_index).priv_data.payload_size + buf.length :=
              wrap_int32_id _ (by omega) (by omega)
            rw [← hw2]
            unfold packet_buffer
            simp only []
            split <;> rfl
          have hpl : (packet_buffer (r2.1.stream pkt.stream_index).priv_data buf pts dts
              pkt.flags).payload =
              (r2.1.stream pkt.stream_index).priv_data.payload.take
                (r2.1.stream pkt.stream_index).priv_data.payload_size.toNat ++ buf := by
            unfold packet_buffer
            simp only []
            split <;> rfl
          simp only []
          rw [hps, hpl]
          refine ⟨by omega, ?_, ?_, fun hne => absurd haud hne⟩
          · rcases hroom with hroom | hroom
            · rw [hroom]; omega
            · exact hroom
          · rw [List.length_append, List.length_take]
            have : min (r2.1.stream pkt.stream_index).priv_data.payload_size.toNat
                (r2.1.stream pkt.stream_index).priv_data.payload.length =
                (r2.1.stream pkt.stream_index).priv_data.payload.length := by
              omega
            rw [this]
            push_cast
            omega
        · exact hinv2.2 j hj2

/-- A store into the private data of a stream that leaves the buffer alone
keeps the buffering invariant. -/
theorem buffers_ok_update_stream (s : AVFormatContext) (i : Nat)
    (f : MpegTSWriteStream → MpegTSWriteStream)
    (hf : ∀ x, (f x).payload_size = x.payload_size ∧ (f x).payload = x.payload)
    (h : buffers_ok s) : buffers_ok (s.update_stream i f) := by
  refine ⟨h.1, ?_⟩
  intro j hj
  have hj2 : j < s.streams.length := by
    simpa only [AVFormatContext.update_stream, List.length_modify] using hj
  rw [stream_update_stream]
  split
  · simp only []
    rw [(hf _).1, (hf _).2]
    exact h.2 j hj2
  · exact h.2 j hj2

/-- `mpegts_write_packet_internal` keeps the buffering invariant, and its
assertion holds. -/
theorem mpegts_write_packet_internal_buffers_ok (hooks : PacketHooks) (s : AVFormatContext)
    (pb : AVIOContext) (pkt : AVPacket) (res : Outcome Unit × AVFormatContext × AVIOContext)
    (hinv : buffers_ok s) (hsti : pkt.stream_index < s.streams.length)
    (hbound : ∀ buf, packet_payload hooks (s.stream pkt.stream_index) pkt = .ok buf →
      s.priv_data.pes_payload_size + buf.length < 2 ^ 31)
    (h : mpegts_write_packet_internal hooks s pb pkt = some res) :
    res.1 ≠ .undefined ∧ buffers_ok res.2.1 ∧ res.2.1.streams.length = s.streams.length := by
  have hinv1 : buffers_ok { s with priv_data := packet_reemit s.priv_data } := by
    have e : (packet_reemit s.priv_data).pes_payload_size = s.priv_data.pes_payload_size :=
      congrArg (fun t => t.1) (packet_reemit_options s.priv_data)
    exact ⟨by simp only []; rw [e]; exact hinv.1, fun j hj => by
      have := hinv.2 j hj
      simp only [AVFormatContext.stream] at this ⊢
      rw [e]
      exact this⟩
  unfold mpegts_write_packet_internal at h
  simp only [] at h
  split at h
  · cases h
    exact ⟨by simp, hinv1, rfl⟩
  · have hinv2 := buffers_ok_update_stream _ pkt.stream_index
      (fun ts_st => { ts_st with first_pts_check := false }) (fun _ => ⟨rfl, rfl⟩) hinv1
    split at h
    · cases h
      exact ⟨by simp, hinv2, by simp only [AVFormatContext.update_stream, List.length_modify]⟩
    · rename_i buf hbuf
      have hst2 : (({ s with priv_data := packet_reemit s.priv_data } : AVFormatContext).update_stream
          pkt.stream_index (fun ts_st => { ts_st with first_pts_check := false })).stream
            pkt.stream_index =
          { s.stream pkt.stream_index with
            priv_data := { (s.stream pkt.stream_index).priv_data with
              first_pts_check := false } } := by
        rw [stream_update_stream, if_pos ⟨rfl, hsti⟩]
        rfl
      have hc := packet_payload_congr hooks (s.stream pkt.stream_index)
        { s.stream pkt.stream_index with
          priv_data := { (s.stream pkt.stream_index).priv_data with
            first_pts_check := false } } pkt rfl rfl rfl
      rw [hst2, hc] at hbuf
      have hb := hbound buf hbuf
      have e : (packet_reemit s.priv_data).pes_payload_size = s.priv_data.pes_payload_size :=
        congrArg (fun t => t.1) (packet_reemit_options s.priv_data)
      obtain ⟨a, b, c⟩ := packet_write_buffers _ _ _ _ _ _ _ _ hinv2
        (by simpa only [AVFormatContext.update_stream, List.length_modify] using hsti)
        (by
          show (packet_reemit s.priv_data).pes_payload_size + buf.length < 2 ^ 31
          rw [e]; exact hb) h
      exact ⟨by rw [a]; simp, b, by
        rw [c]
        simp only [AVFormatContext.update_stream, List.length_modify]⟩

/-- The loop of `mpegts_write_flush` over the stream numbers in `l`: every
stream is kept, and none of those in `l` has payload left. -/
theorem flush_fold_empty (l : List Nat) :
    ∀ (a r : AVFormatContext × AVIOContext),
      l.foldl (fun acc i =>
        match acc with
        | none => none
        | some r =>
          if (r.1.stream i).priv_data.payload_size > 0 then packet_flush_stream r.1 r.2 i
          else some r) (some a) = some r →
      ctx_kept a.1 r.1 ∧ ∀ i ∈ l, ¬ (r.1.stream i).priv_data.payload_size > 0 := by
  induction l with
  | nil =>
    intro a r h
    simp only [List.foldl_nil, Option.some.injEq] at h
    rw [← h]
    exact ⟨ctx_kept_refl _, fun i hi => by simp at hi⟩
  | cons i l ih =>
    intro a r h
    rw [List.foldl_cons] at h
    have hn : ∀ l2 : List Nat, l2.foldl (fun acc i =>
        match acc with
        | none => none
        | some r =>
          if (r.1.stream i).priv_data.payload_size > 0 then packet_flush_stream r.1 r.2 i
          else some r) (none : Option (AVFormatContext × AVIOContext)) = none := by
      intro l2
      induction l2 with
      | nil => rfl
      | cons b l2 ih2 => rw [List.foldl_cons]; exact ih2
    simp only [] at h
    by_cases hpos : (a.1.stream i).priv_data.payload_size > 0
    · rw [if_pos hpos] at h
      cases hs : packet_flush_stream a.1 a.2 i with
      | none => rw [hs, hn] at h; cases h
      | some r1 =>
        rw [hs] at h
        obtain ⟨k1, z1⟩ := packet_flush_stream_kept _ _ _ _ hs
        obtain ⟨k2, z2⟩ := ih r1 r h
        refine ⟨ctx_kept_trans _ _ _ k1 k2, ?_⟩
        intro j hj
        rcases List.mem_cons.mp hj with rfl | hj
        · rcases (stream_kept_buffer _ _ (k2.2.1 j)).2 with ⟨e, _⟩ | ⟨e, _⟩
          · rw [e]; decide
          · rw [e, z1]; decide
        · exact z2 j hj
    · rw [if_neg hpos] at h
      obtain ⟨k2, z2⟩ := ih a r h
      refine ⟨k2, ?_⟩
      intro j hj
      rcases List.mem_cons.mp hj with rfl | hj
      · rcases (stream_kept_buffer _ _ (k2.2.1 j)).2 with ⟨e, _⟩ | ⟨e, _⟩
        · rw [e]; decide
        · rw [e]; exact hpos
      · exact z2 j hj

/-- After `mpegts_write_flush` the buffering invariant holds and no stream has
payload left. -/
theorem mpegts_write_flush_buffers_ok (s : AVFormatContext) (pb : AVIOContext)
    (r : AVFormatContext × AVIOContext) (hinv : buffers_ok s)
    (h : mpegts_write_flush s pb = some r) :
    buffers_ok r.1 ∧ ∀ j, j < r.1.streams.length → (r.1.stream j).priv_data.payload_size = 0 := by
  unfold mpegts_write_flush at h
  obtain ⟨hk, hz⟩ := flush_fold_empty _ (s, pb) r h
  have hinv2 := buffers_ok_kept _ _ hk hinv
  refine ⟨hinv2, ?_⟩
  intro j hj
  have h0 := (hinv2.2 j hj).1
  have h1 := hz j (by rw [List.mem_range, ← hk.1]; exact hj)
  omega

/-- The header leaves every buffer empty. -/
theorem mpegts_write_header_buffers_ok (s s1 : AVFormatContext)
    (h0 : s.priv_data.services = []) (hprof : s.priv_data.transmission_profile ≠ 2)
    (hlo : 0 ≤ s.priv_data.pes_payload_size)
    (hhi : s.priv_data.pes_payload_size ≤ 2 ^ 31 - 198)
    (h : mpegts_write_header s = .ok s1) :
    buffers_ok s1 ∧ ∀ j, j < s1.streams.length → (s1.stream j).priv_data.payload_size = 0 := by
  obtain ⟨_, hl, hg, _, _, _⟩ := mpegts_write_header_streams s s1 h0 hprof h
  have hst := (mpegts_write_header_static s s1 h).1
  have hp := congrArg (fun t => t.2.1.1) hst
  simp only [header_static] at hp
  rw [(header_prepare_static s).1, round_pes_payload_size_eq _ hlo hhi] at hp
  have hz : ∀ j, j < s1.streams.length → (s1.stream j).priv_data.payload_size = 0 ∧
      (s1.stream j).priv_data.payload = [] := by
    intro j hj
    rw [hl] at hj
    rw [(hg j hj).1]
    exact ⟨rfl, rfl⟩
  refine ⟨⟨by rw [hp]; omega, ?_⟩, fun j hj => (hz j hj).1⟩
  intro j hj
  rw [(hz j hj).1, (hz j hj).2, hp]
  exact ⟨Int.le_refl _, by omega, rfl, fun _ => rfl⟩

/-! ## The sink only grows -/

theorem sink_grows_refl (a : AVIOContext) : sink_grows a a :=
  ⟨Nat.le_refl _, [], by simp⟩

theorem sink_grows_trans (a b c : AVIOContext) (h1 : sink_grows a b) (h2 : sink_grows b c) :
    sink_grows a c := by
  obtain ⟨p1, o1, w1⟩ := h1
  obtain ⟨p2, o2, w2⟩ := h2
  exact ⟨Nat.le_trans p1 p2, o1 ++ o2, by rw [w2, w1, List.append_assoc]⟩

theorem avio_write_grows (pb : AVIOContext) (c : List Nat) : sink_grows pb (avio_write pb c) :=
  ⟨by simp [avio_write], [c], rfl⟩

theorem prefix_grows (ts : MpegTSWrite) (pb : AVIOContext) :
    sink_grows pb (mpegts_prefix_m2ts_header ts pb) := by
  unfold mpegts_prefix_m2ts_header
  split
  · exact avio_write_grows _ _
  · exact sink_grows_refl _

theorem section_write_packet_grows (ts : MpegTSWrite) (pb : AVIOContext) (p : List Nat) :
    sink_grows pb (section_write_packet ts pb p) :=
  sink_grows_trans _ _ _ (prefix_grows ts pb) (avio_write_grows _ _)

theorem write_packets_grows (ts : MpegTSWrite) (packets : List (List Nat)) :
    ∀ pb : AVIOContext, sink_grows pb (write_packets ts pb packets) := by
  induction packets with
  | nil => intro pb; exact sink_grows_refl _
  | cons p rest ih =>
    intro pb
    unfold write_packets
    rw [List.foldl_cons]
    exact sink_grows_trans _ _ _ (section_write_packet_grows ts pb p) (ih _)

theorem retransmit_sdt_grows (ts : MpegTSWrite) (pb : AVIOContext) :
    sink_grows pb (retransmit_sdt ts pb).2 := by
  unfold retransmit_sdt
  simp only []
  split
  · exact write_packets_grows _ _ _
  · exact sink_grows_refl _

theorem retransmit_nit_grows (ts : MpegTSWrite) (pb : AVIOContext) :
    sink_grows pb (retransmit_nit ts pb).2 := by
  unfold retransmit_nit
  simp only []
  split
  · exact write_packets_grows _ _ _
  · exact sink_grows_refl _

theorem retransmit_tot_grows (ts : MpegTSWrite) (pb : AVIOContext) :
    sink_grows pb (retransmit_tot ts pb).2 := by
  unfold retransmit_tot
  simp only []
  split
  · exact write_packets_grows _ _ _
  · exact sink_grows_refl _

theorem retransmit_pmt_grows (l : List Nat) :
    ∀ acc : AVFormatContext × AVIOContext, sink_grows acc.2 (l.foldl retransmit_pmt acc).2 := by
  induction l with
  | nil => intro acc; exact sink_grows_refl _
  | cons i l ih =>
    intro acc
    rw [List.foldl_cons]
    refine sink_grows_trans _ _ _ ?_ (ih _)
    unfold retransmit_pmt
    exact write_packets_grows _ _ _

theorem retransmit_pmt_grows_pair (l : List Nat) (s : AVFormatContext) (pb : AVIOContext) :
    sink_grows pb (l.foldl retransmit_pmt (s, pb)).2 :=
  retransmit_pmt_grows l (s, pb)

theorem retransmit_pat_grows (s : AVFormatContext) (pb : AVIOContext) (force_pat : Bool) :
    sink_grows pb (retransmit_pat s pb force_pat).2 := by
  unfold retransmit_pat
  simp only []
  split
  · refine sink_grows_trans _ _ _ ?_ (retransmit_pmt_grows_pair _ _ _)
    exact write_packets_grows _ _ _
  · exact sink_grows_refl _

/-- The sink after `retransmit_si_info` continues the sink after its SDT
turn. -/
theorem retransmit_si_info_grows (s : AVFormatContext) (pb : AVIOContext) (force_pat : Bool) :
    sink_grows pb (retransmit_sdt s.priv_data pb).2 ∧
    sink_grows (retransmit_sdt s.priv_data pb).2 (retransmit_si_info s pb force_pat).2 := by
  refine ⟨retransmit_sdt_grows _ _, ?_⟩
  unfold retransmit_si_info
  simp only []
  exact sink_grows_trans _ _ _ (retransmit_nit_grows _ _)
    (sink_grows_trans _ _ _ (retransmit_tot_grows _ _) (retransmit_pat_grows _ _ _))

theorem null_packet_grows (ts : MpegTSWrite) (pb : AVIOContext) :
    sink_grows pb (mpegts_insert_null_packet ts pb) ∧
    pb.pos + 188 ≤ (mpegts_insert_null_packet ts pb).pos := by
  have hp := prefix_grows ts pb
  unfold mpegts_insert_null_packet
  simp only []
  generalize mpegts_prefix_m2ts_header ts pb = pb1 at hp ⊢
  refine ⟨sink_grows_trans _ _ _ hp (avio_write_grows _ _), ?_⟩
  have := hp.1
  simp only [avio_write, List.length_append, List.length_cons, List.length_nil,
    List.length_replicate, TS_PACKET_SIZE]
  omega

theorem pcr_only_grows (ts : MpegTSWrite) (pb : AVIOContext) (st : AVStream) :
    sink_grows pb (mpegts_insert_pcr_only ts pb st) ∧
    pb.pos + 188 ≤ (mpegts_insert_pcr_only ts pb st).pos := by
  have hp := prefix_grows ts pb
  unfold mpegts_insert_pcr_only
  simp only []
  generalize mpegts_prefix_m2ts_header ts pb = pb1 at hp ⊢
  refine ⟨sink_grows_trans _ _ _ hp (avio_write_grows _ _), ?_⟩
  have := hp.1
  generalize ((write_pcr_bits (get_pcr ts pb)).1).take (write_pcr_bits (get_pcr ts pb)).2 = w
  have hw : w.length ≤ 188 ∨ 188 < w.length := by omega
  simp only [avio_write, List.length_append, List.length_cons, List.length_nil,
    List.length_replicate, TS_PACKET_SIZE]
  omega

theorem ts_options_mux (a b : MpegTSWrite) (h : ts_options a = ts_options b) :
    a.mux_rate = b.mux_rate ∧ a.first_pcr = b.first_pcr := by
  unfold ts_options at h
  simp only [Prod.mk.injEq] at h
  exact ⟨h.2.2.1, h.2.2.2.2⟩

/-- One turn of the loop, whatever the PIDs and the counters are: either a
null or PCR-only packet goes out, which happens in CBR mode only, leaves the
payload alone and moves the sink by at least 188 bytes and the PCR by at least
one unit; or a payload packet goes out and the payload size goes down. Either
way the measure goes down. -/
theorem pes_step_decreases (sti : Nat) (mux first : Int) (pts dts : Option Int) (key : Bool)
    (delay : Int) (x : PesState) (hinv : pes_sizes_ok mux first x) (hpos : 0 < x.payload_size)
    (hm31 : mux < 2 ^ 31) :
    pes_sizes_ok mux first (pes_step sti pts dts key delay x) ∧
    pes_measure mux first dts delay (pes_step sti pts dts key delay x) <
      pes_measure mux first dts delay x ∧
    ((1 < mux ∧
      (pes_step sti pts dts key delay x).payload_size = x.payload_size ∧
      x.pb.pos + 188 ≤ (pes_step sti pts dts key delay x).pb.pos ∧
      get_pcr x.s.priv_data x.pb + 1 ≤
        get_pcr (pes_step sti pts dts key delay x).s.priv_data
          (pes_step sti pts dts key delay x).pb) ∨
     (pes_step sti pts dts key delay x).payload_size < x.payload_size) := by
  obtain ⟨hmux, hfirst, hsize⟩ := hinv
  have hr := retransmit_si_info_static x.s x.pb x.force_pat
  have hg := retransmit_si_info_grows x.s x.pb x.force_pat
  have hposr : x.pb.pos ≤ (retransmit_si_info x.s x.pb x.force_pat).2.pos :=
    (sink_grows_trans _ _ _ hg.1 hg.2).1
  unfold pes_step
  simp only []
  generalize retransmit_si_info x.s x.pb x.force_pat = r at hr hposr ⊢
  have hd := pes_pcr_due_static r.1 sti x.is_start
  generalize hon : decide ((r.1.stream sti).priv_data.pid =
    (r.1.priv_data.services.getD (r.1.stream sti).priv_data.service
      MpegTSService.zero).pcr_pid) = on_pcr_pid
  generalize pes_pcr_due r.1 sti x.is_start = d at hd ⊢
  have ho := ts_options_mux _ _ (hd.2.2.trans hr.2.2)
  have hmx : d.1.priv_data.mux_rate = mux := ho.1.trans hmux
  have hfi : d.1.priv_data.first_pcr = first := ho.2.trans hfirst
  split
  · -- a null or PCR-only packet
    rename_i hwait
    have hcbr : 1 < mux ∧ ∃ dv, dts = some dv ∧
        dv - Int.tdiv (get_pcr d.1.priv_data r.2) 300 > delay := by
      unfold pes_must_wait at hwait
      cases dts with
      | none => simp at hwait
      | some dv =>
        simp only [Bool.and_eq_true, decide_eq_true_eq] at hwait
        exact ⟨by rw [← hmx]; exact hwait.1, dv, rfl, hwait.2⟩
    obtain ⟨hmux1, dv, hdts, hgap⟩ := hcbr
    have hpcr1 : get_pcr d.1.priv_data r.2 =
        av_rescale ((r.2.pos : Int) + 11) (8 * PCR_TIME_BASE) mux + first := by
      rw [get_pcr_eq, hmx, hfi]
    have hlt : get_pcr d.1.priv_data r.2 < (dv - delay) * 300 := by
      have := Int.lt_tdiv_add_one_mul_self (get_pcr d.1.priv_data r.2) (by decide : (0 : Int) < 300)
      nlinarith
    have hmono := av_rescale_mono mux x.pb.pos r.2.pos (by omega) hposr
    have hcommon : ∀ pb2 : AVIOContext, r.2.pos + 188 ≤ pb2.pos →
        pes_sizes_ok mux first
          { x with s := d.1, pb := pb2, force_pat := false } ∧
        pes_measure mux first dts delay
          { x with s := d.1, pb := pb2, force_pat := false } <
        pes_measure mux first dts delay x ∧
        ((1 < mux ∧ x.payload_size = x.payload_size ∧ x.pb.pos + 188 ≤ pb2.pos ∧
          get_pcr x.s.priv_data x.pb + 1 ≤ get_pcr d.1.priv_data pb2) ∨
          x.payload_size < x.payload_size) := by
      intro pb2 h188
      have hstep := av_rescale_step mux r.2.pos pb2.pos (by omega) hm31 h188
      refine ⟨⟨hmx, hfi, hsize⟩, ?_, Or.inl ⟨hmux1, rfl, by omega, ?_⟩⟩
      · simp only [pes_measure_eq, hdts, Option.getD_some, if_pos hmux1]
        rw [hpcr1] at hlt
        omega
      · rw [get_pcr_eq, get_pcr_eq, hmx, hfi, hmux, hfirst]
        omega
    cases hw : d.2
    · simp only [Bool.false_eq_true, if_false]
      obtain ⟨a, b, c⟩ := hcommon _ (null_packet_grows d.1.priv_data r.2).2
      exact ⟨a, b, c.imp (fun c => ⟨c.1, trivial, c.2.2⟩) id⟩
    · simp only [if_true]
      obtain ⟨a, b, c⟩ := hcommon _ (pcr_only_grows d.1.priv_data r.2 (d.1.stream sti)).2
      exact ⟨a, b, c.imp (fun c => ⟨c.1, trivial, c.2.2⟩) id⟩
  · -- a payload packet
    have hcc : ((d.1.stream sti).priv_data.cc + 1) &&& 0xf < 16 := by
      rw [and_0xf_eq_mod]
      exact Nat.mod_lt _ (by decide)
    generalize ((d.1.stream sti).priv_data.cc + 1) &&& 0xf = cc at hcc ⊢
    have hu3 : (d.1.update_stream sti (fun ts_st => { ts_st with cc := cc })).priv_data =
        d.1.priv_data := rfl
    generalize d.1.update_stream sti (fun ts_st => { ts_st with cc := cc }) = s2 at hu3 ⊢
    have hsz : x.payload_size = x.payload.length +
        (if x.is_start = false ∧ x.is_dvb_subtitle = true then 1 else 0) := by
      rcases hsize with h | h
      · omega
      · exact h
    obtain ⟨part, hok, hless, hinvsz, hbody⟩ := pes_packet_spec s2.priv_data r.2 (s2.stream sti)
      cc hcc on_pcr_pid d.2 key pts dts delay x.is_start x.is_dvb_subtitle x.payload
      x.payload_size hpos hsz
    generalize pes_packet s2.priv_data r.2 (s2.stream sti) cc on_pcr_pid d.2 key pts dts delay
      x.is_start x.is_dvb_subtitle x.payload x.payload_size = P at hok hless hinvsz hbody ⊢
    have hgw := sink_grows_trans _ _ _ (prefix_grows s2.priv_data r.2)
      (avio_write_grows (mpegts_prefix_m2ts_header s2.priv_data r.2) (P.1.take TS_PACKET_SIZE))
    refine ⟨⟨by rw [hu3]; exact hmx, by rw [hu3]; exact hfi, ?_⟩, ?_, Or.inr hless⟩
    · rcases hinvsz with h | h
      · exact Or.inl h
      · right
        simp only [true_and]
        exact h
    · simp only [pes_measure_eq]
      by_cases hmux1 : mux > 1
      · simp only [if_pos hmux1]
        have hmono := av_rescale_mono mux x.pb.pos
          (avio_write (mpegts_prefix_m2ts_header s2.priv_data r.2)
            (P.1.take TS_PACKET_SIZE)).pos (by omega) (Nat.le_trans hposr hgw.1)
        omega
      · simp only [if_neg hmux1]
        omega

/-- With as many turns allowed as the measure, the loop ends with no payload
left. -/
theorem pes_loop_ends (sti : Nat) (mux first : Int) (pts dts : Option Int) (key : Bool)
    (delay : Int) (hm31 : mux < 2 ^ 31) :
    ∀ (fuel : Nat) (x : PesState), pes_sizes_ok mux first x →
      pes_measure mux first dts delay x ≤ fuel →
      ∃ y : PesState, pes_loop fuel sti pts dts key delay x = some y ∧ y.payload_size = 0 := by
  have hdone : ∀ (fuel : Nat) (x : PesState), x.payload_size = 0 →
      ∃ y : PesState, pes_loop fuel sti pts dts key delay x = some y ∧ y.payload_size = 0 := by
    intro fuel x h0
    refine ⟨x, ?_, h0⟩
    cases fuel <;> simp [pes_loop, h0]
  intro fuel
  induction fuel with
  | zero =>
    intro x _ hm
    have h0 : x.payload_size = 0 := by
      rw [pes_measure_eq] at hm
      omega
    exact hdone 0 x h0
  | succ fuel ih =>
    intro x hinv hm
    rcases Nat.eq_zero_or_pos x.payload_size with h0 | hpos
    · exact hdone (fuel + 1) x h0
    · obtain ⟨hinv1, hless, _⟩ :=
        pes_step_decreases sti mux first pts dts key delay x hinv hpos hm31
      have hloop : pes_loop (fuel + 1) sti pts dts key delay x =
          pes_loop fuel sti pts dts key delay (pes_step sti pts dts key delay x) := by
        simp only [pes_loop, hpos, if_true]
      rw [hloop]
      exact ih _ hinv1 (by omega)

/-- The state in which `mpegts_write_pes` enters its loop. -/
theorem pes_start_sizes_ok (s : AVFormatContext) (pb : AVIOContext) (force_pat : Bool)
    (payload : List Nat) :
    pes_sizes_ok s.priv_data.mux_rate s.priv_data.first_pcr
      (PesState.mk s pb true force_pat payload payload.length false) :=
  ⟨rfl, rfl, Or.inr (by simp)⟩

/-- A call of `mpegts_write_pes` returns, whatever the PIDs and the counters
are. -/
theorem mpegts_write_pes_returns (s : AVFormatContext) (pb : AVIOContext) (sti : Nat)
    (payload : List Nat) (pts dts : Option Int) (key : Bool)
    (hm31 : s.priv_data.mux_rate < 2 ^ 31) :
    ∃ y : PesState,
      pes_loop (pes_fuel s pb payload.length dts (av_rescale s.max_delay 90000 AV_TIME_BASE))
        sti pts dts key (av_rescale s.max_delay 90000 AV_TIME_BASE)
        (PesState.mk s pb true
          (decide ((s.stream sti).codec.codec_type = AVMediaType.VIDEO) && key &&
            !(s.stream sti).priv_data.prev_payload_key) payload payload.length false) = some y ∧
      y.payload_size = 0 ∧
      mpegts_write_pes s pb sti payload pts dts key =
        some (y.s.update_stream sti (fun ts_st => { ts_st with prev_payload_key := key }),
          y.pb) := by
  obtain ⟨y, hy, h0⟩ := pes_loop_ends sti s.priv_data.mux_rate s.priv_data.first_pcr pts dts key
    (av_rescale s.max_delay 90000 AV_TIME_BASE) hm31
    (pes_fuel s pb payload.length dts (av_rescale s.max_delay 90000 AV_TIME_BASE)) _
    (pes_start_sizes_ok s pb _ payload)
    (pes_fuel_measure s pb payload.length dts _ _ rfl rfl)
  refine ⟨y, hy, h0, ?_⟩
  unfold mpegts_write_pes
  simp only []
  rw [hy]

/-! ## The first packet after the header -/

theorem ctx_kept_mux (a b : AVFormatContext) (h : ctx_kept a b) :
    b.priv_data.mux_rate = a.priv_data.mux_rate :=
  (ts_options_mux _ _ h.2.2.2).1

theorem packet_flush_stream_returns (s : AVFormatContext) (pb : AVIOContext) (i : Nat)
    (hm31 : s.priv_data.mux_rate < 2 ^ 31) :
    ∃ r, packet_flush_stream s pb i = some r := by
  obtain ⟨y, _, _, hr⟩ := mpegts_write_pes_returns s pb i
    ((s.stream i).priv_data.payload.take (s.stream i).priv_data.payload_size.toNat)
    (s.stream i).priv_data.payload_pts (s.stream i).priv_data.payload_dts
    (decide ((s.stream i).priv_data.payload_flags &&& AV_PKT_FLAG_KEY ≠ 0)) hm31
  unfold packet_flush_stream
  simp only []
  rw [hr]
  exact ⟨_, rfl⟩

theorem packet_flush_stale_returns (dts : Option Int) (delay : Int) (l : List Nat) :
    ∀ (s : AVFormatContext) (pb : AVIOContext), s.priv_data.mux_rate < 2 ^ 31 →
      ∃ r, l.foldl (packet_flush_stale dts delay) (some (s, pb)) = some r := by
  induction l with
  | nil => intro s pb _; exact ⟨_, rfl⟩
  | cons i l ih =>
    intro s pb hm31
    rw [List.foldl_cons]
    have hstep : ∃ r1, packet_flush_stale dts delay (some (s, pb)) i = some r1 ∧
        r1.1.priv_data.mux_rate < 2 ^ 31 := by
      unfold packet_flush_stale
      simp only []
      split
      · obtain ⟨r1, h1⟩ := packet_flush_stream_returns s pb i hm31
        refine ⟨r1, h1, ?_⟩
        rw [ctx_kept_mux _ _ (packet_flush_stream_kept _ _ _ _ h1).1]
        exact hm31
      · exact ⟨_, rfl, hm31⟩
    obtain ⟨r1, h1, hm1⟩ := hstep
    rw [h1]
    exact ih r1.1 r1.2 hm1

theorem packet_write_returns (s : AVFormatContext) (pb : AVIOContext) (pkt : AVPacket)
    (buf : List Nat) (pts dts : Option Int) (delay : Int)
    (hm31 : s.priv_data.mux_rate < 2 ^ 31) :
    ∃ res, packet_write s pb pkt buf pts dts delay = some res := by
  have h1 : ∃ r1, (if pkt.dts ≠ none then
        (List.range s.streams.length).foldl (packet_flush_stale dts delay) (some (s, pb))
      else some (s, pb)) = some r1 ∧ r1.1.priv_data.mux_rate < 2 ^ 31 := by
    split
    · obtain ⟨r1, e⟩ := packet_flush_stale_returns dts delay _ s pb hm31
      refine ⟨r1, e, ?_⟩
      rw [ctx_kept_mux _ _ (packet_flush_stale_kept dts delay _ s pb r1 e)]
      exact hm31
    · exact ⟨_, rfl, hm31⟩
  obtain ⟨r1, e1, hm1⟩ := h1
  unfold packet_write
  simp only []
  rw [e1]
  simp only []
  have h2 : ∃ r2, (if (r1.1.stream pkt.stream_index).priv_data.payload_size ≠ 0 ∧
        wrap_int32 ((r1.1.stream pkt.stream_index).priv_data.payload_size + buf.length) >
          r1.1.priv_data.pes_payload_size then
        packet_flush_stream r1.1 r1.2 pkt.stream_index
      else some r1) = some r2 ∧ r2.1.priv_data.mux_rate < 2 ^ 31 := by
    split
    · obtain ⟨r2, e⟩ := packet_flush_stream_returns r1.1 r1.2 pkt.stream_index hm1
      refine ⟨r2, e, ?_⟩
      rw [ctx_kept_mux _ _ (packet_flush_stream_kept _ _ _ _ e).1]
      exact hm1
    · exact ⟨_, rfl, hm1⟩
  obtain ⟨r2, e2, hm2⟩ := h2
  rw [e2]
  simp only []
  split
  · split
    · exact ⟨_, rfl⟩
    · obtain ⟨y, _, _, hr⟩ := mpegts_write_pes_returns r2.1 r2.2 pkt.stream_index buf pts dts
        (decide (pkt.flags &&& AV_PKT_FLAG_KEY ≠ 0)) hm2
      rw [hr]
      exact ⟨_, rfl⟩
  · exact ⟨_, rfl⟩

/-- A call of `mpegts_write_packet_internal` returns. -/
theorem mpegts_write_packet_internal_returns (hooks : PacketHooks) (s : AVFormatContext)
    (pb : AVIOContext) (pkt : AVPacket) (hm31 : s.priv_data.mux_rate < 2 ^ 31) :
    ∃ res, mpegts_write_packet_internal hooks s pb pkt = some res := by
  have e : (packet_reemit s.priv_data).mux_rate = s.priv_data.mux_rate :=
    (ts_options_mux _ _ (packet_reemit_options s.priv_data)).1
  unfold mpegts_write_packet_internal
  simp only []
  split
  · exact ⟨_, rfl⟩
  · split
    · exact ⟨_, rfl⟩
    · exact packet_write_returns _ _ _ _ _ _ _ (by
        show (packet_reemit s.priv_data).mux_rate < 2 ^ 31
        rw [e]; exact hm31)

/-- A call of `mpegts_write_flush` returns. -/
theorem mpegts_write_flush_returns (s : AVFormatContext) (pb : AVIOContext)
    (hm31 : s.priv_data.mux_rate < 2 ^ 31) :
    ∃ r, mpegts_write_flush s pb = some r := by
  unfold mpegts_write_flush
  have key : ∀ (l : List Nat) (s : AVFormatContext) (pb : AVIOContext),
      s.priv_data.mux_rate < 2 ^ 31 →
      ∃ r, l.foldl
        (fun (acc : Option (AVFormatContext × AVIOContext)) (i : Nat) =>
          match acc with
          | none => none
          | some r =>
            if (r.1.stream i).priv_data.payload_size > 0 then packet_flush_stream r.1 r.2 i
            else some r)
        (some (s, pb)) = some r := by
    intro l
    induction l with
    | nil => intro s pb _; exact ⟨_, rfl⟩
    | cons i l ih =>
      intro s pb hm
      rw [List.foldl_cons]
      simp only []
      split
      · obtain ⟨r1, h1⟩ := packet_flush_stream_returns s pb i hm
        rw [h1]
        exact ih r1.1 r1.2 (by
          rw [ctx_kept_mux _ _ (packet_flush_stream_kept _ _ _ _ h1).1]
          exact hm)
      · exact ih s pb hm
  exact key _ s pb hm31

/-! ## The retransmission periods of the constant bit rate branch -/

/-- The last part of `mpegts_write_packet_internal` for a packet without DTS
whose stream has buffered payload: when the packet is larger than
`pes_payload_size` while the 32-bit sum `payload_size + size` is not, the
buffer is not flushed and the assertion fails. -/
theorem packet_write_assert (s : AVFormatContext) (pb : AVIOContext) (pkt : AVPacket)
    (buf : List Nat) (pts dts : Option Int) (delay : Int) (hdts : pkt.dts = none)
    (hps : (s.stream pkt.stream_index).priv_data.payload_size ≠ 0)
    (hwrap : ¬ wrap_int32 ((s.stream pkt.stream_index).priv_data.payload_size +
      buf.length) > s.priv_data.pes_payload_size)
    (hbig : (buf.length : Int) > s.priv_data.pes_payload_size) :
    packet_write s pb pkt buf pts dts delay = some (.undefined, s, pb) := by
  unfold packet_write
  simp only []
  rw [if_neg (by rw [hdts]; simp)]
  simp only []
  rw [if_neg (fun hc => hwrap hc.2)]
  simp only []
  rw [if_pos (Or.inr hbig), if_pos hps]

/-- A packet without DTS for a stream with buffered payload, of a codec other
than H.264 and AAC, that is larger than `pes_payload_size` while the 32-bit sum
`payload_size + size` is not: the buffer is not flushed, and the assertion
`av_assert0(!ts_st->payload_size)` fails. -/
theorem mpegts_write_packet_internal_assert (hooks : PacketHooks) (s : AVFormatContext)
    (pb : AVIOContext) (pkt : AVPacket) (hsti : pkt.stream_index < s.streams.length)
    (hchk : (s.stream pkt.stream_index).priv_data.first_pts_check = false)
    (h1 : (s.stream pkt.stream_index).codec.codec_id ≠ AVCodecID.H264)
    (h2 : (s.stream pkt.stream_index).codec.codec_id ≠ AVCodecID.AAC)
    (hdts : pkt.dts = none)
    (hps : (s.stream pkt.stream_index).priv_data.payload_size ≠ 0)
    (hwrap : ¬ wrap_int32 ((s.stream pkt.stream_index).priv_data.payload_size +
      pkt.data.length) > s.priv_data.pes_payload_size)
    (hbig : (pkt.data.length : Int) > s.priv_data.pes_payload_size) :
    ∃ s2 : AVFormatContext,
      mpegts_write_packet_internal hooks s pb pkt = some (.undefined, s2, pb) := by
  have e : (packet_reemit s.priv_data).pes_payload_size = s.priv_data.pes_payload_size :=
    congrArg (fun t => t.1) (packet_reemit_options s.priv_data)
  have hst1 : ({ s with priv_data := packet_reemit s.priv_data } : AVFormatContext).stream
      pkt.stream_index = s.stream pkt.stream_index := rfl
  have hst2 : (({ s with priv_data := packet_reemit s.priv_data } : AVFormatContext).update_stream
      pkt.stream_index (fun ts_st => { ts_st with first_pts_check := false })).stream
        pkt.stream_index =
      { s.stream pkt.stream_index with
        priv_data := { (s.stream pkt.stream_index).priv_data with
          first_pts_check := false } } := by
    rw [stream_update_stream, if_pos ⟨rfl, hsti⟩]
    rfl
  have hpes2 : (({ s with priv_data := packet_reemit s.priv_data } :
      AVFormatContext).update_stream pkt.stream_index
        (fun ts_st => { ts_st with first_pts_check := false })).priv_data.pes_payload_size =
      s.priv_data.pes_payload_size := e
  have hpp : packet_payload hooks
      { s.stream pkt.stream_index with
        priv_data := { (s.stream pkt.stream_index).priv_data with
          first_pts_check := false } } pkt = .ok pkt.data :=
    packet_payload_plain hooks _ pkt h1 h2
  have hw := packet_write_assert
    (({ s with priv_data := packet_reemit s.priv_data } : AVFormatContext).update_stream
      pkt.stream_index (fun ts_st => { ts_st with first_pts_check := false })) pb pkt pkt.data
    (packet_timestamps (packet_reemit s.priv_data) (packet_delay s) pkt.pts pkt.dts).1
    (packet_timestamps (packet_reemit s.priv_data) (packet_delay s) pkt.pts pkt.dts).2
    (packet_delay s) hdts (by rw [hst2]; exact hps) (by rw [hst2, hpes2]; exact hwrap)
    (by rw [hpes2]; exact hbig)
  unfold mpegts_write_packet_internal
  simp only []
  rw [hst1, if_neg (by rw [hchk]; simp)]
  rw [hst2, hpp]
  simp only []
  exact ⟨_, hw⟩

/-! ## How far one turn of the loop moves the sink -/

theorem prefix_pos_le (ts : MpegTSWrite) (pb : AVIOContext) :
    (mpegts_prefix_m2ts_header ts pb).pos ≤ pb.pos + 4 := by
  unfold mpegts_prefix_m2ts_header
  split
  · simp only [avio_write]
    have : (be32 (tp_extra_header (get_pcr ts pb))).length = 4 := rfl
    omega
  · omega

theorem packet_pos_le (ts : MpegTSWrite) (pb : AVIOContext) (p : List Nat)
    (hp : p.length ≤ 188) :
    (avio_write (mpegts_prefix_m2ts_header ts pb) p).pos ≤ pb.pos + 192 := by
  have h := prefix_pos_le ts pb
  simp only [avio_write]
  omega

theorem write_packets_pos_le (ts : MpegTSWrite) (packets : List (List Nat)) :
    ∀ pb : AVIOContext, (write_packets ts pb packets).pos ≤ pb.pos + 192 * packets.length := by
  induction packets with
  | nil => intro pb; exact Nat.le_refl _
  | cons p rest ih =>
    intro pb
    unfold write_packets
    rw [List.foldl_cons]
    have h1 : (section_write_packet ts pb p).pos ≤ pb.pos + 192 := by
      unfold section_write_packet
      exact packet_pos_le ts pb _ (by
        rw [List.length_take]
        exact Nat.min_le_left _ _)
    have h2 := ih (section_write_packet ts pb p)
    unfold write_packets at h2
    rw [List.length_cons]
    omega

theorem section_loop_count (buf : List Nat) :
    ∀ (fuel : Nat) (s : MpegTSSection) (off len : Nat),
      (section_loop fuel s buf off len).2.length ≤ (len + 182) / 183 := by
  intro fuel
  induction fuel with
  | zero =>
    intro s off len
    simp [section_loop]
  | succ fuel ih =>
    intro s off len
    rcases Nat.eq_zero_or_pos len with h0 | hpos
    · subst h0
      rw [section_loop_zero_len]
      simp
    · rw [section_loop_succ fuel s buf off len hpos]
      simp only [List.length_cons]
      have h := ih ⟨s.pid, (s.cc + 1) % 16⟩ (off + min (section_room (off == 0)) len)
        (len - min (section_room (off == 0)) len)
      have hr : section_room (off == 0) = 183 ∨ section_room (off == 0) = 184 := by
        unfold section_room
        split
        · exact Or.inl rfl
        · exact Or.inr rfl
      rcases hr with hr | hr <;> rw [hr] at h ⊢ <;> omega

theorem mpegts_write_section1_count (s : MpegTSSection)
    (tid id version sec_num last_sec_num : Nat) (buf : List Nat) (len : Nat) :
    (mpegts_write_section1 s tid id version sec_num last_sec_num buf len).2.2.length ≤ 6 := by
  unfold mpegts_write_section1
  simp only []
  split
  · simp
  · rename_i h
    simp only [mpegts_write_section]
    have := section_loop_count
      (section_fill_crc (section1_build tid id version sec_num last_sec_num buf len)
        ((3 + 5 + len + 4) % 2 ^ 32)) ((3 + 5 + len + 4) % 2 ^ 32) s 0
      ((3 + 5 + len + 4) % 2 ^ 32)
    omega

theorem mpegts_write_tot_count (ts : MpegTSWrite) : (mpegts_write_tot ts).2.length ≤ 6 := by
  unfold mpegts_write_tot
  simp only [mpegts_write_section]
  have := section_loop_count (section_fill_crc tot_section.1 tot_section.2) tot_section.2
    ts.tot 0 tot_section.2
  have e : tot_section.2 = 29 := by decide
  rw [e] at this ⊢
  omega

theorem mpegts_write_sdt_count (ts : MpegTSWrite) : (mpegts_write_sdt ts).2.length ≤ 6 := by
  unfold mpegts_write_sdt
  exact mpegts_write_section1_count _ _ _ _ _ _ _ _

theorem mpegts_write_nit_count (ts : MpegTSWrite) : (mpegts_write_nit ts).2.length ≤ 6 := by
  unfold mpegts_write_nit
  exact mpegts_write_section1_count _ _ _ _ _ _ _ _

theorem mpegts_write_pat_count (ts : MpegTSWrite) : (mpegts_write_pat ts).2.length ≤ 6 := by
  unfold mpegts_write_pat
  exact mpegts_write_section1_count _ _ _ _ _ _ _ _

theorem retransmit_sdt_pos_le (ts : MpegTSWrite) (pb : AVIOContext) :
    (retransmit_sdt ts pb).2.pos ≤ pb.pos + 192 * 6 ∧
    (retransmit_sdt ts pb).1.services = ts.services := by
  unfold retransmit_sdt
  simp only []
  split
  · exact ⟨Nat.le_trans (write_packets_pos_le _ _ _)
      (Nat.add_le_add_left (Nat.mul_le_mul_left _ (mpegts_write_sdt_count _)) _), rfl⟩
  · exact ⟨Nat.le_add_right _ _, rfl⟩

theorem retransmit_nit_pos_le (ts : MpegTSWrite) (pb : AVIOContext) :
    (retransmit_nit ts pb).2.pos ≤ pb.pos + 192 * 6 ∧
    (retransmit_nit ts pb).1.services = ts.services := by
  unfold retransmit_nit
  simp only []
  split
  · exact ⟨Nat.le_trans (write_packets_pos_le _ _ _)
      (Nat.add_le_add_left (Nat.mul_le_mul_left _ (mpegts_write_nit_count _)) _), rfl⟩
  · exact ⟨Nat.le_add_right _ _, rfl⟩

theorem retransmit_tot_pos_le (ts : MpegTSWrite) (pb : AVIOContext) :
    (retransmit_tot ts pb).2.pos ≤ pb.pos + 192 * 6 ∧
    (retransmit_tot ts pb).1.services = ts.services := by
  unfold retransmit_tot
  simp only []
  split
  · exact ⟨Nat.le_trans (write_packets_pos_le _ _ _)
      (Nat.add_le_add_left (Nat.mul_le_mul_left _ (mpegts_write_tot_count _)) _), rfl⟩
  · exact ⟨Nat.le_add_right _ _, rfl⟩

theorem mpegts_write_pmt_count (s : AVFormatContext) (i : Nat) :
    (mpegts_write_pmt s i).2.2.length ≤ 6 ∧
    (mpegts_write_pmt s i).2.1.priv_data.services.length = s.priv_data.services.length := by
  unfold mpegts_write_pmt
  simp only []
  split
  · exact ⟨by simp, rfl⟩
  · exact ⟨mpegts_write_section1_count _ _ _ _ _ _ _ _, by simp⟩

theorem retransmit_pmt_pos_le (l : List Nat) :
    ∀ acc : AVFormatContext × AVIOContext,
      (l.foldl retransmit_pmt acc).2.pos ≤ acc.2.pos + 192 * (6 * l.length) ∧
      (l.foldl retransmit_pmt acc).1.priv_data.services.length =
        acc.1.priv_data.services.length := by
  induction l with
  | nil => intro acc; exact ⟨by simp, rfl⟩
  | cons i l ih =>
    intro acc
    rw [List.foldl_cons]
    obtain ⟨h1, h2⟩ := ih (retransmit_pmt acc i)
    obtain ⟨c1, c2⟩ := mpegts_write_pmt_count acc.1 i
    have h3 := write_packets_pos_le (mpegts_write_pmt acc.1 i).2.1.priv_data
      (mpegts_write_pmt acc.1 i).2.2 acc.2
    have e1 : (retransmit_pmt acc i).2 =
        write_packets (mpegts_write_pmt acc.1 i).2.1.priv_data acc.2
          (mpegts_write_pmt acc.1 i).2.2 := rfl
    have e2 : (retransmit_pmt acc i).1 = (mpegts_write_pmt acc.1 i).2.1 := rfl
    rw [e1] at h1
    rw [e2] at h2
    rw [List.length_cons]
    exact ⟨by omega, h2.trans c2⟩

theorem retransmit_pat_body_pos_le (s : AVFormatContext) (ts1 : MpegTSWrite) (pb : AVIOContext)
    (n : Nat) (hsv1 : ts1.services.length = n) :
    ((List.range ts1.services.length).foldl retransmit_pmt
      ({ s with priv_data := (mpegts_write_pat ts1).1 },
        write_packets (mpegts_write_pat ts1).1 pb (mpegts_write_pat ts1).2)).2.pos ≤
      pb.pos + 192 * (6 + 6 * n) ∧
    ((List.range ts1.services.length).foldl retransmit_pmt
      ({ s with priv_data := (mpegts_write_pat ts1).1 },
        write_packets (mpegts_write_pat ts1).1 pb (mpegts_write_pat ts1).2)).1.priv_data.services.length
      = n := by
  subst hsv1
  have hc := mpegts_write_pat_count ts1
  have hs : (mpegts_write_pat ts1).1.services = ts1.services := rfl
  have h1 := write_packets_pos_le (mpegts_write_pat ts1).1 (mpegts_write_pat ts1).2 pb
  generalize mpegts_write_pat ts1 = W at hc hs h1 ⊢
  obtain ⟨h2, h3⟩ := retransmit_pmt_pos_le (List.range ts1.services.length)
    ({ s with priv_data := W.1 }, write_packets W.1 pb W.2)
  simp only [List.length_range] at h2
  simp only [] at h2 h3
  exact ⟨by omega, by rw [h3, hs]⟩

theorem retransmit_pat_pos_le (s : AVFormatContext) (pb : AVIOContext) (force_pat : Bool) :
    (retransmit_pat s pb force_pat).2.pos ≤
      pb.pos + 192 * (6 + 6 * s.priv_data.services.length) ∧
    (retransmit_pat s pb force_pat).1.priv_data.services.length =
      s.priv_data.services.length := by
  unfold retransmit_pat
  simp only []
  split
  · exact retransmit_pat_body_pos_le s _ pb _ rfl
  · exact ⟨Nat.le_add_right _ _, rfl⟩

/-- `retransmit_si_info` hands at most six packets for each of the four
tables and for the PMT of each service to the sink, and keeps the number of
services. -/
theorem retransmit_si_info_pos_le (s : AVFormatContext) (pb : AVIOContext) (force_pat : Bool) :
    (retransmit_si_info s pb force_pat).2.pos ≤
      pb.pos + 192 * (24 + 6 * s.priv_data.services.length) ∧
    (retransmit_si_info s pb force_pat).1.priv_data.services.length =
      s.priv_data.services.length := by
  unfold retransmit_si_info
  simp only []
  obtain ⟨a1, a2⟩ := retransmit_sdt_pos_le s.priv_data pb
  generalize retransmit_sdt s.priv_data pb = r1 at a1 a2 ⊢
  obtain ⟨b1, b2⟩ := retransmit_nit_pos_le r1.1 r1.2
  generalize retransmit_nit r1.1 r1.2 = r2 at b1 b2 ⊢
  obtain ⟨c1, c2⟩ := retransmit_tot_pos_le r2.1 r2.2
  generalize retransmit_tot r2.1 r2.2 = r3 at c1 c2 ⊢
  obtain ⟨d1, d2⟩ := retransmit_pat_pos_le { s with priv_data := r3.1 } r3.2 force_pat
  generalize retransmit_pat { s with priv_data := r3.1 } r3.2 force_pat = r4 at d1 d2 ⊢
  have e : r3.1.services.length = s.priv_data.services.length := by rw [c2, b2, a2]
  simp only [] at d1 d2
  rw [e] at d1 d2
  exact ⟨by omega, d2⟩

theorem pad_length_le (q : List Nat) (x : Nat) (h : q.length ≤ 188) :
    (q ++ List.replicate (188 - q.length) x).length ≤ 188 := by
  rw [List.length_append, List.length_replicate]
  omega

theorem null_packet_pos_le (ts : MpegTSWrite) (pb : AVIOContext) :
    (mpegts_insert_null_packet ts pb).pos ≤ pb.pos + 192 := by
  unfold mpegts_insert_null_packet
  simp only []
  exact packet_pos_le ts pb _ (pad_length_le _ _ (by
    simp only [List.length_append, List.length_cons, List.length_nil]
    omega))

theorem pcr_only_pos_le (ts : MpegTSWrite) (pb : AVIOContext) (st : AVStream) :
    (mpegts_insert_pcr_only ts pb st).pos ≤ pb.pos + 192 := by
  unfold mpegts_insert_pcr_only
  simp only []
  have hw2 := (write_pcr_bits_shape (get_pcr ts pb)).1
  exact packet_pos_le ts pb _ (pad_length_le _ _ (by
    simp only [List.length_append, List.length_cons, List.length_nil, List.length_take]
    rw [hw2]
    omega))

theorem pes_pcr_due_services (s : AVFormatContext) (sti : Nat) (is_start : Bool) :
    (pes_pcr_due s sti is_start).1.priv_data.services.length = s.priv_data.services.length := by
  have h := congrArg List.length (pes_pcr_due_pcr_pids s sti is_start).1
  simpa [ts_pcr_pids] using h

/-! ## The wait test of `mpegts_write_pes` in 64-bit arithmetic -/

theorem wrap_int64_id (x : Int) (h0 : -2 ^ 63 ≤ x) (h1 : x < 2 ^ 63) : wrap_int64 x = x := by
  unfold wrap_int64
  rw [Int.emod_eq_of_lt (by omega) (by omega)]
  omega

theorem wrap_int64_range (x : Int) : -2 ^ 63 ≤ wrap_int64 x ∧ wrap_int64 x < 2 ^ 63 := by
  unfold wrap_int64
  have h1 := Int.emod_nonneg (x + 2 ^ 63) (by decide : (2 : Int) ^ 64 ≠ 0)
  have h2 := Int.emod_lt_of_pos (x + 2 ^ 63) (by decide : (0 : Int) < 2 ^ 64)
  omega

/-- A 64-bit value divided by 300 is within `2^55` of 0. -/
theorem tdiv_300_range (g : Int) (h0 : -2 ^ 63 ≤ g) (h1 : g < 2 ^ 63) :
    -2 ^ 55 < Int.tdiv g 300 ∧ Int.tdiv g 300 < 2 ^ 55 := by
  by_cases hg : 0 ≤ g
  · rw [Int.tdiv_eq_ediv hg (by decide)]
    omega
  · have e : Int.tdiv g 300 = -((-g) / 300) := by
      rw [← Int.tdiv_eq_ediv (by omega) (by decide), Int.neg_tdiv, neg_neg]
    rw [e]
    omega

theorem tdiv_300_nonneg (g : Int) (h0 : 0 ≤ g) (h1 : g < 2 ^ 63) :
    0 ≤ Int.tdiv g 300 ∧ Int.tdiv g 300 < 2 ^ 55 := by
  rw [Int.tdiv_eq_ediv h0 (by decide)]
  omega

/-- In CBR mode a DTS from `2^62` on is ahead of every PCR that an `int64_t`
can hold by more than any delay below `2^62 - 2^55`: the wait test holds. -/
theorem pes_must_wait_int64_far (ts : MpegTSWrite) (pb : AVIOContext) (d delay : Int)
    (hmux : 1 < ts.mux_rate) (hd0 : 2 ^ 62 ≤ d) (hd1 : d < 2 ^ 63 - 2 ^ 55)
    (hdelay : delay < 2 ^ 62 - 2 ^ 55) :
    pes_must_wait_int64 ts pb (some d) delay = true := by
  unfold pes_must_wait_int64
  simp only [Bool.and_eq_true, decide_eq_true_eq]
  obtain ⟨g0, g1⟩ := wrap_int64_range (get_pcr ts pb)
  obtain ⟨t0, t1⟩ := tdiv_300_range _ g0 g1
  refine ⟨hmux, ?_⟩
  rw [wrap_int64_id _ (by omega) (by omega)]
  omega

/-- A turn of the loop whose wait test holds for every sink leaves the
payload size and the mux rate as they are. -/
theorem pes_step_int64_waits (sti : Nat) (pts : Option Int) (d : Int) (key : Bool) (delay : Int)
    (x : PesState) (hmux : 1 < x.s.priv_data.mux_rate) (hd0 : 2 ^ 62 ≤ d)
    (hd1 : d < 2 ^ 63 - 2 ^ 55) (hdelay : delay < 2 ^ 62 - 2 ^ 55) :
    (pes_step_int64 sti pts (some d) key delay x).payload_size = x.payload_size ∧
    (pes_step_int64 sti pts (some d) key delay x).s.priv_data.mux_rate =
      x.s.priv_data.mux_rate := by
  have hr := retransmit_si_info_static x.s x.pb x.force_pat
  unfold pes_step_int64
  simp only []
  generalize retransmit_si_info x.s x.pb x.force_pat = r at hr ⊢
  have hd := pes_pcr_due_static r.1 sti x.is_start
  generalize pes_pcr_due r.1 sti x.is_start = dd at hd ⊢
  have ho := ts_options_mux _ _ (hd.2.2.trans hr.2.2)
  rw [if_pos (pes_must_wait_int64_far dd.1.priv_data r.2 d delay (by rw [ho.1]; exact hmux)
    hd0 hd1 hdelay)]
  exact ⟨rfl, ho.1⟩

/-- In CBR mode with a DTS from `2^62` on, the loop with the 64-bit wait
test has not ended after any number of turns. -/
theorem pes_loop_int64_never (sti : Nat) (pts : Option Int) (d : Int) (key : Bool) (delay : Int)
    (hd0 : 2 ^ 62 ≤ d) (hd1 : d < 2 ^ 63 - 2 ^ 55) (hdelay : delay < 2 ^ 62 - 2 ^ 55) :
    ∀ (fuel : Nat) (x : PesState), 0 < x.payload_size → 1 < x.s.priv_data.mux_rate →
      pes_loop_int64 fuel sti pts (some d) key delay x = none := by
  intro fuel
  induction fuel with
  | zero =>
    intro x hpos _
    simp only [pes_loop_int64, hpos, if_true]
  | succ fuel ih =>
    intro x hpos hmux
    obtain ⟨h1, h2⟩ := pes_step_int64_waits sti pts d key delay x hmux hd0 hd1 hdelay
    have hloop : pes_loop_int64 (fuel + 1) sti pts (some d) key delay x =
        pes_loop_int64 fuel sti pts (some d) key delay
          (pes_step_int64 sti pts (some d) key delay x) := by
      simp only [pes_loop_int64, hpos, if_true]
    rw [hloop]
    exact ih _ (by rw [h1]; exact hpos) (by rw [h2]; exact hmux)

/-- A call of `mpegts_write_pes` in CBR mode with a payload and a DTS from
`2^62` on has not returned after any number of turns of its loop. -/
theorem mpegts_write_pes_int64_never (fuel : Nat) (s : AVFormatContext) (pb : AVIOContext)
    (sti : Nat) (payload : List Nat) (pts : Option Int) (d : Int) (key : Bool)
    (hmux : 1 < s.priv_data.mux_rate) (hne : payload ≠ []) (hd0 : 2 ^ 62 ≤ d)
    (hd1 : d < 2 ^ 63 - 2 ^ 55)
    (hdelay : av_rescale s.max_delay 90000 AV_TIME_BASE < 2 ^ 62 - 2 ^ 55) :
    mpegts_write_pes_int64 fuel s pb sti payload pts (some d) key = none := by
  unfold mpegts_write_pes_int64
  simp only []
  rw [pes_loop_int64_never sti pts d key _ hd0 hd1 hdelay fuel _
    (List.length_pos.mpr hne) hmux]

theorem get_pcr_at (ts : MpegTSWrite) (p : Nat) :
    get_pcr ts ⟨p, []⟩ =
      av_rescale ((p : Int) + 11) (8 * PCR_TIME_BASE) ts.mux_rate + ts.first_pcr := rfl

theorem av_rescale_nonneg (mux : Int) (a : Nat) (hm : 0 < mux) :
    0 ≤ av_rescale ((a : Int) + 11) (8 * PCR_TIME_BASE) mux := by
  unfold av_rescale PCR_TIME_BASE
  exact Int.ediv_nonneg (by positivity) (Int.le_of_lt hm)

/-- The wait test in 64-bit arithmetic is the test over the integers when the
DTS is within `2^62` of 0 and the PCR is a non-negative 64-bit value; without
a DTS and in VBR mode the two are the same anyway. -/
theorem pes_must_wait_int64_eq (ts : MpegTSWrite) (pb : AVIOContext) (dts : Option Int)
    (delay : Int)
    (h : ∀ d, dts = some d → 1 < ts.mux_rate →
      -2 ^ 62 ≤ d ∧ d < 2 ^ 62 ∧ 0 ≤ get_pcr ts pb ∧ get_pcr ts pb < 2 ^ 63) :
    pes_must_wait_int64 ts pb dts delay = pes_must_wait ts pb dts delay := by
  cases dts with
  | none => rfl
  | some d =>
    unfold pes_must_wait_int64 pes_must_wait
    simp only []
    by_cases hm : 1 < ts.mux_rate
    · obtain ⟨d0, d1, g0, g1⟩ := h d rfl hm
      obtain ⟨t0, t1⟩ := tdiv_300_nonneg _ g0 g1
      rw [wrap_int64_id _ (by omega) g1, wrap_int64_id _ (by omega) (by omega)]
    · have e : decide (ts.mux_rate > 1) = false := decide_eq_false hm
      rw [e, Bool.false_and, Bool.false_and]

/-- A turn of the loop with the 64-bit wait test is the turn with the test
over the integers when the two tests agree in it. -/
theorem pes_step_int64_eq (sti : Nat) (pts dts : Option Int) (key : Bool) (delay : Int)
    (x : PesState)
    (h : pes_must_wait_int64
        (pes_pcr_due (retransmit_si_info x.s x.pb x.force_pat).1 sti x.is_start).1.priv_data
        (retransmit_si_info x.s x.pb x.force_pat).2 dts delay =
      pes_must_wait
        (pes_pcr_due (retransmit_si_info x.s x.pb x.force_pat).1 sti x.is_start).1.priv_data
        (retransmit_si_info x.s x.pb x.force_pat).2 dts delay) :
    pes_step_int64 sti pts dts key delay x = pes_step sti pts dts key delay x := by
  unfold pes_step_int64 pes_step
  simp only []
  rw [h]

/-- One turn of the loop moves the sink by `pes_turn_bytes` at most, the
tables by one packet less, and keeps the number of services. -/
theorem pes_step_pos_le (sti : Nat) (pts dts : Option Int) (key : Bool) (delay : Int)
    (x : PesState) :
    (retransmit_si_info x.s x.pb x.force_pat).2.pos + 192 ≤
      x.pb.pos + pes_turn_bytes x.s.priv_data ∧
    (pes_step sti pts dts key delay x).pb.pos ≤ x.pb.pos + pes_turn_bytes x.s.priv_data ∧
    (pes_step sti pts dts key delay x).s.priv_data.services.length =
      x.s.priv_data.services.length := by
  obtain ⟨hp, hs⟩ := retransmit_si_info_pos_le x.s x.pb x.force_pat
  have hB : pes_turn_bytes x.s.priv_data = 192 * (25 + 6 * x.s.priv_data.services.length) := rfl
  refine ⟨by omega, ?_⟩
  unfold pes_step
  simp only []
  generalize retransmit_si_info x.s x.pb x.force_pat = r at hp hs ⊢
  have hd := pes_pcr_due_services r.1 sti x.is_start
  generalize pes_pcr_due r.1 sti x.is_start = dd at hd ⊢
  split
  · cases hw : dd.2
    · simp only [Bool.false_eq_true, if_false]
      have := null_packet_pos_le dd.1.priv_data r.2
      exact ⟨by omega, by rw [hd, hs]⟩
    · simp only [if_true]
      have := pcr_only_pos_le dd.1.priv_data r.2 (dd.1.stream sti)
      exact ⟨by omega, by rw [hd, hs]⟩
  · refine ⟨Nat.le_trans (packet_pos_le _ r.2 _ (by
      rw [List.length_take]
      exact Nat.min_le_left _ _)) (by omega), ?_⟩
    exact hd.trans hs

/-- The range condition carries over to a sink offset and a number of turns
that reach no further, for the same mux rate and first PCR. -/
theorem pes_in_range_mono (ts ts2 : MpegTSWrite) (pos pos2 turns turns2 : Nat)
    (dts : Option Int) (hmux : ts2.mux_rate = ts.mux_rate)
    (hfirst : ts2.first_pcr = ts.first_pcr)
    (hle : pos2 + pes_turn_bytes ts2 * (turns2 + 1) ≤ pos + pes_turn_bytes ts * (turns + 1))
    (h : pes_in_range ts pos turns dts) : pes_in_range ts2 pos2 turns2 dts := by
  cases dts with
  | none => trivial
  | some d =>
    by_cases hm : ts.mux_rate ≤ 1
    · exact Or.inl (by rw [hmux]; exact hm)
    · rcases h with h | ⟨d0, d1, f0, g1⟩
      · exact absurd h hm
      · refine Or.inr ⟨d0, d1, by rw [hfirst]; exact f0, ?_⟩
        rw [get_pcr_at] at g1 ⊢
        have := av_rescale_mono ts.mux_rate _ _ (by omega) hle
        rw [hmux, hfirst]
        omega

/-- Within the range condition a turn of the loop with the 64-bit wait test
is the turn with the test over the integers, and the condition holds again
after it for the turns that are left. -/
theorem pes_step_int64_in_range (sti : Nat) (mux first : Int) (pts dts : Option Int)
    (key : Bool) (delay : Int) (x : PesState) (hinv : pes_sizes_ok mux first x)
    (hpos : 0 < x.payload_size) (hm31 : mux < 2 ^ 31)
    (hr : pes_in_range x.s.priv_data x.pb.pos (pes_measure mux first dts delay x) dts) :
    pes_step_int64 sti pts dts key delay x = pes_step sti pts dts key delay x ∧
    pes_in_range (pes_step sti pts dts key delay x).s.priv_data
      (pes_step sti pts dts key delay x).pb.pos
      (pes_measure mux first dts delay (pes_step sti pts dts key delay x)) dts := by
  obtain ⟨hinv1, hless, _⟩ := pes_step_decreases sti mux first pts dts key delay x hinv hpos hm31
  obtain ⟨hp1, hp2, hsv⟩ := pes_step_pos_le sti pts dts key delay x
  have hB : pes_turn_bytes (pes_step sti pts dts key delay x).s.priv_data =
      pes_turn_bytes x.s.priv_data := by
    unfold pes_turn_bytes
    rw [hsv]
  refine ⟨?_, ?_⟩
  · apply pes_step_int64_eq
    apply pes_must_wait_int64_eq
    intro d hd hm
    have hrs := retransmit_si_info_static x.s x.pb x.force_pat
    have hds := pes_pcr_due_static (retransmit_si_info x.s x.pb x.force_pat).1 sti x.is_start
    have ho := ts_options_mux _ _ (hds.2.2.trans hrs.2.2)
    rw [ho.1] at hm
    subst hd
    rcases hr with hr | ⟨d0, d1, f0, g1⟩
    · omega
    · refine ⟨d0, d1, ?_, ?_⟩
      · rw [get_pcr_eq, ho.1, ho.2]
        have := av_rescale_nonneg x.s.priv_data.mux_rate
          (retransmit_si_info x.s x.pb x.force_pat).2.pos (by omega)
        omega
      · rw [get_pcr_eq, ho.1, ho.2]
        rw [get_pcr_at] at g1
        have hm1 : pes_turn_bytes x.s.priv_data * 1 ≤
            pes_turn_bytes x.s.priv_data * (pes_measure mux first (some d) delay x + 1) :=
          Nat.mul_le_mul_left _ (by omega)
        have := av_rescale_mono x.s.priv_data.mux_rate
          (retransmit_si_info x.s x.pb x.force_pat).2.pos
          (x.pb.pos + pes_turn_bytes x.s.priv_data *
            (pes_measure mux first (some d) delay x + 1)) (by omega) (by omega)
        omega
  · refine pes_in_range_mono x.s.priv_data _ x.pb.pos _
      (pes_measure mux first dts delay x) _ dts (hinv1.1.trans hinv.1.symm)
      (hinv1.2.1.trans hinv.2.1.symm) ?_ hr
    rw [hB]
    have hm1 : pes_turn_bytes x.s.priv_data *
        (pes_measure mux first dts delay (pes_step sti pts dts key delay x) + 1) + 
        pes_turn_bytes x.s.priv_data ≤
        pes_turn_bytes x.s.priv_data * (pes_measure mux first dts delay x + 1) := by
      rw [← Nat.mul_succ]
      exact Nat.mul_le_mul_left _ (by omega)
    omega

/-- Within the range condition the loop with the 64-bit wait test is the loop
with the test over the integers. -/
theorem pes_loop_int64_eq (sti : Nat) (mux first : Int) (pts dts : Option Int) (key : Bool)
    (delay : Int) (hm31 : mux < 2 ^ 31) :
    ∀ (fuel : Nat) (x : PesState), pes_sizes_ok mux first x →
      pes_in_range x.s.priv_data x.pb.pos (pes_measure mux first dts delay x) dts →
      pes_loop_int64 fuel sti pts dts key delay x = pes_loop fuel sti pts dts key delay x := by
  intro fuel
  induction fuel with
  | zero =>
    intro x _ _
    rfl
  | succ fuel ih =>
    intro x hinv hr
    rcases Nat.eq_zero_or_pos x.payload_size with h0 | hpos
    · simp only [pes_loop_int64, pes_loop, h0, Nat.lt_irrefl, if_false, gt_iff_lt]
    · obtain ⟨hinv1, _, _⟩ :=
        pes_step_decreases sti mux first pts dts key delay x hinv hpos hm31
      obtain ⟨he, hr1⟩ := pes_step_int64_in_range sti mux first pts dts key delay x hinv hpos
        hm31 hr
      simp only [pes_loop_int64, pes_loop, hpos, if_true, gt_iff_lt]
      rw [he]
      exact ih _ hinv1 hr1

/-- Within the range condition a call of `mpegts_write_pes` with the 64-bit
wait test returns what the call with the test over the integers returns,
within the number of turns that `pes_fuel` gives. -/
theorem mpegts_write_pes_int64_eq (s : AVFormatContext) (pb : AVIOContext) (sti : Nat)
    (payload : List Nat) (pts dts : Option Int) (key : Bool)
    (hm31 : s.priv_data.mux_rate < 2 ^ 31)
    (hr : pes_in_range s.priv_data pb.pos
      (pes_fuel s pb payload.length dts (av_rescale s.max_delay 90000 AV_TIME_BASE)) dts) :
    mpegts_write_pes_int64
        (pes_fuel s pb payload.length dts (av_rescale s.max_delay 90000 AV_TIME_BASE))
        s pb sti payload pts dts key =
      mpegts_write_pes s pb sti payload pts dts key := by
  unfold mpegts_write_pes_int64 mpegts_write_pes
  simp only []
  rw [pes_loop_int64_eq sti s.priv_data.mux_rate s.priv_data.first_pcr pts dts key _ hm31 _ _
    (pes_start_sizes_ok s pb _ payload)
    (pes_in_range_mono s.priv_data s.priv_data pb.pos pb.pos _ _ dts rfl rfl
      (Nat.add_le_add_left (Nat.mul_le_mul_left _ (Nat.succ_le_succ
        (pes_fuel_measure s pb payload.length dts _ _ rfl rfl))) _) hr)]

/-! ## The time stamps on their way through `mpegts_write_packet_internal` -/

/-- C11: for a 16-bit network id and services with 16-bit ids whose provider
name (p bytes) and service name (n bytes) satisfy `p + n + 3 ≤ 255`, the `data`
buffer of `mpegts_write_sdt` (within its 1012 bytes) is the big-endian onid,
`0xFF`, then per service in order the entry `sdt_service_entry`: big-endian SID,
`0xFC`, the big-endian 16-bit value `0x8000 | (p + n + 5)` (top three bits 4,
bit 12 clear, low 12 bits the length), descriptor `0x48` with length
`p + n + 3`, service type `0x01`, `p` and the provider bytes, `n` and the name
bytes; a NULL name is the single byte 0. The buffer is sent as the payload of a
section with table id `0x42` and the packets carry it after the 8 header
bytes. -/
theorem mpegts_write_sdt_payload (ts : MpegTSWrite) (honid : ts.onid < 65536)
    (hsv : ∀ sv ∈ ts.services, sv.sid < 65536 ∧
      (sv.provider_name.getD []).length + (sv.name.getD []).length + 3 ≤ 255)
    (hfit : (sdt_data ts).length ≤ 1012) :
    sdt_data ts =
      [ts.onid / 256, ts.onid % 256, 0xFF] ++ (ts.services.map sdt_service_entry).flatten ∧
    (∀ sv ∈ ts.services,
      (0x8000 ||| ((sv.provider_name.getD []).length + (sv.name.getD []).length + 5)) / 0x2000
        = 4 ∧
      (0x8000 ||| ((sv.provider_name.getD []).length + (sv.name.getD []).length + 5)) / 0x1000
        % 2 = 0 ∧
      (0x8000 ||| ((sv.provider_name.getD []).length + (sv.name.getD []).length + 5)) % 0x1000
        = (sv.provider_name.getD []).length + (sv.name.getD []).length + 5) ∧
    putstr8 none = [0] ∧
    (mpegts_write_sdt ts).2 =
      (mpegts_write_section1 ts.sdt 0x42 ts.tsid ts.tables_version 0 0
        (sdt_data ts) (sdt_data ts).length).2.2 ∧
    ((section_reassemble (mpegts_write_sdt ts).2).drop 8).take (sdt_data ts).length =
      sdt_data ts := by
  have hdata : sdt_data ts =
      [ts.onid / 256, ts.onid % 256, 0xFF] ++ (ts.services.map sdt_service_entry).flatten := by
    unfold sdt_data
    rw [sdt_services_foldl ts.services _ hsv, put16_eq _ honid]
    rfl
  have hcall : (mpegts_write_sdt ts).2 =
      (mpegts_write_section1 ts.sdt 0x42 ts.tsid ts.tables_version 0 0
        (sdt_data ts) (sdt_data ts).length).2.2 := rfl
  refine ⟨hdata, ?_, rfl, hcall, ?_⟩
  · intro sv hmem
    have h := (hsv sv hmem).2
    rw [or_8000 _ (by omega)]
    omega
  · rw [hcall]
    exact mpegts_write_section1_payload ts.sdt 0x42 ts.tsid ts.tables_version 0 0 _ hfit

/-- Witness for C11: the two services registered by the header for network 1,
with the default provider and service names. -/
theorem mpegts_write_sdt_payload_witness :
    sdt_data example_context.priv_data =
      [0x00, 0x01, 0xFF,
        0x00, 0x20, 0xFC, 0x80, 0x14, 0x48, 0x12, 0x01,
        0x06, 0x46, 0x46, 0x6D, 0x70, 0x65, 0x67,
        0x09, 0x53, 0x65, 0x72, 0x76, 0x69, 0x63, 0x65, 0x30, 0x31,
        0x00, 0x39, 0xFC, 0x80, 0x14, 0x48, 0x12, 0x01,
        0x06, 0x46, 0x46, 0x6D, 0x70, 0x65, 0x67,
        0x09, 0x53, 0x65, 0x72, 0x76, 0x69, 0x63, 0x65, 0x30, 0x31] :=
  (mpegts_write_sdt_payload example_context.priv_data (by decide) (by decide) (by decide)).1

/-- The test of the transmission-type loop on service ids that the header
does not register: the loop of the TS Information descriptor tests `sid & 0x18
>> 3`, that is `sid & 3`. For the service id `0x0018`, whose
service-type bits `(sid >> 3) & 3` are 3, it writes the full-seg entry
`0x0F 0x01 0x00 0x18`, while the Partial Reception loop of the same function
treats that service as 1-seg; for the service id `0x0001`, whose service-type
bits are 0, it writes the 1-seg entry `0xAF 0x01 0x00 0x01`. -/
theorem nit_transmission_type_precedence :
    (0x0018 >>> 3) &&& 0x3 = 0x3 ∧
    nit_ts_information
      { MpegTSWrite.defaults with services := [{ MpegTSService.zero with sid := 0x0018 }] } [] =
      [0xCD, 0x16, 0x14, 0x42] ++ DEFAULT_NETWORK_NAME ++ [0x0F, 0x01, 0x00, 0x18] ∧
    nit_partial_reception [] { MpegTSService.zero with sid := 0x0018 } =
      [0xFB, 0x02, 0x00, 0x18] ∧
    (0x0001 >>> 3) &&& 0x3 = 0x0 ∧
    nit_ts_information
      { MpegTSWrite.defaults with services := [{ MpegTSService.zero with sid := 0x0001 }] } [] =
      [0xCD, 0x16, 0x14, 0x42] ++ DEFAULT_NETWORK_NAME ++ [0xAF, 0x01, 0x00, 0x01] ∧
    nit_partial_reception [] { MpegTSService.zero with sid := 0x0001 } = [] := by
  decide

/-- C13: for every physical channel in 14..69 the `data` buffer of
`mpegts_write_nit` ends with the six bytes of the Terrestrial Delivery System
descriptor: `0xFA`, `0x04`, the 16-bit value
`area_code << 4 | guard_interval << 2 | transmission_mode` high byte first, and
the frequency `7 * (473 + 6 * (physical_channel - 14)) =
3311 + 42 * (physical_channel - 14)` high byte first; the `1/7` term is 0, the
frequency is below 65536, and so is the first value for options in their
ranges. -/
theorem mpegts_write_nit_terrestrial_delivery (ts : MpegTSWrite)
    (hch : 14 ≤ ts.physical_channel ∧ ts.physical_channel ≤ 69) :
    (nit_data ts).drop ((nit_data ts).length - 6) =
      [0xFA, 0x04,
        ((ts.area_code <<< 4) ||| (ts.guard_interval <<< 2) ||| ts.transmission_mode) / 256 % 256,
        ((ts.area_code <<< 4) ||| (ts.guard_interval <<< 2) ||| ts.transmission_mode) % 256,
        (3311 + 42 * (ts.physical_channel - 14)) / 256,
        (3311 + 42 * (ts.physical_channel - 14)) % 256] ∧
    7 * (473 + 6 * (ts.physical_channel - 14)) = 3311 + 42 * (ts.physical_channel - 14) ∧
    3311 + 42 * (ts.physical_channel - 14) < 65536 ∧
    Int.tdiv 1 7 = 0 ∧
    (ts.area_code ≤ 0x0DBF → ts.guard_interval ≤ 4 → ts.transmission_mode ≤ 4 →
      (ts.area_code <<< 4) ||| (ts.guard_interval <<< 2) ||| ts.transmission_mode < 65536) := by
  refine ⟨?_, by omega, by omega, by decide, ?_⟩
  · rw [nit_data_suffix, nit_frequency _ hch.1,
      Nat.mod_eq_of_lt (by omega : 3311 + 42 * (ts.physical_channel - 14) < 65536)]
    have hf : (3311 + 42 * (ts.physical_channel - 14)) / 256 % 256 =
        (3311 + 42 * (ts.physical_channel - 14)) / 256 := by
      omega
    have hv : ∀ v : Nat, v >>> 8 = v / 256 := fun v => Nat.shiftRight_eq_div_pow v 8
    simp only [put16, hf, hv]
    rfl
  · intro ha hg hm
    have h1 : ts.area_code <<< 4 < 2 ^ 16 := by rw [Nat.shiftLeft_eq]; omega
    have h2 : ts.guard_interval <<< 2 < 2 ^ 16 := by rw [Nat.shiftLeft_eq]; omega
    have h3 : ts.transmission_mode < 2 ^ 16 := by omega
    exact Nat.or_lt_two_pow (Nat.or_lt_two_pow h1 h2) h3

/-- Witness for C13: physical channel 14 with area code, guard interval and
transmission mode 1 gives the value bytes `0x00 0x15 0x0C 0xEF`. -/
theorem mpegts_write_nit_terrestrial_delivery_witness :
    (nit_data { MpegTSWrite.defaults with
        physical_channel := 14, area_code := 1, guard_interval := 1,
        transmission_mode := 1 }).drop
      ((nit_data { MpegTSWrite.defaults with
        physical_channel := 14, area_code := 1, guard_interval := 1,
        transmission_mode := 1 }).length - 6) =
      [0xFA, 0x04, 0x00, 0x15, 0x0C, 0xEF] :=
  (mpegts_write_nit_terrestrial_delivery
    { MpegTSWrite.defaults with
      physical_channel := 14, area_code := 1, guard_interval := 1, transmission_mode := 1 }
    (by decide)).1

/-! ## Claims on the PCR, the time stamps and the M2TS prefix -/

/-- C14: `write_pcr_bits` always writes six bytes and returns 6, and for every
`pcr` with `0 ≤ pcr < 300 * 2^33` the bytes decode back to `pcr`: the first 33
bits are `pcr / 300`, the next six bits are all ones, the last nine bits are
`pcr mod 300`, so that `base * 300 + extension = pcr`. -/
theorem write_pcr_bits_roundtrip (pcr : Int) :
    (write_pcr_bits pcr).2 = 6 ∧ (write_pcr_bits pcr).1.length = 6 ∧
    (0 ≤ pcr → pcr < 300 * 2 ^ 33 →
      (∀ x ∈ (write_pcr_bits pcr).1, x < 256) ∧
      (pcr_base (write_pcr_bits pcr).1 : Int) = pcr / 300 ∧
      pcr_base (write_pcr_bits pcr).1 < 2 ^ 33 ∧
      pcr_reserved (write_pcr_bits pcr).1 = 0x3F ∧
      (pcr_extension (write_pcr_bits pcr).1 : Int) = pcr % 300 ∧
      (pcr_base (write_pcr_bits pcr).1 : Int) * 300 + pcr_extension (write_pcr_bits pcr).1 =
        pcr) := by
  refine ⟨rfl, rfl, ?_⟩
  intro h0 h1
  obtain ⟨n, rfl⟩ := Int.eq_ofNat_of_zero_le h0
  have hn : n < 300 * 2 ^ 33 := by
    have : ((300 * 2 ^ 33 : Nat) : Int) = 300 * 2 ^ 33 := by norm_num
    omega
  have hH : n / 300 < 2 ^ 33 := by omega
  have hL : n % 300 < 300 := Nat.mod_lt _ (by decide)
  have hb := pcr_base_bytes (n / 300) (n % 300) hH hL
  have he := pcr_extension_bytes (n / 300) (n % 300) hL
  rw [write_pcr_bits_natCast]
  simp only [pcr_base, pcr_reserved, pcr_extension, List.getD_cons_zero, List.getD_cons_succ,
    List.mem_cons, List.mem_nil_iff, or_false]
  rw [hb, he.1, he.2]
  refine ⟨?_, ?_, hH, rfl, ?_, ?_⟩
  · intro x hx
    rcases hx with h | h | h | h | h | h <;> subst h <;> omega
  · push_cast
    rfl
  · push_cast
    rfl
  · have := Nat.div_add_mod n 300
    push_cast
    omega

/-- Witness for C14: the largest value of the range, `300 * 2^33 - 1`. -/
theorem write_pcr_bits_roundtrip_witness :
    (0 : Int) ≤ 2576980377599 ∧ (2576980377599 : Int) < 300 * 2 ^ 33 ∧
    write_pcr_bits 2576980377599 = ([0xFF, 0xFF, 0xFF, 0xFF, 0xFF, 0x2B], 6) ∧
    (pcr_base (write_pcr_bits 2576980377599).1 : Int) * 300 +
      pcr_extension (write_pcr_bits 2576980377599).1 = 2576980377599 :=
  ⟨by decide, by decide, by decide,
    ((write_pcr_bits_roundtrip 2576980377599).2.2 (by decide) (by decide)).2.2.2.2.2⟩

/-- C15: for every 4-bit marker `m` and every time stamp `pts`, `write_pts`
writes five bytes whose first has `m` as its top nibble, bytes 0, 2 and 4 have
their least significant bit set, and the three fields read back by `read_pts`
make up `pts mod 2^33`; a time stamp of 33 bits is read back unchanged. -/
theorem write_pts_roundtrip (m : Nat) (hm : m < 16) (pts : Int) :
    (write_pts m pts).length = 5 ∧
    (∀ x ∈ write_pts m pts, x < 256) ∧
    (write_pts m pts).getD 0 0 / 16 = m ∧
    (write_pts m pts).getD 0 0 % 2 = 1 ∧
    (write_pts m pts).getD 2 0 % 2 = 1 ∧
    (write_pts m pts).getD 4 0 % 2 = 1 ∧
    read_pts (write_pts m pts) = (pts % 2 ^ 33).toNat ∧
    (0 ≤ pts → pts < 2 ^ 33 → (read_pts (write_pts m pts) : Int) = pts) := by
  have hf := pts_fields pts
  have hA : ((pts >>> (30 : Nat)) % 8).toNat < 8 := by
    have h1 : 0 ≤ (pts >>> (30 : Nat)) % 8 := Int.emod_nonneg _ (by decide)
    have h2 : (pts >>> (30 : Nat)) % 8 < 8 := Int.emod_lt_of_pos _ (by decide)
    omega
  have hB : ((pts >>> (15 : Nat)) % 0x8000).toNat < 0x8000 := by
    have h1 : 0 ≤ (pts >>> (15 : Nat)) % 0x8000 := Int.emod_nonneg _ (by decide)
    have h2 : (pts >>> (15 : Nat)) % 0x8000 < 0x8000 := Int.emod_lt_of_pos _ (by decide)
    omega
  have hC : (pts % 0x8000).toNat < 0x8000 := by
    have h1 : 0 ≤ pts % 0x8000 := Int.emod_nonneg _ (by decide)
    have h2 : pts % 0x8000 < 0x8000 := Int.emod_lt_of_pos _ (by decide)
    omega
  have hread : read_pts (write_pts m pts) = (pts % 2 ^ 33).toNat := by
    rw [write_pts_eq m hm, ← hf]
    simp only [read_pts, List.getD_cons_zero, List.getD_cons_succ]
    omega
  refine ⟨by rw [write_pts_eq m hm]; rfl, ?_⟩
  rw [write_pts_eq m hm] at *
  simp only [List.getD_cons_zero, List.getD_cons_succ,
    List.mem_cons, List.mem_nil_iff, or_false]
  refine ⟨?_, by omega, by omega, by omega, by omega, hread, ?_⟩
  · intro x hx
    rcases hx with h | h | h | h | h <;> subst h <;> omega
  · intro h0 h1
    rw [hread, Int.toNat_of_nonneg (Int.emod_nonneg _ (by norm_num))]
    exact Int.emod_eq_of_lt h0 h1

/-- Witness for C15: the PTS marker `0b0011` and the time stamp `2^33 - 1`. -/
theorem write_pts_roundtrip_witness :
    (3 : Nat) < 16 ∧ write_pts 3 8589934591 = [0x3F, 0xFF, 0xFF, 0xFF, 0xFF] ∧
    read_pts (write_pts 3 8589934591) = ((8589934591 : Int) % 2 ^ 33).toNat :=
  ⟨by decide, by decide, (write_pts_roundtrip 3 (by decide) 8589934591).2.2.2.2.2.2.1⟩

/-- C16: for every `mux_rate > 1` and every `first_pcr`, `get_pcr` is the
quotient `(n + 11) * 8 * 27000000 / mux_rate` of the sink offset `n` plus
`first_pcr`, it does not decrease when the offset grows, and so it does not
decrease over an `avio_write`. -/
theorem get_pcr_monotone (ts : MpegTSWrite) (a b : AVIOContext) (hm : 1 < ts.mux_rate)
    (h : a.pos ≤ b.pos) :
    get_pcr ts a = ((a.pos : Int) + 11) * 8 * 27000000 / ts.mux_rate + ts.first_pcr ∧
    get_pcr ts a ≤ get_pcr ts b ∧
    (∀ buf : List Nat, get_pcr ts a ≤ get_pcr ts (avio_write a buf)) := by
  refine ⟨?_, get_pcr_mono ts a b (by omega) h, ?_⟩
  · simp only [get_pcr, av_rescale, avio_tell, PCR_TIME_BASE]
    rw [show ((a.pos : Int) + 11) * (8 * 27000000) = ((a.pos : Int) + 11) * 8 * 27000000 by ring]
  · intro buf
    exact get_pcr_mono ts a _ (by omega) (by simp [avio_write])

/-- Witness for C16: a 2.16 Mbit/s mux at the offsets of two successive
packets. -/
theorem get_pcr_monotone_witness :
    get_pcr { MpegTSWrite.defaults with mux_rate := 2160000 } ⟨0, []⟩ = 1100 ∧
    get_pcr { MpegTSWrite.defaults with mux_rate := 2160000 } ⟨188, []⟩ = 19900 ∧
    get_pcr { MpegTSWrite.defaults with mux_rate := 2160000 } ⟨0, []⟩ ≤
      get_pcr { MpegTSWrite.defaults with mux_rate := 2160000 } ⟨188, []⟩ :=
  ⟨by decide, by decide,
    (get_pcr_monotone { MpegTSWrite.defaults with mux_rate := 2160000 } ⟨0, []⟩ ⟨188, []⟩
      (by decide) (by decide)).2.1⟩

/-- C17: with `m2ts_mode` 1 and the default mux rate 1, before the first packet
(sink offset 0) `get_pcr` is 2376000000 and `mpegts_prefix_m2ts_header` writes
`0D 9E E2 02`, the big-endian form of `2376000000 mod (2^30 - 1)`, on a
little-endian and on a big-endian host alike; the big-endian form of
`2376000000 mod 2^30` is `0D 9E E2 00`. With `m2ts_mode` 0 nothing is
written. -/
theorem mpegts_prefix_m2ts_header_modulus :
    get_pcr { MpegTSWrite.defaults with m2ts_mode := 1 } ⟨0, []⟩ = 2376000000 ∧
    (mpegts_prefix_m2ts_header { MpegTSWrite.defaults with m2ts_mode := 1 } ⟨0, []⟩).written =
      [[0x0D, 0x9E, 0xE2, 0x02]] ∧
    tp_extra_header_bytes true 2376000000 = [0x0D, 0x9E, 0xE2, 0x02] ∧
    tp_extra_header_bytes false 2376000000 = [0x0D, 0x9E, 0xE2, 0x02] ∧
    be32 (2376000000 % (2 ^ 30 - 1)) = [0x0D, 0x9E, 0xE2, 0x02] ∧
    be32 (2376000000 % 2 ^ 30) = [0x0D, 0x9E, 0xE2, 0x00] ∧
    mpegts_prefix_m2ts_header { MpegTSWrite.defaults with m2ts_mode := 0 } ⟨0, []⟩ = ⟨0, []⟩ := by
  decide

/-! ## Claims on the PES writer -/

/-- C24: `mpegts_write_packet_internal` returns `AVERROR_INVALIDDATA` whenever
the `first_pts_check` bit of the stream is set and the packet has no PTS; the
sink and every stream are then as before (only the table counters may have
been armed), so the bit stays set. A packet with a PTS clears the bit of its
stream whatever happens to it afterwards; no call of
`mpegts_write_packet_internal` or `mpegts_write_flush` sets a bit that is
clear; and with the bit clear a call can return `AVERROR_INVALIDDATA` only
from the AAC block. -/
theorem mpegts_write_packet_internal_first_pts (hooks : PacketHooks) (s : AVFormatContext)
    (pb : AVIOContext) (pkt : AVPacket) :
    ((s.stream pkt.stream_index).priv_data.first_pts_check = true → pkt.pts = none →
      mpegts_write_packet_internal hooks s pb pkt =
        some (.error .INVALIDDATA, { s with priv_data := packet_reemit s.priv_data }, pb)) ∧
    (∀ res, mpegts_write_packet_internal hooks s pb pkt = some res →
      (pkt.pts ≠ none → (res.2.1.stream pkt.stream_index).priv_data.first_pts_check = false) ∧
      (∀ j, (s.stream j).priv_data.first_pts_check = false →
        (res.2.1.stream j).priv_data.first_pts_check = false) ∧
      ((s.stream pkt.stream_index).priv_data.first_pts_check = false →
        res.1 = .error .INVALIDDATA →
        (s.stream pkt.stream_index).codec.codec_id = AVCodecID.AAC)) ∧
    (∀ r, mpegts_write_flush s pb = some r →
      ∀ j, (r.1.stream j).priv_data.first_pts_check = (s.stream j).priv_data.first_pts_check) := by
  have hnone : ∀ t : Option Int × Option Int,
      t = packet_timestamps (packet_reemit s.priv_data) (packet_delay s) pkt.pts pkt.dts →
      (t.1 = none ↔ pkt.pts = none) := by
    intro t ht
    rw [ht]
    unfold packet_timestamps
    split
    · cases pkt.pts <;> simp
    · rfl
  refine ⟨?_, ?_, ?_⟩
  · intro hc hp
    unfold mpegts_write_packet_internal
    simp only []
    rw [if_pos ⟨hc, (hnone _ rfl).mpr hp⟩]
  · intro res hres
    rcases mpegts_write_packet_internal_spec hooks s pb pkt res hres with
      ⟨hc, ht, hr⟩ | ⟨_, s2, _, hstream, _, _, hcase⟩
    · rw [hr]
      refine ⟨fun hp => absurd ((hnone _ rfl).mp ht) hp, fun j hj => hj, fun hf => ?_⟩
      rw [hf] at hc
      cases hc
    · have hown : (s2.stream pkt.stream_index).priv_data.first_pts_check = false := by
        rw [hstream]
        split
        · rfl
        · rename_i hn
          have hout : ¬ pkt.stream_index < s.streams.length := fun hlt => hn ⟨rfl, hlt⟩
          rw [stream_out_of_range s _ hout]
          rfl
      have hany : ∀ j, (s.stream j).priv_data.first_pts_check = false →
          (s2.stream j).priv_data.first_pts_check = false := by
        intro j hj
        rw [hstream]
        split
        · rfl
        · exact hj
      rcases hcase with ⟨e, he, hr⟩ | ⟨buf, _, hw⟩
      · rw [hr]
        refine ⟨fun _ => hown, hany, fun _ hinv => ?_⟩
        simp only [Outcome.error.injEq] at hinv
        rw [hinv] at he
        exact packet_payload_invaliddata hooks _ pkt he
      · have hp := packet_write_first_pts_check _ _ _ _ _ _ _ _ hw
        refine ⟨fun _ => ((hp _).1).trans hown, fun j hj => ((hp j).1).trans (hany j hj),
          fun _ hinv => absurd hinv (hp 0).2⟩
  · intro r hr j
    exact (stream_kept_fields _ _ ((mpegts_write_flush_kept s pb r hr).2.1 j)).2.2.2.2.2.1

set_option maxRecDepth 100000 in
/-- Witness for C24: the first video packet of the example transport comes
without PTS. -/
theorem mpegts_write_packet_internal_first_pts_witness :
    (example_context.stream 0).priv_data.first_pts_check = true ∧
    mpegts_write_packet_internal example_hooks example_context ⟨0, []⟩
        ⟨0, [0x55], none, some 0, 1⟩ =
      some (.error .INVALIDDATA,
        { example_context with priv_data := packet_reemit example_context.priv_data },
        ⟨0, []⟩) :=
  ⟨rfl, (mpegts_write_packet_internal_first_pts example_hooks example_context ⟨0, []⟩
    ⟨0, [0x55], none, some 0, 1⟩).1 rfl rfl⟩

/-! ## Claim on key frames -/

/-- C25: on a fresh muxer state with a transmission profile other than 2,
`mpegts_write_header` gives stream number `i` with id `x` the PID
`start_pid + i` when `x < 16` and `x` itself when `16 ≤ x < 0x1FFF`, and on
success the stream PIDs are pairwise distinct; the call returns
`AVERROR(EINVAL)` when some id is `0x1FFF` or more, when the PID of a stream is
the PMT PID of the service `i mod 2` it is assigned to, and when two streams
resolve to the same PID. -/
theorem mpegts_write_header_stream_pids (s : AVFormatContext)
    (h0 : s.priv_data.services = []) (hprof : s.priv_data.transmission_profile ≠ 2) :
    (∀ s1, mpegts_write_header s = .ok s1 →
      s1.streams.length = s.streams.length ∧
      (∀ i, i < s.streams.length →
        (s.stream i).id < 0x1FFF ∧
        (s1.stream i).priv_data.pid =
          (if (s.stream i).id < 16 then s.priv_data.start_pid + i
           else (s.stream i).id.toNat)) ∧
      (s1.streams.map (fun st => st.priv_data.pid)).Nodup) ∧
    (∀ i, ((header_prepare s).services.getD (i % 2) MpegTSService.zero).pmt.pid =
      0x1FC8 + i % 2) ∧
    ((∃ i, i < s.streams.length ∧ 0x1FFF ≤ (s.stream i).id) →
      mpegts_write_header s = .error .EINVAL) ∧
    ((∃ i, i < s.streams.length ∧
        header_stream_pid s.priv_data i (s.stream i) =
          ((header_prepare s).services.getD (i % 2) MpegTSService.zero).pmt.pid) →
      mpegts_write_header s = .error .EINVAL) ∧
    ((∃ i j, i < j ∧ j < s.streams.length ∧
        header_stream_pid s.priv_data i (s.stream i) =
          header_stream_pid s.priv_data j (s.stream j)) →
      mpegts_write_header s = .error .EINVAL) := by
  refine ⟨?_, header_prepare_pmt_pid s h0 hprof, ?_, ?_, ?_⟩
  · intro s1 h
    obtain ⟨hc, hl, hg, hm, _, _⟩ := mpegts_write_header_streams s s1 h0 hprof h
    obtain ⟨hk, _, hn⟩ := header_checks_fresh s h0 hprof hc
    refine ⟨hl, ?_, by rw [hm]; exact hn⟩
    intro i hi
    refine ⟨(hk i hi).1, ?_⟩
    rw [(hg i hi).1]
    rfl
  · rintro ⟨i, hi, hx⟩
    rcases mpegts_write_header_spec s h0 hprof with ⟨hc, _⟩ | ⟨_, he⟩
    · have := ((header_checks_fresh s h0 hprof hc).1 i hi).1
      omega
    · exact he
  · rintro ⟨i, hi, hx⟩
    rcases mpegts_write_header_spec s h0 hprof with ⟨hc, _⟩ | ⟨_, he⟩
    · rw [header_prepare_pmt_pid s h0 hprof] at hx
      exact absurd hx ((header_checks_fresh s h0 hprof hc).1 i hi).2
    · exact he
  · rintro ⟨i, j, hij, hj, hx⟩
    rcases mpegts_write_header_spec s h0 hprof with ⟨hc, _⟩ | ⟨_, he⟩
    · exact absurd hx ((header_checks_fresh s h0 hprof hc).2.1 i j hij hj)
    · exact he

set_option maxRecDepth 100000 in
/-- Witness of C25: two streams that both have the id `0x100` make the header
fail with `AVERROR(EINVAL)`, and the two streams of the example transport, both
with id 0, get the PIDs `0x100` and `0x101`. -/
theorem mpegts_write_header_stream_pids_witness :
    duplicate_pid_input.priv_data.services = [] ∧
    duplicate_pid_input.priv_data.transmission_profile ≠ 2 ∧
    duplicate_pid_input.streams.map (fun st => st.id) = [0x100, 0x100] ∧
    mpegts_write_header duplicate_pid_input = .error .EINVAL ∧
    mpegts_write_header example_input = .ok example_context ∧
    (example_context.stream 0).priv_data.pid = 0x100 ∧
    (example_context.stream 1).priv_data.pid = 0x101 :=
  ⟨rfl, by decide, rfl,
    (mpegts_write_header_stream_pids duplicate_pid_input rfl (by decide)).2.2.2.2
      ⟨0, 1, by decide, by decide, rfl⟩,
    rfl,
    (((mpegts_write_header_stream_pids example_input rfl (by decide)).1
      example_context rfl).2.1 0 (by decide)).2,
    (((mpegts_write_header_stream_pids example_input rfl (by decide)).1
      example_context rfl).2.1 1 (by decide)).2⟩

set_option maxRecDepth 100000 in
/-- C26 (divergence): the header succeeds on two streams with the ids `0x1FC9`
and `0x10`. The first stream, of the HD service, then sits on the PMT PID of
the LD service, and the second on the PID of the NIT, where every PID of the
transport has to be different: the test that reports "Duplicate stream id"
compares the PID of a stream with the PMT PID of its own service only. -/
theorem mpegts_write_header_pid_on_table :
    mpegts_write_header table_pid_input = .ok table_pid_context ∧
    table_pid_context.streams.map (fun st => (st.priv_data.service, st.priv_data.pid)) =
      [(0, 0x1FC9), (1, 0x0010)] ∧
    table_pid_context.priv_data.services.map (fun service => service.pmt.pid) =
      [0x1FC8, 0x1FC9] ∧
    table_pid_context.priv_data.nit.pid = 0x0010 ∧
    table_pids table_pid_context.priv_data = [0x0000, 0x0011, 0x0010, 0x0014, 0x1FC8, 0x1FC9] :=
  ⟨rfl, rfl, rfl, rfl, rfl⟩

/-- What the tests of the stream loop do ensure: after a successful
`mpegts_write_header` on a fresh muxer state with `start_pid` at least 16 and a
transmission profile other than 2, the PID of every stream is at least 16, is
not the PAT PID, is not the PMT PID of the service `i mod 2` the stream belongs
to, and differs from the PID of every other stream. -/
theorem mpegts_write_header_pid_unique (s s1 : AVFormatContext)
    (h0 : s.priv_data.services = []) (hprof : s.priv_data.transmission_profile ≠ 2)
    (hstart : 16 ≤ s.priv_data.start_pid) (h : mpegts_write_header s = .ok s1) :
    ∀ i, i < s1.streams.length →
      16 ≤ (s1.stream i).priv_data.pid ∧
      (s1.stream i).priv_data.pid ≠ PAT_PID ∧
      (s1.stream i).priv_data.service = i % 2 ∧
      (s1.stream i).priv_data.pid ≠
        (s1.priv_data.services.getD (s1.stream i).priv_data.service MpegTSService.zero).pmt.pid ∧
      ∀ j, j < s1.streams.length → j ≠ i →
        (s1.stream j).priv_data.pid ≠ (s1.stream i).priv_data.pid := by
  obtain ⟨hc, hl, hg, _, hp, _⟩ := mpegts_write_header_streams s s1 h0 hprof h
  obtain ⟨hk, hd, _⟩ := header_checks_fresh s h0 hprof hc
  have hpid : ∀ i, i < s.streams.length → (s1.stream i).priv_data.pid =
      header_stream_pid s.priv_data i (s.stream i) := by
    intro i hi
    rw [(hg i hi).1]
    rfl
  have hsv : ∀ i, i < s.streams.length → (s1.stream i).priv_data.service = i % 2 := by
    intro i hi
    rw [(hg i hi).1]
    rfl
  intro i hi
  rw [hl] at hi
  have h16 : 16 ≤ (s1.stream i).priv_data.pid := by
    rw [hpid i hi]
    unfold header_stream_pid
    split
    · omega
    · omega
  refine ⟨h16, ?_, hsv i hi, ?_, ?_⟩
  · unfold PAT_PID
    omega
  · rw [hsv i hi, hp, hpid i hi]
    exact (hk i hi).2
  · intro j hj hne
    rw [hl] at hj
    rw [hpid i hi, hpid j hj]
    rcases Nat.lt_or_gt_of_ne hne with hlt | hgt
    · exact hd j i hlt hi
    · exact fun e => hd i j hgt hj e.symm

set_option maxRecDepth 100000 in
/-- The tests of the stream loop on the example transport: the video stream is
on PID `0x100` and the audio stream on PID `0x101`. -/
theorem mpegts_write_header_pid_unique_witness :
    example_input.priv_data.services = [] ∧
    example_input.priv_data.transmission_profile ≠ 2 ∧
    16 ≤ example_input.priv_data.start_pid ∧
    mpegts_write_header example_input = .ok example_context ∧
    16 ≤ (example_context.stream 1).priv_data.pid ∧
    (example_context.stream 1).priv_data.pid ≠
      (example_context.priv_data.services.getD (example_context.stream 1).priv_data.service
        MpegTSService.zero).pmt.pid ∧
    (example_context.stream 0).priv_data.pid ≠ (example_context.stream 1).priv_data.pid :=
  ⟨rfl, by decide, by decide, rfl,
    (mpegts_write_header_pid_unique example_input example_context rfl (by decide) (by decide)
      rfl 1 (by decide)).1,
    (mpegts_write_header_pid_unique example_input example_context rfl (by decide) (by decide)
      rfl 1 (by decide)).2.2.2.1,
    (mpegts_write_header_pid_unique example_input example_context rfl (by decide) (by decide)
      rfl 1 (by decide)).2.2.2.2 0 (by decide) (by decide)⟩

/-- C27: on a fresh muxer state with transmission profile 1 (any profile other
than 2), `mpegts_write_header` registers exactly two services in this order:
the HD service with the id `(onid & 0x7FF) << 5` and the LD service with the id
`((onid & 0x7FF) << 5) | 0x19`. Both ids fit in 16 bits and differ, the PMT PID
of each is `0x1FC8 | (sid & 0x03)`, that is `0x1FC8` and `0x1FC9`, the PCR PID
of each starts as `0x1FFF`, and `final_nb_services` is 2 whatever it was; a
successful header keeps the services, their ids and PMT PIDs. -/
theorem mpegts_write_header_services (s : AVFormatContext)
    (h0 : s.priv_data.services = []) (hprof : s.priv_data.transmission_profile ≠ 2) :
    (header_prepare s).services.map
        (fun service => (service.sid, service.pmt.pid, service.pcr_pid)) =
      [((s.priv_data.original_network_id &&& 0x7FF) <<< 5,
        0x1FC8 ||| (((s.priv_data.original_network_id &&& 0x7FF) <<< 5) &&& 0x03), 0x1FFF),
       (((s.priv_data.original_network_id &&& 0x7FF) <<< 5) ||| 0x19,
        0x1FC8 ||| ((((s.priv_data.original_network_id &&& 0x7FF) <<< 5) ||| 0x19) &&& 0x03),
        0x1FFF)] ∧
    0x1FC8 ||| (((s.priv_data.original_network_id &&& 0x7FF) <<< 5) &&& 0x03) = 0x1FC8 ∧
    0x1FC8 ||| ((((s.priv_data.original_network_id &&& 0x7FF) <<< 5) ||| 0x19) &&& 0x03) =
      0x1FC9 ∧
    (s.priv_data.original_network_id &&& 0x7FF) <<< 5 < 0x10000 ∧
    ((s.priv_data.original_network_id &&& 0x7FF) <<< 5) ||| 0x19 < 0x10000 ∧
    (s.priv_data.original_network_id &&& 0x7FF) <<< 5 ≠
      ((s.priv_data.original_network_id &&& 0x7FF) <<< 5) ||| 0x19 ∧
    (header_prepare s).final_nb_services = 2 ∧
    ∀ s1, mpegts_write_header s = .ok s1 →
      s1.priv_data.services.map (fun service => (service.sid, service.pmt.pid)) =
        [((s.priv_data.original_network_id &&& 0x7FF) <<< 5, 0x1FC8),
         (((s.priv_data.original_network_id &&& 0x7FF) <<< 5) ||| 0x19, 0x1FC9)] ∧
      s1.priv_data.final_nb_services = 2 := by
  obtain ⟨⟨name, provider, hsv⟩, hn, _⟩ := header_prepare_services s h0 hprof
  obtain ⟨e1, e2, e3, e4, e5, e6, e7, e8⟩ := service_id_bits s.priv_data.original_network_id
  have hlist : (header_prepare s).services.map
        (fun service => (service.sid, service.pmt.pid, service.pcr_pid)) =
      [((s.priv_data.original_network_id &&& 0x7FF) <<< 5, 0x1FC8, 0x1FFF),
       (((s.priv_data.original_network_id &&& 0x7FF) <<< 5) ||| 0x19, 0x1FC9, 0x1FFF)] := by
    rw [hsv]
    simp only [List.map_cons, List.map_nil]
    rw [e1, e2, e5, e6]
  refine ⟨by rw [e7, e8]; exact hlist, e7, e8, by rw [e3]; omega, by rw [e4]; omega,
    by rw [e4, e3]; omega, hn, ?_⟩
  intro s1 h
  obtain ⟨_, _, _, _, _, hf⟩ := mpegts_write_header_streams s s1 h0 hprof h
  obtain ⟨_, hfn, hmap⟩ := hf
  refine ⟨?_, by rw [hfn, hn]⟩
  have h1 := congrArg (List.map (fun p : Nat × MpegTSSection => (p.1, p.2.pid))) hmap
  have h2 := congrArg (List.map (fun p : Nat × Nat × Nat => (p.1, p.2.1))) hlist
  simp only [List.map_map, List.map_cons, List.map_nil] at h1 h2
  exact h1.trans h2

set_option maxRecDepth 100000 in
/-- Witness of C27 on the example transport, whose `original_network_id` is 1:
the services have the ids `0x20` and `0x39`. -/
theorem mpegts_write_header_services_witness :
    example_input.priv_data.services = [] ∧
    example_input.priv_data.transmission_profile ≠ 2 ∧
    example_input.priv_data.original_network_id = 1 ∧
    mpegts_write_header example_input = .ok example_context ∧
    example_context.priv_data.services.map (fun service => (service.sid, service.pmt.pid)) =
      [(0x20, 0x1FC8), (0x39, 0x1FC9)] ∧
    example_context.priv_data.final_nb_services = 2 :=
  ⟨rfl, by decide, rfl, rfl,
    ((mpegts_write_header_services example_input rfl (by decide)).2.2.2.2.2.2.2
      example_context rfl).1,
    ((mpegts_write_header_services example_input rfl (by decide)).2.2.2.2.2.2.2
      example_context rfl).2⟩

set_option maxRecDepth 100000 in
/-- C28 (divergence): in the example transport the LD service owns the audio
stream 1 on PID `0x101` and no video stream, and the header leaves its PCR PID
at `0x1FFF`. With the streams audio, audio, video, audio the HD service owns
the video stream 2 on PID `0x102`, and the header leaves the PID `0x100` of the
audio stream 0 as its PCR PID; the LD service is left at `0x1FFF` again. -/
theorem mpegts_write_header_pcr_pid_last_service :
    mpegts_write_header example_input = .ok example_context ∧
    example_context.streams.map
        (fun st => (st.codec.codec_type, st.priv_data.service, st.priv_data.pid)) =
      [(AVMediaType.VIDEO, 0, 0x100), (AVMediaType.AUDIO, 1, 0x101)] ∧
    example_context.priv_data.services.map (fun service => service.pcr_pid) =
      [0x100, 0x1FFF] ∧
    mpegts_write_header four_stream_input = .ok four_stream_context ∧
    four_stream_context.streams.map
        (fun st => (st.codec.codec_type, st.priv_data.service, st.priv_data.pid)) =
      [(AVMediaType.AUDIO, 0, 0x100), (AVMediaType.AUDIO, 1, 0x101),
       (AVMediaType.VIDEO, 0, 0x102), (AVMediaType.AUDIO, 1, 0x103)] ∧
    four_stream_context.priv_data.services.map (fun service => service.pcr_pid) =
      [0x100, 0x1FFF] :=
  ⟨rfl, rfl, rfl, rfl, rfl, rfl⟩

set_option maxRecDepth 1000000 in
/-- C30 (counterexample): at a `mux_rate` of 10000 the header sets the periods
of NIT, TOT and PAT to 0 and their counters to -1. The first call of
`retransmit_si_info` sends every table and leaves the counters at 0. In the
second call the incremented counters are 1, above the period 0, and nothing is
sent: the sink stays as it was and the counters stay at 1. -/
theorem retransmit_si_info_period_zero :
    mpegts_write_header low_rate_input = .ok low_rate_context ∧
    si_counters low_rate_context.priv_data = ((2, 3), (-1, 0), (-1, 0), (-1, 0)) ∧
    low_rate_first.2.written.map ts_pid = [0x11, 0x10, 0x14, 0x00, 0x1FC8, 0x1FC9] ∧
    si_counters low_rate_first.1.priv_data = ((0, 3), (0, 0), (0, 0), (0, 0)) ∧
    low_rate_second.2 = low_rate_first.2 ∧
    si_counters low_rate_second.1.priv_data = ((1, 3), (1, 0), (1, 0), (1, 0)) :=
  ⟨rfl, rfl, rfl, rfl, rfl, rfl⟩

/-- C30 (amended): one call of `retransmit_si_info` increments each of the SDT,
NIT, TOT and PAT counters in 32-bit arithmetic and sends the table, resetting
the counter to 0, if and only if the incremented counter is equal to the
period; the PAT also goes out when `force_pat` is set, and every PAT is
followed by the PMT of every service in service order. A table that does not
go out leaves the sink as it was. After the call each counter is 0 when its
table went out and the incremented counter otherwise, and the periods are as
before. Equality and the comparison "at least the period" agree as long as the
counter is below the period. -/
theorem retransmit_si_info_equal_period (s : AVFormatContext) (pb : AVIOContext)
    (force_pat : Bool) :
    (∀ (ts : MpegTSWrite) (pb : AVIOContext),
      retransmit_sdt ts pb =
        if si_due ts.sdt_packet_count ts.sdt_packet_period false then
          ((mpegts_write_sdt { ts with sdt_packet_count := 0 }).1,
            write_packets (mpegts_write_sdt { ts with sdt_packet_count := 0 }).1 pb
              (mpegts_write_sdt { ts with sdt_packet_count := 0 }).2)
        else ({ ts with sdt_packet_count := wrap_int32 (ts.sdt_packet_count + 1) }, pb)) ∧
    (∀ (ts : MpegTSWrite) (pb : AVIOContext),
      retransmit_nit ts pb =
        if si_due ts.nit_packet_count ts.nit_packet_period false then
          ((mpegts_write_nit { ts with nit_packet_count := 0 }).1,
            write_packets (mpegts_write_nit { ts with nit_packet_count := 0 }).1 pb
              (mpegts_write_nit { ts with nit_packet_count := 0 }).2)
        else ({ ts with nit_packet_count := wrap_int32 (ts.nit_packet_count + 1) }, pb)) ∧
    (∀ (ts : MpegTSWrite) (pb : AVIOContext),
      retransmit_tot ts pb =
        if si_due ts.tot_packet_count ts.tot_packet_period false then
          ((mpegts_write_tot { ts with tot_packet_count := 0 }).1,
            write_packets (mpegts_write_tot { ts with tot_packet_count := 0 }).1 pb
              (mpegts_write_tot { ts with tot_packet_count := 0 }).2)
        else ({ ts with tot_packet_count := wrap_int32 (ts.tot_packet_count + 1) }, pb)) ∧
    (∀ (s : AVFormatContext) (pb : AVIOContext) (force_pat : Bool),
      retransmit_pat s pb force_pat =
        if si_due s.priv_data.pat_packet_count s.priv_data.pat_packet_period force_pat then
          (List.range s.priv_data.services.length).foldl retransmit_pmt
            ({ s with priv_data :=
                (mpegts_write_pat { s.priv_data with pat_packet_count := 0 }).1 },
              write_packets (mpegts_write_pat { s.priv_data with pat_packet_count := 0 }).1 pb
                (mpegts_write_pat { s.priv_data with pat_packet_count := 0 }).2)
        else ({ s with priv_data := { s.priv_data with
                pat_packet_count := wrap_int32 (s.priv_data.pat_packet_count + 1) } }, pb)) ∧
    si_counters (retransmit_si_info s pb force_pat).1.priv_data =
      ((si_count_next s.priv_data.sdt_packet_count s.priv_data.sdt_packet_period false,
        s.priv_data.sdt_packet_period),
       (si_count_next s.priv_data.nit_packet_count s.priv_data.nit_packet_period false,
        s.priv_data.nit_packet_period),
       (si_count_next s.priv_data.tot_packet_count s.priv_data.tot_packet_period false,
        s.priv_data.tot_packet_period),
       (si_count_next s.priv_data.pat_packet_count s.priv_data.pat_packet_period force_pat,
        s.priv_data.pat_packet_period)) ∧
    (∀ (count period : Int) (force : Bool),
      (si_due count period force = true ↔
        (wrap_int32 (count + 1) = period ∨ force = true)) ∧
      (-2 ^ 31 ≤ count → count < period → period < 2 ^ 31 →
        (si_due count period force = true ↔ (period ≤ count + 1 ∨ force = true)))) := by
  refine ⟨?_, ?_, ?_, ?_, retransmit_si_info_si_counters s pb force_pat, ?_⟩
  · intro ts pb
    unfold retransmit_sdt si_due
    simp only [Bool.or_false, decide_eq_true_eq]
  · intro ts pb
    unfold retransmit_nit si_due
    simp only [Bool.or_false, decide_eq_true_eq]
  · intro ts pb
    unfold retransmit_tot si_due
    simp only [Bool.or_false, decide_eq_true_eq]
  · intro s pb force_pat
    unfold retransmit_pat si_due
    simp only [Bool.or_eq_true, decide_eq_true_eq]
    split <;> rfl
  · intro count period force
    refine ⟨?_, si_due_below count period force⟩
    unfold si_due
    simp only [Bool.or_eq_true, decide_eq_true_eq]

set_option maxRecDepth 1000000 in
/-- Witness of the amended C30 on the example transport: after the header the
counters are one below their periods, the first call of `retransmit_si_info`
sends SDT, NIT, TOT, PAT and the PMT of the HD and of the LD service in this
order, and leaves every counter at 0. -/
theorem retransmit_si_info_equal_period_witness :
    si_counters example_context.priv_data = ((199, 200), (199, 200), (199, 200), (39, 40)) ∧
    (retransmit_si_info example_context ⟨0, []⟩ false).2.written.map ts_pid =
      [0x11, 0x10, 0x14, 0x00, 0x1FC8, 0x1FC9] ∧
    si_counters (retransmit_si_info example_context ⟨0, []⟩ false).1.priv_data =
      ((0, 200), (0, 200), (0, 200), (0, 40)) :=
  ⟨rfl, rfl, (retransmit_si_info_equal_period example_context ⟨0, []⟩ false).2.2.2.2.1⟩

/-! ## Claims on the PES payload size, the NIT and the PCR -/

/-- C32: the statement `pes_payload_size = (pes_payload_size + 14 + 183) / 184 *
184 - 14` of `mpegts_write_header` rounds up to a whole number of TS packets.
For `0 ≤ x ≤ y` with `y + 14 + 183` inside the 32-bit range the result `r x` is
the mathematical one, `x ≤ r x < x + 184`, `(r x + 14) mod 184 = 0`, `r` is
monotone, and `r (r x) = r x` as long as the second application does not
overflow either; the default 2930 is `(16 - 1) * 184 + 170` and a fixed point.
The first part of the header stores `r x`, and a successful header leaves
it. -/
theorem mpegts_write_header_pes_payload_size (x y : Int) (h0 : 0 ≤ x) (hxy : x ≤ y)
    (h1 : y ≤ 2 ^ 31 - 198) :
    round_pes_payload_size x = (x + 14 + 183) / 184 * 184 - 14 ∧
    x ≤ round_pes_payload_size x ∧
    round_pes_payload_size x < x + 184 ∧
    (round_pes_payload_size x + 14) % 184 = 0 ∧
    (round_pes_payload_size x ≤ 2 ^ 31 - 198 →
      round_pes_payload_size (round_pes_payload_size x) = round_pes_payload_size x) ∧
    round_pes_payload_size x ≤ round_pes_payload_size y ∧
    (MpegTSWrite.defaults.pes_payload_size = (16 - 1) * 184 + 170 ∧
      MpegTSWrite.defaults.pes_payload_size = 2930 ∧ round_pes_payload_size 2930 = 2930) ∧
    (∀ s : AVFormatContext, s.priv_data.pes_payload_size = x →
      (header_prepare s).pes_payload_size = round_pes_payload_size x ∧
      ∀ s1, mpegts_write_header s = .ok s1 →
        s1.priv_data.pes_payload_size = round_pes_payload_size x) := by
  have ex := round_pes_payload_size_eq x h0 (by omega)
  have ey := round_pes_payload_size_eq y (by omega) h1
  refine ⟨ex, by omega, by omega, by omega, ?_, by omega, ⟨rfl, rfl, by decide⟩, ?_⟩
  · intro hr
    have er := round_pes_payload_size_eq (round_pes_payload_size x) (by omega) hr
    omega
  · intro s hs
    have hp := (header_prepare_static s).1
    rw [hs] at hp
    refine ⟨hp, ?_⟩
    intro s1 h
    have hst := (mpegts_write_header_static s s1 h).1
    have := congrArg (fun t => t.2.1.1) hst
    simp only [header_static] at this
    rw [this, hp]

set_option maxRecDepth 100000 in
/-- Witness of C32: a requested size of 1000 is rounded to 1090 = 6 * 184 - 14,
and the header of the example transport leaves the default 2930. -/
theorem mpegts_write_header_pes_payload_size_witness :
    round_pes_payload_size 1000 = 1090 ∧ round_pes_payload_size 1090 = 1090 ∧
    round_pes_payload_size 1000 ≤ round_pes_payload_size 1091 ∧
    example_context.priv_data.pes_payload_size = 2930 :=
  ⟨by decide,
    (mpegts_write_header_pes_payload_size 1000 1091 (by decide) (by decide) (by decide)).2.2.2.2.1
      (by decide) ▸ by decide,
    (mpegts_write_header_pes_payload_size 1000 1091 (by decide) (by decide)
      (by decide)).2.2.2.2.2.1,
    ((mpegts_write_header_pes_payload_size 2930 2930 (by decide) (by decide)
      (by decide)).2.2.2.2.2.2.2 example_input rfl).2 example_context rfl ▸ by decide⟩

/-- C38 (divergence): the option triples (area code 1, guard interval 4,
transmission mode 4) and (1, 1, 4) lie in the permitted ranges and differ, yet
both give the word `0x14`, and the Terrestrial Delivery System descriptors and
the whole NIT buffers of the two are the same: the option ranges let the value
4 into fields of two bits, whose enumerations have the four values 0 to 3. -/
theorem nit_terrestrial_delivery_collision :
    (guard_four_options.area_code, guard_four_options.guard_interval,
      guard_four_options.transmission_mode) = (1, 4, 4) ∧
    (guard_one_options.area_code, guard_one_options.guard_interval,
      guard_one_options.transmission_mode) = (1, 1, 4) ∧
    (guard_four_options.area_code <<< 4) ||| (guard_four_options.guard_interval <<< 2) |||
      guard_four_options.transmission_mode = 0x14 ∧
    (guard_one_options.area_code <<< 4) ||| (guard_one_options.guard_interval <<< 2) |||
      guard_one_options.transmission_mode = 0x14 ∧
    nit_terrestrial_delivery guard_four_options [] =
      nit_terrestrial_delivery guard_one_options [] ∧
    nit_data guard_four_options = nit_data guard_one_options :=
  ⟨rfl, rfl, by decide, by decide, by decide, by decide⟩

/-- Where the word of the Terrestrial Delivery System descriptor is an
encoding: over the permitted ranges (area code up to `0x0DBF`, guard
interval and transmission mode up to 4) the word `area_code << 4 |
guard_interval << 2 | transmission_mode` of the Terrestrial Delivery System
descriptor fits in 16 bits. It is an injective encoding as long as guard
interval and transmission mode stay below 4, the two bits that the layout gives
each: the word is then `16 * area_code + 4 * guard_interval +
transmission_mode`, and two states that write the same descriptor have the
same triple. -/
theorem nit_terrestrial_delivery_injective (ts1 ts2 : MpegTSWrite) (q : List Nat)
    (ha1 : ts1.area_code ≤ 0x0DBF) (ha2 : ts2.area_code ≤ 0x0DBF)
    (hg1 : ts1.guard_interval ≤ 4) (hg2 : ts2.guard_interval ≤ 4)
    (hm1 : ts1.transmission_mode ≤ 4) (hm2 : ts2.transmission_mode ≤ 4) :
    (ts1.area_code <<< 4) ||| (ts1.guard_interval <<< 2) ||| ts1.transmission_mode < 65536 ∧
    (ts1.guard_interval ≤ 3 → ts1.transmission_mode ≤ 3 →
      (ts1.area_code <<< 4) ||| (ts1.guard_interval <<< 2) ||| ts1.transmission_mode =
        16 * ts1.area_code + 4 * ts1.guard_interval + ts1.transmission_mode) ∧
    (ts1.guard_interval ≤ 3 → ts1.transmission_mode ≤ 3 →
      ts2.guard_interval ≤ 3 → ts2.transmission_mode ≤ 3 →
      nit_terrestrial_delivery ts1 q = nit_terrestrial_delivery ts2 q →
      ts1.area_code = ts2.area_code ∧ ts1.guard_interval = ts2.guard_interval ∧
        ts1.transmission_mode = ts2.transmission_mode) := by
  refine ⟨?_, ?_, ?_⟩
  · have h1 : ts1.area_code <<< 4 < 2 ^ 16 := by rw [Nat.shiftLeft_eq]; omega
    have h2 : ts1.guard_interval <<< 2 < 2 ^ 16 := by rw [Nat.shiftLeft_eq]; omega
    have h3 : ts1.transmission_mode < 2 ^ 16 := by omega
    exact Nat.or_lt_two_pow (Nat.or_lt_two_pow h1 h2) h3
  · intro g m
    rw [terrestrial_word_eq _ _ _ g m]
    omega
  · intro g1 m1 g2 m2 h
    rw [nit_terrestrial_delivery_eq, nit_terrestrial_delivery_eq] at h
    have h := List.append_cancel_left h
    simp only [List.cons_append, List.nil_append, List.cons.injEq, true_and] at h
    have e1 := terrestrial_word_eq ts1.area_code _ _ g1 m1
    have e2 := terrestrial_word_eq ts2.area_code _ _ g2 m2
    have hw : put16 ((ts1.area_code <<< 4) ||| (ts1.guard_interval <<< 2) |||
        ts1.transmission_mode) =
        put16 ((ts2.area_code <<< 4) ||| (ts2.guard_interval <<< 2) |||
        ts2.transmission_mode) := by
      unfold put16 at h ⊢
      simp only [List.cons_append, List.nil_append, List.cons.injEq, and_true] at h ⊢
      exact ⟨h.1, h.2.1⟩
    have := put16_inj _ _ (by rw [e1]; omega) (by rw [e2]; omega) hw
    rw [e1, e2] at this
    omega

/-- The default options: area code 1 with guard interval 1 and transmission
mode 1 gives the word `0x15`, which fits in 16 bits. -/
theorem nit_terrestrial_delivery_injective_witness :
    (MpegTSWrite.defaults.area_code <<< 4) ||| (MpegTSWrite.defaults.guard_interval <<< 2) |||
      MpegTSWrite.defaults.transmission_mode < 65536 ∧
    (MpegTSWrite.defaults.area_code <<< 4) ||| (MpegTSWrite.defaults.guard_interval <<< 2) |||
      MpegTSWrite.defaults.transmission_mode = 0x15 :=
  ⟨(nit_terrestrial_delivery_injective MpegTSWrite.defaults guard_one_options []
      (by decide) (by decide) (by decide) (by decide) (by decide) (by decide)).1,
    ((nit_terrestrial_delivery_injective MpegTSWrite.defaults guard_one_options []
      (by decide) (by decide) (by decide) (by decide) (by decide) (by decide)).2.1
      (by decide) (by decide)).trans (by decide)⟩

/-- C39: in VBR mode (`mux_rate ≤ 1`) with a `max_delay` that is not negative,
the test "dts < pcr" of `mpegts_write_pes` never holds: for a DTS `d` the PCR
is `(d - delay) * 300` with `delay = max_delay * 90000 / 1000000 ≥ 0`, as long
as that product is a 64-bit value, so `pcr / 300 = d - delay ≤ d`; without a
DTS the test is false at once. A successful header leaves a `max_delay` that
is not negative. -/
theorem mpegts_write_pes_dts_before_pcr (ts : MpegTSWrite) (pb : AVIOContext)
    (d max_delay : Int) (hmux : ts.mux_rate ≤ 1) (hdelay : 0 ≤ max_delay)
    (hlo : -2 ^ 63 ≤ (d - av_rescale max_delay 90000 AV_TIME_BASE) * 300)
    (hhi : (d - av_rescale max_delay 90000 AV_TIME_BASE) * 300 < 2 ^ 63) :
    av_rescale max_delay 90000 AV_TIME_BASE = max_delay * 90000 / 1000000 ∧
    0 ≤ av_rescale max_delay 90000 AV_TIME_BASE ∧
    pes_pcr ts pb (some d) (av_rescale max_delay 90000 AV_TIME_BASE) =
      (d - av_rescale max_delay 90000 AV_TIME_BASE) * 300 ∧
    Int.tdiv (pes_pcr ts pb (some d) (av_rescale max_delay 90000 AV_TIME_BASE)) 300 =
      d - av_rescale max_delay 90000 AV_TIME_BASE ∧
    d - av_rescale max_delay 90000 AV_TIME_BASE ≤ d ∧
    pes_dts_before_pcr ts pb (some d) (av_rescale max_delay 90000 AV_TIME_BASE) = false ∧
    pes_dts_before_pcr ts pb none (av_rescale max_delay 90000 AV_TIME_BASE) = false ∧
    (∀ s s1 : AVFormatContext, mpegts_write_header s = .ok s1 → 0 ≤ s1.max_delay) := by
  have hd : 0 ≤ av_rescale max_delay 90000 AV_TIME_BASE := by
    unfold av_rescale AV_TIME_BASE
    exact Int.ediv_nonneg (by omega) (by decide)
  have hp : pes_pcr ts pb (some d) (av_rescale max_delay 90000 AV_TIME_BASE) =
      (d - av_rescale max_delay 90000 AV_TIME_BASE) * 300 := by
    unfold pes_pcr
    rw [if_neg (by omega)]
    simp only [Option.getD_some]
    rw [Int.emod_eq_of_lt (by omega) (by omega)]
    omega
  have ht : Int.tdiv (pes_pcr ts pb (some d) (av_rescale max_delay 90000 AV_TIME_BASE)) 300 =
      d - av_rescale max_delay 90000 AV_TIME_BASE := by
    rw [hp]
    exact Int.mul_tdiv_cancel _ (by decide)
  refine ⟨rfl, hd, hp, ht, by omega, ?_, rfl, ?_⟩
  · unfold pes_dts_before_pcr
    simp only [decide_eq_false_iff_not]
    rw [ht]
    omega
  · intro s s1 h
    rw [(mpegts_write_header_static s s1 h).2.2.2]
    split <;> omega

set_option maxRecDepth 100000 in
/-- Witness of C39: the example transport is in VBR mode; with a `max_delay` of
one second and the DTS 180000 the PCR is `(180000 - 90000) * 300`. -/
theorem mpegts_write_pes_dts_before_pcr_witness :
    delay_context.priv_data.mux_rate ≤ 1 ∧ delay_context.max_delay = 1000000 ∧
    pes_pcr delay_context.priv_data ⟨0, []⟩ (some 180000)
      (av_rescale 1000000 90000 AV_TIME_BASE) = 27000000 ∧
    pes_dts_before_pcr delay_context.priv_data ⟨0, []⟩ (some 180000)
      (av_rescale 1000000 90000 AV_TIME_BASE) = false :=
  ⟨by decide, rfl,
    (mpegts_write_pes_dts_before_pcr delay_context.priv_data ⟨0, []⟩ 180000 1000000
      (by decide) (by decide) (by decide) (by decide)).2.2.1.trans (by decide),
    (mpegts_write_pes_dts_before_pcr delay_context.priv_data ⟨0, []⟩ 180000 1000000
      (by decide) (by decide) (by decide) (by decide)).2.2.2.2.2.1⟩

/-- C34: for a muxer state with at most 59 services the `data` buffer of
`mpegts_write_nit` is the two-byte field `0xF000 | L1`, the `L1` bytes of the
network descriptors, the field `0xF000 | L2`, the `L2` bytes made of `tsid`,
`onid`, the field `0xF000 | L3` and the `L3` bytes of the transport
descriptors. The lengths are below 4096, `L2 = L3 + 6` and `4 + L1 + L2` is the
length of the buffer. Each descriptor area is tiled exactly by descriptors of
tag, length byte and that many bytes: `0x40`, `0xFE` in the network area and
`0xCD`, `0x41`, one `0xFB` per service with both service-type bits set, and
`0xFA` in the transport area. -/
theorem mpegts_write_nit_nesting (ts : MpegTSWrite) (hn : ts.services.length ≤ 59) :
    nit_data ts =
      put16 (0xF000 ||| nit_network_area.length) ++ nit_network_area ++
      put16 (0xF000 ||| ((nit_transport_area ts).length + 6)) ++
      put16 ts.tsid ++ put16 ts.onid ++
      put16 (0xF000 ||| (nit_transport_area ts).length) ++ nit_transport_area ts ∧
    4 + nit_network_area.length + ((nit_transport_area ts).length + 6) = (nit_data ts).length ∧
    (nit_network_area.length < 4096 ∧ (nit_transport_area ts).length + 6 < 4096) ∧
    (0xF000 ||| nit_network_area.length = 0xF000 + nit_network_area.length ∧
      0xF000 ||| ((nit_transport_area ts).length + 6) =
        0xF000 + ((nit_transport_area ts).length + 6) ∧
      0xF000 ||| (nit_transport_area ts).length = 0xF000 + (nit_transport_area ts).length) ∧
    descriptor_tags nit_network_area = some [0x40, 0xFE] ∧
    descriptor_tags (nit_transport_area ts) =
      some ([0xCD, 0x41] ++ List.replicate
        (ts.services.filter (fun service => (service.sid &&& 0x18) >>> 3 = 0x3)).length 0xFB ++
        [0xFA]) ∧
    (mpegts_write_nit ts).2 =
      (mpegts_write_section1 ts.nit NIT_TID ts.onid ts.tables_version 0 0
        (nit_data ts) (nit_data ts).length).2.2 := by
  have hd := nit_data_eq ts hn
  have hl := nit_transport_area_length ts hn
  have hnet : nit_network_area.length = 22 := rfl
  refine ⟨hd, ?_, ⟨by omega, by omega⟩,
    ⟨or_f000 _ (by omega), or_f000 _ (by omega), or_f000 _ (by omega)⟩, by decide, ?_, ?_⟩
  · rw [hd]
    simp only [List.length_append, put16, List.length_cons, List.length_nil]
    omega
  · rw [nit_transport_area_eq, descriptor_tags_tiles, nit_transport_tags]
  · unfold mpegts_write_nit
    rfl

set_option maxRecDepth 100000 in
/-- Witness of C34: the NIT of the example transport. The network descriptors
take 22 bytes and the transport descriptors 46: TS Information with the two
services, Service List, one Partial Reception descriptor for the LD service and
Terrestrial Delivery System. -/
theorem mpegts_write_nit_nesting_witness :
    example_context.priv_data.services.length ≤ 59 ∧
    (nit_data example_context.priv_data).length = 78 ∧
    (nit_data example_context.priv_data).take 2 = [0xF0, 22] ∧
    ((nit_data example_context.priv_data).drop 24).take 8 =
      [0xF0, 52, 0x00, 0x01, 0x00, 0x01, 0xF0, 46] ∧
    descriptor_tags (nit_transport_area example_context.priv_data) =
      some [0xCD, 0x41, 0xFB, 0xFA] :=
  ⟨by decide, by decide, by decide, by decide,
    (mpegts_write_nit_nesting example_context.priv_data (by decide)).2.2.2.2.2.1.trans
      (by decide)⟩

/-- C35 (counterexample): the System Management descriptor of the NIT takes
four bytes, `FE 02 03 01`, and the parental rating descriptor of the PMT six,
`55 04 42 52 41 01`: the statement at the length slot leaves a byte for the
length, and the first content byte comes after it. -/
theorem length_slot_is_reserved :
    nit_network_descriptors.drop 20 = [0xFE, 0x02, 0x03, 0x01] ∧
    nit_network_descriptors.length = 20 + 4 ∧
    (pmt_program_info MpegTSService.zero).drop 4 = [0x55, 0x04, 0x42, 0x52, 0x41, 0x01] ∧
    (pmt_program_info MpegTSService.zero).length = 4 + 6 :=
  ⟨by decide, by decide, by decide, by decide⟩

/-- C35 (amended): the statement `*q++;` at the length slot of a descriptor
advances the write cursor by one byte without storing anything; the slot is
filled afterwards with the number of content bytes, and the descriptor takes
tag, length and content. The network descriptors of the NIT end in the four
bytes `FE 02 03 01` of the System Management descriptor, and the PMT buffer of
every service starts with the PCR PID, `F0 06` and the six bytes `55 04 42 52
41 01` of the parental rating descriptor; the Partial Reception and Terrestrial
Delivery System descriptors of the NIT are `FB 02` and `FA 04` with their two
and four content bytes. -/
theorem length_slot_patched (ts : MpegTSWrite) (service : MpegTSService) (q : List Nat) :
    nit_network_descriptors =
      [0xF0, 22, 0x40, 16] ++ DEFAULT_NETWORK_NAME ++ [0xFE, 0x02, 0x03, 0x01] ∧
    pmt_program_info service =
      put16 (0xE000 ||| service.pcr_pid) ++ [0xF0, 0x06] ++
        [0x55, 0x04, 0x42, 0x52, 0x41, 0x01] ∧
    nit_partial_reception q service =
      q ++ (if (service.sid &&& 0x18) >>> 3 = 0x3 then [0xFB, 0x02] ++ put16 service.sid
        else []) ∧
    nit_terrestrial_delivery ts q =
      q ++ ([0xFA, 0x04] ++
        put16 ((ts.area_code <<< 4) ||| (ts.guard_interval <<< 2) ||| ts.transmission_mode) ++
        put16 (int_low16 ((473 + 6 * ((ts.physical_channel : Int) - 14) + Int.tdiv 1 7) * 7))) := by
  refine ⟨by decide, ?_, nit_partial_reception_eq q service, nit_terrestrial_delivery_eq ts q⟩
  rw [pmt_program_info_eq]
  simp only [put16, Nat.shiftRight_eq_div_pow]
  rfl

/-- C37: after a successful header on a fresh muxer state with a transmission
profile other than 2, the two 1-seg tests of `mpegts_write_nit` agree on the
two services, for every `original_network_id`: the test `sid & 0x18 >> 3` of
the TS Information descriptor and the test `((sid & 0x18) >> 3) == 0x3` of the
Partial Reception loop both take the HD service as full-seg and the LD service
as 1-seg. The NIT has the entries `0F 01` with the id of the HD service and `AF
01` with the id of the LD service, and exactly one Partial Reception
descriptor, `FB 02` with the id of the LD service. -/
theorem mpegts_write_nit_one_seg (s s1 : AVFormatContext)
    (h0 : s.priv_data.services = []) (hprof : s.priv_data.transmission_profile ≠ 2)
    (h : mpegts_write_header s = .ok s1) :
    s1.priv_data.services.map (fun service => service.sid) =
      [(s.priv_data.original_network_id &&& 0x7FF) <<< 5,
       ((s.priv_data.original_network_id &&& 0x7FF) <<< 5) ||| 0x19] ∧
    (∀ service ∈ s1.priv_data.services,
      (service.sid &&& (0x18 >>> 3) ≠ 0 ↔ (service.sid &&& 0x18) >>> 3 = 0x3)) ∧
    nit_transmission_entries s1.priv_data =
      [0x0F, 0x01] ++ put16 ((s.priv_data.original_network_id &&& 0x7FF) <<< 5) ++
      ([0xAF, 0x01] ++ put16 (((s.priv_data.original_network_id &&& 0x7FF) <<< 5) ||| 0x19)) ∧
    (s1.priv_data.services.map nit_partial_entry).flatten =
      [0xFB, 0x02] ++ put16 (((s.priv_data.original_network_id &&& 0x7FF) <<< 5) ||| 0x19) ∧
    nit_data s1.priv_data =
      put16 (0xF000 ||| nit_network_area.length) ++ nit_network_area ++
      put16 (0xF000 ||| ((nit_transport_area s1.priv_data).length + 6)) ++
      put16 s1.priv_data.tsid ++ put16 s1.priv_data.onid ++
      put16 (0xF000 ||| (nit_transport_area s1.priv_data).length) ++
      nit_transport_area s1.priv_data ∧
    descriptor_tags (nit_transport_area s1.priv_data) = some [0xCD, 0x41, 0xFB, 0xFA] := by
  obtain ⟨_, _, _, _, _, hf⟩ := mpegts_write_header_streams s s1 h0 hprof h
  obtain ⟨⟨name, provider, hsv⟩, _, _⟩ := header_prepare_services s h0 hprof
  obtain ⟨e1, e2, _⟩ := service_id_bits s.priv_data.original_network_id
  obtain ⟨t1, t2, t3, t4⟩ := service_type_tests s.priv_data.original_network_id
  have hsid : s1.priv_data.services.map (fun service => service.sid) =
      [(s.priv_data.original_network_id &&& 0x7FF) <<< 5,
       ((s.priv_data.original_network_id &&& 0x7FF) <<< 5) ||| 0x19] := by
    have h1 := congrArg (List.map (fun p : Nat × MpegTSSection => p.1)) hf.2.2
    simp only [List.map_map] at h1
    rw [hsv] at h1
    simp only [List.map_cons, List.map_nil, Function.comp] at h1
    rw [e1, e2] at h1
    exact h1
  obtain ⟨sa, sb, hl, ha, hb⟩ := nit_entries_of_sids _ _ _ hsid
  have hp : s1.priv_data.transmission_profile ≠ 2 := by
    have hst := (mpegts_write_header_static s s1 h).1
    have e := congrArg (fun t => t.2.1.2.2.2.1) hst
    simp only [header_static] at e
    rw [e, (header_prepare_static s).2.2.2.2.1]
    exact hprof
  have hlen : s1.priv_data.services.length ≤ 59 := by rw [hl]; simp
  have hpart : (s1.priv_data.services.map nit_partial_entry).flatten =
      [0xFB, 0x02] ++ put16 (((s.priv_data.original_network_id &&& 0x7FF) <<< 5) ||| 0x19) := by
    rw [hl]
    simp only [List.map_cons, List.map_nil, List.flatten_cons, List.flatten_nil,
      nit_partial_entry, ha, hb, t2, t4]
    simp
  have hfilter : s1.priv_data.services.filter
      (fun service => (service.sid &&& 0x18) >>> 3 = 0x3) = [sb] := by
    rw [hl]
    simp [List.filter_cons, ha, hb, t2, t4]
  refine ⟨hsid, ?_, ?_, hpart, nit_data_eq _ hlen, ?_⟩
  · intro service hmem
    rw [hl] at hmem
    simp only [List.mem_cons, List.mem_singleton, List.not_mem_nil, or_false] at hmem
    rcases hmem with rfl | rfl
    · rw [ha, t1, t2]; decide
    · rw [hb, t3, t4]; decide
  · unfold nit_transmission_entries
    rw [if_neg hp, hl]
    simp only [List.map_cons, List.map_nil, List.flatten_cons, List.flatten_nil,
      nit_transmission_entry, ha, hb, t1, t3]
    simp
  · rw [nit_transport_area_eq, descriptor_tags_tiles, nit_transport_tags, hfilter]
    rfl

set_option maxRecDepth 100000 in
/-- Witness of C37: the example transport with `original_network_id` 1; the
services have the ids `0x0020` and `0x0039`. -/
theorem mpegts_write_nit_one_seg_witness :
    example_input.priv_data.services = [] ∧
    example_input.priv_data.transmission_profile ≠ 2 ∧
    mpegts_write_header example_input = .ok example_context ∧
    nit_transmission_entries example_context.priv_data =
      [0x0F, 0x01, 0x00, 0x20, 0xAF, 0x01, 0x00, 0x39] ∧
    (example_context.priv_data.services.map nit_partial_entry).flatten =
      [0xFB, 0x02, 0x00, 0x39] :=
  ⟨rfl, by decide, rfl,
    (mpegts_write_nit_one_seg example_input example_context rfl (by decide) rfl).2.2.1,
    (mpegts_write_nit_one_seg example_input example_context rfl (by decide) rfl).2.2.2.1⟩

/-! ## Claim on the language descriptor of the PMT -/

/-- C36 (divergence): for an audio stream with the language tag `"a,b"`,
whose tokens `"a"` and `"b"` have one character each, `mpegts_write_pmt` writes
the ISO 639 descriptor `0A 04 'a' ',' 'b' 00`, an entry that is no token of the
tag and holds a comma, where no token qualifies and the descriptor has to be
left out: the test that skips what is "not a 3-letter code" takes `strlen(p)`,
the length of the rest of the tag, for the length of the token. -/
theorem pmt_language_entry_with_comma :
    comma_audio.language = some [0x61, 0x2c, 0x62] ∧
    comma_audio.codec.codec_type = AVMediaType.AUDIO ∧
    language_tokens [0x61, 0x2c, 0x62] = [[0x61], [0x62]] ∧
    pmt_descriptors comma_audio (pmt_stream_type comma_audio.codec.codec_id 0) [] =
      [0x0a, 0x04, 0x61, 0x2c, 0x62, 0x00] :=
  ⟨rfl, rfl, by decide, by decide⟩

/-- What the loop over the language tag does: for a language tag `value` the
`if (lang)` block of `mpegts_write_pmt` writes `0x0A`, the length byte `4k` and `k` entries of three
characters and the audio type (1 for clean effects, else 2 for hearing
impaired, else 3 for visual impaired, else 0), and nothing when `k = 0`. The
entries are taken in order from the starts of the comma-separated tokens: a
token gives an entry when it is exactly three characters long, or when
exactly three characters of the tag are left from its start on, and the entry
holds those three characters, commas included; the loop guard lets at most 63
entries through and no entry once 1008 bytes of the buffer are in use. Where
the second case does not arise the entries are the tokens of exactly three
characters. -/
theorem pmt_language_descriptor_entries (value : List Nat) (d : Disposition) (q : List Nat) :
    pmt_language_descriptor value d q =
      (if (language_entries (language_tokens value)).take (language_cap q.length) = [] then q
       else q ++ [0x0a, 4 * ((language_entries (language_tokens value)).take
              (language_cap q.length)).length] ++
         (((language_entries (language_tokens value)).take (language_cap q.length)).map
            (fun entry => entry ++ [pmt_audio_type d])).flatten) ∧
    language_join (language_tokens value) = value ∧
    (∀ t ∈ language_tokens value, 0x2c ∉ t) ∧
    (∀ e ∈ language_entries (language_tokens value), e.length = 3) ∧
    language_cap q.length ≤ 63 ∧
    (q.length ≤ 757 → language_cap q.length = 63) ∧
    pmt_audio_type d =
      (if d.clean_effects then 1 else if d.hearing_impaired then 2
        else if d.visual_impaired then 3 else 0) ∧
    ((∀ t ts, (t :: ts) <:+ language_tokens value →
        (language_join (t :: ts)).length = 3 → t.length = 3) →
      language_entries (language_tokens value) =
        (language_tokens value).filter (fun t => t.length = 3)) := by
  obtain ⟨_, h2, h3, _⟩ := language_tokens_spec value
  refine ⟨pmt_language_descriptor_eq value d q, h3, h2, language_entries_length _, ?_, ?_, rfl,
    language_entries_filter _⟩
  · unfold language_cap
    exact Nat.min_le_left _ _
  · intro hq
    unfold language_cap
    omega

/-- Two tags: the tag `"por,eng"` of a hearing-impaired
stream gives the two entries `por` and `eng` with audio type 2, and the tag
`"a,b"` the one entry `a,b`. -/
theorem pmt_language_descriptor_entries_witness :
    pmt_language_descriptor [0x70, 0x6f, 0x72, 0x2c, 0x65, 0x6e, 0x67] ⟨false, true, false⟩ [] =
      [0x0a, 0x08, 0x70, 0x6f, 0x72, 0x02, 0x65, 0x6e, 0x67, 0x02] ∧
    pmt_language_descriptor [0x61, 0x2c, 0x62] ⟨false, false, false⟩ [] =
      [0x0a, 0x04, 0x61, 0x2c, 0x62, 0x00] :=
  ⟨(pmt_language_descriptor_entries [0x70, 0x6f, 0x72, 0x2c, 0x65, 0x6e, 0x67]
      ⟨false, true, false⟩ []).1.trans (by decide),
    (pmt_language_descriptor_entries [0x61, 0x2c, 0x62] ⟨false, false, false⟩ []).1.trans
      (by decide)⟩

/-! ## Claim on the buffers of the muxer loop -/

set_option maxRecDepth 1000000 in
/-- C33 (divergence): after the header of the example transport the first
audio packet, 1000 bytes, is put into the buffer of stream 1. A second audio
packet of `INT_MAX` bytes makes the 32-bit sum `payload_size + size` wrap
around to -2147482649, which is not above `pes_payload_size` = 2930, so the
buffer is not flushed; the packet is larger than `pes_payload_size`, and the
assertion `av_assert0(!ts_st->payload_size)` fails. -/
theorem mpegts_write_packet_internal_assert_fails :
    mpegts_write_header example_input = .ok example_context ∧
    mpegts_write_packet_internal example_hooks example_context ⟨0, []⟩ example_audio_packet =
      some example_buffered ∧
    example_buffered.1 = .ok () ∧
    (example_buffered.2.1.stream 1).priv_data.payload_size = 1000 ∧
    example_buffered.2.1.priv_data.pes_payload_size = 2930 ∧
    (huge_audio_packet.stream_index = 1 ∧ huge_audio_packet.data.length = 2147483647) ∧
    wrap_int32 (1000 + 2147483647) = -2147482649 ∧
    (mpegts_write_packet_internal example_hooks example_buffered.2.1 example_buffered.2.2
      huge_audio_packet).map (fun r => r.1) = some .undefined := by
  have hlen : huge_audio_packet.data.length = 2147483647 := List.length_replicate _ _
  have hps : (example_buffered.2.1.stream 1).priv_data.payload_size = 1000 := rfl
  have hpes : example_buffered.2.1.priv_data.pes_payload_size = 2930 := rfl
  refine ⟨rfl, rfl, rfl, hps, hpes, ⟨rfl, hlen⟩, by decide, ?_⟩
  obtain ⟨s2, h⟩ := mpegts_write_packet_internal_assert example_hooks example_buffered.2.1
    example_buffered.2.2 huge_audio_packet (by decide) rfl (by decide) (by decide) rfl
    (by
      show (example_buffered.2.1.stream 1).priv_data.payload_size ≠ 0
      rw [hps]; decide)
    (by
      show ¬ wrap_int32 ((example_buffered.2.1.stream 1).priv_data.payload_size +
        huge_audio_packet.data.length) > example_buffered.2.1.priv_data.pes_payload_size
      rw [hps, hpes, hlen]; decide)
    (by
      show (huge_audio_packet.data.length : Int) > example_buffered.2.1.priv_data.pes_payload_size
      rw [hpes, hlen]; decide)
  rw [h]
  rfl

/-- The buffering invariant `buffers_ok` of the muxer loop where the 32-bit
sum `payload_size + size` cannot overflow: every stream has `0 ≤ payload_size ≤
pes_payload_size`, its buffer holds `payload_size` bytes, and a stream that is
not audio has none. A successful header on a fresh muxer state with a
`pes_payload_size` option from 0 to `2^31 - 198` establishes it with every
buffer empty; every call of `mpegts_write_packet_internal` for a stream of the
context, with a packet whose bytes to send and `pes_payload_size` together stay
below `2^31`, returns, keeps it and never fails the assertion
`av_assert0(!ts_st->payload_size)`; and `mpegts_write_flush` returns, keeps it
and leaves `payload_size` 0 on every stream. The mux rate is a 32-bit `int`. -/
theorem mpegts_write_packet_internal_buffering (hooks : PacketHooks) (s : AVFormatContext)
    (pb : AVIOContext) (pkt : AVPacket) (hinv : buffers_ok s)
    (hsti : pkt.stream_index < s.streams.length) (hm31 : s.priv_data.mux_rate < 2 ^ 31)
    (hbound : ∀ buf, packet_payload hooks (s.stream pkt.stream_index) pkt = .ok buf →
      s.priv_data.pes_payload_size + buf.length < 2 ^ 31) :
    (∃ res, mpegts_write_packet_internal hooks s pb pkt = some res) ∧
    (∃ r, mpegts_write_flush s pb = some r) ∧
    (∀ res, mpegts_write_packet_internal hooks s pb pkt = some res →
      res.1 ≠ .undefined ∧ buffers_ok res.2.1 ∧
      res.2.1.streams.length = s.streams.length) ∧
    (∀ r, mpegts_write_flush s pb = some r →
      buffers_ok r.1 ∧ r.1.streams.length = s.streams.length ∧
      ∀ j, j < r.1.streams.length → (r.1.stream j).priv_data.payload_size = 0) ∧
    (∀ s0 s1 : AVFormatContext, s0.priv_data.services = [] →
      s0.priv_data.transmission_profile ≠ 2 → 0 ≤ s0.priv_data.pes_payload_size →
      s0.priv_data.pes_payload_size ≤ 2 ^ 31 - 198 → mpegts_write_header s0 = .ok s1 →
      buffers_ok s1 ∧ ∀ j, j < s1.streams.length → (s1.stream j).priv_data.payload_size = 0) := by
  refine ⟨mpegts_write_packet_internal_returns hooks s pb pkt hm31,
    mpegts_write_flush_returns s pb hm31,
    fun res h => mpegts_write_packet_internal_buffers_ok hooks s pb pkt res hinv hsti hbound h,
    ?_, fun s0 s1 h0 hprof hlo hhi h => mpegts_write_header_buffers_ok s0 s1 h0 hprof hlo hhi h⟩
  intro r h
  obtain ⟨a, b⟩ := mpegts_write_flush_buffers_ok s pb r hinv h
  exact ⟨a, (mpegts_write_flush_kept s pb r h).1, b⟩

set_option maxRecDepth 1000000 in
/-- The invariant on the first audio packet of the example transport: its 1000
bytes go into the buffer of stream 1, and the invariant holds afterwards. -/
theorem mpegts_write_packet_internal_buffering_witness :
    buffers_ok example_context ∧
    example_audio_packet.stream_index < example_context.streams.length ∧
    example_context.priv_data.mux_rate < 2 ^ 31 ∧
    mpegts_write_packet_internal example_hooks example_context ⟨0, []⟩ example_audio_packet =
      some example_buffered ∧
    example_buffered.1 = .ok () ∧
    example_buffered.2.1.streams.map (fun st => st.priv_data.payload_size) = [0, 1000] ∧
    example_buffered.2.2 = ⟨0, []⟩ ∧
    buffers_ok example_buffered.2.1 :=
  ⟨(mpegts_write_header_buffers_ok example_input example_context rfl (by decide) (by decide)
      (by decide) rfl).1,
    by decide, by decide, rfl, rfl, rfl, rfl,
    ((mpegts_write_packet_internal_buffering example_hooks example_context ⟨0, []⟩
      example_audio_packet
      (mpegts_write_header_buffers_ok example_input example_context rfl (by decide) (by decide)
        (by decide) rfl).1 (by decide) (by decide)
      (fun buf hb => by
        have e : packet_payload example_hooks (example_context.stream 1) example_audio_packet =
            .ok (List.replicate 1000 0x55) := rfl
        have e2 : example_audio_packet.stream_index = 1 := rfl
        rw [e2, e] at hb
        cases hb
        decide)).2.2.1 example_buffered rfl).2.1⟩

/-! ## Claims on the first packet and on the end of the loop -/

/-- C40 (counterexample): the example transport in CBR mode at 2000000 bit/s
and a call of `mpegts_write_pes` with a payload of one byte and the DTS
`2^62`; `max_delay` is 0 and so is `delay`. The wait test `dts - get_pcr / 300 > delay` on `int64_t` values holds
at every sink, since a 64-bit PCR divided by 300 stays within `2^55` of 0, so
every turn of the loop inserts a null or PCR-only packet and leaves the
payload alone: whatever number of turns is allowed, the call has not
returned. -/
theorem mpegts_write_pes_int64_waits_forever :
    mpegts_write_header two_mbit_input = .ok two_mbit_context ∧
    two_mbit_context.priv_data.mux_rate = 2000000 ∧
    av_rescale two_mbit_context.max_delay 90000 AV_TIME_BASE = 0 ∧
    (∀ pb : AVIOContext,
      pes_must_wait_int64 two_mbit_context.priv_data pb (some (2 ^ 62)) 0 = true) ∧
    ∀ fuel : Nat,
      mpegts_write_pes_int64 fuel two_mbit_context ⟨0, []⟩ 0 [0x55] (some (2 ^ 62))
        (some (2 ^ 62)) false = none :=
  ⟨rfl, by decide, by decide,
    fun pb => pes_must_wait_int64_far two_mbit_context.priv_data pb (2 ^ 62) 0
      (by decide) (by decide) (by decide) (by decide),
    fun fuel => mpegts_write_pes_int64_never fuel two_mbit_context ⟨0, []⟩ 0 [0x55]
      (some (2 ^ 62)) (2 ^ 62) false (by decide) (by decide) (by decide) (by decide)
      (by decide)⟩

/-- C40 (amended): the packet loop of `mpegts_write_pes`, with the wait test
on 64-bit values as in the source, ends when the mux rate is a 32-bit `int`
and the values of the test stay in range (`pes_in_range`): always without a
DTS and in VBR mode, and in CBR mode with a DTS within `2^62` of 0, a
`first_pcr` that is not negative and a PCR that is still below `2^63` where
the turns can take the sink. The call then returns within `pes_fuel` turns,
with the result of the test over the integers. The loop starts in a state
where `payload_size` counts the bytes of the payload and the range condition
holds for the turns that `pes_measure` counts, and every turn with
`payload_size > 0` from such a state leads to such a state and does one of two
things: it inserts a null or PCR-only packet, which happens in CBR mode
(`mux_rate > 1`) only, leaves `payload_size` alone, moves the sink offset by at
least 188 bytes and `get_pcr` by at least one unit; or it sends a payload
packet and `payload_size` goes down. Either way the measure `pes_measure`, the
payload size plus in CBR mode the gap left between `get_pcr` and `(dts -
delay) * 300`, goes down, and it starts no greater than `pes_fuel`. -/
theorem mpegts_write_pes_int64_terminates (s : AVFormatContext) (pb : AVIOContext) (sti : Nat)
    (payload : List Nat) (pts dts : Option Int) (key : Bool)
    (hm31 : s.priv_data.mux_rate < 2 ^ 31)
    (hr : pes_in_range s.priv_data pb.pos
      (pes_fuel s pb payload.length dts (av_rescale s.max_delay 90000 AV_TIME_BASE)) dts) :
    (∃ r : AVFormatContext × AVIOContext,
      mpegts_write_pes_int64
        (pes_fuel s pb payload.length dts (av_rescale s.max_delay 90000 AV_TIME_BASE))
        s pb sti payload pts dts key = some r ∧
      mpegts_write_pes s pb sti payload pts dts key = some r) ∧
    (∀ force_pat : Bool,
      pes_sizes_ok s.priv_data.mux_rate s.priv_data.first_pcr
        (PesState.mk s pb true force_pat payload payload.length false) ∧
      pes_in_range s.priv_data pb.pos
        (pes_measure s.priv_data.mux_rate s.priv_data.first_pcr dts
          (av_rescale s.max_delay 90000 AV_TIME_BASE)
          (PesState.mk s pb true force_pat payload payload.length false)) dts ∧
      pes_measure s.priv_data.mux_rate s.priv_data.first_pcr dts
          (av_rescale s.max_delay 90000 AV_TIME_BASE)
          (PesState.mk s pb true force_pat payload payload.length false) ≤
        pes_fuel s pb payload.length dts (av_rescale s.max_delay 90000 AV_TIME_BASE)) ∧
    ∀ (delay : Int) (x : PesState),
      pes_sizes_ok s.priv_data.mux_rate s.priv_data.first_pcr x →
      pes_in_range x.s.priv_data x.pb.pos
        (pes_measure s.priv_data.mux_rate s.priv_data.first_pcr dts delay x) dts →
      0 < x.payload_size →
      pes_sizes_ok s.priv_data.mux_rate s.priv_data.first_pcr
        (pes_step_int64 sti pts dts key delay x) ∧
      pes_in_range (pes_step_int64 sti pts dts key delay x).s.priv_data
        (pes_step_int64 sti pts dts key delay x).pb.pos
        (pes_measure s.priv_data.mux_rate s.priv_data.first_pcr dts delay
          (pes_step_int64 sti pts dts key delay x)) dts ∧
      pes_measure s.priv_data.mux_rate s.priv_data.first_pcr dts delay
          (pes_step_int64 sti pts dts key delay x) <
        pes_measure s.priv_data.mux_rate s.priv_data.first_pcr dts delay x ∧
      ((1 < s.priv_data.mux_rate ∧
        (pes_step_int64 sti pts dts key delay x).payload_size = x.payload_size ∧
        x.pb.pos + 188 ≤ (pes_step_int64 sti pts dts key delay x).pb.pos ∧
        get_pcr x.s.priv_data x.pb + 1 ≤
          get_pcr (pes_step_int64 sti pts dts key delay x).s.priv_data
            (pes_step_int64 sti pts dts key delay x).pb) ∨
       (pes_step_int64 sti pts dts key delay x).payload_size < x.payload_size) := by
  refine ⟨?_, ?_, ?_⟩
  · obtain ⟨y, _, _, hy⟩ := mpegts_write_pes_returns s pb sti payload pts dts key hm31
    exact ⟨_, (mpegts_write_pes_int64_eq s pb sti payload pts dts key hm31 hr).trans hy, hy⟩
  · intro force_pat
    have hle := pes_fuel_measure s pb payload.length dts
      (av_rescale s.max_delay 90000 AV_TIME_BASE)
      (PesState.mk s pb true force_pat payload payload.length false) rfl rfl
    exact ⟨pes_start_sizes_ok s pb force_pat payload,
      pes_in_range_mono s.priv_data s.priv_data pb.pos pb.pos _ _ dts rfl rfl
        (Nat.add_le_add_left (Nat.mul_le_mul_left _ (Nat.succ_le_succ hle)) _) hr,
      hle⟩
  · intro delay x hinv hrx hpos
    obtain ⟨he, hr1⟩ := pes_step_int64_in_range sti _ _ pts dts key delay x hinv hpos hm31 hrx
    rw [he]
    obtain ⟨h1, h2, h3⟩ := pes_step_decreases sti _ _ pts dts key delay x hinv hpos hm31
    exact ⟨h1, hr1, h2, h3⟩

set_option maxRecDepth 100000 in
/-- C40 (witness): the example transport in CBR mode at 2000000 bit/s and a
payload of one byte with a DTS of one second, which the PCR reaches only
after thousands of null packets, all within the 64-bit range. -/
theorem mpegts_write_pes_int64_terminates_witness :
    (two_mbit_context.priv_data.mux_rate < 2 ^ 31 ∧
      pes_in_range two_mbit_context.priv_data 0
        (pes_fuel two_mbit_context ⟨0, []⟩ 1 (some 90000)
          (av_rescale two_mbit_context.max_delay 90000 AV_TIME_BASE)) (some 90000)) ∧
    ∃ r : AVFormatContext × AVIOContext,
      mpegts_write_pes_int64
        (pes_fuel two_mbit_context ⟨0, []⟩ 1 (some 90000)
          (av_rescale two_mbit_context.max_delay 90000 AV_TIME_BASE))
        two_mbit_context ⟨0, []⟩ 0 [0x55] (some 90000) (some 90000) true = some r ∧
      mpegts_write_pes two_mbit_context ⟨0, []⟩ 0 [0x55] (some 90000) (some 90000) true =
        some r :=
  ⟨⟨by decide, Or.inr ⟨by decide, by decide, by decide, by decide⟩⟩,
    (mpegts_write_pes_int64_terminates two_mbit_context ⟨0, []⟩ 0 [0x55] (some 90000)
      (some 90000) true (by decide) (Or.inr ⟨by decide, by decide, by decide, by decide⟩)).1⟩

end MpegTS
